import Mathlib

/-! # Student portal server: the file-backed resource catalog

A shallow embedding of the question-paper and resource routes of the server
(`routes/question-paper-routes.js`, `routes/resources.js`, `index.js`) together
with the parts of the JavaScript runtime they call (`String.prototype`, the
POSIX flavour of Node's `path` module, `fs`), followed by theorems about them.

Conventions.
* A JavaScript string is the list of its code units, written `Str`.
* A request handler is a function from the state of the server (`World`: the
  collections of the document store and the file system) and its inputs to a
  response and the list of mutating effects it performed, in execution order.
* Behaviour of the document-store client that the repository does not define
  (casting of query values and of ids) is a parameter, `Lib`.
-/

set_option autoImplicit false

namespace StudentPortal

/-- A JavaScript string, as the list of its code units. -/
abbrev Str := List Char

/-! ## `String.prototype` -/

/-- `s.startsWith(p)`. -/
def startsWith (s p : Str) : Bool := p.isPrefixOf s

/-- `s.substring(n)`. -/
def substring (s : Str) (n : Nat) : Str := s.drop n

/-- `s.includes(sub)`. -/
def includes : Str → Str → Bool
  | [], sub => sub.isPrefixOf []
  | c :: cs, sub => sub.isPrefixOf (c :: cs) || includes cs sub

/-- The character class `[a-zA-Z0-9]`. -/
def isAlnum (c : Char) : Bool :=
  ('a'.toNat ≤ c.toNat && c.toNat ≤ 'z'.toNat) ||
  ('A'.toNat ≤ c.toNat && c.toNat ≤ 'Z'.toNat) ||
  ('0'.toNat ≤ c.toNat && c.toNat ≤ '9'.toNat)

/-- The sanitizer `s.replace(/[^a-zA-Z0-9]/g, '_')`. -/
def sanitize (s : Str) : Str := s.map fun c => if isAlnum c then c else '_'

/-- The rewrite `s.replace(/\\/g, '/')`: every backslash becomes a slash. -/
def backslashToSlash (s : Str) : Str := s.map fun c => if c = '\\' then '/' else c

/-- The white space and line terminator code units of ECMAScript, the ones
`trim` and `parseInt` skip. -/
def isJsSpace (c : Char) : Bool :=
  let n := c.toNat
  n = 9 || n = 10 || n = 11 || n = 12 || n = 13 || n = 32 || n = 160 || n = 5760 ||
  (8192 ≤ n && n ≤ 8202) || n = 8232 || n = 8233 || n = 8239 || n = 8287 ||
  n = 12288 || n = 65279

/-- `s.trim()`. -/
def trim (s : Str) : Str :=
  ((s.dropWhile isJsSpace).reverse.dropWhile isJsSpace).reverse

/-- Value of a digit in the given radix (10 or 16), if it is one. -/
def digitValue (radix : Nat) (c : Char) : Option Nat :=
  let n := c.toNat
  if '0'.toNat ≤ n ∧ n ≤ '9'.toNat then some (n - '0'.toNat)
  else if radix = 16 ∧ 'a'.toNat ≤ n ∧ n ≤ 'f'.toNat then some (n - 'a'.toNat + 10)
  else if radix = 16 ∧ 'A'.toNat ≤ n ∧ n ≤ 'F'.toNat then some (n - 'A'.toNat + 10)
  else none

/-- Reads the longest prefix of digits, most significant first; `acc` is the
value read so far and `seen` tells whether a digit was read. -/
def readDigits (radix : Nat) : Str → Nat → Bool → Option Nat
  | [], acc, seen => if seen then some acc else none
  | c :: cs, acc, seen =>
    match digitValue radix c with
    | some d => readDigits radix cs (acc * radix + d) true
    | none => if seen then some acc else none

/-- `parseInt(s)` without a radix: leading white space, a sign, an optional
`0x` prefix, then the longest run of digits; `none` is `NaN`. -/
def parseInt (s : Str) : Option Int :=
  let s1 := s.dropWhile isJsSpace
  let neg := s1.head? = some '-'
  let s2 := if s1.head? = some '-' ∨ s1.head? = some '+' then s1.drop 1 else s1
  let hex := (['0', 'x'] : Str).isPrefixOf s2 || (['0', 'X'] : Str).isPrefixOf s2
  let r := if hex then readDigits 16 (s2.drop 2) 0 false else readDigits 10 s2 0 false
  r.map fun v => if neg then - (v : Int) else (v : Int)

/-- Decimal digits of a natural number, least significant first; `fuel`
bounds the number of digits. -/
def digitsRev : Nat → Nat → Str
  | 0, _ => []
  | fuel + 1, n =>
    Char.ofNat ('0'.toNat + n % 10) :: (if n / 10 = 0 then [] else digitsRev fuel (n / 10))

/-- `n.toString()` for a natural number. -/
def natToString (n : Nat) : Str := (digitsRev (n + 1) n).reverse

/-- `n.toString()` for an integer value of a JavaScript number. -/
def numToString : Int → Str
  | Int.ofNat n => natToString n
  | Int.negSucc n => '-' :: natToString (n + 1)

/-! ## Node's `path` module (POSIX) -/

/-- The segments of a path between its separators: `a//b/` has the segments
`a`, the empty one, `b` and the empty one. -/
def splitSlash : Str → List Str
  | [] => [[]]
  | c :: cs =>
    if c = '/' then [] :: splitSlash cs
    else
      match splitSlash cs with
      | [] => [[c]]
      | s :: ss => (c :: s) :: ss

/-- Segments joined by single separators. -/
def joinSlash : List Str → Str
  | [] => []
  | [s] => s
  | s :: t :: ts => s ++ '/' :: joinSlash (t :: ts)

/-- One separator-delimited segment of `normalizeString`, acting on the
segments kept so far (last one first): empty segments and `.` are dropped, `..`
removes the last kept segment unless that is itself `..` or there is none, in
which case it is kept when `allowAboveRoot` and dropped otherwise. -/
def normStep (allowAboveRoot : Bool) (kept : List Str) (seg : Str) : List Str :=
  if seg = [] ∨ seg = ['.'] then kept
  else if seg = ['.', '.'] then
    match kept with
    | [] => if allowAboveRoot then [seg] else []
    | top :: rest =>
      if top = ['.', '.'] then (if allowAboveRoot then seg :: kept else kept) else rest
  else seg :: kept

/-- The segments `normalizeString` keeps, in path order. -/
def normSegs (allowAboveRoot : Bool) (p : Str) : List Str :=
  ((splitSlash p).foldl (normStep allowAboveRoot) []).reverse

/-- `normalizeString(path, allowAboveRoot, '/')`. -/
def normalizeString (p : Str) (allowAboveRoot : Bool) : Str :=
  joinSlash (normSegs allowAboveRoot p)

/-- `path.isAbsolute(p)`. -/
def isAbsolute (p : Str) : Bool := p.head? = some '/'

/-- `path.normalize(p)`. -/
def normalize (p : Str) : Str :=
  if p = [] then ['.']
  else
    let trailingSeparator := p.getLast? = some '/'
    let q := normalizeString p (!isAbsolute p)
    if q = [] then
      if isAbsolute p then ['/'] else if trailingSeparator then ['.', '/'] else ['.']
    else
      let q1 := if trailingSeparator then q ++ ['/'] else q
      if isAbsolute p then '/' :: q1 else q1

/-- `path.join(...args)`: the non-empty arguments joined by separators, then
normalized. -/
def join (args : List Str) : Str :=
  match args.filter (fun a => a ≠ []) with
  | [] => ['.']
  | a :: as => normalize (joinSlash (a :: as))

/-- `path.basename(p)`: trailing separators are skipped, then the characters
back to the previous separator are taken. -/
def basename (p : Str) : Str :=
  (((p.reverse.dropWhile (fun c => c = '/')).takeWhile (fun c => c ≠ '/'))).reverse

/-- `path.extname(p)`: from the last dot of the base name, unless there is no
dot, the dot starts the base name, or the base name is `..`. -/
def extname (p : Str) : Str :=
  let b := basename p
  let afterDot := (b.reverse.takeWhile (fun c => c ≠ '.')).reverse
  if '.' ∉ b then []
  else if b.length = afterDot.length + 1 then []
  else if b = ['.', '.'] then []
  else '.' :: afterDot

/-! ## The file system -/

/-- The bytes of a file. -/
abbrev Bytes := List Nat

/-- What a location of the file system holds. -/
inductive Node where
  | file (data : Bytes)
  | dir
  deriving DecidableEq, Repr

/-- An absolute location: the names from the root down. -/
abbrev Loc := List Str

/-- A state of the file system: what each location holds, and the names a
directory lists, in the order `readdirSync` returns them. -/
structure FS where
  node : Loc → Option Node
  listing : Loc → List Str

/-- The location the operating system resolves a path to, for a process
whose working directory is `cwd`. -/
def locOf (cwd p : Str) : Loc :=
  if isAbsolute p then normSegs false p else normSegs false (cwd ++ '/' :: p)

/-- `fs.existsSync(p)`. -/
def existsSync (fs : FS) (cwd p : Str) : Bool :=
  p ≠ [] && (fs.node (locOf cwd p)).isSome

/-- `fs.readdirSync(p)`; `none` stands for the exception thrown when `p` is not
a directory. -/
def readdirSync (fs : FS) (cwd p : Str) : Option (List Str) :=
  match fs.node (locOf cwd p) with
  | some Node.dir => some (fs.listing (locOf cwd p))
  | _ => none

/-- The directory a location lies in. -/
def parentOf (loc : Loc) : Loc := loc.dropLast

/-- The name of a location in its directory. -/
def nameOf (loc : Loc) : Str := loc.getLast?.getD []

/-- Puts `x` at position `slot` of a listing (at the end when the listing is
shorter): where a directory lists a new entry is up to the file system. -/
def insertAt (slot : Nat) (x : Str) (l : List Str) : List Str :=
  l.take slot ++ x :: l.drop slot

/-- Puts a node at a location, entering its name in the listing of the parent
directory when the location was empty. -/
def FS.put (fs : FS) (slot : Nat) (loc : Loc) (n : Node) : FS where
  node := fun l => if l = loc then some n else fs.node l
  listing := fun l =>
    if l = parentOf loc ∧ (fs.node loc).isNone then insertAt slot (nameOf loc) (fs.listing l)
    else fs.listing l

/-- `fs.mkdirSync(p, { recursive: true })` where it succeeds: every missing
ancestor of the location, and the location itself, becomes a directory. -/
def FS.mkdirp (fs : FS) (slot : Nat) (loc : Loc) : FS :=
  (loc.inits.drop 1).foldl
    (fun acc l => if (acc.node l).isNone then acc.put slot l Node.dir else acc) fs

/-- Whether `mkdirSync(p, { recursive: true })` succeeds: no ancestor of the
location, nor the location itself, is a regular file. -/
def FS.canMkdirp (fs : FS) (loc : Loc) : Bool :=
  (loc.inits.drop 1).all fun l =>
    match fs.node l with
    | some (Node.file _) => false
    | _ => true

/-- Whether a file can be written at a location: it has a name, its parent is
a directory and the location is not one. -/
def FS.canWrite (fs : FS) (loc : Loc) : Bool :=
  loc ≠ [] && (fs.node (parentOf loc) == some Node.dir || parentOf loc == []) &&
    fs.node loc != some Node.dir

/-- `fs.unlinkSync(p)` where it succeeds: the location becomes empty and its
name leaves the listing of the parent directory. -/
def FS.unlink (fs : FS) (loc : Loc) : FS where
  node := fun l => if l = loc then none else fs.node l
  listing := fun l => if l = parentOf loc then (fs.listing l).erase (nameOf loc) else fs.listing l

/-- A file system given by its entries: each location with what it holds; a
directory lists its entries in the order of the list. -/
def FS.ofList (entries : List (Loc × Node)) : FS where
  node := fun l => (entries.find? fun e => e.1 = l).map Prod.snd
  listing := fun l =>
    (entries.filter fun e => e.1 ≠ [] ∧ parentOf e.1 = l).map fun e => nameOf e.1

/-! ## Values of request bodies and the document-store client -/

/-- A value read from a JSON request body, as far as the handlers look into it:
`obj` stands for every object and array. -/
inductive JVal where
  | undefined
  | null
  | bool (b : Bool)
  | num (n : Int)
  | str (s : Str)
  | obj
  deriving DecidableEq, Repr

/-- JavaScript truthiness, as tested by `!v`. -/
def JVal.truthy : JVal → Bool
  | JVal.undefined => false
  | JVal.null => false
  | JVal.bool b => b
  | JVal.num n => n ≠ 0
  | JVal.str s => s ≠ []
  | JVal.obj => true

/-- The identifier of a document (the value of its `_id`). -/
abbrev ObjId := Nat

/-- The outcome of casting a query value to the schema type `Number`. -/
inductive NumCast where
  | error
  | null
  | int (n : Int)
  | nonInt
  deriving DecidableEq, Repr

/-- Behaviour of the document-store client that the repository does not
define: how a value is cast to a document id (`none`: the cast fails and the
query is rejected), how a form field is cast to a number in a query filter, and
how a value that is not a string is cast to the schema type `String`
(`none`: the cast fails). -/
structure Lib where
  castObjectId : JVal → Option ObjId
  castNumber : Str → NumCast
  castString : JVal → Option Str

/-- Casting a value assigned to a `String` path: a string is kept as it is. -/
def castToString (lib : Lib) : JVal → Option Str
  | JVal.str s => some s
  | v => lib.castString v

/-! ## The catalog -/

/-- A document of the `QuestionPaper` collection (`models/questionPaper.js`). -/
structure QuestionPaper where
  id : ObjId
  year : Str
  semester : Int
  subject : Str
  examType : Str
  filePath : Str
  fileName : Str
  uploadedBy : Str
  uploadDate : Nat
  deriving DecidableEq, Repr

/-- Schema validation of a question paper on `save()`: the string paths are
required (an empty string does not satisfy `required`), `semester` lies
between `min: 1` and `max: 8`. -/
def QuestionPaper.valid (p : QuestionPaper) : Bool :=
  p.year ≠ [] && decide (1 ≤ p.semester) && decide (p.semester ≤ 8) && p.subject ≠ [] &&
    p.examType ≠ [] && p.filePath ≠ [] && p.fileName ≠ [] && p.uploadedBy ≠ []

/-- A document of the `Resource` collection (`models/resources.js`). -/
structure Resource where
  id : ObjId
  semester : Str
  resourceType : Str
  subject : Str
  fileUrl : Option Str
  fileName : Option Str
  channel : Option Str
  topics : List Str
  updatedAt : Nat
  deriving DecidableEq, Repr

/-- A document of the `Subject` collection (`models/resources.js`). -/
structure Subject where
  id : ObjId
  semester : Str
  name : Str
  deriving DecidableEq, Repr

/-- The state of the server: the three collections and the file system. -/
structure World where
  papers : List QuestionPaper
  resources : List Resource
  subjects : List Subject
  fs : FS

/-- The process a handler runs in: `process.cwd()` and the `__dirname` of
`index.js`. -/
structure Proc where
  cwd : Str
  dirname : Str

/-! ## Effects -/

/-- The mutating operations a handler performs on the document store and the
file system. Reading (`find`, `findOne`, `findById`, `existsSync`,
`readdirSync`, `statSync`, sending a file) is no effect. -/
inductive Effect where
  | mkdirp (loc : Loc) (slot : Nat)
  | writeFile (loc : Loc) (data : Bytes) (slot : Nat)
  | unlink (loc : Loc)
  | savePaper (doc : QuestionPaper)
  | saveResource (doc : Resource)
  | saveSubject (doc : Subject)
  | removeResource (id : ObjId)
  | removeSubject (id : ObjId)
  deriving DecidableEq, Repr

/-- Saving a document in a collection: the document with the same id is
replaced in place, a new document is added at the end. -/
def upsert {α : Type} (key : α → ObjId) (doc : α) (l : List α) : List α :=
  if l.any (fun d => key d = key doc) then l.map (fun d => if key d = key doc then doc else d)
  else l ++ [doc]

/-- The state after one effect. -/
def World.step (w : World) : Effect → World
  | Effect.mkdirp loc slot => { w with fs := w.fs.mkdirp slot loc }
  | Effect.writeFile loc data slot => { w with fs := w.fs.put slot loc (Node.file data) }
  | Effect.unlink loc => { w with fs := w.fs.unlink loc }
  | Effect.savePaper doc => { w with papers := upsert QuestionPaper.id doc w.papers }
  | Effect.saveResource doc => { w with resources := upsert Resource.id doc w.resources }
  | Effect.saveSubject doc => { w with subjects := upsert Subject.id doc w.subjects }
  | Effect.removeResource id => { w with resources := w.resources.filter fun r => r.id ≠ id }
  | Effect.removeSubject id => { w with subjects := w.subjects.filter fun r => r.id ≠ id }

/-- The state after a sequence of effects. -/
def World.run (w : World) (effects : List Effect) : World := effects.foldl World.step w

/-- What a handler did: its response and its effects, in execution order. -/
structure Outcome (ρ : Type) where
  response : ρ
  effects : List Effect

/-! ## `routes/question-paper-routes.js`: download -/

/-- `QuestionPaperModel.findById(id)`: `none` is the rejection of a query whose
id cannot be cast, `some none` is the answer `null`. -/
def findById (lib : Lib) (papers : List QuestionPaper) (id : JVal) :
    Option (Option QuestionPaper) :=
  match lib.castObjectId id with
  | none => none
  | some oid => some (papers.find? fun p => p.id = oid)

/-- The `paperDetails` of a not-found body. -/
structure PaperDetails where
  year : Str
  semester : Int
  subject : Str
  examType : Str
  deriving DecidableEq, Repr

/-- The responses of `GET /download/:id`. -/
inductive DownloadResponse where
  /-- Status 404, `Question paper not found`. -/
  | paperNotFound
  /-- The call `res.download(path, name)`. -/
  | download (path name : Str)
  /-- Status 404, `File not found on server`, with the details of the paper, the
  stored path and the attempted path. -/
  | fileNotFound (paperDetails : PaperDetails) (storedPath attemptedPath : Str)
  /-- Status 500, `Failed to download question paper`. -/
  | failed
  deriving DecidableEq, Repr

/-- The status code of a download response. -/
def DownloadResponse.status : DownloadResponse → Nat
  | DownloadResponse.paperNotFound => 404
  | DownloadResponse.download _ _ => 200
  | DownloadResponse.fileNotFound _ _ _ => 404
  | DownloadResponse.failed => 500

/-- The `sanitizedPath` of the download handler: the stored path without its
leading slash, if it has one. -/
def sanitizedPath (paper : QuestionPaper) : Str :=
  if startsWith paper.filePath ['/'] then substring paper.filePath 1 else paper.filePath

/-- The `correctPath` of the download handler. -/
def correctPath (proc : Proc) (paper : QuestionPaper) : Str :=
  join [proc.cwd, "uploads".toList, "question-papers".toList, paper.year,
    numToString paper.semester, basename (sanitizedPath paper)]

/-- The `semesterDir` of the download handler. -/
def semesterDir (proc : Proc) (paper : QuestionPaper) : Str :=
  join [proc.cwd, "uploads".toList, "question-papers".toList, paper.year,
    numToString paper.semester]

/-- The test of the download handler for a similarly named file. -/
def isSimilar (paper : QuestionPaper) (file : Str) : Bool :=
  includes file (sanitize paper.subject) && includes file (sanitize paper.examType)

/-- The body of the download handler once the paper is found. -/
def resolvePaper (proc : Proc) (fs : FS) (paper : QuestionPaper) : DownloadResponse :=
  let notFound := DownloadResponse.fileNotFound
    ⟨paper.year, paper.semester, paper.subject, paper.examType⟩ paper.filePath
    (correctPath proc paper)
  if existsSync fs proc.cwd (correctPath proc paper) then
    DownloadResponse.download (correctPath proc paper) paper.fileName
  else if existsSync fs proc.cwd (semesterDir proc paper) then
    match readdirSync fs proc.cwd (semesterDir proc paper) with
    | none => DownloadResponse.failed
    | some files =>
      match files.find? (isSimilar paper) with
      | some similarFile =>
        if similarFile ≠ [] then
          DownloadResponse.download (join [semesterDir proc paper, similarFile]) paper.fileName
        else notFound
      | none => notFound
  else notFound

/-- The handler `router.get('/download/:id')`. -/
def download (lib : Lib) (proc : Proc) (w : World) (id : Str) : Outcome DownloadResponse :=
  match findById lib w.papers (JVal.str id) with
  | none => ⟨DownloadResponse.failed, []⟩
  | some none => ⟨DownloadResponse.paperNotFound, []⟩
  | some (some paper) => ⟨resolvePaper proc w.fs paper, []⟩

/-- Whether a path names a regular file. -/
def isFile (fs : FS) (cwd p : Str) : Bool :=
  match fs.node (locOf cwd p) with
  | some (Node.file _) => true
  | _ => false

/-- Reference resolver, following the specification: the canonical path if it
exists; otherwise, if the directory of the year and semester exists, the first
file of its listing whose name contains both sanitized fragments, an entry
that is not a regular file being passed over; otherwise not found (`none`). -/
def resolveSpec (proc : Proc) (fs : FS) (paper : QuestionPaper) : Option Str :=
  let canonical := join [proc.cwd, "uploads".toList, "question-papers".toList, paper.year,
    numToString paper.semester, basename (sanitizedPath paper)]
  let directory := join [proc.cwd, "uploads".toList, "question-papers".toList, paper.year,
    numToString paper.semester]
  if existsSync fs proc.cwd canonical then some canonical
  else
    match fs.node (locOf proc.cwd directory) with
    | some Node.dir =>
      ((fs.listing (locOf proc.cwd directory)).find? fun name =>
        isFile fs proc.cwd (join [directory, name]) &&
          (includes name (sanitize paper.subject) &&
            includes name (sanitize paper.examType))).map
        fun name => join [directory, name]
    | _ => none

/-- The path a download response serves, if it serves one. -/
def DownloadResponse.served : DownloadResponse → Option Str
  | DownloadResponse.download path _ => some path
  | _ => none

/-- The value of a string of digits of a radix up to 16; `none` when the
string is empty or holds another character. -/
def readRadix (radix : Nat) (s : Str) : Option Nat :=
  if s ≠ [] ∧ s.all (fun c => decide (((digitValue 16 c).getD radix) < radix)) then
    some (s.foldl (fun acc c => acc * radix + (digitValue 16 c).getD 0) 0)
  else none

/-- The number `± digits × 10^(± exponent - places)` as the cast of a query
sees it: an integer, or a number that is none. Beyond `10^400` the number is
`Infinity`. -/
def decimalValue (negative : Bool) (digits places : Nat) (down : Bool) (exponent : Nat) :
    NumCast :=
  let signed : Nat → Int := fun v => if negative then - (v : Int) else (v : Int)
  if digits = 0 then NumCast.int 0
  else if down ∨ exponent < places then
    let shift := if down then exponent + places else places - exponent
    if digits % 10 ^ shift = 0 then NumCast.int (signed (digits / 10 ^ shift))
    else NumCast.nonInt
  else if 400 < exponent - places then NumCast.nonInt
  else NumCast.int (signed (digits * 10 ^ (exponent - places)))

/-- `Number(s)` for a string, `NumCast.error` standing for `NaN`: white space
around the numeral is skipped, the empty numeral is 0, `0x`, `0o` and `0b`
start a numeral of that radix, and a decimal numeral has a sign, digits, a
fraction and an exponent. The numeral is read by its exact value, without the
rounding of floating point: on a numeral that no double holds exactly (more
than 15 significant digits, or a magnitude beyond `2^53`) the result may
differ from `Number(s)`. -/
def numberOfString (s : Str) : NumCast :=
  let t := trim s
  let negative := t.head? = some '-'
  let u := if t.head? = some '-' ∨ t.head? = some '+' then t.drop 1 else t
  let whole := u.takeWhile Char.isDigit
  let rest := u.dropWhile Char.isDigit
  let frac := if rest.head? = some '.' then (rest.drop 1).takeWhile Char.isDigit else []
  let tail := if rest.head? = some '.' then (rest.drop 1).dropWhile Char.isDigit else rest
  let expo := if tail.head? = some 'e' ∨ tail.head? = some 'E' then tail.drop 1 else []
  let expoDigits := if expo.head? = some '-' ∨ expo.head? = some '+' then expo.drop 1 else expo
  let radixLiteral : Nat → NumCast := fun radix =>
    match readRadix radix (t.drop 2) with
    | some v => NumCast.int v
    | none => NumCast.error
  if t = [] then NumCast.int 0
  else if (['0', 'x'] : Str).isPrefixOf t ∨ (['0', 'X'] : Str).isPrefixOf t then radixLiteral 16
  else if (['0', 'o'] : Str).isPrefixOf t ∨ (['0', 'O'] : Str).isPrefixOf t then radixLiteral 8
  else if (['0', 'b'] : Str).isPrefixOf t ∨ (['0', 'B'] : Str).isPrefixOf t then radixLiteral 2
  else if u = "Infinity".toList then NumCast.nonInt
  else if whole = [] ∧ frac = [] then NumCast.error
  else if tail ≠ [] ∧ (expoDigits = [] ∨ ¬ expoDigits.all Char.isDigit) then NumCast.error
  else
    decimalValue negative ((readDigits 10 (whole ++ frac) 0 false).getD 0) frac.length
      (expo.head? = some '-') ((readDigits 10 expoDigits 0 false).getD 0)

/-- A document-store client for the concrete instances. As an id it casts a
string of 24 hexadecimal digits and rejects every other value: the client of
the store also casts some values of other shapes (a string of 12 characters,
an object with such a string form), which `JVal` does not tell apart and no
instance uses. A form field is cast to a number as the client does: the empty
string is `null`, every other string is read by `Number`, and `NaN` is
rejected. No value that is not a string is cast to a string. -/
def hexLib : Lib where
  castObjectId := fun v =>
    match v with
    | JVal.str s =>
      if s.length = 24 ∧ s.all (fun c => (digitValue 16 c).isSome) then readDigits 16 s 0 false
      else none
    | _ => none
  castNumber := fun s => if s = [] then NumCast.null else numberOfString s
  castString := fun _ => none

/-- The process used in concrete instances: the server started in `/app`. -/
def appProc : Proc := ⟨"/app".toList, "/app".toList⟩

/-! ## Concrete instances -/

/-- The directories from `/app` down to `uploads/question-papers/2023`. -/
def baseEntries : List (Loc × Node) :=
  [(["app".toList], Node.dir),
   (["app".toList, "uploads".toList], Node.dir),
   (["app".toList, "uploads".toList, "question-papers".toList], Node.dir),
   (["app".toList, "uploads".toList, "question-papers".toList, "2023".toList], Node.dir)]

/-- A record whose stored path has a leading slash and names the directory
`semester3`, as the upload handler writes it. -/
def paperSlash : QuestionPaper where
  id := 0x64b7f0c2a1d3e4f5a6b7c8d9
  year := "2023".toList
  semester := 3
  subject := "Maths".toList
  examType := "Midterm".toList
  filePath := "/uploads/question-papers/2023/semester3/Maths_Midterm_1700000000000.pdf".toList
  fileName := "maths-midterm.pdf".toList
  uploadedBy := "21CS001".toList
  uploadDate := 1700000000000

/-- A file system that holds the file of `paperSlash` where its stored path,
without the leading slash, points. -/
def fsSemesterName : FS :=
  FS.ofList (baseEntries ++
    [(["app".toList, "uploads".toList, "question-papers".toList, "2023".toList,
        "semester3".toList], Node.dir),
     (["app".toList, "uploads".toList, "question-papers".toList, "2023".toList,
        "semester3".toList, "Maths_Midterm_1700000000000.pdf".toList], Node.file [37, 80, 68, 70])])

/-- A file system in which `uploads/question-papers/2023/3` is a regular
file, not a directory. -/
def fsSemesterIsFile : FS :=
  FS.ofList (baseEntries ++
    [(["app".toList, "uploads".toList, "question-papers".toList, "2023".toList, "3".toList],
      Node.file [0])])

/-- The id of `paperSlash` as a request parameter. -/
def paperSlashId : Str := "64b7f0c2a1d3e4f5a6b7c8d9".toList

/-- A file system that holds the file of `paperSlash` in the directory named
by the semester number. -/
def fsSemesterNumber : FS :=
  FS.ofList (baseEntries ++
    [(["app".toList, "uploads".toList, "question-papers".toList, "2023".toList, "3".toList],
        Node.dir),
     (["app".toList, "uploads".toList, "question-papers".toList, "2023".toList, "3".toList,
        "Maths_Midterm_1700000000000.pdf".toList], Node.file [37, 80, 68, 70])])

/-- A file system in which the directory of the semester lists the
sub-directory `Maths_Midterm_old` before the file of the paper. -/
def fsDirectoryFirst : FS :=
  FS.ofList (baseEntries ++
    [(["app".toList, "uploads".toList, "question-papers".toList, "2023".toList, "3".toList],
        Node.dir),
     (["app".toList, "uploads".toList, "question-papers".toList, "2023".toList, "3".toList,
        "Maths_Midterm_old".toList], Node.dir),
     (["app".toList, "uploads".toList, "question-papers".toList, "2023".toList, "3".toList,
        "Maths_Midterm_1700000000000.pdf".toList], Node.file [37, 80, 68, 70])])

/-- A file system without the directory of the year 2023 and semester 3. -/
def fsNoSemester : FS := FS.ofList baseEntries

/-- A record of the year 2023, semester 3, whose stored path names a file that
is not on disk. -/
def paperStale : QuestionPaper where
  id := 0x64b7f0c2a1d3e4f5a6b7c8da
  year := "2023".toList
  semester := 3
  subject := "Maths".toList
  examType := "Midterm".toList
  filePath := "uploads/question-papers/2023/semester3/Maths_Midterm_1600000000000.pdf".toList
  fileName := "maths-midterm.pdf".toList
  uploadedBy := "21CS001".toList
  uploadDate := 1600000000000

/-- The id of `paperStale` as a request parameter. -/
def paperStaleId : Str := "64b7f0c2a1d3e4f5a6b7c8da".toList

/-! ## `routes/question-paper-routes.js`: upload -/

/-- The file part of a multipart request, as the upload middleware passes it
to the storage callbacks. -/
structure UploadedFile where
  originalname : Str
  mimetype : Str
  data : Bytes
  deriving DecidableEq, Repr

/-- The inputs of `POST /upload`: the text fields of the body (sent before the
file part), the file part, and what the environment supplies while the request
is handled: `Date.now()` when the file is named, the date of the save, the id
given to a new document and the place the file system gives a new directory
entry. -/
structure PaperUpload where
  year : Option Str
  semester : Option Str
  subject : Option Str
  examType : Option Str
  registerno : Option Str
  file : Option UploadedFile
  now : Nat
  date : Nat
  newId : ObjId
  slot : Nat

/-- The responses of `POST /upload`. -/
inductive UploadResponse where
  /-- Status 400, `No file uploaded`. -/
  | noFile
  /-- Status 200, `Question paper updated successfully`. -/
  | updated (paper : QuestionPaper)
  /-- Status 201, `Question paper uploaded successfully`. -/
  | created (paper : QuestionPaper)
  /-- Status 500, `Failed to upload question paper`. -/
  | failed
  /-- The upload middleware failed (file filter, storage callback or write):
  the handler is not reached. -/
  | rejected
  deriving DecidableEq, Repr

/-- The status code of an upload response. -/
def UploadResponse.status : UploadResponse → Nat
  | UploadResponse.noFile => 400
  | UploadResponse.updated _ => 200
  | UploadResponse.created _ => 201
  | UploadResponse.failed => 500
  | UploadResponse.rejected => 500

/-- The record an upload answers with, if it succeeded. -/
def UploadResponse.paper : UploadResponse → Option QuestionPaper
  | UploadResponse.updated p => some p
  | UploadResponse.created p => some p
  | _ => none

/-- The `fileSize` limit of the upload middleware, `10 * 1024 * 1024`. -/
def fileSizeLimit : Nat := 10 * 1024 * 1024

/-- The `destination` callback of the storage: the directory
`uploads/question-papers/<year>/<semester>`. -/
def paperDestination (year semester : Str) : Str :=
  join ["uploads".toList, "question-papers".toList, year, semester]

/-- The `filename` callback of the storage:
`<sanitizedSubject>_<sanitizedExamType>_<Date.now()><extname>`. -/
def paperFilename (subject examType : Str) (now : Nat) (originalname : Str) : Str :=
  sanitize subject ++ '_' :: sanitize examType ++ '_' :: natToString now ++ extname originalname

/-- The `relativePath` the upload handler stores in the record. -/
def paperRelativePath (year semester filename : Str) : Str :=
  backslashToSlash
    (join ["uploads".toList, "question-papers".toList, year, "semester".toList ++ semester,
      filename])

/-- Whether a record satisfies the filter `{ year, semester, subject, examType }`
of the upload handler, the semester being cast to a number by the client. -/
def matchesFilter (year : Str) (semester : NumCast) (subject examType : Str)
    (p : QuestionPaper) : Bool :=
  p.year = year && semester = NumCast.int p.semester && p.subject = subject &&
    p.examType = examType

/-- The outcome of an upload middleware: `none` when it failed, otherwise the
name under which it stored the file part, if there was one; and its effects. -/
abbrev Stored := Option (Option Str) × List Effect

/-- Writing the file part at a location: the effects of the middleware and
whether it succeeded. A write fails when the location cannot be written; a
file over the size limit is removed again. -/
def storeAt (fs : FS) (made : List Effect) (loc : Loc) (filename : Str) (file : UploadedFile)
    (slot : Nat) : Stored :=
  if !fs.canWrite loc then (none, made)
  else if file.data.length > fileSizeLimit then
    (none, made ++ [Effect.writeFile loc file.data slot, Effect.unlink loc])
  else (some (some filename), made ++ [Effect.writeFile loc file.data slot])

/-- The directory creation of the `destination` callback,
`if (!fs.existsSync(dir)) fs.mkdirSync(dir, { recursive: true })`. -/
def ensureDir (present : Bool) (loc : Loc) (slot : Nat) : List Effect :=
  if present then [] else [Effect.mkdirp loc slot]

/-- `routes/question-paper-routes.js`, `upload.single('file')`: the file filter
(PDF only), the storage callbacks and the write. -/
def storePaper (proc : Proc) (w : World) (req : PaperUpload) : Stored :=
  match req.file with
  | none => (some none, [])
  | some file =>
    if file.mimetype ≠ "application/pdf".toList then (none, [])
    else
      match req.year, req.semester with
      | some year, some semester =>
        let dir := paperDestination year semester
        let present := existsSync w.fs proc.cwd dir
        let made := ensureDir present (locOf proc.cwd dir) req.slot
        if !present && !w.fs.canMkdirp (locOf proc.cwd dir) then (none, [])
        else
          match req.subject, req.examType with
          | some subject, some examType =>
            let filename := paperFilename subject examType req.now file.originalname
            storeAt (w.run made).fs made (locOf proc.cwd (join [dir, filename])) filename file
              req.slot
          | _, _ => (none, made)
      | _, _ => (none, [])

/-- The upload handler once the file is there: the record of the key is
updated, or a new record is created; `written` are the effects so far. -/
def savePaperRecord (lib : Lib) (w : World) (req : PaperUpload) (written : List Effect)
    (year semester subject examType filename : Str) (part : UploadedFile) :
    Outcome UploadResponse :=
  let relativePath := paperRelativePath year semester filename
  match lib.castNumber semester with
  | NumCast.error => ⟨UploadResponse.failed, written⟩
  | number =>
    match w.papers.find? (matchesFilter year number subject examType) with
    | some existingPaper =>
      let paper := { existingPaper with
        filePath := relativePath
        fileName := part.originalname
        uploadedBy := req.registerno.getD []
        uploadDate := req.date }
      if paper.valid then ⟨UploadResponse.updated paper, written ++ [Effect.savePaper paper]⟩
      else ⟨UploadResponse.failed, written⟩
    | none =>
      match parseInt semester with
      | none => ⟨UploadResponse.failed, written⟩
      | some n =>
        let newPaper : QuestionPaper :=
          { id := req.newId
            year := year
            semester := n
            subject := subject
            examType := examType
            filePath := relativePath
            fileName := part.originalname
            uploadedBy := req.registerno.getD []
            uploadDate := req.date }
        if newPaper.valid then
          ⟨UploadResponse.created newPaper, written ++ [Effect.savePaper newPaper]⟩
        else ⟨UploadResponse.failed, written⟩

/-- The upload handler behind its middleware; `file` is the name of the stored
file part, if there was one, and `stored` are the effects of the middleware. -/
def paperHandler (lib : Lib) (w : World) (req : PaperUpload) (file : Option Str)
    (stored : List Effect) : Outcome UploadResponse :=
  match file, req.file with
  | some filename, some part =>
    match req.year, req.semester, req.subject, req.examType with
    | some year, some semester, some subject, some examType =>
      savePaperRecord lib w req stored year semester subject examType filename part
    | _, _, _, _ => ⟨UploadResponse.failed, stored⟩
  | _, _ => ⟨UploadResponse.noFile, stored⟩

/-- The route `router.post('/upload', upload.single('file'), ...)`: the upload
middleware and the handler. -/
def uploadPaper (lib : Lib) (proc : Proc) (w : World) (req : PaperUpload) :
    Outcome UploadResponse :=
  match storePaper proc w req with
  | (none, stored) => ⟨UploadResponse.rejected, stored⟩
  | (some file, stored) => paperHandler lib w req file stored

/-- The hexadecimal string of an id, as it appears in a response and in the
path of a download request: 24 digits. -/
def hexDigitsRev : Nat → Nat → Str
  | 0, _ => []
  | fuel + 1, n =>
    (if n % 16 < 10 then Char.ofNat ('0'.toNat + n % 16) else Char.ofNat ('a'.toNat + n % 16 - 10))
      :: hexDigitsRev fuel (n / 16)

/-- The 24 hexadecimal digits of an id. -/
def objectIdString (id : ObjId) : Str := (hexDigitsRev 24 id).reverse

/-- An upload of a PDF for the year 2023, semester field `03`. -/
def uploadLeadingZero : PaperUpload where
  year := some "2023".toList
  semester := some "03".toList
  subject := some "Maths".toList
  examType := some "Midterm".toList
  registerno := some "21CS001".toList
  file := some ⟨"maths-midterm.pdf".toList, "application/pdf".toList, [37, 80, 68, 70]⟩
  now := 1700000000000
  date := 1700000000001
  newId := 0x64b7f0c2a1d3e4f5a6b7c8d9
  slot := 0

/-- An upload of a PDF for the year 2023, semester field `3`. -/
def uploadPlain : PaperUpload := { uploadLeadingZero with semester := some "3".toList }

/-- An upload of a PDF for the year 2023, semester field `3.5`. -/
def uploadFraction : PaperUpload :=
  { uploadLeadingZero with semester := some "3.5".toList, newId := 0x64b7f0c2a1d3e4f5a6b7c8db }

/-- A state with an empty catalog and the directories down to
`uploads/question-papers/2023`. -/
def worldEmpty : World := ⟨[], [], [], fsNoSemester⟩

/-- The state after the upload `uploadLeadingZero` into `worldEmpty`. -/
def worldLeadingZero : World :=
  worldEmpty.run (uploadPaper hexLib appProc worldEmpty uploadLeadingZero).effects

/-- The state after the upload `uploadPlain` into `worldEmpty`. -/
def worldPlain : World :=
  worldEmpty.run (uploadPaper hexLib appProc worldEmpty uploadPlain).effects

/-- The state after the upload `uploadPlain` followed by `uploadFraction`. -/
def worldFraction : World :=
  worldPlain.run (uploadPaper hexLib appProc worldPlain uploadFraction).effects

/-- The key of a question paper: year, semester, subject and exam type. -/
def QuestionPaper.key (p : QuestionPaper) : Str × Int × Str × Str :=
  (p.year, p.semester, p.subject, p.examType)

/-! ## `routes/question-paper-routes.js`: apply fixes -/

/-- An element of the `fixes` array, as far as `const { id, newPath } = fix`
tells elements apart: `null`, whose destructuring throws, and every other
value, with its properties `id` and `newPath` (`undefined` when it has none). -/
inductive FixElement where
  | null
  | fields (id newPath : JVal)
  deriving DecidableEq, Repr

/-- The `message` of an entry of the report; `error` stands for the message of
a caught exception. -/
inductive FixMessage where
  | missing
  | notFound
  | updated
  | error
  deriving DecidableEq, Repr

/-- An entry of the report of `POST /fix-paths`. -/
structure FixDetail where
  id : JVal
  success : Bool
  message : FixMessage
  deriving DecidableEq, Repr

/-- The responses of `POST /fix-paths`. -/
inductive FixResponse where
  /-- Status 400, `Invalid fixes data`. -/
  | invalid
  /-- Status 200 with `totalFixesAttempted`, `successful`, `failed` and
  `details`. -/
  | report (totalFixesAttempted successful failed : Nat) (details : List FixDetail)
  /-- Status 500, `Failed to fix paths`. -/
  | failed
  deriving DecidableEq, Repr

/-- One round of the loop of `POST /fix-paths` for an element with the
properties `id` and `newPath`: the entry it pushes and its effects. -/
def applyFix (lib : Lib) (papers : List QuestionPaper) (id newPath : JVal) :
    FixDetail × List Effect :=
  if !id.truthy || !newPath.truthy then (⟨id, false, FixMessage.missing⟩, [])
  else
    match findById lib papers id with
    | none => (⟨id, false, FixMessage.error⟩, [])
    | some none => (⟨id, false, FixMessage.notFound⟩, [])
    | some (some paper) =>
      match castToString lib newPath with
      | none => (⟨id, false, FixMessage.error⟩, [])
      | some path =>
        let paper := { paper with filePath := path }
        if paper.valid then (⟨id, true, FixMessage.updated⟩, [Effect.savePaper paper])
        else (⟨id, false, FixMessage.error⟩, [])

/-- The loop of `POST /fix-paths`: the entries pushed (`none` when an exception
left the loop) and the effects performed. -/
def fixLoop (lib : Lib) : World → List FixElement → Option (List FixDetail) × List Effect
  | _, [] => (some [], [])
  | _, FixElement.null :: _ => (none, [])
  | w, FixElement.fields id newPath :: rest =>
    let round := applyFix lib w.papers id newPath
    let later := fixLoop lib (w.run round.2) rest
    (later.1.map fun details => round.1 :: details, round.2 ++ later.2)

/-- The handler `router.post('/fix-paths')`; `fixes` is `none` when the body
has no array `fixes`. -/
def fixPaths (lib : Lib) (w : World) (fixes : Option (List FixElement)) : Outcome FixResponse :=
  match fixes with
  | none => ⟨FixResponse.invalid, []⟩
  | some elements =>
    match fixLoop lib w elements with
    | (some details, effects) =>
      ⟨FixResponse.report elements.length (details.filter fun r => r.success).length
        (details.filter fun r => !r.success).length details, effects⟩
    | (none, effects) => ⟨FixResponse.failed, effects⟩

/-- A fix of the documented shape `{ id, newPath }`: each property a string,
or absent. -/
structure Fix where
  id : Option Str
  newPath : Option Str
  deriving DecidableEq, Repr

/-- A property of a fix as a value of the request body. -/
def optStr : Option Str → JVal
  | some s => JVal.str s
  | none => JVal.undefined

/-- A fix as an element of the `fixes` array. -/
def Fix.toElement (f : Fix) : FixElement := FixElement.fields (optStr f.id) (optStr f.newPath)

/-- The array of a list of fixes. -/
def fixesOf (items : List Fix) : Option (List FixElement) := some (items.map Fix.toElement)

/-- A second record, for semester 4. -/
def paperOther : QuestionPaper where
  id := 0x64b7f0c2a1d3e4f5a6b7c8e0
  year := "2023".toList
  semester := 4
  subject := "Physics".toList
  examType := "Final".toList
  filePath := "/uploads/question-papers/2023/semester4/Physics_Final_1700000000500.pdf".toList
  fileName := "physics-final.pdf".toList
  uploadedBy := "21CS002".toList
  uploadDate := 1700000000500

/-- A catalog of two records. -/
def worldTwo : World := ⟨[paperSlash, paperOther], [], [], fsNoSemester⟩

/-- A fix for `paperSlash`. -/
def fixFirst : Fix :=
  ⟨some "64b7f0c2a1d3e4f5a6b7c8d9".toList,
    some "uploads/question-papers/2023/3/Maths_Midterm_1700000000000.pdf".toList⟩

/-- A fix that names no record of `worldTwo`. -/
def fixUnknown : Fix :=
  ⟨some "64b7f0c2a1d3e4f5a6b7c8ff".toList, some "uploads/question-papers/2023/3/none.pdf".toList⟩

/-- A fix for `paperOther`. -/
def fixThird : Fix :=
  ⟨some "64b7f0c2a1d3e4f5a6b7c8e0".toList,
    some "uploads/question-papers/2023/4/Physics_Final_1700000000500.pdf".toList⟩

/-! ## Resources: `index.js` and `routes/resources.js` -/

/-- Pieces of a string between occurrences of a separator, as
`s.split(sep)` for a one-character separator. -/
def splitChar (sep : Char) : Str → List Str
  | [] => [[]]
  | c :: cs =>
    if c = sep then [] :: splitChar sep cs
    else
      match splitChar sep cs with
      | [] => [[c]]
      | s :: ss => (c :: s) :: ss

/-- `s.toLowerCase()` on the letters `A` to `Z`. -/
def toLowerCase (s : Str) : Str :=
  s.map fun c => if 'A'.toNat ≤ c.toNat ∧ c.toNat ≤ 'Z'.toNat then Char.ofNat (c.toNat + 32) else c

/-- The test `/pdf|doc|docx|ppt|pptx/.test(s)`. -/
def isOfficeType (s : Str) : Bool :=
  includes s "pdf".toList || includes s "doc".toList || includes s "docx".toList ||
    includes s "ppt".toList || includes s "pptx".toList

/-- Whether a body field is truthy: present and not the empty string. -/
def present : Option Str → Bool
  | some s => s ≠ []
  | none => false

/-- A body field inside a template literal: `undefined` when absent. -/
def template : Option Str → Str
  | some s => s
  | none => "undefined".toList

/-- Schema validation of a resource on `save()`: `semester` and `subject` are
required, `resourceType` is required and one of the `enum`. -/
def Resource.valid (r : Resource) : Bool :=
  r.semester ≠ [] && r.subject ≠ [] &&
    (r.resourceType = "notes".toList || r.resourceType = "books".toList ||
      r.resourceType = "videoMaterials".toList)

/-- The inputs of the resource uploads: the role of the caller as established
by `authenticateUser` (`none` when authentication fails), the fields of the
body, the file part, and what the environment supplies: `Date.now()` and
`Math.round(Math.random() * 1E9)` when the file is named, the date of the
save, the ids given to a new resource and a new subject, and the place the file
system gives a new directory entry. -/
structure ResourceUpload where
  user : Option Str
  semester : Option Str
  subject : Option Str
  resourceType : Option Str
  channel : Option Str
  topics : Option Str
  fileUrl : Option Str
  fileName : Option Str
  file : Option UploadedFile
  now : Nat
  random : Nat
  date : Nat
  newId : ObjId
  newSubjectId : ObjId
  slot : Nat

/-- The responses of the resource uploads. -/
inductive ResourceResponse where
  /-- Status 401, from `authenticateUser`. -/
  | unauthorized
  /-- Status 403, `Admin privileges required`. -/
  | forbidden
  /-- Status 400. -/
  | badRequest
  /-- Status 404, `Subject not found`. -/
  | notFound
  /-- Status 201 with the resource. -/
  | created (resource : Resource)
  /-- Status 200 with the resource, `Resource updated successfully`. -/
  | ok (resource : Resource)
  /-- Status 500. -/
  | failed
  /-- The upload middleware failed: the handler is not reached. -/
  | rejected
  deriving DecidableEq, Repr

/-- The resource a successful upload answers with. -/
def ResourceResponse.resource : ResourceResponse → Option Resource
  | ResourceResponse.created r => some r
  | ResourceResponse.ok r => some r
  | _ => none

/-- The `uniqueSuffix` of the storage callbacks:
`Date.now() + '-' + Math.round(Math.random() * 1E9)`. -/
def uniqueSuffix (now random : Nat) : Str := natToString now ++ '-' :: natToString random

/-- `index.js`, `destination`: `<uploadsDir>/semester<semester>/<resourceType>`
with `uploadsDir = path.join(__dirname, 'uploads')`. -/
def resourceDir (proc : Proc) (semester : Option Str) (resourceType : Str) : Str :=
  join [join [proc.dirname, "uploads".toList], "semester".toList ++ template semester,
    resourceType]

/-- `index.js`, `filename`: `<sanitized subject>_<uniqueSuffix><extname>`. -/
def resourceFilename (subject : Str) (now random : Nat) (originalname : Str) : Str :=
  sanitize subject ++ '_' :: uniqueSuffix now random ++ extname originalname

/-- `index.js`, the `fileUrl` of an uploaded file:
`/uploads/semester<semester>/<resourceType>/<filename>`. -/
def resourceFileUrl (semester resourceType filename : Str) : Str :=
  "/uploads/semester".toList ++ semester ++ '/' :: resourceType ++ '/' :: filename

/-- `index.js`, `upload.single('file')`: the file filter (PDF only for notes
and books), the storage callbacks and the write. -/
def storeResource (proc : Proc) (w : World) (req : ResourceUpload) : Stored :=
  match req.file with
  | none => (some none, [])
  | some file =>
    if (req.resourceType = some "notes".toList ∨ req.resourceType = some "books".toList) ∧
        file.mimetype ≠ "application/pdf".toList then (none, [])
    else
      match req.resourceType with
      | none => (none, [])
      | some resourceType =>
        let dir := resourceDir proc req.semester resourceType
        if !w.fs.canMkdirp (locOf proc.cwd dir) then (none, [])
        else
          let made := [Effect.mkdirp (locOf proc.cwd dir) req.slot]
          match req.subject with
          | none => (none, made)
          | some subject =>
            let filename := resourceFilename subject req.now req.random file.originalname
            storeAt (w.run made).fs made (locOf proc.cwd (join [dir, filename])) filename file
              req.slot

/-- Whether a resource satisfies the filter `{ semester, subject, resourceType }`;
the client applies the `trim` of the schema to the subject of the filter. -/
def matchesResource (semester subject resourceType : Str) (r : Resource) : Bool :=
  r.semester = semester && r.subject = trim subject && r.resourceType = resourceType

/-- Whether a subject satisfies the filter `{ semester, name }`. -/
def matchesSubject (semester name : Str) (s : Subject) : Bool :=
  s.semester = semester && s.name = trim name

/-- `index.js`: the clean-up of the old file before an update,
`if (fs.existsSync(oldFilePath)) fs.unlinkSync(oldFilePath)` inside a `try`
whose `catch` goes on; unlinking fails on a directory. -/
def unlinkOld (proc : Proc) (fs : FS) (resource : Resource) : List Effect :=
  match resource.fileUrl with
  | none => []
  | some url =>
    if url = [] then []
    else
      let oldFilePath := join [proc.dirname, url]
      if existsSync fs proc.cwd oldFilePath then
        match fs.node (locOf proc.cwd oldFilePath) with
        | some (Node.file _) => [Effect.unlink (locOf proc.cwd oldFilePath)]
        | _ => []
      else []

/-- `index.js`: the subject is created when the semester does not have it. -/
def ensureSubject (w : World) (req : ResourceUpload) (semester subject : Str) : List Effect :=
  if w.subjects.any (matchesSubject semester subject) then []
  else [Effect.saveSubject ⟨req.newSubjectId, semester, trim subject⟩]

/-- `index.js`: the branch of the upload handler for video materials; `done`
are the effects so far. -/
def videoBranch (req : ResourceUpload) (done : List Effect) (semester subject resourceType : Str) :
    Outcome ResourceResponse :=
  match req.channel, req.topics with
  | some channel, some topics =>
    if channel = [] ∨ topics = [] then ⟨ResourceResponse.badRequest, done⟩
    else
      let resource : Resource :=
        { id := req.newId
          semester := semester
          resourceType := resourceType
          subject := trim subject
          fileUrl := none
          fileName := none
          channel := some (trim channel)
          topics := (splitChar ',' topics).map trim
          updatedAt := req.date }
      if resource.valid then
        ⟨ResourceResponse.created resource, done ++ [Effect.saveResource resource]⟩
      else ⟨ResourceResponse.failed, done⟩
  | _, _ => ⟨ResourceResponse.badRequest, done⟩

/-- `index.js`: the branch of the upload handler for notes and books once the
file is there: the resource of the key is updated after the clean-up of its
old file, or a new resource is created; `done` are the effects so far. -/
def fileBranch (proc : Proc) (w : World) (req : ResourceUpload) (done : List Effect)
    (semester subject resourceType filename : Str) (part : UploadedFile) :
    Outcome ResourceResponse :=
  let fileUrl := resourceFileUrl semester resourceType filename
  match w.resources.find? (matchesResource semester subject resourceType) with
  | some existing =>
    let cleaned := done ++ unlinkOld proc (w.run done).fs existing
    let resource := { existing with
      fileName := some (trim part.originalname)
      fileUrl := some (trim fileUrl)
      updatedAt := req.date }
    if resource.valid then
      ⟨ResourceResponse.created resource, cleaned ++ [Effect.saveResource resource]⟩
    else ⟨ResourceResponse.failed, cleaned⟩
  | none =>
    let resource : Resource :=
      { id := req.newId
        semester := semester
        resourceType := resourceType
        subject := trim subject
        fileUrl := some (trim fileUrl)
        fileName := some (trim part.originalname)
        channel := none
        topics := []
        updatedAt := req.date }
    if resource.valid then
      ⟨ResourceResponse.created resource, done ++ [Effect.saveResource resource]⟩
    else ⟨ResourceResponse.failed, done⟩

/-- `index.js`: the upload handler behind its middleware; `file` is the name of
the stored file part, if there was one, and `stored` are the effects of the
middleware. -/
def resourceHandler (proc : Proc) (w : World) (req : ResourceUpload) (file : Option Str)
    (stored : List Effect) : Outcome ResourceResponse :=
  match req.semester, req.subject, req.resourceType with
  | some semester, some subject, some resourceType =>
    if semester = [] ∨ subject = [] ∨ resourceType = [] then ⟨ResourceResponse.badRequest, stored⟩
    else if !w.subjects.any (matchesSubject semester subject) && trim subject = [] then
      ⟨ResourceResponse.failed, stored⟩
    else if resourceType = "videoMaterials".toList then
      videoBranch req (stored ++ ensureSubject w req semester subject) semester subject resourceType
    else
      match file, req.file with
      | some filename, some part =>
        fileBranch proc w req (stored ++ ensureSubject w req semester subject) semester subject
          resourceType filename part
      | _, _ => ⟨ResourceResponse.badRequest, stored ++ ensureSubject w req semester subject⟩
  | _, _, _ => ⟨ResourceResponse.badRequest, stored⟩

/-- The route `app.post("/api/resources/upload", authenticateUser,
upload.single('file'), ...)` of `index.js`: authentication, which rejects every
caller but an admin on this path, the upload middleware and the handler. -/
def uploadResource (proc : Proc) (w : World) (req : ResourceUpload) :
    Outcome ResourceResponse :=
  match req.user with
  | none => ⟨ResourceResponse.unauthorized, []⟩
  | some role =>
    if role ≠ "admin".toList then ⟨ResourceResponse.forbidden, []⟩
    else
      match storeResource proc w req with
      | (none, stored) => ⟨ResourceResponse.rejected, stored⟩
      | (some file, stored) => resourceHandler proc w req file stored

/-- `routes/resources.js`, `destination`: `./uploads/resources/sem<semester>`. -/
def fileRouteDir (semester : Option Str) : Str :=
  "./uploads/resources/sem".toList ++ template semester

/-- `routes/resources.js`, `filename`: `file-<uniqueSuffix><extname>`. -/
def fileRouteFilename (now random : Nat) (originalname : Str) : Str :=
  "file".toList ++ '-' :: uniqueSuffix now random ++ extname originalname

/-- `routes/resources.js`, the `fileUrl` of an uploaded file:
`/uploads/resources/sem<semester>/<filename>`. -/
def fileRouteUrl (semester filename : Str) : Str :=
  "/uploads/resources/sem".toList ++ semester ++ '/' :: filename

/-- `routes/resources.js`, `upload.single('file')`: the file filter (extension
and MIME type among the office types), the storage callbacks and the write. -/
def storeFileRoute (proc : Proc) (w : World) (req : ResourceUpload) : Stored :=
  match req.file with
  | none => (some none, [])
  | some file =>
    if !(isOfficeType (toLowerCase (extname file.originalname)) && isOfficeType file.mimetype) then
      (none, [])
    else
      let dir := fileRouteDir req.semester
      if !w.fs.canMkdirp (locOf proc.cwd dir) then (none, [])
      else
        let made := [Effect.mkdirp (locOf proc.cwd dir) req.slot]
        let filename := fileRouteFilename req.now req.random file.originalname
        storeAt (w.run made).fs made (locOf proc.cwd (join [dir, filename])) filename file req.slot

/-- `routes/resources.js`: where the `fileUrl` and `fileName` of the resource
come from: the stored file part, or else the fields `fileUrl` and `fileName` of
the body; `none` when there is neither. -/
def fileRouteSource (req : ResourceUpload) (file : Option Str) (semester : Str) :
    Option (Str × Str) :=
  match file, req.file with
  | some filename, some part => some (fileRouteUrl semester filename, part.originalname)
  | _, _ =>
    match req.fileUrl, req.fileName with
    | some url, some name => if url = [] ∨ name = [] then none else some (url, name)
    | _, _ => none

/-- `routes/resources.js`: the resource of the key is updated, or a new
resource is created; `done` are the effects so far. -/
def fileRouteSave (w : World) (req : ResourceUpload) (done : List Effect)
    (semester subject resourceType fileUrl fileName : Str) : Outcome ResourceResponse :=
  match w.resources.find? (matchesResource semester subject resourceType) with
  | some existingResource =>
    let resource := { existingResource with
      fileUrl := some (trim fileUrl)
      fileName := some (trim fileName)
      updatedAt := req.date }
    if resource.valid then
      ⟨ResourceResponse.ok resource, done ++ [Effect.saveResource resource]⟩
    else ⟨ResourceResponse.failed, done⟩
  | none =>
    let resource : Resource :=
      { id := req.newId
        semester := semester
        resourceType := resourceType
        subject := trim subject
        fileUrl := some (trim fileUrl)
        fileName := some (trim fileName)
        channel := none
        topics := []
        updatedAt := req.date }
    if resource.valid then
      ⟨ResourceResponse.created resource, done ++ [Effect.saveResource resource]⟩
    else ⟨ResourceResponse.failed, done⟩

/-- `routes/resources.js`: the handler of `POST /file` behind its
middleware. -/
def fileRouteHandler (w : World) (req : ResourceUpload) (file : Option Str)
    (stored : List Effect) : Outcome ResourceResponse :=
  match req.semester, req.subject, req.resourceType with
  | some semester, some subject, some resourceType =>
    if semester = [] ∨ subject = [] ∨ resourceType = [] ∨
        ¬ (resourceType = "notes".toList ∨ resourceType = "books".toList) then
      ⟨ResourceResponse.badRequest, stored⟩
    else if !w.subjects.any (matchesSubject semester subject) then
      ⟨ResourceResponse.notFound, stored⟩
    else
      match fileRouteSource req file semester with
      | none => ⟨ResourceResponse.badRequest, stored⟩
      | some (fileUrl, fileName) =>
        fileRouteSave w req stored semester subject resourceType fileUrl fileName
  | _, _, _ => ⟨ResourceResponse.badRequest, stored⟩

/-- The route `router.post("/file", checkAdmin, upload.single('file'), ...)` of
`routes/resources.js`, mounted behind `authenticateUser`: authentication, the
admin check, the upload middleware and the handler. -/
def uploadResourceFile (proc : Proc) (w : World) (req : ResourceUpload) :
    Outcome ResourceResponse :=
  match req.user with
  | none => ⟨ResourceResponse.unauthorized, []⟩
  | some role =>
    if role ≠ "admin".toList then ⟨ResourceResponse.forbidden, []⟩
    else
      match storeFileRoute proc w req with
      | (none, stored) => ⟨ResourceResponse.rejected, stored⟩
      | (some file, stored) => fileRouteHandler w req file stored

/-- The notes and books of a key: the resources with the given semester,
subject and resource type. -/
def resourcesOfKey (resources : List Resource) (semester subject resourceType : Str) :
    List Resource :=
  resources.filter fun r =>
    r.semester = semester && r.subject = subject && r.resourceType = resourceType

/-- At most one record per (semester, subject, resourceType) for notes and
books. -/
def AtMostOnePerKey (resources : List Resource) : Prop :=
  ∀ semester subject resourceType,
    resourceType = "notes".toList ∨ resourceType = "books".toList →
    (resourcesOfKey resources semester subject resourceType).length ≤ 1

/-- A first upload of notes for semester 3, subject Data Structures. -/
def notesFirst : ResourceUpload where
  user := some "admin".toList
  semester := some "3".toList
  subject := some "Data Structures".toList
  resourceType := some "notes".toList
  channel := none
  topics := none
  fileUrl := none
  fileName := none
  file := some ⟨"ds-notes.pdf".toList, "application/pdf".toList, [37, 80, 68, 70, 1]⟩
  now := 1700000000000
  random := 123456789
  date := 1700000000002
  newId := 0x74b7f0c2a1d3e4f5a6b7c8d1
  newSubjectId := 0x74b7f0c2a1d3e4f5a6b7c8d2
  slot := 0

/-- A second upload of notes for the same key. -/
def notesSecond : ResourceUpload :=
  { notesFirst with
    file := some ⟨"ds-notes-v2.pdf".toList, "application/pdf".toList, [37, 80, 68, 70, 2]⟩
    now := 1700000005000
    random := 987654321
    date := 1700000005002
    newId := 0x74b7f0c2a1d3e4f5a6b7c8d3
    newSubjectId := 0x74b7f0c2a1d3e4f5a6b7c8d4 }

/-- A state with an empty catalog and the directory `/app`. -/
def worldBare : World := ⟨[], [], [], FS.ofList [(["app".toList], Node.dir)]⟩

/-- The state after `notesFirst` through `index.js`. -/
def worldNotesFirst : World := worldBare.run (uploadResource appProc worldBare notesFirst).effects

/-- A state in which the subject Data Structures of semester 3 exists. -/
def worldSubject : World :=
  ⟨[], [], [⟨0x74b7f0c2a1d3e4f5a6b7c8d5, "3".toList, "Data Structures".toList⟩],
    FS.ofList [(["app".toList], Node.dir)]⟩

/-- The state after `notesFirst` through `routes/resources.js`. -/
def worldFileFirst : World :=
  worldSubject.run (uploadResourceFile appProc worldSubject notesFirst).effects

/-- Whether an effect acts on the `Resource` collection. -/
def Effect.onResources : Effect → Bool
  | Effect.saveResource _ => true
  | Effect.removeResource _ => true
  | _ => false

/-- Whether an effect acts on the file system. -/
def Effect.onFiles : Effect → Bool
  | Effect.mkdirp _ _ => true
  | Effect.writeFile _ _ _ => true
  | Effect.unlink _ => true
  | _ => false

/-- What an upload did to the `Resource` collection, as read off its outcome:
nothing, and no resource in the answer; or one resource saved as the last
effect, which is a new video resource, a new resource for a key that had none,
or the resource of the key with the same id and the same key. -/
inductive CatalogStep (w : World) (req : ResourceUpload) (out : Outcome ResourceResponse) : Prop
  | unchanged (hnone : out.response.resource = none)
      (hfree : ∀ e ∈ out.effects, e.onResources = false)
  | video (doc : Resource) (before : List Effect)
      (hdoc : out.response.resource = some doc)
      (heffects : out.effects = before ++ [Effect.saveResource doc])
      (hfree : ∀ e ∈ before, e.onResources = false)
      (hid : doc.id = req.newId)
      (htype : doc.resourceType = "videoMaterials".toList)
  | created (doc : Resource) (before : List Effect)
      (hdoc : out.response.resource = some doc)
      (heffects : out.effects = before ++ [Effect.saveResource doc])
      (hfree : ∀ e ∈ before, e.onResources = false)
      (hid : doc.id = req.newId)
      (hkey : resourcesOfKey w.resources doc.semester doc.subject doc.resourceType = [])
  | updated (doc existing : Resource) (before : List Effect)
      (hdoc : out.response.resource = some doc)
      (heffects : out.effects = before ++ [Effect.saveResource doc])
      (hfree : ∀ e ∈ before, e.onResources = false)
      (hmem : existing ∈ w.resources)
      (hid : doc.id = existing.id)
      (hsemester : doc.semester = existing.semester)
      (hsubject : doc.subject = existing.subject)
      (htype : doc.resourceType = existing.resourceType)

/-- The invariant of the `Resource` collection: at most one notes or books
record per key, and no two records with the same id. -/
def ResourcesOk (resources : List Resource) : Prop :=
  AtMostOnePerKey resources ∧ (resources.map Resource.id).Nodup

/-- The record of the key (3, Data Structures, notes) after `notesFirst` and
`notesSecond` through `index.js`. -/
def notesSecondRecord : Resource where
  id := 0x74b7f0c2a1d3e4f5a6b7c8d1
  semester := "3".toList
  resourceType := "notes".toList
  subject := "Data Structures".toList
  fileUrl := some "/uploads/semester3/notes/Data_Structures_1700000005000-987654321.pdf".toList
  fileName := some "ds-notes-v2.pdf".toList
  channel := none
  topics := []
  updatedAt := 1700000005002

/-- The record of the key (3, Data Structures, notes) after `notesFirst`
through `index.js`. -/
def notesFirstRecord : Resource where
  id := 0x74b7f0c2a1d3e4f5a6b7c8d1
  semester := "3".toList
  resourceType := "notes".toList
  subject := "Data Structures".toList
  fileUrl := some "/uploads/semester3/notes/Data_Structures_1700000000000-123456789.pdf".toList
  fileName := some "ds-notes.pdf".toList
  channel := none
  topics := []
  updatedAt := 1700000000002

/-- A file system whose directory `uploads/question-papers/2023/3` holds one
file, of another subject. -/
def fsOtherSubject : FS :=
  FS.ofList (baseEntries ++
    [(["app".toList, "uploads".toList, "question-papers".toList, "2023".toList, "3".toList],
        Node.dir),
     (["app".toList, "uploads".toList, "question-papers".toList, "2023".toList, "3".toList,
        "Physics_Final_1700000000500.pdf".toList], Node.file [37, 80, 68, 70])])

/-- Whether an effect acts on the `QuestionPaper` collection. -/
def Effect.onPapers : Effect → Bool
  | Effect.savePaper _ => true
  | _ => false

/-- The invariant of the `QuestionPaper` collection: no two records with the
same (year, semester, subject, examType), and no two records with the same
id. -/
def PapersOk (papers : List QuestionPaper) : Prop :=
  (papers.map QuestionPaper.key).Nodup ∧ (papers.map QuestionPaper.id).Nodup

/-- A prefix of a path that ends a directory part: empty, or ending in a
separator. -/
def EndsDir (y : Str) : Prop := y = [] ∨ y.getLast? = some '/'

/-! ## `routes/question-paper-routes.js`: bulk normalize -/

/-- An entry of the `results` of `GET /fix-paths`. -/
inductive NormalizeEntry where
  /-- The entry `{ id, original, fixed, status: 'fixed' }`. -/
  | fixed (id : ObjId) (original fixed : Str)
  /-- The entry `{ id, path, status: 'unchanged' }`. -/
  | unchanged (id : ObjId) (path : Str)
  deriving DecidableEq, Repr

/-- Whether the `status` of an entry is `fixed`. -/
def NormalizeEntry.isFixed : NormalizeEntry → Bool
  | NormalizeEntry.fixed _ _ _ => true
  | NormalizeEntry.unchanged _ _ => false

/-- The responses of `GET /fix-paths`. -/
inductive NormalizeResponse where
  /-- Status 200, `Path fixing complete`, with `total`, `fixed`, `unchanged` and
  `results`. -/
  | complete (total fixed unchanged : Nat) (results : List NormalizeEntry)
  /-- Status 500, `Failed to fix paths`. -/
  | failed
  deriving DecidableEq, Repr

/-- The record `GET /fix-paths` saves for a record whose path starts with a
slash: the path without its first character. -/
def strippedPaper (paper : QuestionPaper) : QuestionPaper :=
  { paper with filePath := substring paper.filePath 1 }

/-- One round of the loop of `GET /fix-paths`: the entry it pushes and its
effects; `none` when `paper.save()` rejects, which leaves the loop. -/
def normalizePaper (paper : QuestionPaper) : Option (NormalizeEntry × List Effect) :=
  if startsWith paper.filePath ['/'] then
    if (strippedPaper paper).valid then
      some (NormalizeEntry.fixed paper.id paper.filePath (substring paper.filePath 1),
        [Effect.savePaper (strippedPaper paper)])
    else none
  else some (NormalizeEntry.unchanged paper.id paper.filePath, [])

/-- The loop of `GET /fix-paths` over the records that `find()` returned: the
entries pushed (`none` when an exception left the loop) and the effects
performed. -/
def normalizeLoop : List QuestionPaper → Option (List NormalizeEntry) × List Effect
  | [] => (some [], [])
  | paper :: rest =>
    match normalizePaper paper with
    | none => (none, [])
    | some (entry, effects) =>
      ((normalizeLoop rest).1.map fun results => entry :: results,
        effects ++ (normalizeLoop rest).2)

/-- The handler `router.get('/fix-paths')`. -/
def normalizePaths (w : World) : Outcome NormalizeResponse :=
  match normalizeLoop w.papers with
  | (some results, effects) =>
    ⟨NormalizeResponse.complete w.papers.length (results.filter fun r => r.isFixed).length
      (results.filter fun r => !r.isFixed).length results, effects⟩
  | (none, effects) => ⟨NormalizeResponse.failed, effects⟩

/-- A record whose stored path is a single slash. -/
def paperRoot : QuestionPaper := { paperOther with filePath := ['/'] }

/-- A catalog of two records, the second with the path `/`. -/
def worldRoot : World := ⟨[paperSlash, paperRoot], [], [], fsNoSemester⟩

/-! ## `routes/question-paper-routes.js`: diagnose -/

/-- One argument of `path.resolve`, taken from the right: it is put in front of
the path so far unless that is absolute already or the argument is empty. -/
def resolveStep (acc : Str × Bool) (p : Str) : Str × Bool :=
  if acc.2 ∨ p = [] then acc else (p ++ '/' :: acc.1, isAbsolute p)

/-- `path.resolve(...args)`: the arguments from the last to the first, then the
working directory, until the path is absolute; the result is normalized and
has no trailing separator. -/
def resolve (cwd : Str) (args : List Str) : Str :=
  let r := (args.reverse ++ [cwd]).foldl resolveStep ([], false)
  let q := normalizeString r.1 (!r.2)
  if r.2 then '/' :: q else if q ≠ [] then q else ['.']

/-- The rewrite `s.replace(/^uploads[\/\\]?/, '')`: a leading `uploads` is
removed, with the separator after it if there is one. -/
def stripUploads (s : Str) : Str :=
  if startsWith s "uploads".toList then
    match s.drop 7 with
    | c :: rest => if c = '/' ∨ c = '\\' then rest else c :: rest
    | [] => []
  else s

/-- `s.replace(pattern, '')` for a string pattern: the first occurrence of the
pattern is removed. -/
def removeFirst (pattern : Str) : Str → Str
  | [] => []
  | c :: cs =>
    if pattern.isPrefixOf (c :: cs) then (c :: cs).drop pattern.length
    else c :: removeFirst pattern cs

/-- The `pathCandidates` of the diagnosis of a record: the stored path resolved
from the working directory, resolved as it is, resolved under `uploads` without
a leading `uploads`, and, when it starts with a slash, resolved from the
working directory without that slash; `filter(Boolean)` drops `null` and the
empty string. -/
def pathCandidates (proc : Proc) (paper : QuestionPaper) : List Str :=
  ([some (resolve proc.cwd [proc.cwd, paper.filePath]),
    some (resolve proc.cwd [paper.filePath]),
    some (resolve proc.cwd [proc.cwd, "uploads".toList, stripUploads paper.filePath]),
    if startsWith paper.filePath ['/'] then
      some (resolve proc.cwd [proc.cwd, substring paper.filePath 1])
    else none].filterMap id).filter fun candidate => candidate ≠ []

/-- The test of `walkDir` on the name of a file: it contains the stored file
name up to its first dot, or the sanitized subject. -/
def walkMatches (paper : QuestionPaper) (file : Str) : Bool :=
  includes file ((splitChar '.' paper.fileName).headD []) ||
    includes file (sanitize paper.subject)

/-- The loop of `walkDir` over the names of a directory; `walk` is the nested
call, `found` the value of `foundPath`. The result is the value of `foundPath`
afterwards and whether an exception left the loop (`statSync` throws on a name
that is not there). A match sets `foundPath` and leaves this loop only. -/
def walkFiles (fs : FS) (cwd : Str) (paper : QuestionPaper) (walk : Str → Str → Str × Bool)
    (dir : Str) : List Str → Str → Str × Bool
  | [], found => (found, false)
  | file :: rest, found =>
    match fs.node (locOf cwd (join [dir, file])) with
    | none => (found, true)
    | some Node.dir =>
      if (walk (join [dir, file]) found).2 then walk (join [dir, file]) found
      else walkFiles fs cwd paper walk dir rest (walk (join [dir, file]) found).1
    | some (Node.file _) =>
      if walkMatches paper file then (join [dir, file], false)
      else walkFiles fs cwd paper walk dir rest found

/-- The function `walkDir(dir)` of the diagnosis; `depth` is the number of
nested calls the call stack allows, beyond which the call throws, as
`readdirSync` does on what is not a directory. -/
def walkDir (fs : FS) (cwd : Str) (paper : QuestionPaper) : Nat → Str → Str → Str × Bool
  | 0, _, found => (found, true)
  | depth + 1, dir, found =>
    match readdirSync fs cwd dir with
    | none => (found, true)
    | some files => walkFiles fs cwd paper (walkDir fs cwd paper depth) dir files found

/-- The `possibleFix` of a record none of whose candidates exists: the path the
walk of `uploads/question-papers` left in `foundPath`, with slashes for
backslashes and without the working directory; the exception of a walk is
caught and logged. -/
def possibleFix (proc : Proc) (depth : Nat) (fs : FS) (paper : QuestionPaper) : Str :=
  let questionPapersDir := resolve proc.cwd [proc.cwd, "uploads".toList, "question-papers".toList]
  if existsSync fs proc.cwd questionPapersDir then
    let foundPath := (walkDir fs proc.cwd paper depth questionPapersDir []).1
    if foundPath ≠ [] then
      removeFirst (backslashToSlash proc.cwd) (backslashToSlash foundPath)
    else []
  else []

/-- An entry of the `details` of `GET /diagnose-paths`. -/
structure Diagnosis where
  id : ObjId
  fileName : Str
  storedPath : Str
  «exists» : Bool
  resolvedPath : Str
  possibleFix : Str
  deriving DecidableEq, Repr

/-- The diagnosis of a record: the first candidate that exists, or else the
possible fix. -/
def diagnose (proc : Proc) (depth : Nat) (fs : FS) (paper : QuestionPaper) : Diagnosis :=
  match (pathCandidates proc paper).find? (existsSync fs proc.cwd) with
  | some candidate => ⟨paper.id, paper.fileName, paper.filePath, true, candidate, []⟩
  | none =>
    ⟨paper.id, paper.fileName, paper.filePath, false, [], possibleFix proc depth fs paper⟩

/-- The body of the response of `GET /diagnose-paths`. -/
structure DiagnoseReport where
  totalPapers : Nat
  workingPaths : Nat
  brokenPaths : Nat
  details : List Diagnosis
  deriving DecidableEq, Repr

/-- The handler `router.get('/diagnose-paths')`. -/
def diagnosePaths (proc : Proc) (depth : Nat) (w : World) : Outcome DiagnoseReport :=
  ⟨⟨w.papers.length,
      ((w.papers.map (diagnose proc depth w.fs)).filter fun r => r.«exists»).length,
      ((w.papers.map (diagnose proc depth w.fs)).filter fun r => !r.«exists»).length,
      w.papers.map (diagnose proc depth w.fs)⟩, []⟩

/-- Reference walk, following the specification: the first file met in the
depth-first walk, in the order of the listings, whose name matches; `none`
when no file matches. -/
def firstMatchIn (fs : FS) (cwd : Str) (paper : QuestionPaper) (first : Str → Option Str)
    (dir : Str) : List Str → Option Str
  | [] => none
  | file :: rest =>
    match fs.node (locOf cwd (join [dir, file])) with
    | some Node.dir =>
      match first (join [dir, file]) with
      | some hit => some hit
      | none => firstMatchIn fs cwd paper first dir rest
    | some (Node.file _) =>
      if walkMatches paper file then some (join [dir, file])
      else firstMatchIn fs cwd paper first dir rest
    | none => firstMatchIn fs cwd paper first dir rest

/-- Reference walk of a directory, to the given depth. -/
def firstMatchSpec (fs : FS) (cwd : Str) (paper : QuestionPaper) : Nat → Str → Option Str
  | 0, _ => none
  | depth + 1, dir =>
    match readdirSync fs cwd dir with
    | none => none
    | some files => firstMatchIn fs cwd paper (firstMatchSpec fs cwd paper depth) dir files

/-- A file system with a paper of Maths in the directories of two years. -/
def fsTwoYears : FS :=
  FS.ofList (baseEntries ++
    [(["app".toList, "uploads".toList, "question-papers".toList, "2023".toList, "3".toList],
        Node.dir),
     (["app".toList, "uploads".toList, "question-papers".toList, "2023".toList, "3".toList,
        "Maths_Midterm_1700000000000.pdf".toList], Node.file [37, 80, 68, 70]),
     (["app".toList, "uploads".toList, "question-papers".toList, "2024".toList], Node.dir),
     (["app".toList, "uploads".toList, "question-papers".toList, "2024".toList, "3".toList],
        Node.dir),
     (["app".toList, "uploads".toList, "question-papers".toList, "2024".toList, "3".toList,
        "Maths_Midterm_1710000000000.pdf".toList], Node.file [37, 80, 68, 70, 2])])

/-- A catalog with the record `paperStale` over `fsTwoYears`. -/
def worldTwoYears : World := ⟨[paperStale], [], [], fsTwoYears⟩

/-! ## Resources: the other admin operations -/

/-- The `topics` of a JSON body: a string or an array of strings. -/
inductive Topics where
  | text (s : Str)
  | list (items : List Str)
  deriving DecidableEq, Repr

/-- Whether `topics` is truthy: every array is, and every string but the empty
one. -/
def Topics.truthy : Topics → Bool
  | Topics.text s => s ≠ []
  | Topics.list _ => true

/-- The topics stored: `Array.isArray(topics) ? topics :
topics.split(',').map(t => t.trim())`. -/
def Topics.items : Topics → List Str
  | Topics.text s => (splitChar ',' s).map trim
  | Topics.list items => items

/-- The inputs of `POST /video` of `routes/resources.js`: the role of the
caller as established by `authenticateUser` (`none` when authentication
fails), the fields of the body, the date of the save and the id given to a new
resource. -/
structure VideoUpload where
  user : Option Str
  semester : Option Str
  subject : Option Str
  channel : Option Str
  topics : Option Topics
  date : Nat
  newId : ObjId

/-- Whether a resource satisfies the filter `{ semester, resourceType:
'videoMaterials', subject, channel }`; the client applies the `trim` of the
schema to the subject and the channel of the filter. -/
def matchesChannel (semester subject channel : Str) (r : Resource) : Bool :=
  r.semester = semester && r.resourceType = "videoMaterials".toList && r.subject = trim subject &&
    r.channel = some (trim channel)

/-- The route `router.post("/video", checkAdmin, ...)` of `routes/resources.js`,
mounted behind `authenticateUser`. -/
def addVideo (w : World) (req : VideoUpload) : Outcome ResourceResponse :=
  match req.user with
  | none => ⟨ResourceResponse.unauthorized, []⟩
  | some role =>
    if role ≠ "admin".toList then ⟨ResourceResponse.forbidden, []⟩
    else
      match req.semester, req.subject, req.channel, req.topics with
      | some semester, some subject, some channel, some topics =>
        if semester = [] ∨ subject = [] ∨ channel = [] ∨ topics.truthy = false then
          ⟨ResourceResponse.badRequest, []⟩
        else if !w.subjects.any (matchesSubject semester subject) then
          ⟨ResourceResponse.notFound, []⟩
        else if w.resources.any (matchesChannel semester subject channel) then
          ⟨ResourceResponse.badRequest, []⟩
        else
          let resource : Resource :=
            { id := req.newId
              semester := semester
              resourceType := "videoMaterials".toList
              subject := trim subject
              fileUrl := none
              fileName := none
              channel := some (trim channel)
              topics := topics.items
              updatedAt := req.date }
          if resource.valid then
            ⟨ResourceResponse.created resource, [Effect.saveResource resource]⟩
          else ⟨ResourceResponse.failed, []⟩
      | _, _, _, _ => ⟨ResourceResponse.badRequest, []⟩

/-- The inputs of the delete operations on subjects and resources: the role of
the caller as established by `authenticateUser` (`none` when authentication
fails) and the fields of the body or of the route; `subject` is the field
`name` of the operations on subjects. -/
structure ResourceDelete where
  user : Option Str
  semester : Option Str
  subject : Option Str
  resourceType : Option Str
  channel : Option Str

/-- The responses of the delete operations. -/
inductive DeleteResponse where
  /-- Status 401, from `authenticateUser`. -/
  | unauthorized
  /-- Status 403. -/
  | forbidden
  /-- Status 400. -/
  | badRequest
  /-- Status 404, `Resource not found`. -/
  | notFound
  /-- Status 200. -/
  | deleted
  /-- Status 500. -/
  | failed
  deriving DecidableEq, Repr

/-- Whether a stored value satisfies a field of a filter. A field the request
lacks is `undefined` in the filter, which the store reads as `null`: no stored
value satisfies it, the fields of the filters being required by the
schemas. -/
def fieldIs (field : Option Str) (value : Str) : Bool := field = some value

/-- Whether a subject satisfies the filter `{ semester, name }` of a delete. -/
def subjectIs (semester name : Option Str) (s : Subject) : Bool :=
  fieldIs semester s.semester && fieldIs (name.map trim) s.name

/-- Whether a resource satisfies the filter `{ semester, subject: name }` of a
delete. -/
def resourceOfSubject (semester name : Option Str) (r : Resource) : Bool :=
  fieldIs semester r.semester && fieldIs (name.map trim) r.subject

/-- Whether a resource satisfies the filter `{ semester, subject,
resourceType }` of a delete. -/
def resourceIs (semester subject resourceType : Option Str) (r : Resource) : Bool :=
  fieldIs semester r.semester && fieldIs (subject.map trim) r.subject &&
    fieldIs resourceType r.resourceType

/-- The deletion of a subject and of its resources: the first subject of the
filter, then every resource of the subject. -/
def cascade (w : World) (semester name : Option Str) : List Effect :=
  (match w.subjects.find? (subjectIs semester name) with
    | some s => [Effect.removeSubject s.id]
    | none => []) ++
  (w.resources.filter (resourceOfSubject semester name)).map fun r => Effect.removeResource r.id

/-- The route `app.delete("/api/subjects", authenticateUser, ...)` of
`index.js`. -/
def deleteSubject (w : World) (req : ResourceDelete) : Outcome DeleteResponse :=
  match req.user with
  | none => ⟨DeleteResponse.unauthorized, []⟩
  | some role =>
    if role ≠ "admin".toList then ⟨DeleteResponse.forbidden, []⟩
    else ⟨DeleteResponse.deleted, cascade w req.semester req.subject⟩

/-- The route `router.delete("/subjects/:semester/:name", checkAdmin, ...)` of
`routes/resources.js`, mounted behind `authenticateUser`. -/
def deleteSubjectRoute (w : World) (req : ResourceDelete) : Outcome DeleteResponse :=
  match req.user with
  | none => ⟨DeleteResponse.unauthorized, []⟩
  | some role =>
    if role = "admin".toList then ⟨DeleteResponse.deleted, cascade w req.semester req.subject⟩
    else ⟨DeleteResponse.forbidden, []⟩

/-- The route `app.delete("/api/resources/delete", authenticateUser, ...)` of
`index.js`: the file of notes or books is unlinked, if it is there, before the
record is deleted; `unlinkSync` throws on a directory. -/
def deleteResource (proc : Proc) (w : World) (req : ResourceDelete) : Outcome DeleteResponse :=
  match req.user with
  | none => ⟨DeleteResponse.unauthorized, []⟩
  | some role =>
    if role ≠ "admin".toList then ⟨DeleteResponse.forbidden, []⟩
    else
      match w.resources.find? (resourceIs req.semester req.subject req.resourceType) with
      | none => ⟨DeleteResponse.notFound, []⟩
      | some resource =>
        if (req.resourceType = some "notes".toList ∨ req.resourceType = some "books".toList) ∧
            present resource.fileUrl ∧
            existsSync w.fs proc.cwd (join [proc.dirname, resource.fileUrl.getD []]) then
          match w.fs.node (locOf proc.cwd (join [proc.dirname, resource.fileUrl.getD []])) with
          | some (Node.file _) =>
            ⟨DeleteResponse.deleted,
              [Effect.unlink (locOf proc.cwd (join [proc.dirname, resource.fileUrl.getD []])),
                Effect.removeResource resource.id]⟩
          | _ => ⟨DeleteResponse.failed, []⟩
        else ⟨DeleteResponse.deleted, [Effect.removeResource resource.id]⟩

/-- The route `router.delete("/video/:semester/:subject/:channel", checkAdmin,
...)` of `routes/resources.js`, mounted behind `authenticateUser`. -/
def deleteVideoRoute (w : World) (req : ResourceDelete) : Outcome DeleteResponse :=
  match req.user with
  | none => ⟨DeleteResponse.unauthorized, []⟩
  | some role =>
    if role = "admin".toList then
      ⟨DeleteResponse.deleted,
        match w.resources.find? (fun r =>
            fieldIs req.semester r.semester && r.resourceType = "videoMaterials".toList &&
              fieldIs (req.subject.map trim) r.subject && r.channel = req.channel.map trim) with
        | some r => [Effect.removeResource r.id]
        | none => []⟩
    else ⟨DeleteResponse.forbidden, []⟩

/-- The route `router.delete("/file/:semester/:resourceType/:subject",
checkAdmin, ...)` of `routes/resources.js`, mounted behind `authenticateUser`:
the record is deleted first; then the file of a local `fileUrl` is unlinked
inside a `try` whose `catch` goes on; a record without `fileUrl` makes
`resource.fileUrl.startsWith` throw. -/
def deleteFileRoute (proc : Proc) (w : World) (req : ResourceDelete) : Outcome DeleteResponse :=
  match req.user with
  | none => ⟨DeleteResponse.unauthorized, []⟩
  | some role =>
    if role = "admin".toList then
      if req.resourceType = some "notes".toList ∨ req.resourceType = some "books".toList then
        match w.resources.find? (resourceIs req.semester req.subject req.resourceType) with
        | none => ⟨DeleteResponse.notFound, []⟩
        | some resource =>
          match resource.fileUrl with
          | none => ⟨DeleteResponse.failed, [Effect.removeResource resource.id]⟩
          | some url =>
            if startsWith url "/uploads/".toList then
              match w.fs.node (locOf proc.cwd (join [proc.cwd, url])) with
              | some (Node.file _) =>
                ⟨DeleteResponse.deleted,
                  [Effect.removeResource resource.id,
                    Effect.unlink (locOf proc.cwd (join [proc.cwd, url]))]⟩
              | _ => ⟨DeleteResponse.deleted, [Effect.removeResource resource.id]⟩
            else ⟨DeleteResponse.deleted, [Effect.removeResource resource.id]⟩
      else ⟨DeleteResponse.badRequest, []⟩
    else ⟨DeleteResponse.forbidden, []⟩

/-! ## The question-paper routes as mounted -/

/-- The route `POST /question-papers/upload` as `index.js` mounts it,
`app.use("/question-papers", questionPaperRouter)`: no middleware stands before
the router and the handler does not look at the caller. -/
def questionPapersUpload (lib : Lib) (proc : Proc) (w : World) (_user : Option Str)
    (req : PaperUpload) : Outcome UploadResponse :=
  uploadPaper lib proc w req

/-- The route `POST /question-papers/fix-paths` as `index.js` mounts it. -/
def questionPapersFixPaths (lib : Lib) (w : World) (_user : Option Str)
    (fixes : Option (List FixElement)) : Outcome FixResponse :=
  fixPaths lib w fixes

/-- The route `GET /question-papers/fix-paths` as `index.js` mounts it. -/
def questionPapersNormalize (w : World) (_user : Option Str) : Outcome NormalizeResponse :=
  normalizePaths w

/-- The upload `notesFirst` sent by a student. -/
def notesStudent : ResourceUpload := { notesFirst with user := some "student".toList }

/-- A video channel for the subject Data Structures of semester 3, sent by a
student. -/
def videoStudent : VideoUpload where
  user := some "student".toList
  semester := some "3".toList
  subject := some "Data Structures".toList
  channel := some "Lectures".toList
  topics := some (Topics.text "lists, trees".toList)
  date := 1700000006000
  newId := 0x74b7f0c2a1d3e4f5a6b7c8d6

/-- The deletion of the notes of the subject Data Structures of semester 3,
sent by a student. -/
def deleteStudent : ResourceDelete where
  user := some "student".toList
  semester := some "3".toList
  subject := some "Data Structures".toList
  resourceType := some "notes".toList
  channel := none

/-- The same deletion sent by an admin. -/
def deleteAdmin : ResourceDelete := { deleteStudent with user := some "admin".toList }

/-- A record whose stored path starts with two slashes. -/
def paperDouble : QuestionPaper := { paperSlash with filePath := '/' :: paperSlash.filePath }

/-- A catalog with the record `paperDouble`. -/
def worldDouble : World := ⟨[paperDouble], [], [], fsNoSemester⟩

/-- The upload `notesFirst` with a Word document in place of the PDF. -/
def notesDocx : ResourceUpload :=
  { notesFirst with
    file := some ⟨"ds-notes.docx".toList,
      "application/vnd.openxmlformats-officedocument.wordprocessingml.document".toList,
      [80, 75, 3, 4]⟩ }

/-- The upload `notesFirst` without its file part. -/
def notesNoFile : ResourceUpload := { notesFirst with file := none }

/-- An upload of a video channel for the subject Data Structures of semester
3, through `index.js`. -/
def videoFirst : ResourceUpload :=
  { notesFirst with
    resourceType := some "videoMaterials".toList
    channel := some "Lectures".toList
    topics := some "lists, trees".toList
    file := none }

/-- A second upload of the same channel. -/
def videoSecond : ResourceUpload :=
  { videoFirst with
    date := 1700000005002
    newId := 0x74b7f0c2a1d3e4f5a6b7c8d3
    newSubjectId := 0x74b7f0c2a1d3e4f5a6b7c8d4 }

/-- The upload `videoFirst` without the field `channel`. -/
def videoNoChannel : ResourceUpload := { videoFirst with channel := none }

/-- The state after `videoFirst` through `index.js`. -/
def worldVideoFirst : World := worldBare.run (uploadResource appProc worldBare videoFirst).effects

/-- The key of a video channel: semester, subject and channel. -/
def Resource.channelKey (r : Resource) : Str × Str × Option Str :=
  (r.semester, r.subject, r.channel)

/-- No two records of video materials have the same semester, subject and
channel. -/
def ChannelsDistinct (resources : List Resource) : Prop :=
  ((resources.filter fun r => r.resourceType = "videoMaterials".toList).map
    Resource.channelKey).Nodup

/-- The upload `notesFirst` with a space after the name of the file. -/
def notesSpace : ResourceUpload :=
  { notesFirst with
    file := some ⟨"ds-notes.pdf ".toList, "application/pdf".toList, [37, 80, 68, 70, 1]⟩ }

/-! ## The listing of the resources of a semester -/

/-- The property names an object literal inherits from `Object.prototype`. -/
def inheritedNames : List Str :=
  ["constructor", "__defineGetter__", "__defineSetter__", "hasOwnProperty", "__lookupGetter__",
    "__lookupSetter__", "isPrototypeOf", "propertyIsEnumerable", "toString", "valueOf",
    "__proto__", "toLocaleString"].map String.toList

/-- The name whose assignment on an object literal sets the prototype instead
of a property. -/
def protoName : Str := "__proto__".toList

/-- The own property of an object, the object being the list of its own
properties. -/
def own {α : Type} (o : List (Str × α)) (k : Str) : Option α :=
  (o.find? fun e => e.1 = k).map Prod.snd

/-- The assignment `o[k] = v` for a name other than `__proto__`: the own
property is replaced, or added after the others. -/
def assign {α : Type} (k : Str) (v : α) (o : List (Str × α)) : List (Str × α) :=
  if o.any (fun e => e.1 = k) then o.map (fun e => if e.1 = k then (k, v) else e)
  else o ++ [(k, v)]

/-- The order of `.sort({ name: 1 })`: the strings compared by code point. -/
def strLe : Str → Str → Bool
  | [], _ => true
  | _ :: _, [] => false
  | a :: s, b :: t => decide (a.toNat < b.toNat) || (decide (a = b) && strLe s t)

/-- The place of a name in a sorted list of names. -/
def insertByName (x : Str) : List Str → List Str
  | [] => [x]
  | y :: rest => if strLe x y then x :: y :: rest else y :: insertByName x rest

/-- The names in the order of `.sort({ name: 1 })`. -/
def sortNames (l : List Str) : List Str := l.foldr insertByName []

/-- An item of the video materials of a subject. -/
structure VideoItem where
  channel : Option Str
  topics : List Str
  deriving DecidableEq, Repr

/-- The body `result` of `app.get("/resources/:semester")`: the names of the
subjects and, for each resource type, the object with its own properties in
the order of their creation. A value of `notes` or `books` is the `fileUrl` of
a record, `none` when the record has none (`JSON.stringify` leaves such a
property out). -/
structure ResourceListing where
  subjects : List Str
  videoMaterials : List (Str × List VideoItem)
  notes : List (Str × Option Str)
  books : List (Str × Option Str)
  deriving DecidableEq, Repr

/-- The responses of `app.get("/resources/:semester")`. -/
inductive FetchResponse where
  /-- Status 200 with the listing. -/
  | listing (l : ResourceListing)
  /-- Status 500, from the `catch`. -/
  | failed
  deriving DecidableEq, Repr

/-- The step of `subjects.forEach` in `app.get("/resources/:semester")`. -/
def initSubject (l : ResourceListing) (name : Str) : ResourceListing :=
  { l with
    videoMaterials := assign name [] l.videoMaterials
    notes := assign name (some []) l.notes
    books := assign name (some []) l.books }

/-- The listing after `subjects.forEach`. -/
def initSubjects (names : List Str) : ResourceListing :=
  names.foldl initSubject ⟨names, [], [], []⟩

/-- The step of the `forEach` over the video materials: the item is pushed on
the array of its subject, which is created when `result.videoMaterials` has no
truthy value under the name. Under a name that is inherited and not an own
property the value is no array and `push` throws: `none`. -/
def pushVideo (vm : List (Str × List VideoItem)) (video : Resource) :
    Option (List (Str × List VideoItem)) :=
  match own vm video.subject with
  | some items => some (assign video.subject (items ++ [⟨video.channel, video.topics⟩]) vm)
  | none =>
    if video.subject ∈ inheritedNames then none
    else some (assign video.subject [⟨video.channel, video.topics⟩] vm)

/-- The `forEach` over the video materials, `none` when a step throws. -/
def pushVideos : List (Str × List VideoItem) → List Resource →
    Option (List (Str × List VideoItem))
  | vm, [] => some vm
  | vm, video :: rest =>
    match pushVideo vm video with
    | none => none
    | some next => pushVideos next rest

/-- The step of the `forEach` over the notes or the books:
`result[type][resource.subject] = resource.fileUrl`. Under the name
`__proto__` the assignment of a string or of `undefined` changes nothing. -/
def setFile (o : List (Str × Option Str)) (r : Resource) : List (Str × Option Str) :=
  if r.subject = protoName then o else assign r.subject r.fileUrl o

/-- The route `app.get("/resources/:semester")` of `index.js` (the first of
the two handlers registered for the path, which answers every request). The
result is `none` when a subject of the semester has the name `__proto__`: the
`forEach` then replaces the prototype of `result.videoMaterials`, and what the
handler answers is outside this model. -/
def fetchResources (w : World) (semester : Str) : Option FetchResponse :=
  let subjects := sortNames ((w.subjects.filter fun s => s.semester = semester).map Subject.name)
  let resources := w.resources.filter fun r => r.semester = semester
  if protoName ∈ subjects then none
  else
    match pushVideos (initSubjects subjects).videoMaterials
        (resources.filter fun r => r.resourceType = "videoMaterials".toList) with
    | none => some FetchResponse.failed
    | some vm =>
      some (FetchResponse.listing
        { subjects := subjects
          videoMaterials := vm
          notes := (resources.filter fun r => r.resourceType = "notes".toList).foldl setFile
            (initSubjects subjects).notes
          books := (resources.filter fun r => r.resourceType = "books".toList).foldl setFile
            (initSubjects subjects).books })

/-- The deletion of the subject Data Structures of semester 3 by an admin, the
name sent with a space before it. -/
def deleteSpaced : ResourceDelete := { deleteAdmin with subject := some " Data Structures".toList }

/-! ## The listing of the question papers -/

/-- The entry of a question paper in the listing. -/
structure PaperInfo where
  id : ObjId
  filePath : Str
  fileName : Str
  deriving DecidableEq, Repr

/-- The object of a semester in the listing: subject, then exam type. -/
abbrev SemesterPapers : Type := List (Str × List (Str × PaperInfo))

/-- Equality of the objects of a semester is decidable. -/
instance decEqSemesterPapers : DecidableEq SemesterPapers := inferInstance

/-- The object `formattedData` of `router.get('/')`: year, semester, subject
and exam type, each object being the list of its own properties in the order
of their creation. The key of a semester is the decimal numeral of the
number. -/
abbrev PaperListing : Type := List (Str × List (Str × SemesterPapers))

/-- The entry of a record. -/
def QuestionPaper.info (p : QuestionPaper) : PaperInfo := ⟨p.id, p.filePath, p.fileName⟩

/-- The order of `.sort({ year: -1, semester: 1, subject: 1 })`: whether the
record `a` may stand before the record `b`. -/
def paperLe (a b : QuestionPaper) : Bool :=
  if a.year ≠ b.year then strLe b.year a.year
  else if a.semester ≠ b.semester then decide (a.semester ≤ b.semester)
  else strLe a.subject b.subject

/-- The place of a record in a sorted list of records, before the records it
ties with. -/
def insertPaper (x : QuestionPaper) : List QuestionPaper → List QuestionPaper
  | [] => [x]
  | y :: rest => if paperLe x y then x :: y :: rest else y :: insertPaper x rest

/-- The records in the order of the sort; records that tie stay in the order
of the collection. -/
def sortPapers (l : List QuestionPaper) : List QuestionPaper := l.foldr insertPaper []

/-- The property names of a function that an assignment does not simply
create: `name`, `length` and `prototype` are read-only, `arguments` and
`caller` throw, `__proto__` sets the prototype. -/
def functionNames : List Str :=
  ["name", "length", "prototype", "arguments", "caller", "__proto__"].map String.toList

/-- The assignment `entries[examType] = info` on an object created by the
handler: under the name `__proto__` it sets the prototype of the object and
creates no property. -/
def setInfo (examType : Str) (info : PaperInfo) (entries : List (Str × PaperInfo)) :
    List (Str × PaperInfo) :=
  if examType = protoName then entries else assign examType info entries

/-- The step of `papers.forEach` in `router.get('/')`. An object is created
where the value under the key is not truthy, and every name of
`inheritedNames` that is not an own property has a truthy value:
  - under such a year the step writes on a function or on `Object.prototype`,
    objects of the process: the step is outside this model, `none`;
  - under such a subject other than `__proto__` the value is a function, and
    the entry is assigned on that function: the listing gets the objects of the
    year and of the semester only; for an exam type in `functionNames`, and for
    the subject `__proto__`, the step is outside this model, `none`. -/
def addPaper (t : PaperListing) (p : QuestionPaper) : Option PaperListing :=
  let semester := numToString p.semester
  if (own t p.year).isNone ∧ p.year ∈ inheritedNames then none
  else
    let years := (own t p.year).getD []
    let subjects := (own years semester).getD []
    match own subjects p.subject with
    | some entries =>
      some (assign p.year (assign semester
        (assign p.subject (setInfo p.examType p.info entries) subjects) years) t)
    | none =>
      if p.subject = protoName then none
      else if p.subject ∈ inheritedNames then
        if p.examType ∈ functionNames then none
        else some (assign p.year (assign semester subjects years) t)
      else
        some (assign p.year (assign semester
          (assign p.subject (setInfo p.examType p.info []) subjects) years) t)

/-- The loop `papers.forEach`, `none` when a step is outside the model. -/
def addPapers : PaperListing → List QuestionPaper → Option PaperListing
  | t, [] => some t
  | t, p :: rest =>
    match addPaper t p with
    | none => none
    | some next => addPapers next rest

/-- The route `router.get('/')` of `routes/question-paper-routes.js`: the
body of the response with status 200. -/
def listPapers (w : World) : Option PaperListing := addPapers [] (sortPapers w.papers)

/-- The entry of the listing at a year, a semester, a subject and an exam
type. -/
def PaperListing.entry (t : PaperListing) (year : Str) (semester : Int) (subject examType : Str) :
    Option PaperInfo :=
  (own t year).bind fun years => (own years (numToString semester)).bind fun subjects =>
    (own subjects subject).bind fun entries => own entries examType

/-- A record of the subject named `constructor`. -/
def paperConstructor : QuestionPaper := { paperOther with subject := "constructor".toList }

/-- A catalog with the record `paperSlash` and the record `paperConstructor`. -/
def worldConstructor : World := ⟨[paperSlash, paperConstructor], [], [], fsNoSemester⟩

/-- A file system with a paper of Maths in the directory of the year
`2023\24`, where the upload with that year stores it. -/
def fsBackslash : FS :=
  FS.ofList (baseEntries ++
    [(["app".toList, "uploads".toList, "question-papers".toList, "2023\\24".toList], Node.dir),
     (["app".toList, "uploads".toList, "question-papers".toList, "2023\\24".toList,
        "3".toList], Node.dir),
     (["app".toList, "uploads".toList, "question-papers".toList, "2023\\24".toList,
        "3".toList, "Maths_Midterm_1700000000000.pdf".toList], Node.file [37, 80, 68, 70])])

/-- The record of the upload with the year `2023\24`: the stored path has
slashes for the backslashes and names the directory `semester3`. -/
def paperBackslash : QuestionPaper :=
  { paperStale with
    year := "2023\\24".toList
    filePath :=
      "uploads/question-papers/2023/24/semester3/Maths_Midterm_1700000000000.pdf".toList
    uploadDate := 1700000000000 }

/-- A catalog with the record `paperBackslash` over `fsBackslash`. -/
def worldBackslash : World := ⟨[paperBackslash], [], [], fsBackslash⟩

/-- The fix that `GET /diagnose-paths` suggests for a record, as the element
`{ id, newPath: possibleFix }` of the array sent to `POST /fix-paths`. -/
def suggestedFix (proc : Proc) (depth : Nat) (fs : FS) (id : JVal) (paper : QuestionPaper) :
    FixElement :=
  FixElement.fields id (JVal.str (diagnose proc depth fs paper).possibleFix)

/-- Whether a string is a name as a directory lists it, and has no backslash:
it is not empty, has no separator and is neither `.` nor `..`. -/
def plainName (s : Str) : Bool :=
  decide (s ≠ [] ∧ '/' ∉ s ∧ s ≠ ['.'] ∧ s ≠ ['.', '.'] ∧ '\\' ∉ s)

/-! # Theorems -/

/-! ## Path lemmas -/

theorem normalize_ne_nil (p : Str) : normalize p ≠ [] := by
  simp only [normalize]
  split_ifs <;> simp_all

theorem join_ne_nil (args : List Str) : join args ≠ [] := by
  unfold join
  split
  · simp
  · exact normalize_ne_nil _

/-! ## The download resolver -/

theorem download_of_found (lib : Lib) (proc : Proc) (w : World) (id : Str) (paper : QuestionPaper)
    (hfind : findById lib w.papers (JVal.str id) = some (some paper)) :
    download lib proc w id = ⟨resolvePaper proc w.fs paper, []⟩ := by
  simp [download, hfind]

/-- C1 (as stated, refuted): the record `paperSlash` has a stored path with a
leading separator and its file exists at the working directory joined with the
stored path minus that separator, yet the resolver serves nothing: it answers
404. -/
theorem c1_stored_path_not_consulted :
    startsWith paperSlash.filePath ['/'] = true ∧
    existsSync fsSemesterName appProc.cwd
      (join [appProc.cwd, substring paperSlash.filePath 1]) = true ∧
    (download hexLib appProc ⟨[paperSlash], [], [], fsSemesterName⟩ paperSlashId).response.served
      = none ∧
    (download hexLib appProc ⟨[paperSlash], [], [], fsSemesterName⟩ paperSlashId).response.status
      = 404 := by
  decide

/-- C1 (amended): for a record whose stored path is a separator followed by
`rest`, if a file exists at `uploads/question-papers/<year>/<semester>/` joined
with the base name of `rest`, under the working directory, the resolver
succeeds in its first tier and serves that file under the record's file
name. -/
theorem c1_first_tier_serves_rebuilt_path (lib : Lib) (proc : Proc) (w : World) (id : Str)
    (paper : QuestionPaper) (rest : Str)
    (hfind : findById lib w.papers (JVal.str id) = some (some paper))
    (hpath : paper.filePath = '/' :: rest)
    (hexists : existsSync w.fs proc.cwd
      (join [proc.cwd, "uploads".toList, "question-papers".toList, paper.year,
        numToString paper.semester, basename rest]) = true) :
    (download lib proc w id).response =
      DownloadResponse.download
        (join [proc.cwd, "uploads".toList, "question-papers".toList, paper.year,
          numToString paper.semester, basename rest]) paper.fileName := by
  have hs : sanitizedPath paper = rest := by
    simp [sanitizedPath, hpath, startsWith, substring]
  rw [download_of_found lib proc w id paper hfind]
  simp only [resolvePaper, correctPath, hs, hexists, if_true]

/-- C1 (amended), at a concrete record: the stored path of `paperSlash` names
the directory `semester3`, the file lies in the directory `3`, and the first
tier serves it. -/
theorem c1_first_tier_serves_rebuilt_path_witness :
    (download hexLib appProc ⟨[paperSlash], [], [], fsSemesterNumber⟩ paperSlashId).response =
      DownloadResponse.download
        (join [appProc.cwd, "uploads".toList, "question-papers".toList, paperSlash.year,
          numToString paperSlash.semester,
          basename "uploads/question-papers/2023/semester3/Maths_Midterm_1700000000000.pdf".toList])
        paperSlash.fileName :=
  c1_first_tier_serves_rebuilt_path hexLib appProc ⟨[paperSlash], [], [], fsSemesterNumber⟩
    paperSlashId paperSlash
    "uploads/question-papers/2023/semester3/Maths_Midterm_1700000000000.pdf".toList
    (by decide) (by decide) (by decide)

/-- C2 (as stated, refuted): with `uploads/question-papers/2023/3` a regular
file, the canonical path of `paperSlash` does not exist and nothing listed
there contains both fragments, yet the resolver answers 500, not 404. -/
theorem c2_unlistable_directory_gives_500 :
    existsSync fsSemesterIsFile appProc.cwd (correctPath appProc paperSlash) = false ∧
    (∀ name ∈ fsSemesterIsFile.listing (locOf appProc.cwd (semesterDir appProc paperSlash)),
      isSimilar paperSlash name = false) ∧
    (download hexLib appProc ⟨[paperSlash], [], [], fsSemesterIsFile⟩ paperSlashId).response
      = DownloadResponse.failed ∧
    (download hexLib appProc ⟨[paperSlash], [], [], fsSemesterIsFile⟩ paperSlashId).response.status
      = 500 := by
  decide

/-- C2 (amended): for an existing record, when the canonical path does not
exist and the year/semester path is either absent or a directory whose listing
holds no name containing both sanitized fragments, the resolver answers 404
with the canonical path as the attempted path, which is not empty. -/
theorem c2_miss_is_not_found (lib : Lib) (proc : Proc) (w : World) (id : Str)
    (paper : QuestionPaper)
    (hfind : findById lib w.papers (JVal.str id) = some (some paper))
    (hcanonical : existsSync w.fs proc.cwd (correctPath proc paper) = false)
    (hdir : existsSync w.fs proc.cwd (semesterDir proc paper) = true →
      ∃ files, readdirSync w.fs proc.cwd (semesterDir proc paper) = some files ∧
        ∀ name ∈ files, isSimilar paper name = false) :
    (download lib proc w id).response =
      DownloadResponse.fileNotFound
        ⟨paper.year, paper.semester, paper.subject, paper.examType⟩ paper.filePath
        (correctPath proc paper) ∧
    (download lib proc w id).response.status = 404 ∧
    correctPath proc paper ≠ [] := by
  have hresp : resolvePaper proc w.fs paper =
      DownloadResponse.fileNotFound
        ⟨paper.year, paper.semester, paper.subject, paper.examType⟩ paper.filePath
        (correctPath proc paper) := by
    by_cases hex : existsSync w.fs proc.cwd (semesterDir proc paper) = true
    · obtain ⟨files, hread, hnone⟩ := hdir hex
      have hfindNone : files.find? (isSimilar paper) = none := by
        rw [List.find?_eq_none]
        intro x hx
        simp [hnone x hx]
      simp [resolvePaper, hcanonical, hex, hread, hfindNone]
    · simp [resolvePaper, hcanonical, hex]
  rw [download_of_found lib proc w id paper hfind]
  refine ⟨hresp, ?_, join_ne_nil _⟩
  simp only [hresp, DownloadResponse.status]

/-- C2 (amended), at a concrete state: the stored path of `paperStale` is
stale and the directory of its semester lists one file, of another subject. -/
theorem c2_miss_is_not_found_witness :
    (download hexLib appProc ⟨[paperStale], [], [], fsOtherSubject⟩ paperStaleId).response =
      DownloadResponse.fileNotFound
        ⟨paperStale.year, paperStale.semester, paperStale.subject, paperStale.examType⟩
        paperStale.filePath (correctPath appProc paperStale) ∧
    (download hexLib appProc ⟨[paperStale], [], [], fsOtherSubject⟩ paperStaleId).response.status
      = 404 ∧
    correctPath appProc paperStale ≠ [] :=
  c2_miss_is_not_found hexLib appProc ⟨[paperStale], [], [], fsOtherSubject⟩ paperStaleId
    paperStale (by decide) (by decide)
    (fun _ => ⟨["Physics_Final_1700000000500.pdf".toList], by decide, by decide⟩)

/-- C3 (as stated, refuted): with `uploads/question-papers/2023/3` a regular
file, the reference finds no directory and returns not-found, while the
resolver answers 500 `Failed to download question paper`. -/
theorem c3_resolver_differs_from_reference :
    resolveSpec appProc fsSemesterIsFile paperStale = none ∧
    resolvePaper appProc fsSemesterIsFile paperStale = DownloadResponse.failed ∧
    (download hexLib appProc ⟨[paperStale], [], [], fsSemesterIsFile⟩ paperStaleId).response
      ≠ DownloadResponse.fileNotFound
          ⟨paperStale.year, paperStale.semester, paperStale.subject, paperStale.examType⟩
          paperStale.filePath (correctPath appProc paperStale) := by
  decide

/-- The reference resolver in the terms of the handler. -/
theorem resolveSpec_eq (proc : Proc) (fs : FS) (paper : QuestionPaper) :
    resolveSpec proc fs paper =
      if existsSync fs proc.cwd (correctPath proc paper) then some (correctPath proc paper)
      else
        match fs.node (locOf proc.cwd (semesterDir proc paper)) with
        | some Node.dir =>
          ((fs.listing (locOf proc.cwd (semesterDir proc paper))).find? fun name =>
            isFile fs proc.cwd (join [semesterDir proc paper, name]) && isSimilar paper name).map
            fun name => join [semesterDir proc paper, name]
        | _ => none := rfl

/-- The first element with a property is the first element with that property
and another, when it has the other. -/
theorem find_and_of_first {α : Type} (l : List α) (p q : α → Bool)
    (h : ∀ x, l.find? p = some x → q x = true) :
    l.find? (fun x => q x && p x) = l.find? p := by
  induction l with
  | nil => rfl
  | cons a t ih =>
    by_cases hp : p a = true
    · have hq : q a = true := h a (by simp [List.find?, hp])
      simp [List.find?, hp, hq]
    · have hp2 : p a = false := by simpa using hp
      have ht : ∀ x, t.find? p = some x → q x = true := by
        intro x hx
        apply h x
        simp only [List.find?, hp2]
        exact hx
      simp only [List.find?, hp2, Bool.and_false]
      exact ih ht

/-- The resolver serves a directory: with the sub-directory
`Maths_Midterm_old` listed before the file of the paper, `files.find` takes
the directory, whose name contains both fragments, and the handler calls
`res.download` on it, while the reference returns the file. -/
theorem download_takes_matching_directory :
    fsDirectoryFirst.listing (locOf appProc.cwd (semesterDir appProc paperStale)) =
      ["Maths_Midterm_old".toList, "Maths_Midterm_1700000000000.pdf".toList] ∧
    fsDirectoryFirst.node ["app".toList, "uploads".toList, "question-papers".toList,
      "2023".toList, "3".toList, "Maths_Midterm_old".toList] = some Node.dir ∧
    resolvePaper appProc fsDirectoryFirst paperStale =
      DownloadResponse.download "/app/uploads/question-papers/2023/3/Maths_Midterm_old".toList
        paperStale.fileName ∧
    resolveSpec appProc fsDirectoryFirst paperStale =
      some "/app/uploads/question-papers/2023/3/Maths_Midterm_1700000000000.pdf".toList :=
  ⟨by decide, by decide, by decide, by decide⟩

/-- C4: the download handler performs no mutating effect, whatever the id, the
catalog and the file system (a hit in either tier, a miss, an unknown id, a
failure): the state after it is the state before it. -/
theorem c4_download_read_only (lib : Lib) (proc : Proc) (w : World) (id : Str) :
    (download lib proc w id).effects = [] ∧
    w.run (download lib proc w id).effects = w := by
  have h : (download lib proc w id).effects = [] := by
    unfold download
    split <;> rfl
  exact ⟨h, by rw [h]; rfl⟩

/-! ## Question-paper upload -/

/-- C5 (failing input): the upload with the semester field `03` is answered
201 and writes its file into the directory `03`; the download of the returned
id looks into the directory `3` and answers 404. -/
theorem c5_leading_zero_upload_not_downloadable :
    (uploadPaper hexLib appProc worldEmpty uploadLeadingZero).response.status = 201 ∧
    (uploadPaper hexLib appProc worldEmpty uploadLeadingZero).response.paper.map QuestionPaper.id
      = some uploadLeadingZero.newId ∧
    worldLeadingZero.fs.node
      ["app".toList, "uploads".toList, "question-papers".toList, "2023".toList, "03".toList,
        "Maths_Midterm_1700000000000.pdf".toList] = some (Node.file [37, 80, 68, 70]) ∧
    (download hexLib appProc worldLeadingZero (objectIdString uploadLeadingZero.newId)).response
      = DownloadResponse.fileNotFound ⟨"2023".toList, 3, "Maths".toList, "Midterm".toList⟩
          "uploads/question-papers/2023/semester03/Maths_Midterm_1700000000000.pdf".toList
          "/app/uploads/question-papers/2023/3/Maths_Midterm_1700000000000.pdf".toList := by
  decide

/-- C6 (failing input): the upload with the semester field `3` writes its
file to `uploads/question-papers/2023/3/...` and stores the path
`uploads/question-papers/2023/semester3/...` in the record; nothing exists at
the stored path. -/
theorem c6_stored_path_is_not_written_path :
    (uploadPaper hexLib appProc worldEmpty uploadPlain).response.status = 201 ∧
    (uploadPaper hexLib appProc worldEmpty uploadPlain).effects.filterMap
        (fun e => match e with
          | Effect.writeFile loc _ _ => some loc
          | _ => none)
      = [["app".toList, "uploads".toList, "question-papers".toList, "2023".toList, "3".toList,
          "Maths_Midterm_1700000000000.pdf".toList]] ∧
    (uploadPaper hexLib appProc worldEmpty uploadPlain).response.paper.map QuestionPaper.filePath
      = some "uploads/question-papers/2023/semester3/Maths_Midterm_1700000000000.pdf".toList ∧
    locOf appProc.cwd
        "uploads/question-papers/2023/semester3/Maths_Midterm_1700000000000.pdf".toList
      = ["app".toList, "uploads".toList, "question-papers".toList, "2023".toList,
          "semester3".toList, "Maths_Midterm_1700000000000.pdf".toList] ∧
    existsSync worldPlain.fs appProc.cwd
        "uploads/question-papers/2023/semester3/Maths_Midterm_1700000000000.pdf".toList
      = false := by
  decide

/-- C9 (failing input): with a record for (2023, 3, Maths, Midterm) in the
catalog, the upload with the semester field `3.5` is answered 201 and leaves
two records with that same key. -/
theorem c9_fraction_semester_duplicates_key :
    worldPlain.papers.map QuestionPaper.key
      = [("2023".toList, 3, "Maths".toList, "Midterm".toList)] ∧
    (uploadPaper hexLib appProc worldPlain uploadFraction).response.status = 201 ∧
    worldFraction.papers.map QuestionPaper.key
      = [("2023".toList, 3, "Maths".toList, "Midterm".toList),
         ("2023".toList, 3, "Maths".toList, "Midterm".toList)] ∧
    worldFraction.papers.map QuestionPaper.id
      = [uploadPlain.newId, uploadFraction.newId] := by
  decide

/-! ## Apply fixes -/

theorem run_append (w : World) (a b : List Effect) : w.run (a ++ b) = (w.run a).run b := by
  simp [World.run, List.foldl_append]

theorem run_nil (w : World) : w.run [] = w := rfl

theorem applyFix_id (lib : Lib) (papers : List QuestionPaper) (id newPath : JVal) :
    (applyFix lib papers id newPath).1.id = id := by
  unfold applyFix
  split
  · rfl
  · split
    · rfl
    · rfl
    · split
      · rfl
      · dsimp only
        split <;> rfl

theorem fixLoop_cons (lib : Lib) (w : World) (id newPath : JVal) (rest : List FixElement) :
    fixLoop lib w (FixElement.fields id newPath :: rest) =
      (((fixLoop lib (w.run (applyFix lib w.papers id newPath).2) rest).1.map fun details =>
          (applyFix lib w.papers id newPath).1 :: details),
        (applyFix lib w.papers id newPath).2 ++
          (fixLoop lib (w.run (applyFix lib w.papers id newPath).2) rest).2) := rfl

theorem fixLoop_typed (lib : Lib) (items : List Fix) (w : World) :
    ∃ details, (fixLoop lib w (items.map Fix.toElement)).1 = some details ∧
      details.map FixDetail.id = items.map fun f => optStr f.id := by
  induction items generalizing w with
  | nil => exact ⟨[], rfl, rfl⟩
  | cons f rest ih =>
    obtain ⟨ds, hds, hids⟩ :=
      ih (w.run (applyFix lib w.papers (optStr f.id) (optStr f.newPath)).2)
    refine ⟨(applyFix lib w.papers (optStr f.id) (optStr f.newPath)).1 :: ds, ?_, ?_⟩
    · simp only [List.map_cons, Fix.toElement, fixLoop_cons]
      rw [hds]
      rfl
    · simp [applyFix_id, hids]

theorem fixLoop_append (lib : Lib) (pre post : List FixElement) (w : World)
    (details : List FixDetail) (h : (fixLoop lib w pre).1 = some details) :
    fixLoop lib w (pre ++ post) =
      ((fixLoop lib (w.run (fixLoop lib w pre).2) post).1.map (fun later => details ++ later),
        (fixLoop lib w pre).2 ++ (fixLoop lib (w.run (fixLoop lib w pre).2) post).2) := by
  induction pre generalizing w details with
  | nil =>
    have hd : details = [] := by
      simpa [fixLoop] using h.symm
    subst hd
    simp [fixLoop, run_nil]
  | cons e rest ih =>
    cases e with
    | null => simp [fixLoop] at h
    | fields id newPath =>
      rw [fixLoop_cons] at h
      simp only [Option.map_eq_some'] at h
      obtain ⟨ds, hds, rfl⟩ := h
      have := ih (w.run (applyFix lib w.papers id newPath).2) ds hds
      simp only [List.cons_append, fixLoop_cons, this, run_append, List.append_assoc]
      cases (fixLoop lib
        ((w.run (applyFix lib w.papers id newPath).2).run
          (fixLoop lib (w.run (applyFix lib w.papers id newPath).2) rest).2) post).1 <;> simp

theorem filter_success_partition (details : List FixDetail) :
    (details.filter fun r => r.success).length + (details.filter fun r => !r.success).length
      = details.length := by
  induction details with
  | nil => rfl
  | cons d ds ih =>
    cases hd : d.success <;> simp [List.filter_cons, hd] <;> omega
theorem findById_str (lib : Lib) (papers : List QuestionPaper) (id : Str) (paper : QuestionPaper) :
    findById lib papers (JVal.str id) = some (some paper) ↔
      ∃ oid, lib.castObjectId (JVal.str id) = some oid ∧
        papers.find? (fun p => p.id = oid) = some paper := by
  unfold findById
  cases lib.castObjectId (JVal.str id) <;> simp

theorem find_id_eq {papers : List QuestionPaper} {oid : ObjId} {paper : QuestionPaper}
    (h : papers.find? (fun p => p.id = oid) = some paper) : paper.id = oid := by
  simpa using List.find?_some h

theorem papers_after_save (w : World) (oid : ObjId) (paper : QuestionPaper) (path : Str)
    (h : w.papers.find? (fun p => decide (p.id = oid)) = some paper) :
    (w.run [Effect.savePaper { paper with filePath := path }]).papers =
      w.papers.map fun q => if q.id = paper.id then { paper with filePath := path } else q := by
  have hmem : paper ∈ w.papers := List.mem_of_find?_eq_some h
  have hany : (w.papers.any fun d => decide (d.id = paper.id)) = true := by
    rw [List.any_eq_true]
    exact ⟨paper, hmem, by simp⟩
  simp only [World.run, List.foldl_cons, List.foldl_nil, World.step, upsert]
  rw [if_pos hany]

theorem find_after_save (papers : List QuestionPaper) (paper : QuestionPaper) (path : Str)
    (oid : ObjId) :
    (papers.map fun q => if q.id = paper.id then { paper with filePath := path } else q).find?
        (fun p => decide (p.id = oid)) =
      (papers.find? fun p => decide (p.id = oid)).map
        fun q => if q.id = paper.id then { paper with filePath := path } else q := by
  rw [List.find?_map]
  congr 1
  have : ((fun p : QuestionPaper => decide (p.id = oid)) ∘
      fun q => if q.id = paper.id then { paper with filePath := path } else q) =
      fun p => decide (p.id = oid) := by
    funext q
    by_cases hq : q.id = paper.id <;> simp [hq]
  rw [this]

/-- What one round of the loop does for a fix of the documented shape. -/
theorem applyFix_typed (lib : Lib) (w : World) (item : Fix) :
    ((applyFix lib w.papers (optStr item.id) (optStr item.newPath)).1.success = true ↔
      ∃ id path paper, item.id = some id ∧ id ≠ [] ∧ item.newPath = some path ∧ path ≠ [] ∧
        findById lib w.papers (JVal.str id) = some (some paper) ∧
        ({ paper with filePath := path } : QuestionPaper).valid = true) ∧
    (∀ id path paper, item.id = some id → item.newPath = some path →
      findById lib w.papers (JVal.str id) = some (some paper) →
      (applyFix lib w.papers (optStr item.id) (optStr item.newPath)).1.success = true →
      (applyFix lib w.papers (optStr item.id) (optStr item.newPath)).2 =
        [Effect.savePaper { paper with filePath := path }] ∧
      (w.run (applyFix lib w.papers (optStr item.id) (optStr item.newPath)).2).papers =
        w.papers.map fun q => if q.id = paper.id then { paper with filePath := path } else q) ∧
    ((applyFix lib w.papers (optStr item.id) (optStr item.newPath)).1.success = false →
      (applyFix lib w.papers (optStr item.id) (optStr item.newPath)).2 = []) := by
  obtain ⟨id, newPath⟩ := item
  cases id with
  | none => simp [applyFix, optStr, JVal.truthy]
  | some id =>
    cases newPath with
    | none => simp [applyFix, optStr, JVal.truthy]
    | some path =>
      by_cases hid : id = []
      · simp [applyFix, optStr, JVal.truthy, hid]
      by_cases hpath : path = []
      · simp [applyFix, optStr, JVal.truthy, hpath]
      cases hfind : findById lib w.papers (JVal.str id) with
      | none => simp [applyFix, optStr, JVal.truthy, hid, hpath, hfind]
      | some found =>
        cases found with
        | none => simp [applyFix, optStr, JVal.truthy, hid, hpath, hfind]
        | some paper =>
          by_cases hvalid : ({ paper with filePath := path } : QuestionPaper).valid = true
          · refine ⟨?_, ?_, ?_⟩
            · simp [applyFix, optStr, JVal.truthy, hid, hpath, hfind, castToString, hvalid]
            · intro id' path' paper' hid' hpath' hfind' _
              simp only [Option.some.injEq] at hid' hpath'
              subst hid' hpath'
              rw [hfind] at hfind'
              simp only [Option.some.injEq] at hfind'
              subst hfind'
              obtain ⟨oid, _, hf⟩ := (findById_str lib w.papers id paper).1 hfind
              have heff : (applyFix lib w.papers (optStr (some id)) (optStr (some path))).2 =
                  [Effect.savePaper { paper with filePath := path }] := by
                simp [applyFix, optStr, JVal.truthy, hid, hpath, hfind, castToString, hvalid]
              exact ⟨heff, by rw [heff]; exact papers_after_save w oid paper path hf⟩
            · simp [applyFix, optStr, JVal.truthy, hid, hpath, hfind, castToString, hvalid]
          · simp [applyFix, optStr, JVal.truthy, hid, hpath, hfind, castToString, hvalid]
/-- The condition under which a fix of the documented shape succeeds on a
catalog: both properties present, the id names a record, and the record with
the new path passes validation. -/
theorem fix_condition_after_round (lib : Lib) (w : World) (a c : Fix) :
    (∃ id path paper, c.id = some id ∧ id ≠ [] ∧ c.newPath = some path ∧ path ≠ [] ∧
        findById lib (w.run (applyFix lib w.papers (optStr a.id) (optStr a.newPath)).2).papers
          (JVal.str id) = some (some paper) ∧
        ({ paper with filePath := path } : QuestionPaper).valid = true) ↔
    (∃ id path paper, c.id = some id ∧ id ≠ [] ∧ c.newPath = some path ∧ path ≠ [] ∧
        findById lib w.papers (JVal.str id) = some (some paper) ∧
        ({ paper with filePath := path } : QuestionPaper).valid = true) := by
  cases hs : (applyFix lib w.papers (optStr a.id) (optStr a.newPath)).1.success with
  | false =>
    rw [(applyFix_typed lib w a).2.2 hs, run_nil]
  | true =>
    obtain ⟨ida, patha, pa, hida, _, hpatha, _, hfa, _⟩ := (applyFix_typed lib w a).1.1 hs
    have hpapers := ((applyFix_typed lib w a).2.1 ida patha pa hida hpatha hfa hs).2
    obtain ⟨oida, _, hfinda⟩ := (findById_str lib w.papers ida pa).1 hfa
    have hpa : pa.id = oida := find_id_eq hfinda
    rw [hpapers]
    constructor
    · rintro ⟨id, path, paper, hid, hne, hpath, hpne, hf, hv⟩
      obtain ⟨oid, hcast, hfind⟩ := (findById_str lib _ id paper).1 hf
      rw [find_after_save, Option.map_eq_some'] at hfind
      obtain ⟨q, hq, hqp⟩ := hfind
      refine ⟨id, path, q, hid, hne, hpath, hpne, (findById_str lib _ id q).2 ⟨oid, hcast, hq⟩, ?_⟩
      by_cases hqa : q.id = pa.id
      · have hoid : oid = oida := by rw [← find_id_eq hq, hqa, hpa]
        subst hoid
        have : q = pa := by
          rw [hq] at hfinda
          exact Option.some.inj hfinda
        subst this
        rw [if_pos hqa] at hqp
        subst hqp
        exact hv
      · rw [if_neg hqa] at hqp
        subst hqp
        exact hv
    · rintro ⟨id, path, q, hid, hne, hpath, hpne, hf, hv⟩
      obtain ⟨oid, hcast, hq⟩ := (findById_str lib _ id q).1 hf
      refine ⟨id, path, (if q.id = pa.id then { pa with filePath := patha } else q), hid, hne,
        hpath, hpne, ?_, ?_⟩
      · refine (findById_str lib _ id _).2 ⟨oid, hcast, ?_⟩
        rw [find_after_save, hq]
        rfl
      · by_cases hqa : q.id = pa.id
        · have hoid : oid = oida := by rw [← find_id_eq hq, hqa, hpa]
          subst hoid
          have : q = pa := by
            rw [hq] at hfinda
            exact Option.some.inj hfinda
          subst this
          rw [if_pos hqa]
          exact hv
        · rw [if_neg hqa]
          exact hv

/-- The effects of the loop on fixes of the documented shape. -/
theorem fixPaths_effects (lib : Lib) (w : World) (items : List Fix) :
    (fixPaths lib w (fixesOf items)).effects = (fixLoop lib w (items.map Fix.toElement)).2 := by
  obtain ⟨details, hd, _⟩ := fixLoop_typed lib items w
  unfold fixPaths fixesOf
  dsimp only
  split
  · next d e h => rw [h]
  · next e h => rw [h]

theorem fix_condition_after_rounds (lib : Lib) (pre : List Fix) (w : World) (c : Fix) :
    (∃ id path paper, c.id = some id ∧ id ≠ [] ∧ c.newPath = some path ∧ path ≠ [] ∧
        findById lib (w.run (fixPaths lib w (fixesOf pre)).effects).papers
          (JVal.str id) = some (some paper) ∧
        ({ paper with filePath := path } : QuestionPaper).valid = true) ↔
    (∃ id path paper, c.id = some id ∧ id ≠ [] ∧ c.newPath = some path ∧ path ≠ [] ∧
        findById lib w.papers (JVal.str id) = some (some paper) ∧
        ({ paper with filePath := path } : QuestionPaper).valid = true) := by
  induction pre generalizing w with
  | nil =>
    rw [fixPaths_effects]
    rfl
  | cons a rest ih =>
    rw [fixPaths_effects]
    simp only [List.map_cons, Fix.toElement, fixLoop_cons, run_append]
    have h1 := ih (w.run (applyFix lib w.papers (optStr a.id) (optStr a.newPath)).2)
    rw [fixPaths_effects] at h1
    exact h1.trans (fix_condition_after_round lib w a c)
theorem fixPaths_report (lib : Lib) (w : World) (items : List Fix) :
    ∃ details,
      fixLoop lib w (items.map Fix.toElement) =
        (some details, (fixPaths lib w (fixesOf items)).effects) ∧
      (fixPaths lib w (fixesOf items)).response =
        FixResponse.report items.length (details.filter fun r => r.success).length
          (details.filter fun r => !r.success).length details ∧
      details.map FixDetail.id = items.map fun f => optStr f.id := by
  obtain ⟨details, hd, hids⟩ := fixLoop_typed lib items w
  refine ⟨details, ?_, ?_, hids⟩
  · rw [fixPaths_effects, ← hd]
  · have hpair : fixLoop lib w (items.map Fix.toElement) =
        (some details, (fixLoop lib w (items.map Fix.toElement)).2) := by
      rw [← hd]
    unfold fixPaths fixesOf
    dsimp only
    rw [hpair]
    simp

theorem fixLoop_split (lib : Lib) (w : World) (pre post : List Fix) (item : Fix) :
    ∃ before after,
      fixLoop lib w (pre.map Fix.toElement) =
        (some before, (fixPaths lib w (fixesOf pre)).effects) ∧
      fixLoop lib
          ((w.run (fixPaths lib w (fixesOf pre)).effects).run
            (applyFix lib (w.run (fixPaths lib w (fixesOf pre)).effects).papers
              (optStr item.id) (optStr item.newPath)).2)
          (post.map Fix.toElement) =
        (some after,
          (fixPaths lib
            ((w.run (fixPaths lib w (fixesOf pre)).effects).run
              (applyFix lib (w.run (fixPaths lib w (fixesOf pre)).effects).papers
                (optStr item.id) (optStr item.newPath)).2)
            (fixesOf post)).effects) ∧
      fixLoop lib w ((pre ++ item :: post).map Fix.toElement) =
        (some (before ++
            (applyFix lib (w.run (fixPaths lib w (fixesOf pre)).effects).papers
              (optStr item.id) (optStr item.newPath)).1 :: after),
          (fixPaths lib w (fixesOf pre)).effects ++
            ((applyFix lib (w.run (fixPaths lib w (fixesOf pre)).effects).papers
              (optStr item.id) (optStr item.newPath)).2 ++
            (fixPaths lib
              ((w.run (fixPaths lib w (fixesOf pre)).effects).run
                (applyFix lib (w.run (fixPaths lib w (fixesOf pre)).effects).papers
                  (optStr item.id) (optStr item.newPath)).2)
              (fixesOf post)).effects)) := by
  obtain ⟨before, hb, _, _⟩ := fixPaths_report lib w pre
  obtain ⟨after, ha, _, _⟩ := fixPaths_report lib
    ((w.run (fixPaths lib w (fixesOf pre)).effects).run
      (applyFix lib (w.run (fixPaths lib w (fixesOf pre)).effects).papers
        (optStr item.id) (optStr item.newPath)).2) post
  refine ⟨before, after, hb, ha, ?_⟩
  have h1 : (fixLoop lib w (pre.map Fix.toElement)).1 = some before := by rw [hb]
  have h2 : (fixLoop lib w (pre.map Fix.toElement)).2 = (fixPaths lib w (fixesOf pre)).effects := by
    rw [hb]
  rw [List.map_append, fixLoop_append lib _ _ w before h1, h2, List.map_cons]
  simp only [Fix.toElement, fixLoop_cons]
  rw [ha]
  rfl
theorem three_fixes_middle_unknown (lib : Lib) (w : World) (a b c : Fix)
    (ha : ∃ id path paper, a.id = some id ∧ id ≠ [] ∧ a.newPath = some path ∧ path ≠ [] ∧
      findById lib w.papers (JVal.str id) = some (some paper) ∧
      ({ paper with filePath := path } : QuestionPaper).valid = true)
    (hb : ∀ id paper, b.id = some id → findById lib w.papers (JVal.str id) ≠ some (some paper))
    (hc : ∃ id path paper, c.id = some id ∧ id ≠ [] ∧ c.newPath = some path ∧ path ≠ [] ∧
      findById lib w.papers (JVal.str id) = some (some paper) ∧
      ({ paper with filePath := path } : QuestionPaper).valid = true) :
    ∃ first second third,
      (fixPaths lib w (fixesOf [a, b, c])).response =
        FixResponse.report 3 2 1 [first, second, third] ∧
      first.success = true ∧ second.success = false ∧ third.success = true := by
  have hsa : (applyFix lib w.papers (optStr a.id) (optStr a.newPath)).1.success = true :=
    (applyFix_typed lib w a).1.2 ha
  have hsb : (applyFix lib (w.run (applyFix lib w.papers (optStr a.id) (optStr a.newPath)).2).papers
      (optStr b.id) (optStr b.newPath)).1.success = false := by
    cases hs : (applyFix lib (w.run (applyFix lib w.papers (optStr a.id) (optStr a.newPath)).2).papers
      (optStr b.id) (optStr b.newPath)).1.success with
    | false => rfl
    | true =>
      obtain ⟨id, path, paper, hid, _, _, _, hf, _⟩ :=
        (fix_condition_after_round lib w a b).1 ((applyFix_typed lib _ b).1.1 hs)
      exact absurd hf (hb id paper hid)
  have hrb := (applyFix_typed lib (w.run (applyFix lib w.papers (optStr a.id) (optStr a.newPath)).2)
    b).2.2 hsb
  have hsc : (applyFix lib (w.run (applyFix lib w.papers (optStr a.id) (optStr a.newPath)).2).papers
      (optStr c.id) (optStr c.newPath)).1.success = true :=
    (applyFix_typed lib _ c).1.2 ((fix_condition_after_round lib w a c).2 hc)
  refine ⟨(applyFix lib w.papers (optStr a.id) (optStr a.newPath)).1,
    (applyFix lib (w.run (applyFix lib w.papers (optStr a.id) (optStr a.newPath)).2).papers
      (optStr b.id) (optStr b.newPath)).1,
    (applyFix lib (w.run (applyFix lib w.papers (optStr a.id) (optStr a.newPath)).2).papers
      (optStr c.id) (optStr c.newPath)).1, ?_, hsa, hsb, hsc⟩
  simp only [fixPaths, fixesOf, List.map_cons, List.map_nil, Fix.toElement, fixLoop_cons, hrb,
    run_nil, fixLoop, Option.map_some', List.length_cons, List.length_nil,
    List.filter_cons, hsa, hsb, hsc, List.filter_nil]
  rfl

/-- C10: apply-fixes handles a list of `{ id, newPath }` items one by one.
For every item of every list: the report is the report of the items before
it, then the entry of this item, then the report of the items after it, so it
has one entry per item in input order, each carrying the item's id, and
successes and failures add up to the number of items; the item succeeds iff
its id and newPath are present (non-empty), its id names a record of the
catalog and that record with the new path passes the validation of `save`;
when it succeeds, the records with that id get the new path as filePath and
no other record changes; when it fails it has no effect; in both cases the
effects of the earlier items stay and the later items are handled from the
state it leaves. In particular three items of which the first and the third
succeed and the second names no record give two successes and one failure. -/
theorem c10_apply_fixes_item_by_item (lib : Lib) (w : World) :
    (∀ (pre post : List Fix) (item : Fix),
      let w1 := w.run (fixPaths lib w (fixesOf pre)).effects
      let round := applyFix lib w1.papers (optStr item.id) (optStr item.newPath)
      let w2 := w1.run round.2
      ∃ before after,
        (fixPaths lib w (fixesOf pre)).response =
          FixResponse.report pre.length (before.filter fun r => r.success).length
            (before.filter fun r => !r.success).length before ∧
        (fixPaths lib w2 (fixesOf post)).response =
          FixResponse.report post.length (after.filter fun r => r.success).length
            (after.filter fun r => !r.success).length after ∧
        (fixPaths lib w (fixesOf (pre ++ item :: post))).response =
          FixResponse.report (pre ++ item :: post).length
            ((before ++ round.1 :: after).filter fun r => r.success).length
            ((before ++ round.1 :: after).filter fun r => !r.success).length
            (before ++ round.1 :: after) ∧
        (fixPaths lib w (fixesOf (pre ++ item :: post))).effects =
          (fixPaths lib w (fixesOf pre)).effects ++ (round.2 ++
            (fixPaths lib w2 (fixesOf post)).effects) ∧
        before.length = pre.length ∧ after.length = post.length ∧
        (before ++ round.1 :: after).map FixDetail.id =
          (pre ++ item :: post).map (fun f => optStr f.id) ∧
        ((before ++ round.1 :: after).filter fun r => r.success).length +
            ((before ++ round.1 :: after).filter fun r => !r.success).length =
          (pre ++ item :: post).length ∧
        (round.1.success = true ↔
          ∃ id path paper, item.id = some id ∧ id ≠ [] ∧ item.newPath = some path ∧ path ≠ [] ∧
            findById lib w.papers (JVal.str id) = some (some paper) ∧
            ({ paper with filePath := path } : QuestionPaper).valid = true) ∧
        (round.1.success = true →
          ∃ id path paper, item.id = some id ∧ item.newPath = some path ∧
            findById lib w1.papers (JVal.str id) = some (some paper) ∧
            w2.papers =
              w1.papers.map (fun q => if q.id = paper.id then { paper with filePath := path }
                else q) ∧
            (∀ q ∈ w2.papers, q.id = paper.id → q.filePath = path) ∧
            w2.fs = w1.fs) ∧
        (round.1.success = false → round.2 = [] ∧ w2 = w1)) ∧
    (∀ a b c : Fix,
      (∃ id path paper, a.id = some id ∧ id ≠ [] ∧ a.newPath = some path ∧ path ≠ [] ∧
        findById lib w.papers (JVal.str id) = some (some paper) ∧
        ({ paper with filePath := path } : QuestionPaper).valid = true) →
      (∀ id paper, b.id = some id → findById lib w.papers (JVal.str id) ≠ some (some paper)) →
      (∃ id path paper, c.id = some id ∧ id ≠ [] ∧ c.newPath = some path ∧ path ≠ [] ∧
        findById lib w.papers (JVal.str id) = some (some paper) ∧
        ({ paper with filePath := path } : QuestionPaper).valid = true) →
      ∃ first second third,
        (fixPaths lib w (fixesOf [a, b, c])).response =
          FixResponse.report 3 2 1 [first, second, third] ∧
        first.success = true ∧ second.success = false ∧ third.success = true) := by
  refine ⟨?_, fun a b c ha hb hc => three_fixes_middle_unknown lib w a b c ha hb hc⟩
  intro pre post item w1 round w2
  obtain ⟨before, after, hb, ha, hall⟩ := fixLoop_split lib w pre post item
  obtain ⟨before', hb', hrb, hidb⟩ := fixPaths_report lib w pre
  obtain ⟨after', ha', hra, hida⟩ := fixPaths_report lib w2 post
  obtain ⟨all', hall', hrall, hidall⟩ := fixPaths_report lib w (pre ++ item :: post)
  have e1 : before' = before := by
    rw [hb] at hb'
    exact (Option.some.inj (congrArg Prod.fst hb')).symm
  have e2 : after' = after := by
    rw [ha] at ha'
    exact (Option.some.inj (congrArg Prod.fst ha')).symm
  have e3 : all' = before ++ round.1 :: after := by
    rw [hall] at hall'
    exact (Option.some.inj (congrArg Prod.fst hall')).symm
  have e4 : (fixPaths lib w (fixesOf (pre ++ item :: post))).effects =
      (fixPaths lib w (fixesOf pre)).effects ++ (round.2 ++
        (fixPaths lib w2 (fixesOf post)).effects) := by
    rw [hall] at hall'
    exact (congrArg Prod.snd hall').symm
  subst e1 e2 e3
  refine ⟨before', after', hrb, hra, hrall, e4, ?_, ?_, hidall, ?_, ?_, ?_, ?_⟩
  · simpa using congrArg List.length hidb
  · simpa using congrArg List.length hida
  · rw [filter_success_partition]
    simpa using congrArg List.length hidall
  · exact ((applyFix_typed lib w1 item).1).trans (fix_condition_after_rounds lib pre w item)
  · intro hs
    obtain ⟨id, path, paper, hid, _, hpath, _, hf, _⟩ := (applyFix_typed lib w1 item).1.1 hs
    have h := (applyFix_typed lib w1 item).2.1 id path paper hid hpath hf hs
    refine ⟨id, path, paper, hid, hpath, hf, h.2, ?_, ?_⟩
    · intro q hq hqid
      have hq' : q ∈ w1.papers.map
          (fun q => if q.id = paper.id then { paper with filePath := path } else q) := by
        rw [← h.2]
        exact hq
      rw [List.mem_map] at hq'
      obtain ⟨q0, _, rfl⟩ := hq'
      by_cases h0 : q0.id = paper.id
      · simp [h0]
      · simp [h0] at hqid
    · show (w1.run round.2).fs = w1.fs
      rw [show round.2 = _ from h.1]
      rfl
  · intro hs
    have h := (applyFix_typed lib w1 item).2.2 hs
    exact ⟨h, by show w1.run round.2 = w1; rw [show round.2 = _ from h]; rfl⟩

/-- C10, at a concrete batch: three fixes on a catalog of two records, the
second naming no record. -/
theorem c10_apply_fixes_item_by_item_witness :
    ∃ first second third,
      (fixPaths hexLib worldTwo (fixesOf [fixFirst, fixUnknown, fixThird])).response =
        FixResponse.report 3 2 1 [first, second, third] ∧
      first.success = true ∧ second.success = false ∧ third.success = true :=
  (c10_apply_fixes_item_by_item hexLib worldTwo).2 fixFirst fixUnknown fixThird
    ⟨_, _, paperSlash, rfl, by decide, rfl, by decide, by decide, by decide⟩
    (fun id paper hid => by
      have h : id = "64b7f0c2a1d3e4f5a6b7c8ff".toList := (Option.some.inj hid).symm
      subst h
      have hn : findById hexLib worldTwo.papers (JVal.str "64b7f0c2a1d3e4f5a6b7c8ff".toList)
          = some none := by decide
      rw [hn]
      simp)
    ⟨_, _, paperOther, rfl, by decide, rfl, by decide, by decide, by decide⟩

/-! ## Resource uploads -/

/-- C8 (as stated, refuted): re-uploading notes for (3, Data Structures)
through `index.js`, the third effect unlinks the old file and only the fourth
saves the record: after three effects the catalog still holds the old
`fileUrl` while the old file is gone. -/
theorem c8_old_file_unlinked_before_update :
    (uploadResource appProc worldNotesFirst notesSecond).effects.length = 4 ∧
    (uploadResource appProc worldNotesFirst notesSecond).effects.get? 2 =
      some (Effect.unlink ["app".toList, "uploads".toList, "semester3".toList, "notes".toList,
        "Data_Structures_1700000000000-123456789.pdf".toList]) ∧
    ((uploadResource appProc worldNotesFirst notesSecond).effects.get? 3).map
        (fun e => match e with
          | Effect.saveResource r => r.fileUrl
          | _ => none) =
      some (some "/uploads/semester3/notes/Data_Structures_1700000005000-987654321.pdf".toList) ∧
    (worldNotesFirst.run
        ((uploadResource appProc worldNotesFirst notesSecond).effects.take 3)).resources.map
        Resource.fileUrl =
      [some "/uploads/semester3/notes/Data_Structures_1700000000000-123456789.pdf".toList] ∧
    (worldNotesFirst.run
        ((uploadResource appProc worldNotesFirst notesSecond).effects.take 3)).fs.node
        ["app".toList, "uploads".toList, "semester3".toList, "notes".toList,
          "Data_Structures_1700000000000-123456789.pdf".toList] = none := by
  decide

/-- The re-upload through `POST /api/resources/file` has no unlink: after it
the record names the new file and the file it named before is still on disk,
where the twin handler of `index.js` and the `DELETE /file` of the same router
unlink the file that goes. -/
theorem file_route_keeps_old_file :
    worldFileFirst.resources.map Resource.fileUrl =
      [some "/uploads/resources/sem3/file-1700000000000-123456789.pdf".toList] ∧
    (worldFileFirst.run (uploadResourceFile appProc worldFileFirst notesSecond).effects).resources.map
        Resource.fileUrl =
      [some "/uploads/resources/sem3/file-1700000005000-987654321.pdf".toList] ∧
    (worldFileFirst.run (uploadResourceFile appProc worldFileFirst notesSecond).effects).fs.node
        ["app".toList, "uploads".toList, "resources".toList, "sem3".toList,
          "file-1700000000000-123456789.pdf".toList] = some (Node.file [37, 80, 68, 70, 1]) := by
  decide

theorem put_node (fs : FS) (slot : Nat) (loc l : Loc) (n : Node) :
    (fs.put slot loc n).node l = if l = loc then some n else fs.node l := rfl

theorem mkdirp_node_of_some (fs : FS) (slot : Nat) (loc l : Loc) (n : Node)
    (h : fs.node l = some n) : (fs.mkdirp slot loc).node l = some n := by
  unfold FS.mkdirp
  generalize loc.inits.drop 1 = ps
  induction ps generalizing fs with
  | nil => exact h
  | cons p ps ih =>
    rw [List.foldl_cons]
    apply ih
    by_cases hp : (fs.node p).isNone = true
    · rw [if_pos hp, put_node]
      have hlp : l ≠ p := by
        intro hlp
        rw [hlp] at h
        rw [h] at hp
        simp at hp
      rw [if_neg hlp]
      exact h
    · rw [if_neg hp]
      exact h

/-- A regular file is still a regular file after a directory is made and a
file is written. -/
theorem file_survives_store (w : World) (dir loc l : Loc) (slot : Nat) (data old : Bytes)
    (h : w.fs.node l = some (Node.file old)) :
    ∃ d, (w.run [Effect.mkdirp dir slot, Effect.writeFile loc data slot]).fs.node l =
      some (Node.file d) := by
  have h1 := mkdirp_node_of_some w.fs slot dir l _ h
  simp only [World.run, List.foldl_cons, List.foldl_nil, World.step, put_node]
  by_cases hl : l = loc
  · exact ⟨data, by rw [if_pos hl]⟩
  · exact ⟨old, by rw [if_neg hl]; exact h1⟩

theorem storeAt_cases (fs : FS) (made : List Effect) (loc : Loc) (filename : Str)
    (file : UploadedFile) (slot : Nat) :
    (storeAt fs made loc filename file slot =
        (some (some filename), made ++ [Effect.writeFile loc file.data slot])) ∨
    ((storeAt fs made loc filename file slot).1 = none) := by
  unfold storeAt
  split_ifs <;> simp

/-- What the upload middleware of `index.js` did when it succeeded. -/
theorem storeResource_some (proc : Proc) (w : World) (req : ResourceUpload)
    (stored : Option Str) (effects : List Effect)
    (h : storeResource proc w req = (some stored, effects)) :
    (req.file = none ∧ stored = none ∧ effects = []) ∨
    (∃ part resourceType subject, req.file = some part ∧ req.resourceType = some resourceType ∧
      req.subject = some subject ∧
      stored = some (resourceFilename subject req.now req.random part.originalname) ∧
      effects =
        [Effect.mkdirp (locOf proc.cwd (resourceDir proc req.semester resourceType)) req.slot,
          Effect.writeFile
            (locOf proc.cwd (join [resourceDir proc req.semester resourceType,
              resourceFilename subject req.now req.random part.originalname]))
            part.data req.slot]) := by
  unfold storeResource at h
  cases hfile : req.file with
  | none =>
    rw [hfile] at h
    simp only [Prod.mk.injEq, Option.some.injEq] at h
    exact Or.inl ⟨rfl, h.1.symm, h.2.symm⟩
  | some part =>
    rw [hfile] at h
    right
    dsimp only at h
    split_ifs at h with h1
    · simp at h
    cases htype : req.resourceType with
    | none =>
      rw [htype] at h
      simp at h
    | some resourceType =>
      rw [htype] at h
      dsimp only at h
      split_ifs at h with h2
      · simp at h
      cases hsubject : req.subject with
      | none =>
        rw [hsubject] at h
        simp at h
      | some subject =>
        rw [hsubject] at h
        dsimp only at h
        rcases storeAt_cases
          (w.run [Effect.mkdirp (locOf proc.cwd (resourceDir proc req.semester resourceType))
            req.slot]).fs
          [Effect.mkdirp (locOf proc.cwd (resourceDir proc req.semester resourceType)) req.slot]
          (locOf proc.cwd (join [resourceDir proc req.semester resourceType,
              resourceFilename subject req.now req.random part.originalname]))
          (resourceFilename subject req.now req.random part.originalname) part req.slot
          with hs | hs
        · rw [hs] at h
          simp only [Prod.mk.injEq, Option.some.injEq] at h
          exact ⟨part, resourceType, subject, rfl, rfl, rfl, h.1.symm, by rw [← h.2]; rfl⟩
        · rw [h] at hs
          simp at hs
theorem storeAt_onFiles (fs : FS) (made : List Effect) (loc : Loc) (filename : Str)
    (file : UploadedFile) (slot : Nat) (h : ∀ e ∈ made, e.onResources = false) :
    ∀ e ∈ (storeAt fs made loc filename file slot).2, e.onResources = false := by
  unfold storeAt
  split_ifs
  · exact h
  · intro e he
    simp only [List.mem_append, List.mem_cons, List.mem_singleton, List.not_mem_nil, or_false] at he
    rcases he with he | rfl | rfl
    · exact h e he
    · rfl
    · rfl
  · intro e he
    simp only [List.mem_append, List.mem_singleton] at he
    rcases he with he | rfl
    · exact h e he
    · rfl

theorem storeResource_onFiles (proc : Proc) (w : World) (req : ResourceUpload) :
    ∀ e ∈ (storeResource proc w req).2, e.onResources = false := by
  unfold storeResource
  split
  · simp
  · split_ifs
    · simp
    · split
      · simp
      · dsimp only
        split_ifs
        · simp
        · split
          · simp [Effect.onResources]
          · apply storeAt_onFiles
            simp [Effect.onResources]

theorem unlinkOld_onFiles (proc : Proc) (fs : FS) (r : Resource) :
    ∀ e ∈ unlinkOld proc fs r, e.onResources = false := by
  unfold unlinkOld
  split
  · simp
  · split_ifs
    · simp
    · dsimp only
      split_ifs
      · split <;> simp [Effect.onResources]
      · simp
theorem resourcesOfKey_nil_of_find (resources : List Resource) (semester subject resourceType : Str)
    (h : resources.find? (matchesResource semester subject resourceType) = none) :
    resourcesOfKey resources semester (trim subject) resourceType = [] := by
  rw [List.find?_eq_none] at h
  unfold resourcesOfKey
  rw [List.filter_eq_nil_iff]
  intro r hr
  have := h r hr
  simpa [matchesResource] using this

theorem ensureSubject_onFiles (w : World) (req : ResourceUpload) (semester subject : Str) :
    ∀ e ∈ ensureSubject w req semester subject, e.onResources = false := by
  unfold ensureSubject
  split_ifs
  · simp
  · simp [Effect.onResources]

theorem free_append {a b : List Effect} (ha : ∀ e ∈ a, e.onResources = false)
    (hb : ∀ e ∈ b, e.onResources = false) : ∀ e ∈ a ++ b, e.onResources = false := by
  intro e he
  rw [List.mem_append] at he
  exact he.elim (ha e) (hb e)

theorem videoBranch_step (w : World) (req : ResourceUpload) (done : List Effect)
    (semester subject resourceType : Str) (hdone : ∀ e ∈ done, e.onResources = false)
    (htype : resourceType = "videoMaterials".toList) :
    CatalogStep w req (videoBranch req done semester subject resourceType) := by
  unfold videoBranch
  split
  · dsimp only
    split_ifs
    · exact CatalogStep.unchanged rfl hdone
    · exact CatalogStep.video _ done rfl rfl hdone rfl htype
    · exact CatalogStep.unchanged rfl hdone
  · exact CatalogStep.unchanged rfl hdone

theorem fileBranch_step (proc : Proc) (w : World) (req : ResourceUpload) (done : List Effect)
    (semester subject resourceType filename : Str) (part : UploadedFile)
    (hdone : ∀ e ∈ done, e.onResources = false) :
    CatalogStep w req
      (fileBranch proc w req done semester subject resourceType filename part) := by
  unfold fileBranch
  dsimp only
  cases hfind : w.resources.find? (matchesResource semester subject resourceType) with
  | some existing =>
    have hclean := free_append hdone (unlinkOld_onFiles proc (w.run done).fs existing)
    dsimp only
    split_ifs
    · exact CatalogStep.updated _ existing _ rfl rfl hclean (List.mem_of_find?_eq_some hfind)
        rfl rfl rfl rfl
    · exact CatalogStep.unchanged rfl hclean
  | none =>
    dsimp only
    split_ifs
    · exact CatalogStep.created _ done rfl rfl hdone rfl
        (resourcesOfKey_nil_of_find _ _ _ _ hfind)
    · exact CatalogStep.unchanged rfl hdone

theorem resourceHandler_step (proc : Proc) (w : World) (req : ResourceUpload) (file : Option Str)
    (stored : List Effect) (hstored : ∀ e ∈ stored, e.onResources = false) :
    CatalogStep w req (resourceHandler proc w req file stored) := by
  unfold resourceHandler
  split
  · next semester subject resourceType _ _ _ =>
    have hens := free_append hstored (ensureSubject_onFiles w req semester subject)
    split_ifs with h1 h2 h3
    · exact CatalogStep.unchanged rfl hstored
    · exact CatalogStep.unchanged rfl hstored
    · exact videoBranch_step w req _ _ _ _ hens h3
    · split
      · exact fileBranch_step proc w req _ _ _ _ _ _ hens
      · exact CatalogStep.unchanged rfl hens
  · exact CatalogStep.unchanged rfl hstored

theorem uploadResource_step (proc : Proc) (w : World) (req : ResourceUpload) :
    CatalogStep w req (uploadResource proc w req) := by
  have hstore := storeResource_onFiles proc w req
  unfold uploadResource
  split
  · exact CatalogStep.unchanged rfl (by simp)
  · split_ifs
    · exact CatalogStep.unchanged rfl (by simp)
    · split
      · next stored h =>
        rw [h] at hstore
        exact CatalogStep.unchanged rfl hstore
      · next file stored h =>
        rw [h] at hstore
        exact resourceHandler_step proc w req file stored hstore
theorem storeFileRoute_onFiles (proc : Proc) (w : World) (req : ResourceUpload) :
    ∀ e ∈ (storeFileRoute proc w req).2, e.onResources = false := by
  unfold storeFileRoute
  split
  · simp
  · split_ifs
    · simp
    · dsimp only
      split_ifs
      · simp
      · apply storeAt_onFiles
        simp [Effect.onResources]

theorem fileRouteSave_step (w : World) (req : ResourceUpload) (done : List Effect)
    (semester subject resourceType fileUrl fileName : Str)
    (hdone : ∀ e ∈ done, e.onResources = false) :
    CatalogStep w req
      (fileRouteSave w req done semester subject resourceType fileUrl fileName) := by
  unfold fileRouteSave
  cases hfind : w.resources.find? (matchesResource semester subject resourceType) with
  | some existing =>
    dsimp only
    split_ifs
    · exact CatalogStep.updated _ existing _ rfl rfl hdone (List.mem_of_find?_eq_some hfind)
        rfl rfl rfl rfl
    · exact CatalogStep.unchanged rfl hdone
  | none =>
    dsimp only
    split_ifs
    · exact CatalogStep.created _ done rfl rfl hdone rfl
        (resourcesOfKey_nil_of_find _ _ _ _ hfind)
    · exact CatalogStep.unchanged rfl hdone

theorem fileRouteHandler_step (w : World) (req : ResourceUpload) (file : Option Str)
    (stored : List Effect) (hstored : ∀ e ∈ stored, e.onResources = false) :
    CatalogStep w req (fileRouteHandler w req file stored) := by
  unfold fileRouteHandler
  split
  · split_ifs
    · exact CatalogStep.unchanged rfl hstored
    · exact CatalogStep.unchanged rfl hstored
    · split
      · exact CatalogStep.unchanged rfl hstored
      · exact fileRouteSave_step w req _ _ _ _ _ _ hstored
  · exact CatalogStep.unchanged rfl hstored

theorem uploadResourceFile_step (proc : Proc) (w : World) (req : ResourceUpload) :
    CatalogStep w req (uploadResourceFile proc w req) := by
  have hstore := storeFileRoute_onFiles proc w req
  unfold uploadResourceFile
  split
  · exact CatalogStep.unchanged rfl (by simp)
  · split_ifs
    · exact CatalogStep.unchanged rfl (by simp)
    · split
      · next stored h =>
        rw [h] at hstore
        exact CatalogStep.unchanged rfl hstore
      · next file stored h =>
        rw [h] at hstore
        exact fileRouteHandler_step w req file stored hstore

/-! ### The invariant of the resources -/

theorem run_resources_free (w : World) (effects : List Effect)
    (h : ∀ e ∈ effects, e.onResources = false) : (w.run effects).resources = w.resources := by
  induction effects generalizing w with
  | nil => rfl
  | cons e rest ih =>
    have he := h e (List.mem_cons_self _ _)
    have hrest : ∀ e ∈ rest, e.onResources = false := fun x hx => h x (List.mem_cons_of_mem _ hx)
    show ((w.step e).run rest).resources = w.resources
    rw [ih _ hrest]
    cases e <;> first | rfl | simp [Effect.onResources] at he

theorem run_resources_save (w : World) (before : List Effect) (doc : Resource)
    (h : ∀ e ∈ before, e.onResources = false) :
    (w.run (before ++ [Effect.saveResource doc])).resources =
      upsert Resource.id doc w.resources := by
  rw [run_append]
  show upsert Resource.id doc (w.run before).resources = _
  rw [run_resources_free w before h]
theorem upsert_new (doc : Resource) (rs : List Resource) (h : doc.id ∉ rs.map Resource.id) :
    upsert Resource.id doc rs = rs ++ [doc] := by
  unfold upsert
  rw [if_neg]
  intro hany
  rw [List.any_eq_true] at hany
  obtain ⟨d, hd, hid⟩ := hany
  exact h (List.mem_map.2 ⟨d, hd, by simpa using hid⟩)

theorem upsert_existing (doc existing : Resource) (rs : List Resource) (hmem : existing ∈ rs)
    (hid : doc.id = existing.id) :
    upsert Resource.id doc rs = rs.map fun d => if d.id = doc.id then doc else d := by
  unfold upsert
  rw [if_pos]
  rw [List.any_eq_true]
  exact ⟨existing, hmem, by simp [hid]⟩

theorem eq_of_same_id {rs : List Resource} (hnodup : (rs.map Resource.id).Nodup)
    {a b : Resource} (ha : a ∈ rs) (hb : b ∈ rs) (h : a.id = b.id) : a = b :=
  List.inj_on_of_nodup_map hnodup ha hb h

theorem filter_map_same_key (rs : List Resource) (f : Resource → Resource) (p : Resource → Bool)
    (h : ∀ r ∈ rs, p (f r) = p r) : (rs.map f).filter p = (rs.filter p).map f := by
  induction rs with
  | nil => rfl
  | cons r rest ih =>
    have hr := h r (List.mem_cons_self _ _)
    have hrest := ih fun x hx => h x (List.mem_cons_of_mem _ hx)
    simp only [List.map_cons, List.filter_cons, hr, hrest]
    split <;> rfl

theorem eq_singleton_of_mem_of_length_le_one {α : Type} {l : List α} {a : α} (hmem : a ∈ l)
    (hlen : l.length ≤ 1) : l = [a] := by
  match l, hmem, hlen with
  | [b], hmem, _ =>
    simp only [List.mem_singleton] at hmem
    rw [hmem]
  | _ :: _ :: _, _, hlen => simp at hlen

/-- Saving a new resource whose key has no record keeps the invariant and
leaves exactly that record for its key. -/
theorem resourcesOk_created (rs : List Resource) (doc : Resource) (hok : ResourcesOk rs)
    (hfresh : doc.id ∉ rs.map Resource.id)
    (hkey : resourcesOfKey rs doc.semester doc.subject doc.resourceType = []) :
    ResourcesOk (upsert Resource.id doc rs) ∧
    resourcesOfKey (upsert Resource.id doc rs) doc.semester doc.subject doc.resourceType
      = [doc] := by
  rw [upsert_new doc rs hfresh]
  refine ⟨⟨?_, ?_⟩, ?_⟩
  · intro s x t ht
    unfold resourcesOfKey
    rw [List.filter_append]
    by_cases hk : doc.semester = s ∧ doc.subject = x ∧ doc.resourceType = t
    · obtain ⟨rfl, rfl, rfl⟩ := hk
      unfold resourcesOfKey at hkey
      rw [hkey]
      simp
    · have : [doc].filter (fun r => decide (r.semester = s) && decide (r.subject = x) &&
          decide (r.resourceType = t)) = [] := by
        rw [List.filter_eq_nil_iff]
        intro r hr
        simp only [List.mem_singleton] at hr
        subst hr
        simpa [and_assoc] using hk
      rw [this, List.append_nil]
      exact hok.1 s x t ht
  · rw [List.map_append, List.nodup_append]
    refine ⟨hok.2, by simp, ?_⟩
    intro a ha hb
    simp only [List.map_cons, List.map_nil, List.mem_singleton] at hb
    exact hfresh (hb ▸ ha)
  · unfold resourcesOfKey at hkey ⊢
    rw [List.filter_append, hkey]
    simp

/-- Saving a new video resource keeps the invariant. -/
theorem resourcesOk_video (rs : List Resource) (doc : Resource) (hok : ResourcesOk rs)
    (hfresh : doc.id ∉ rs.map Resource.id)
    (htype : doc.resourceType = "videoMaterials".toList) :
    ResourcesOk (upsert Resource.id doc rs) := by
  rw [upsert_new doc rs hfresh]
  refine ⟨?_, ?_⟩
  · intro s x t ht
    unfold resourcesOfKey
    rw [List.filter_append]
    have : [doc].filter (fun r => decide (r.semester = s) && decide (r.subject = x) &&
        decide (r.resourceType = t)) = [] := by
      rw [List.filter_eq_nil_iff]
      intro r hr
      simp only [List.mem_singleton] at hr
      subst hr
      have hne : r.resourceType ≠ t := by
        rw [htype]
        rcases ht with rfl | rfl <;> decide
      simp [hne]
    rw [this, List.append_nil]
    exact hok.1 s x t ht
  · rw [List.map_append, List.nodup_append]
    refine ⟨hok.2, by simp, ?_⟩
    intro a ha hb
    simp only [List.map_cons, List.map_nil, List.mem_singleton] at hb
    exact hfresh (hb ▸ ha)

/-- Saving the resource of a key with the same id and the same key keeps the
invariant and, for notes and books, leaves exactly that record for its key. -/
theorem resourcesOk_updated (rs : List Resource) (doc existing : Resource) (hok : ResourcesOk rs)
    (hmem : existing ∈ rs) (hid : doc.id = existing.id)
    (hsemester : doc.semester = existing.semester) (hsubject : doc.subject = existing.subject)
    (htype : doc.resourceType = existing.resourceType) :
    ResourcesOk (upsert Resource.id doc rs) ∧
    (doc.resourceType = "notes".toList ∨ doc.resourceType = "books".toList →
      resourcesOfKey (upsert Resource.id doc rs) doc.semester doc.subject doc.resourceType
        = [doc]) := by
  rw [upsert_existing doc existing rs hmem hid]
  have hsame : ∀ (p : Resource → Bool) (s x t : Str),
      p = (fun r => decide (r.semester = s) && decide (r.subject = x) &&
        decide (r.resourceType = t)) →
      ∀ r ∈ rs, p (if r.id = doc.id then doc else r) = p r := by
    intro p s x t hp r hr
    by_cases h : r.id = doc.id
    · have : r = existing := eq_of_same_id hok.2 hr hmem (h.trans hid)
      subst this
      rw [if_pos h, hp]
      simp only [hsemester, hsubject, htype]
    · rw [if_neg h]
  have hlen : AtMostOnePerKey (rs.map fun d => if d.id = doc.id then doc else d) := by
    intro s x t ht
    unfold resourcesOfKey
    rw [filter_map_same_key rs _ _ (hsame _ s x t rfl), List.length_map]
    exact hok.1 s x t ht
  refine ⟨⟨hlen, ?_⟩, ?_⟩
  · have : (rs.map fun d => if d.id = doc.id then doc else d).map Resource.id
        = rs.map Resource.id := by
      rw [List.map_map]
      apply List.map_congr_left
      intro r _
      by_cases h : r.id = doc.id
      · simp [h]
      · simp [h]
    rw [this]
    exact hok.2
  · intro ht
    apply eq_singleton_of_mem_of_length_le_one
    · unfold resourcesOfKey
      rw [List.mem_filter]
      refine ⟨List.mem_map.2 ⟨existing, hmem, by simp [hid]⟩, by simp⟩
    · exact hlen _ _ _ ht
/-- An upload keeps the invariant of the resources, and a notes or books
record in its answer is the only record of its key afterwards. -/
theorem catalogStep_ok (w : World) (req : ResourceUpload) (out : Outcome ResourceResponse)
    (hstep : CatalogStep w req out) (hok : ResourcesOk w.resources)
    (hfresh : req.newId ∉ w.resources.map Resource.id) :
    ResourcesOk (w.run out.effects).resources ∧
    ∀ doc, out.response.resource = some doc →
      doc.resourceType = "notes".toList ∨ doc.resourceType = "books".toList →
      resourcesOfKey (w.run out.effects).resources doc.semester doc.subject doc.resourceType
        = [doc] := by
  cases hstep with
  | unchanged hnone hfree =>
    rw [run_resources_free w _ hfree]
    exact ⟨hok, fun doc hdoc => by rw [hnone] at hdoc; cases hdoc⟩
  | video doc before hdoc heffects hfree hid htype =>
    rw [heffects, run_resources_save w before doc hfree]
    refine ⟨resourcesOk_video _ doc hok (hid ▸ hfresh) htype, ?_⟩
    intro d hd ht
    rw [hdoc] at hd
    cases hd
    rw [htype] at ht
    rcases ht with h | h <;> exact absurd h (by decide)
  | created doc before hdoc heffects hfree hid hkey =>
    rw [heffects, run_resources_save w before doc hfree]
    have h := resourcesOk_created _ doc hok (hid ▸ hfresh) hkey
    refine ⟨h.1, ?_⟩
    intro d hd _
    rw [hdoc] at hd
    cases hd
    exact h.2
  | updated doc existing before hdoc heffects hfree hmem hid hsemester hsubject htype =>
    rw [heffects, run_resources_save w before doc hfree]
    have h := resourcesOk_updated _ doc existing hok hmem hid hsemester hsubject htype
    refine ⟨h.1, ?_⟩
    intro d hd ht
    rw [hdoc] at hd
    cases hd
    exact h.2 ht

theorem matchesResource_found {rs : List Resource} {semester subject resourceType : Str}
    {r : Resource} (h : rs.find? (matchesResource semester subject resourceType) = some r) :
    r.semester = semester ∧ r.subject = trim subject ∧ r.resourceType = resourceType := by
  have := List.find?_some h
  simpa [matchesResource, and_assoc] using this

theorem fileBranch_doc (proc : Proc) (w : World) (req : ResourceUpload) (done : List Effect)
    (semester subject resourceType filename : Str) (part : UploadedFile) (doc : Resource)
    (h : (fileBranch proc w req done semester subject resourceType filename part).response.resource
      = some doc) :
    doc.semester = semester ∧ doc.subject = trim subject ∧ doc.resourceType = resourceType ∧
    doc.fileUrl = some (trim (resourceFileUrl semester resourceType filename)) ∧
    doc.fileName = some (trim part.originalname) := by
  unfold fileBranch at h
  dsimp only at h
  cases hfind : w.resources.find? (matchesResource semester subject resourceType) with
  | some existing =>
    obtain ⟨h1, h2, h3⟩ := matchesResource_found hfind
    rw [hfind] at h
    dsimp only at h
    split_ifs at h
    · simp only [ResourceResponse.resource, Option.some.injEq] at h
      subst h
      exact ⟨h1, h2, h3, rfl, rfl⟩
    · simp [ResourceResponse.resource] at h
  | none =>
    rw [hfind] at h
    dsimp only at h
    split_ifs at h
    · simp only [ResourceResponse.resource, Option.some.injEq] at h
      subst h
      exact ⟨rfl, rfl, rfl, rfl, rfl⟩
    · simp [ResourceResponse.resource] at h

/-- The notes or books record in the answer of `POST /api/resources/upload`
carries the key of the request and the URL of the file just stored. -/
theorem uploadResource_doc (proc : Proc) (w : World) (req : ResourceUpload) (doc : Resource)
    (semester subject resourceType : Str) (part : UploadedFile)
    (hsemester : req.semester = some semester) (hsubject : req.subject = some subject)
    (htype : req.resourceType = some resourceType)
    (hnotes : resourceType = "notes".toList ∨ resourceType = "books".toList)
    (hpart : req.file = some part)
    (h : (uploadResource proc w req).response.resource = some doc) :
    doc.semester = semester ∧ doc.subject = trim subject ∧ doc.resourceType = resourceType ∧
    doc.fileUrl = some (trim (resourceFileUrl semester resourceType
      (resourceFilename subject req.now req.random part.originalname))) ∧
    doc.fileName = some (trim part.originalname) := by
  have hvideo : resourceType ≠ "videoMaterials".toList := by
    rcases hnotes with rfl | rfl <;> decide
  unfold uploadResource at h
  split at h
  · simp [ResourceResponse.resource] at h
  · split_ifs at h
    · simp [ResourceResponse.resource] at h
    · split at h
      · simp [ResourceResponse.resource] at h
      · next file stored hst =>
        rcases storeResource_some proc w req file stored hst with ⟨hnone, _, _⟩ | hsome
        · rw [hpart] at hnone
          cases hnone
        · obtain ⟨part', t', x', hp', ht', hx', hfile, _⟩ := hsome
          rw [hpart] at hp'
          rw [htype] at ht'
          rw [hsubject] at hx'
          cases hp'
          cases ht'
          cases hx'
          subst hfile
          unfold resourceHandler at h
          rw [hsemester, hsubject, htype, hpart] at h
          dsimp only at h
          split_ifs at h
          · simp [ResourceResponse.resource] at h
          · simp [ResourceResponse.resource] at h
          · exact fileBranch_doc proc w req _ _ _ _ _ _ doc h
theorem storeFileRoute_some (proc : Proc) (w : World) (req : ResourceUpload)
    (stored : Option Str) (effects : List Effect) (part : UploadedFile)
    (hpart : req.file = some part)
    (h : storeFileRoute proc w req = (some stored, effects)) :
    stored = some (fileRouteFilename req.now req.random part.originalname) ∧
    effects =
      [Effect.mkdirp (locOf proc.cwd (fileRouteDir req.semester)) req.slot,
        Effect.writeFile
          (locOf proc.cwd (join [fileRouteDir req.semester,
            fileRouteFilename req.now req.random part.originalname]))
          part.data req.slot] := by
  unfold storeFileRoute at h
  rw [hpart] at h
  dsimp only at h
  split_ifs at h with h1 h2
  · simp at h
  · simp at h
  · rcases storeAt_cases
      (w.run [Effect.mkdirp (locOf proc.cwd (fileRouteDir req.semester)) req.slot]).fs
      [Effect.mkdirp (locOf proc.cwd (fileRouteDir req.semester)) req.slot]
      (locOf proc.cwd (join [fileRouteDir req.semester,
        fileRouteFilename req.now req.random part.originalname]))
      (fileRouteFilename req.now req.random part.originalname) part req.slot with hs | hs
    · rw [hs] at h
      simp only [Prod.mk.injEq, Option.some.injEq] at h
      exact ⟨h.1.symm, by rw [← h.2]; rfl⟩
    · rw [h] at hs
      simp at hs

theorem fileRouteSave_doc (w : World) (req : ResourceUpload) (done : List Effect)
    (semester subject resourceType fileUrl fileName : Str) (doc : Resource)
    (h : (fileRouteSave w req done semester subject resourceType fileUrl fileName).response.resource
      = some doc) :
    doc.semester = semester ∧ doc.subject = trim subject ∧ doc.resourceType = resourceType ∧
    doc.fileUrl = some (trim fileUrl) ∧ doc.fileName = some (trim fileName) ∧
    (fileRouteSave w req done semester subject resourceType fileUrl fileName).effects =
      done ++ [Effect.saveResource doc] := by
  unfold fileRouteSave at h ⊢
  cases hfind : w.resources.find? (matchesResource semester subject resourceType) with
  | some existing =>
    obtain ⟨h1, h2, h3⟩ := matchesResource_found hfind
    rw [hfind] at h
    dsimp only at h ⊢
    split_ifs at h ⊢
    · simp only [ResourceResponse.resource, Option.some.injEq] at h
      subst h
      exact ⟨h1, h2, h3, rfl, rfl, rfl⟩
    · simp [ResourceResponse.resource] at h
  | none =>
    rw [hfind] at h
    dsimp only at h ⊢
    split_ifs at h ⊢
    · simp only [ResourceResponse.resource, Option.some.injEq] at h
      subst h
      exact ⟨rfl, rfl, rfl, rfl, rfl, rfl⟩
    · simp [ResourceResponse.resource] at h

/-- The record in the answer of `POST /api/resources/file` carries the key of
the request and the URL of the file just stored; the effects of the route are
the directory, the file and the save of the record. -/
theorem uploadResourceFile_doc (proc : Proc) (w : World) (req : ResourceUpload) (doc : Resource)
    (semester subject resourceType : Str) (part : UploadedFile)
    (hsemester : req.semester = some semester) (hsubject : req.subject = some subject)
    (htype : req.resourceType = some resourceType) (hpart : req.file = some part)
    (h : (uploadResourceFile proc w req).response.resource = some doc) :
    doc.semester = semester ∧ doc.subject = trim subject ∧ doc.resourceType = resourceType ∧
    doc.fileUrl = some (trim (fileRouteUrl semester
      (fileRouteFilename req.now req.random part.originalname))) ∧
    doc.fileName = some (trim part.originalname) ∧
    (uploadResourceFile proc w req).effects =
      [Effect.mkdirp (locOf proc.cwd (fileRouteDir req.semester)) req.slot,
        Effect.writeFile
          (locOf proc.cwd (join [fileRouteDir req.semester,
            fileRouteFilename req.now req.random part.originalname]))
          part.data req.slot,
        Effect.saveResource doc] := by
  unfold uploadResourceFile at h ⊢
  split at h
  · simp [ResourceResponse.resource] at h
  · split_ifs at h ⊢
    · simp [ResourceResponse.resource] at h
    · split at h
      · simp [ResourceResponse.resource] at h
      · next file stored hst =>
        obtain ⟨hfile, hstored⟩ := storeFileRoute_some proc w req file stored part hpart hst
        subst hfile hstored
        unfold fileRouteHandler at h ⊢
        rw [hsemester, hsubject, htype] at h ⊢
        dsimp only at h ⊢
        split_ifs at h ⊢
        · simp [ResourceResponse.resource] at h
        · simp [ResourceResponse.resource] at h
        · have hsrc : fileRouteSource req
              (some (fileRouteFilename req.now req.random part.originalname)) semester =
              some (fileRouteUrl semester (fileRouteFilename req.now req.random part.originalname),
                part.originalname) := by
            unfold fileRouteSource
            rw [hpart]
          rw [hsrc] at h ⊢
          dsimp only at h ⊢
          obtain ⟨h1, h2, h3, h4, h5, h6⟩ := fileRouteSave_doc w req _ _ _ _ _ _ doc h
          exact ⟨h1, h2, h3, h4, h5, by rw [h6]; rfl⟩
/-- C7: at most one notes or books record per (semester, subject,
resourceType) is an invariant of both resource uploads (`POST
/api/resources/upload` of `index.js` and `POST /api/resources/file` of
`routes/resources.js`), in a store whose ids are unique and which gives a new
record a fresh id; and after two uploads of notes for the same semester and
subject, whatever the first one did, a second one that succeeds leaves exactly
one record for the key, the one it answers with, whose `fileUrl` is the URL of
the second file. The subject of the key is the trimmed subject, as stored. -/
theorem c7_one_record_per_key (proc : Proc) (w : World)
    (hone : AtMostOnePerKey w.resources) (hids : (w.resources.map Resource.id).Nodup) :
    (∀ req : ResourceUpload, req.newId ∉ w.resources.map Resource.id →
      AtMostOnePerKey (w.run (uploadResource proc w req).effects).resources ∧
      AtMostOnePerKey (w.run (uploadResourceFile proc w req).effects).resources) ∧
    (∀ (first second : ResourceUpload) (semester subject : Str) (part : UploadedFile)
        (record : Resource),
      first.newId ∉ w.resources.map Resource.id →
      second.newId ∉ (w.run (uploadResource proc w first).effects).resources.map Resource.id →
      first.semester = some semester → first.subject = some subject →
      first.resourceType = some "notes".toList →
      second.semester = some semester → second.subject = some subject →
      second.resourceType = some "notes".toList → second.file = some part →
      (uploadResource proc (w.run (uploadResource proc w first).effects) second).response.resource
        = some record →
      resourcesOfKey
          ((w.run (uploadResource proc w first).effects).run
            (uploadResource proc (w.run (uploadResource proc w first).effects) second).effects).resources
          semester (trim subject) "notes".toList = [record] ∧
      record.fileUrl = some (trim (resourceFileUrl semester "notes".toList
        (resourceFilename subject second.now second.random part.originalname)))) ∧
    (∀ (first second : ResourceUpload) (semester subject : Str) (part : UploadedFile)
        (record : Resource),
      first.newId ∉ w.resources.map Resource.id →
      second.newId ∉ (w.run (uploadResourceFile proc w first).effects).resources.map Resource.id →
      first.semester = some semester → first.subject = some subject →
      first.resourceType = some "notes".toList →
      second.semester = some semester → second.subject = some subject →
      second.resourceType = some "notes".toList → second.file = some part →
      (uploadResourceFile proc (w.run (uploadResourceFile proc w first).effects)
        second).response.resource = some record →
      resourcesOfKey
          ((w.run (uploadResourceFile proc w first).effects).run
            (uploadResourceFile proc (w.run (uploadResourceFile proc w first).effects)
              second).effects).resources
          semester (trim subject) "notes".toList = [record] ∧
      record.fileUrl = some (trim (fileRouteUrl semester
        (fileRouteFilename second.now second.random part.originalname)))) := by
  have hok : ResourcesOk w.resources := ⟨hone, hids⟩
  refine ⟨?_, ?_, ?_⟩
  · intro req hfresh
    exact ⟨(catalogStep_ok w req _ (uploadResource_step proc w req) hok hfresh).1.1,
      (catalogStep_ok w req _ (uploadResourceFile_step proc w req) hok hfresh).1.1⟩
  · intro first second semester subject part record hf1 hf2 _ _ _ hs hx ht hp hres
    have hok1 := (catalogStep_ok w first _ (uploadResource_step proc w first) hok hf1).1
    obtain ⟨h1, h2, h3, h4, _⟩ := uploadResource_doc proc _ second record semester subject
      "notes".toList part hs hx ht (Or.inl rfl) hp hres
    have h := (catalogStep_ok _ second _ (uploadResource_step proc _ second) hok1 hf2).2
      record hres (Or.inl h3)
    rw [h1, h2, h3] at h
    exact ⟨h, h4⟩
  · intro first second semester subject part record hf1 hf2 _ _ _ hs hx ht hp hres
    have hok1 := (catalogStep_ok w first _ (uploadResourceFile_step proc w first) hok hf1).1
    obtain ⟨h1, h2, h3, h4, _⟩ := uploadResourceFile_doc proc _ second record semester subject
      "notes".toList part hs hx ht hp hres
    have h := (catalogStep_ok _ second _ (uploadResourceFile_step proc _ second) hok1 hf2).2
      record hres (Or.inl h3)
    rw [h1, h2, h3] at h
    exact ⟨h, h4⟩

/-- C7, at a concrete catalog: notes for (3, Data Structures) uploaded twice
through `index.js` into an empty catalog. -/
theorem c7_one_record_per_key_witness :
    resourcesOfKey
        (worldNotesFirst.run (uploadResource appProc worldNotesFirst notesSecond).effects).resources
        "3".toList (trim "Data Structures".toList) "notes".toList = [notesSecondRecord] ∧
    notesSecondRecord.fileUrl = some (trim (resourceFileUrl "3".toList "notes".toList
      (resourceFilename "Data Structures".toList notesSecond.now notesSecond.random
        "ds-notes-v2.pdf".toList))) :=
  (c7_one_record_per_key appProc worldBare (fun _ _ _ _ => Nat.zero_le _) List.nodup_nil).2.1
    notesFirst notesSecond "3".toList "Data Structures".toList
    ⟨"ds-notes-v2.pdf".toList, "application/pdf".toList, [37, 80, 68, 70, 2]⟩ notesSecondRecord
    (by decide) (by decide) rfl rfl rfl rfl rfl rfl rfl (by decide)
theorem ensureSubject_cases (w : World) (req : ResourceUpload) (semester subject : Str) :
    ensureSubject w req semester subject = [] ∨
    ensureSubject w req semester subject =
      [Effect.saveSubject ⟨req.newSubjectId, semester, trim subject⟩] := by
  unfold ensureSubject
  split_ifs
  · exact Or.inl rfl
  · exact Or.inr rfl

theorem run_ensureSubject_fs (w : World) (req : ResourceUpload) (stored : List Effect)
    (semester subject : Str) :
    (w.run (stored ++ ensureSubject w req semester subject)).fs = (w.run stored).fs := by
  rw [run_append]
  rcases ensureSubject_cases w req semester subject with h | h <;> rw [h] <;> rfl

theorem unlinkOld_of_file (proc : Proc) (fs : FS) (existing : Resource) (url : Str) (data : Bytes)
    (hurl : existing.fileUrl = some url) (hne : url ≠ [])
    (hold : fs.node (locOf proc.cwd (join [proc.dirname, url])) = some (Node.file data)) :
    unlinkOld proc fs existing = [Effect.unlink (locOf proc.cwd (join [proc.dirname, url]))] := by
  have hex : existsSync fs proc.cwd (join [proc.dirname, url]) = true := by
    simp [existsSync, hold, join_ne_nil]
  unfold unlinkOld
  rw [hurl]
  dsimp only
  rw [if_neg hne, if_pos hex, hold]

theorem fileBranch_update (proc : Proc) (w : World) (req : ResourceUpload) (done : List Effect)
    (semester subject resourceType filename : Str) (part : UploadedFile)
    (doc existing : Resource)
    (hfind : w.resources.find? (matchesResource semester subject resourceType) = some existing)
    (h : (fileBranch proc w req done semester subject resourceType filename part).response.resource
      = some doc) :
    (fileBranch proc w req done semester subject resourceType filename part).effects =
      done ++ unlinkOld proc (w.run done).fs existing ++ [Effect.saveResource doc] := by
  unfold fileBranch at h ⊢
  dsimp only at h ⊢
  rw [hfind] at h ⊢
  dsimp only at h ⊢
  split_ifs at h ⊢
  · simp only [ResourceResponse.resource, Option.some.injEq] at h
    subst h
    rfl
  · simp [ResourceResponse.resource] at h

/-- C8 (amended): on a re-upload of notes or books through `POST
/api/resources/upload` for a key whose record has a non-empty `fileUrl` naming
a regular file under `__dirname`, the effects are, in this order: the
directory and the new file, the subject if it was missing, the unlink of the
old file, and last the save of the record with the new `fileUrl`: the old file
is unlinked after the new one is written and before the catalog is updated. -/
theorem c8_unlink_after_write_before_update (proc : Proc) (w : World) (req : ResourceUpload)
    (semester subject resourceType : Str) (part : UploadedFile)
    (hsemester : req.semester = some semester) (hsubject : req.subject = some subject)
    (htype : req.resourceType = some resourceType)
    (hnotes : resourceType = "notes".toList ∨ resourceType = "books".toList)
    (hpart : req.file = some part) :
    ∀ (doc existing : Resource) (url : Str) (data : Bytes),
      w.resources.find? (matchesResource semester subject resourceType) = some existing →
      existing.fileUrl = some url → url ≠ [] →
      w.fs.node (locOf proc.cwd (join [proc.dirname, url])) = some (Node.file data) →
      (uploadResource proc w req).response.resource = some doc →
      (uploadResource proc w req).effects =
        [Effect.mkdirp (locOf proc.cwd (resourceDir proc req.semester resourceType)) req.slot,
          Effect.writeFile
            (locOf proc.cwd (join [resourceDir proc req.semester resourceType,
              resourceFilename subject req.now req.random part.originalname]))
            part.data req.slot] ++
        ensureSubject w req semester subject ++
        [Effect.unlink (locOf proc.cwd (join [proc.dirname, url])), Effect.saveResource doc] ∧
      doc.fileUrl = some (trim (resourceFileUrl semester resourceType
        (resourceFilename subject req.now req.random part.originalname))) := by
  intro doc existing url data hfind hurl hne hold h
  have hdoc := uploadResource_doc proc w req doc semester subject resourceType part
    hsemester hsubject htype hnotes hpart h
  refine ⟨?_, hdoc.2.2.2.1⟩
  have hvideo : resourceType ≠ "videoMaterials".toList := by
    rcases hnotes with rfl | rfl <;> decide
  unfold uploadResource at h ⊢
  split at h
  · simp [ResourceResponse.resource] at h
  · split_ifs at h ⊢
    · simp [ResourceResponse.resource] at h
    · split at h
      · simp [ResourceResponse.resource] at h
      · next file stored hst =>
        rcases storeResource_some proc w req file stored hst with ⟨hnone, _, _⟩ | hsome
        · rw [hpart] at hnone
          cases hnone
        · obtain ⟨part', t', x', hp', ht', hx', hfile, hstored⟩ := hsome
          rw [hpart] at hp'
          rw [htype] at ht'
          rw [hsubject] at hx'
          cases hp'
          cases ht'
          cases hx'
          subst hfile hstored
          unfold resourceHandler at h ⊢
          rw [hsemester, hsubject, htype, hpart] at h ⊢
          dsimp only at h ⊢
          split_ifs at h ⊢
          · simp [ResourceResponse.resource] at h
          · simp [ResourceResponse.resource] at h
          · rw [fileBranch_update proc w req _ _ _ _ _ _ doc existing hfind h,
              run_ensureSubject_fs]
            obtain ⟨d, hd⟩ := file_survives_store w
              (locOf proc.cwd (resourceDir proc (some semester) resourceType))
              (locOf proc.cwd (join [resourceDir proc (some semester) resourceType,
                resourceFilename subject req.now req.random part.originalname]))
              (locOf proc.cwd (join [proc.dirname, url])) req.slot part.data data hold
            rw [unlinkOld_of_file proc _ existing url d hurl hne hd]
            simp

/-- C8 (amended), at a concrete re-upload: notes for (3, Data Structures)
uploaded a second time through `index.js`. -/
theorem c8_unlink_after_write_before_update_witness :
    (uploadResource appProc worldNotesFirst notesSecond).effects =
      [Effect.mkdirp (locOf appProc.cwd (resourceDir appProc notesSecond.semester "notes".toList))
          notesSecond.slot,
        Effect.writeFile
          (locOf appProc.cwd (join [resourceDir appProc notesSecond.semester "notes".toList,
            resourceFilename "Data Structures".toList notesSecond.now notesSecond.random
              "ds-notes-v2.pdf".toList]))
          [37, 80, 68, 70, 2] notesSecond.slot] ++
      ensureSubject worldNotesFirst notesSecond "3".toList "Data Structures".toList ++
      [Effect.unlink (locOf appProc.cwd (join [appProc.dirname,
          "/uploads/semester3/notes/Data_Structures_1700000000000-123456789.pdf".toList])),
        Effect.saveResource notesSecondRecord] ∧
    notesSecondRecord.fileUrl = some (trim (resourceFileUrl "3".toList "notes".toList
      (resourceFilename "Data Structures".toList notesSecond.now notesSecond.random
        "ds-notes-v2.pdf".toList))) :=
  c8_unlink_after_write_before_update appProc worldNotesFirst notesSecond "3".toList
      "Data Structures".toList "notes".toList
      ⟨"ds-notes-v2.pdf".toList, "application/pdf".toList, [37, 80, 68, 70, 2]⟩
      rfl rfl rfl (Or.inl rfl) rfl
    notesSecondRecord notesFirstRecord
    "/uploads/semester3/notes/Data_Structures_1700000000000-123456789.pdf".toList
    [37, 80, 68, 70, 1] (by decide) rfl (by decide) (by decide) (by decide)

/-! ## Question-paper upload: the catalog -/

theorem storeAt_onPapers (fs : FS) (made : List Effect) (loc : Loc) (filename : Str)
    (file : UploadedFile) (slot : Nat) (h : ∀ e ∈ made, e.onPapers = false) :
    ∀ e ∈ (storeAt fs made loc filename file slot).2, e.onPapers = false := by
  unfold storeAt
  split_ifs
  · exact h
  · intro e he
    simp only [List.mem_append, List.mem_cons, List.mem_singleton, List.not_mem_nil, or_false] at he
    rcases he with he | rfl | rfl
    · exact h e he
    · rfl
    · rfl
  · intro e he
    simp only [List.mem_append, List.mem_singleton] at he
    rcases he with he | rfl
    · exact h e he
    · rfl

theorem ensureDir_onPapers (present : Bool) (loc : Loc) (slot : Nat) :
    ∀ e ∈ ensureDir present loc slot, e.onPapers = false := by
  unfold ensureDir
  split_ifs
  · simp
  · simp [Effect.onPapers]

theorem storePaper_onPapers (proc : Proc) (w : World) (req : PaperUpload) :
    ∀ e ∈ (storePaper proc w req).2, e.onPapers = false := by
  unfold storePaper
  split
  · simp
  · split_ifs
    · simp
    · split
      · dsimp only
        split_ifs
        · simp
        · split
          · exact storeAt_onPapers _ _ _ _ _ _ (ensureDir_onPapers _ _ _)
          · exact ensureDir_onPapers _ _ _
      · simp

theorem run_papers_free (w : World) (effects : List Effect)
    (h : ∀ e ∈ effects, e.onPapers = false) : (w.run effects).papers = w.papers := by
  induction effects generalizing w with
  | nil => rfl
  | cons e rest ih =>
    have he := h e (List.mem_cons_self _ _)
    have hrest : ∀ e ∈ rest, e.onPapers = false := fun x hx => h x (List.mem_cons_of_mem _ hx)
    show ((w.step e).run rest).papers = w.papers
    rw [ih _ hrest]
    cases e <;> first | rfl | simp [Effect.onPapers] at he

theorem run_papers_save (w : World) (before : List Effect) (doc : QuestionPaper)
    (h : ∀ e ∈ before, e.onPapers = false) :
    (w.run (before ++ [Effect.savePaper doc])).papers = upsert QuestionPaper.id doc w.papers := by
  rw [run_append]
  show upsert QuestionPaper.id doc (w.run before).papers = _
  rw [run_papers_free w before h]

theorem upsert_paper_new (doc : QuestionPaper) (ps : List QuestionPaper)
    (h : doc.id ∉ ps.map QuestionPaper.id) : upsert QuestionPaper.id doc ps = ps ++ [doc] := by
  unfold upsert
  rw [if_neg]
  intro hany
  rw [List.any_eq_true] at hany
  obtain ⟨d, hd, hid⟩ := hany
  exact h (List.mem_map.2 ⟨d, hd, by simpa using hid⟩)

theorem upsert_paper_existing (doc existing : QuestionPaper) (ps : List QuestionPaper)
    (hmem : existing ∈ ps) (hid : doc.id = existing.id) :
    upsert QuestionPaper.id doc ps = ps.map fun d => if d.id = doc.id then doc else d := by
  unfold upsert
  rw [if_pos]
  rw [List.any_eq_true]
  exact ⟨existing, hmem, by simp [hid]⟩

/-- The ways the upload handler ends once the file is there. -/
theorem savePaperRecord_cases (lib : Lib) (w : World) (req : PaperUpload) (written : List Effect)
    (year semester subject examType filename : Str) (part : UploadedFile) :
    ((savePaperRecord lib w req written year semester subject examType filename
        part).response.paper = none ∧
      (savePaperRecord lib w req written year semester subject examType filename part).effects
        = written) ∨
    (∃ existing doc,
      w.papers.find? (matchesFilter year (lib.castNumber semester) subject examType)
        = some existing ∧
      doc = { existing with
        filePath := paperRelativePath year semester filename
        fileName := part.originalname
        uploadedBy := req.registerno.getD []
        uploadDate := req.date } ∧
      savePaperRecord lib w req written year semester subject examType filename part =
        ⟨UploadResponse.updated doc, written ++ [Effect.savePaper doc]⟩) ∨
    (∃ n doc,
      w.papers.find? (matchesFilter year (lib.castNumber semester) subject examType) = none ∧
      parseInt semester = some n ∧
      doc = ⟨req.newId, year, n, subject, examType, paperRelativePath year semester filename,
        part.originalname, req.registerno.getD [], req.date⟩ ∧
      savePaperRecord lib w req written year semester subject examType filename part =
        ⟨UploadResponse.created doc, written ++ [Effect.savePaper doc]⟩) := by
  unfold savePaperRecord
  dsimp only
  split
  · exact Or.inl ⟨rfl, rfl⟩
  · cases hfind : w.papers.find? (matchesFilter year (lib.castNumber semester) subject examType)
      with
    | some existing =>
      dsimp only
      split_ifs
      · exact Or.inr (Or.inl ⟨existing, _, rfl, rfl, rfl⟩)
      · exact Or.inl ⟨rfl, rfl⟩
    | none =>
      dsimp only
      cases hparse : parseInt semester with
      | none => exact Or.inl ⟨rfl, rfl⟩
      | some n =>
        dsimp only
        split_ifs
        · exact Or.inr (Or.inr ⟨n, _, rfl, rfl, rfl, rfl⟩)
        · exact Or.inl ⟨rfl, rfl⟩
theorem matchesFilter_found {ps : List QuestionPaper} {year subject examType : Str} {n : NumCast}
    {p : QuestionPaper} (h : ps.find? (matchesFilter year n subject examType) = some p) :
    p.year = year ∧ n = NumCast.int p.semester ∧ p.subject = subject ∧ p.examType = examType := by
  have := List.find?_some h
  simpa [matchesFilter, and_assoc] using this

theorem key_not_mem_of_find (ps : List QuestionPaper) (year subject examType : Str) (n : Int)
    (h : ps.find? (matchesFilter year (NumCast.int n) subject examType) = none) :
    (year, n, subject, examType) ∉ ps.map QuestionPaper.key := by
  rw [List.find?_eq_none] at h
  intro hmem
  obtain ⟨p, hp, hkey⟩ := List.mem_map.1 hmem
  have := h p hp
  simp only [QuestionPaper.key, Prod.mk.injEq] at hkey
  simp [matchesFilter, hkey.1, hkey.2.1, hkey.2.2.1, hkey.2.2.2] at this

theorem papersOk_created (ps : List QuestionPaper) (doc : QuestionPaper) (hok : PapersOk ps)
    (hfresh : doc.id ∉ ps.map QuestionPaper.id) (hkey : doc.key ∉ ps.map QuestionPaper.key) :
    PapersOk (ps ++ [doc]) := by
  refine ⟨?_, ?_⟩
  · rw [List.map_append, List.nodup_append]
    refine ⟨hok.1, by simp, ?_⟩
    intro a ha hb
    simp only [List.map_cons, List.map_nil, List.mem_singleton] at hb
    exact hkey (hb ▸ ha)
  · rw [List.map_append, List.nodup_append]
    refine ⟨hok.2, by simp, ?_⟩
    intro a ha hb
    simp only [List.map_cons, List.map_nil, List.mem_singleton] at hb
    exact hfresh (hb ▸ ha)

theorem papersOk_updated (ps : List QuestionPaper) (doc existing : QuestionPaper)
    (hok : PapersOk ps) (hmem : existing ∈ ps) (hid : doc.id = existing.id)
    (hkey : doc.key = existing.key) :
    PapersOk (ps.map fun d => if d.id = doc.id then doc else d) := by
  have hsame : ∀ r ∈ ps, (if r.id = doc.id then doc else r).key = r.key ∧
      (if r.id = doc.id then doc else r).id = r.id := by
    intro r hr
    by_cases h : r.id = doc.id
    · have : r = existing := List.inj_on_of_nodup_map hok.2 hr hmem (h.trans hid)
      subst this
      rw [if_pos h]
      exact ⟨hkey, hid⟩
    · rw [if_neg h]
      exact ⟨rfl, rfl⟩
  refine ⟨?_, ?_⟩
  · have : (ps.map fun d => if d.id = doc.id then doc else d).map QuestionPaper.key
        = ps.map QuestionPaper.key := by
      rw [List.map_map]
      exact List.map_congr_left fun r hr => (hsame r hr).1
    rw [this]
    exact hok.1
  · have : (ps.map fun d => if d.id = doc.id then doc else d).map QuestionPaper.id
        = ps.map QuestionPaper.id := by
      rw [List.map_map]
      exact List.map_congr_left fun r hr => (hsame r hr).2
    rw [this]
    exact hok.2

/-- At most one record per (year, semester, subject, examType) is kept by an
upload whose semester field is cast to the same number by the query and by
`parseInt`, in a store with unique ids that gives a new record a fresh id: a
re-upload for an existing key replaces the record in place, keeping its id and
key and the number of records; an upload for a new key adds one record at the
end; any other outcome leaves the records as they are. -/
theorem uploadPaper_one_record_per_key (lib : Lib) (proc : Proc) (w : World) (req : PaperUpload)
    (hok : PapersOk w.papers) (hfresh : req.newId ∉ w.papers.map QuestionPaper.id)
    (hagree : ∀ s n, req.semester = some s → parseInt s = some n →
      lib.castNumber s = NumCast.int n) :
    PapersOk (w.run (uploadPaper lib proc w req).effects).papers ∧
    (∀ paper, (uploadPaper lib proc w req).response = UploadResponse.updated paper →
      ∃ existing ∈ w.papers, existing.id = paper.id ∧ existing.key = paper.key ∧
        (w.run (uploadPaper lib proc w req).effects).papers =
          w.papers.map (fun q => if q.id = paper.id then paper else q) ∧
        (w.run (uploadPaper lib proc w req).effects).papers.length = w.papers.length) ∧
    (∀ paper, (uploadPaper lib proc w req).response = UploadResponse.created paper →
      paper.key ∉ w.papers.map QuestionPaper.key ∧
      (w.run (uploadPaper lib proc w req).effects).papers = w.papers ++ [paper]) ∧
    ((uploadPaper lib proc w req).response.paper = none →
      (w.run (uploadPaper lib proc w req).effects).papers = w.papers) := by
  have hstore := storePaper_onPapers proc w req
  unfold uploadPaper
  split
  · next stored h =>
    rw [h] at hstore
    rw [run_papers_free w stored hstore]
    exact ⟨hok, by simp, by simp, fun _ => rfl⟩
  · next file stored h =>
    rw [h] at hstore
    have hkeep : PapersOk (w.run stored).papers ∧
        (∀ paper, UploadResponse.noFile = UploadResponse.updated paper →
          ∃ existing ∈ w.papers, existing.id = paper.id ∧ existing.key = paper.key ∧
            (w.run stored).papers = w.papers.map (fun q => if q.id = paper.id then paper else q) ∧
            (w.run stored).papers.length = w.papers.length) ∧
        (∀ paper, UploadResponse.noFile = UploadResponse.created paper →
          paper.key ∉ w.papers.map QuestionPaper.key ∧
          (w.run stored).papers = w.papers ++ [paper]) ∧
        (UploadResponse.noFile.paper = none → (w.run stored).papers = w.papers) := by
      rw [run_papers_free w stored hstore]
      exact ⟨hok, by simp, by simp, fun _ => rfl⟩
    have hfail : PapersOk (w.run stored).papers ∧
        (∀ paper, UploadResponse.failed = UploadResponse.updated paper →
          ∃ existing ∈ w.papers, existing.id = paper.id ∧ existing.key = paper.key ∧
            (w.run stored).papers = w.papers.map (fun q => if q.id = paper.id then paper else q) ∧
            (w.run stored).papers.length = w.papers.length) ∧
        (∀ paper, UploadResponse.failed = UploadResponse.created paper →
          paper.key ∉ w.papers.map QuestionPaper.key ∧
          (w.run stored).papers = w.papers ++ [paper]) ∧
        (UploadResponse.failed.paper = none → (w.run stored).papers = w.papers) := by
      rw [run_papers_free w stored hstore]
      exact ⟨hok, by simp, by simp, fun _ => rfl⟩
    unfold paperHandler
    cases file with
    | none => exact hkeep
    | some filename =>
      cases hpart : req.file with
      | none => exact hkeep
      | some part =>
        dsimp only
        cases hyear : req.year with
        | none => exact hfail
        | some year =>
          cases hsem : req.semester with
          | none => exact hfail
          | some semester =>
            cases hsubject : req.subject with
            | none => exact hfail
            | some subject =>
              cases hexam : req.examType with
              | none => exact hfail
              | some examType =>
                dsimp only
                rcases savePaperRecord_cases lib w req stored year semester subject examType
                  filename part with ⟨hnone, heff⟩ | ⟨existing, doc, hfind, hdoc, heq⟩ |
                  ⟨n, doc, hfind, hparse, hdoc, heq⟩
                · rw [heff, run_papers_free w stored hstore]
                  refine ⟨hok, ?_, ?_, fun _ => rfl⟩
                  · intro paper hp
                    rw [hp] at hnone
                    simp [UploadResponse.paper] at hnone
                  · intro paper hp
                    rw [hp] at hnone
                    simp [UploadResponse.paper] at hnone
                · rw [heq]
                  dsimp only
                  have hmem := List.mem_of_find?_eq_some hfind
                  have hid : doc.id = existing.id := by rw [hdoc]
                  have hkey : doc.key = existing.key := by rw [hdoc]; rfl
                  rw [run_papers_save w stored _ hstore,
                    upsert_paper_existing doc existing w.papers hmem hid]
                  refine ⟨papersOk_updated _ doc existing hok hmem hid hkey, ?_, ?_, ?_⟩
                  · intro paper hp
                    simp only [UploadResponse.updated.injEq] at hp
                    subst hp
                    exact ⟨existing, hmem, hid.symm, hkey.symm, rfl, by simp⟩
                  · intro paper hp
                    simp at hp
                  · intro hp
                    simp [UploadResponse.paper] at hp
                · rw [heq]
                  dsimp only
                  have hcast := hagree semester n hsem hparse
                  rw [hcast] at hfind
                  have hkey : doc.key ∉ w.papers.map QuestionPaper.key := by
                    rw [hdoc]
                    exact key_not_mem_of_find _ _ _ _ _ hfind
                  have hnew : doc.id ∉ w.papers.map QuestionPaper.id := by
                    rw [hdoc]
                    exact hfresh
                  rw [run_papers_save w stored _ hstore, upsert_paper_new doc _ hnew]
                  refine ⟨papersOk_created _ doc hok hnew hkey, ?_, ?_, ?_⟩
                  · intro paper hp
                    simp at hp
                  · intro paper hp
                    simp only [UploadResponse.created.injEq] at hp
                    subst hp
                    exact ⟨hkey, rfl⟩
                  · intro hp
                    simp [UploadResponse.paper] at hp

/-! ## Path algebra -/

theorem splitSlash_ne_nil (p : Str) : splitSlash p ≠ [] := by
  cases p with
  | nil => simp [splitSlash]
  | cons c cs =>
    unfold splitSlash
    split_ifs
    · simp
    · split <;> simp

theorem splitSlash_cons_slash (p : Str) : splitSlash ('/' :: p) = [] :: splitSlash p := by
  simp [splitSlash]

theorem splitSlash_cons_other (c : Char) (p : Str) (hc : c ≠ '/') :
    splitSlash (c :: p) = (c :: (splitSlash p).head!) :: (splitSlash p).tail := by
  have hne := splitSlash_ne_nil p
  rw [splitSlash, if_neg hc]
  cases h : splitSlash p with
  | nil => exact absurd h hne
  | cons s ss => rfl

theorem splitSlash_append (a b : Str) :
    splitSlash (a ++ '/' :: b) = splitSlash a ++ splitSlash b := by
  induction a with
  | nil => simp [splitSlash]
  | cons c cs ih =>
    by_cases hc : c = '/'
    · subst hc
      rw [List.cons_append, splitSlash_cons_slash, splitSlash_cons_slash, ih, List.cons_append]
    · rw [List.cons_append, splitSlash_cons_other c _ hc, splitSlash_cons_other c cs hc, ih]
      have hne := splitSlash_ne_nil cs
      cases h : splitSlash cs with
      | nil => exact absurd h hne
      | cons s ss => rfl

theorem splitSlash_of_not_mem (s : Str) (h : '/' ∉ s) : splitSlash s = [s] := by
  induction s with
  | nil => rfl
  | cons c cs ih =>
    have hc : c ≠ '/' := fun hc => h (hc ▸ List.mem_cons_self _ _)
    have hcs : '/' ∉ cs := fun hm => h (List.mem_cons_of_mem _ hm)
    rw [splitSlash_cons_other c cs hc, ih hcs]
    rfl

theorem not_mem_of_mem_splitSlash (p : Str) : ∀ s ∈ splitSlash p, '/' ∉ s := by
  induction p with
  | nil => simp [splitSlash]
  | cons c cs ih =>
    by_cases hc : c = '/'
    · subst hc
      rw [splitSlash_cons_slash]
      intro s hs
      rcases List.mem_cons.1 hs with rfl | hs
      · simp
      · exact ih s hs
    · rw [splitSlash_cons_other c cs hc]
      have hne := splitSlash_ne_nil cs
      cases h : splitSlash cs with
      | nil => exact absurd h hne
      | cons t ts =>
        rw [h] at ih
        intro s hs
        rcases List.mem_cons.1 hs with rfl | hs
        · intro hm
          rcases List.mem_cons.1 hm with hm | hm
          · exact hc hm.symm
          · exact ih t (List.mem_cons_self _ _) hm
        · exact ih s (List.mem_cons_of_mem _ hs)

/-- A segment that `normalizeString` keeps as it is: not empty, not `.`, not
`..`. -/
theorem normStep_plain (allow : Bool) (kept : List Str) (seg : Str) (h1 : seg ≠ [])
    (h2 : seg ≠ ['.']) (h3 : seg ≠ ['.', '.']) : normStep allow kept seg = seg :: kept := by
  unfold normStep
  rw [if_neg (by simp [h1, h2]), if_neg h3]

theorem normStep_skip (allow : Bool) (kept : List Str) (seg : Str)
    (h : seg = [] ∨ seg = ['.']) : normStep allow kept seg = kept := by
  unfold normStep
  rw [if_pos h]

theorem normStep_dotdot_nil (allow : Bool) :
    normStep allow [] ['.', '.'] = if allow then [['.', '.']] else [] := by
  simp [normStep]

theorem normStep_dotdot_cons (allow : Bool) (top : Str) (rest : List Str) :
    normStep allow (top :: rest) ['.', '.'] =
      if top = ['.', '.'] then (if allow then ['.', '.'] :: top :: rest else top :: rest)
      else rest := by
  simp [normStep]

/-- Every step of `normalizeString` keeps a property of the kept segments that
the new segment has. -/
theorem normStep_forall (P : Str → Prop) (allow : Bool) (kept : List Str) (seg : Str)
    (h : ∀ s ∈ kept, P s)
    (hseg : seg ≠ [] → seg ≠ ['.'] → (seg = ['.', '.'] → allow = true) → P seg) :
    ∀ s ∈ normStep allow kept seg, P s := by
  by_cases h1 : seg = [] ∨ seg = ['.']
  · rw [normStep_skip allow kept seg h1]
    exact h
  have h1a : seg ≠ [] := fun h0 => h1 (Or.inl h0)
  have h1b : seg ≠ ['.'] := fun h0 => h1 (Or.inr h0)
  by_cases h2 : seg = ['.', '.']
  · subst h2
    cases kept with
    | nil =>
      rw [normStep_dotdot_nil]
      cases allow with
      | false => simp
      | true =>
        intro s hs
        simp only [if_true, List.mem_singleton] at hs
        subst hs
        exact hseg h1a h1b fun _ => rfl
    | cons top rest =>
      rw [normStep_dotdot_cons]
      by_cases ht : top = ['.', '.']
      · rw [if_pos ht]
        cases allow with
        | false => exact h
        | true =>
          intro s hs
          rcases List.mem_cons.1 hs with rfl | hs
          · exact hseg h1a h1b fun _ => rfl
          · exact h s hs
      · rw [if_neg ht]
        exact fun s hs => h s (List.mem_cons_of_mem _ hs)
  · rw [normStep_plain allow kept seg h1a h1b h2]
    intro s hs
    rcases List.mem_cons.1 hs with rfl | hs
    · exact hseg h1a h1b fun h0 => absurd h0 h2
    · exact h s hs

theorem foldl_normStep_forall (P : Str → Prop) (allow : Bool) (segs : List Str) (kept : List Str)
    (h : ∀ s ∈ kept, P s)
    (hsegs : ∀ seg ∈ segs, seg ≠ [] → seg ≠ ['.'] → (seg = ['.', '.'] → allow = true) → P seg) :
    ∀ s ∈ segs.foldl (normStep allow) kept, P s := by
  induction segs generalizing kept with
  | nil => exact h
  | cons seg rest ih =>
    exact ih _ (normStep_forall P allow kept seg h (hsegs seg (List.mem_cons_self _ _)))
      fun s hs => hsegs s (List.mem_cons_of_mem _ hs)

/-- The segments `normalizeString` keeps have no separator, are not empty and
not `.`, and are `..` only when `allowAboveRoot`. -/
theorem normSegs_plain (allow : Bool) (p : Str) :
    ∀ s ∈ normSegs allow p,
      '/' ∉ s ∧ s ≠ [] ∧ s ≠ ['.'] ∧ (allow = false → s ≠ ['.', '.']) := by
  intro s hs
  unfold normSegs at hs
  rw [List.mem_reverse] at hs
  refine foldl_normStep_forall
    (fun s => '/' ∉ s ∧ s ≠ [] ∧ s ≠ ['.'] ∧ (allow = false → s ≠ ['.', '.'])) allow
    (splitSlash p) [] (by simp) ?_ s hs
  intro seg hseg h1 h2 h3
  refine ⟨not_mem_of_mem_splitSlash p seg hseg, h1, h2, ?_⟩
  intro ha h0
  have := h3 h0
  rw [ha] at this
  cases this

theorem joinSlash_cons_cons (s t : Str) (ts : List Str) :
    joinSlash (s :: t :: ts) = s ++ '/' :: joinSlash (t :: ts) := rfl

theorem joinSlash_append_singleton (l : List Str) (f : Str) (h : l ≠ []) :
    joinSlash (l ++ [f]) = joinSlash l ++ '/' :: f := by
  induction l with
  | nil => exact absurd rfl h
  | cons s t ih =>
    cases t with
    | nil => rfl
    | cons u us =>
      rw [List.cons_append, List.cons_append, joinSlash_cons_cons, joinSlash_cons_cons,
        ← List.cons_append, ih (by simp), List.append_assoc]
      rfl

theorem splitSlash_joinSlash (l : List Str) (hne : l ≠ []) (h : ∀ s ∈ l, '/' ∉ s) :
    splitSlash (joinSlash l) = l := by
  induction l with
  | nil => exact absurd rfl hne
  | cons s t ih =>
    cases t with
    | nil => exact splitSlash_of_not_mem s (h s (List.mem_cons_self _ _))
    | cons u us =>
      rw [joinSlash_cons_cons, splitSlash_append,
        splitSlash_of_not_mem s (h s (List.mem_cons_self _ _)),
        ih (by simp) fun x hx => h x (List.mem_cons_of_mem _ hx)]
      rfl

theorem joinSlash_eq_nil (l : List Str) (h : ∀ s ∈ l, s ≠ []) : joinSlash l = [] ↔ l = [] := by
  constructor
  · intro hj
    cases l with
    | nil => rfl
    | cons s t =>
      cases t with
      | nil => exact absurd hj (h s (List.mem_cons_self _ _))
      | cons u us =>
        rw [joinSlash_cons_cons] at hj
        simp at hj
  · rintro rfl
    rfl

theorem foldl_normStep_plain (allow : Bool) (segs kept : List Str)
    (h : ∀ s ∈ segs, s ≠ [] ∧ s ≠ ['.'] ∧ s ≠ ['.', '.']) :
    segs.foldl (normStep allow) kept = segs.reverse ++ kept := by
  induction segs generalizing kept with
  | nil => rfl
  | cons s rest ih =>
    obtain ⟨h1, h2, h3⟩ := h s (List.mem_cons_self _ _)
    rw [List.foldl_cons, normStep_plain allow kept s h1 h2 h3,
      ih _ fun x hx => h x (List.mem_cons_of_mem _ hx)]
    simp

/-- Resolving the kept segments of a relative path from a directory gives
what resolving the path itself gives. -/
theorem foldl_normStep_relative (segs r st : List Str) (hr : ∀ s ∈ r, s ≠ [] ∧ s ≠ ['.']) :
    ((segs.foldl (normStep true) r).reverse).foldl (normStep false) st =
      segs.foldl (normStep false) (r.reverse.foldl (normStep false) st) := by
  induction segs generalizing r with
  | nil => rfl
  | cons seg rest ih =>
    have hr' : ∀ s ∈ normStep true r seg, s ≠ [] ∧ s ≠ ['.'] :=
      normStep_forall (fun s => s ≠ [] ∧ s ≠ ['.']) true r seg hr fun h1 h2 _ => ⟨h1, h2⟩
    rw [List.foldl_cons, ih _ hr', List.foldl_cons]
    congr 1
    by_cases h1 : seg = [] ∨ seg = ['.']
    · rw [normStep_skip true r seg h1, normStep_skip false _ seg h1]
    have h1a : seg ≠ [] := fun h0 => h1 (Or.inl h0)
    have h1b : seg ≠ ['.'] := fun h0 => h1 (Or.inr h0)
    by_cases h2 : seg = ['.', '.']
    · subst h2
      cases r with
      | nil =>
        rw [normStep_dotdot_nil]
        rfl
      | cons top r' =>
        rw [normStep_dotdot_cons]
        by_cases ht : top = ['.', '.']
        · rw [if_pos ht, if_pos rfl, List.reverse_cons, List.foldl_append]
          rfl
        · rw [if_neg ht, List.reverse_cons, List.foldl_append, List.foldl_cons, List.foldl_nil]
          obtain ⟨t1, t2⟩ := hr top (List.mem_cons_self _ _)
          rw [normStep_plain false _ top t1 t2 ht, normStep_dotdot_cons, if_neg ht]
    · rw [normStep_plain true r seg h1a h1b h2, List.reverse_cons, List.foldl_append]
      rfl

theorem isAbsolute_cons (c : Char) (p : Str) : isAbsolute (c :: p) = decide (c = '/') := by
  simp [isAbsolute]

theorem isAbsolute_append (a b : Str) (h : a ≠ []) : isAbsolute (a ++ b) = isAbsolute a := by
  cases a with
  | nil => exact absurd rfl h
  | cons c cs => rfl

theorem isAbsolute_joinSlash (s : Str) (l : List Str) (h : s ≠ []) :
    isAbsolute (joinSlash (s :: l)) = isAbsolute s := by
  cases l with
  | nil => rfl
  | cons t ts =>
    rw [joinSlash_cons_cons]
    exact isAbsolute_append s _ h

theorem getLast?_append_slash (q : Str) : (q ++ ['/']).getLast? = some '/' := by
  simp

/-- Resolving a normalized relative path from a directory gives what
resolving the path itself gives. -/
theorem foldl_normalize_relative (p : Str) (st : List Str) (hrel : isAbsolute p = false) :
    (splitSlash (normalize p)).foldl (normStep false) st =
      (splitSlash p).foldl (normStep false) st := by
  by_cases hp : p = []
  · subst hp
    rfl
  have hS := normSegs_plain true p
  have hcore : (normSegs true p).foldl (normStep false) st =
      (splitSlash p).foldl (normStep false) st := by
    unfold normSegs
    rw [foldl_normStep_relative (splitSlash p) [] st (by simp)]
    rfl
  have hnil : normalizeString p true = [] ↔ normSegs true p = [] :=
    joinSlash_eq_nil _ fun s hs => (hS s hs).2.1
  simp only [normalize, if_neg hp, hrel, Bool.not_false, Bool.false_eq_true, if_false]
  by_cases hq : normalizeString p true = []
  · rw [if_pos hq, ← hcore, hnil.1 hq]
    split_ifs <;> rfl
  · rw [if_neg hq]
    have hne : normSegs true p ≠ [] := fun h => hq (hnil.2 h)
    have hsplit : splitSlash (normalizeString p true) = normSegs true p :=
      splitSlash_joinSlash _ hne fun s hs => (hS s hs).1
    split_ifs
    · rw [show normalizeString p true ++ ['/'] = normalizeString p true ++ '/' :: [] from rfl,
        splitSlash_append, hsplit, List.foldl_append, hcore]
      rfl
    · rw [hsplit, hcore]

/-- Resolving a normalized absolute path gives what resolving the path itself
gives. -/
theorem foldl_normalize_absolute (p : Str) (habs : isAbsolute p = true) :
    (splitSlash (normalize p)).foldl (normStep false) [] =
      (splitSlash p).foldl (normStep false) [] := by
  have hp : p ≠ [] := by
    rintro rfl
    simp [isAbsolute] at habs
  have hS := normSegs_plain false p
  have hplain : ∀ s ∈ normSegs false p, s ≠ [] ∧ s ≠ ['.'] ∧ s ≠ ['.', '.'] :=
    fun s hs => ⟨(hS s hs).2.1, (hS s hs).2.2.1, (hS s hs).2.2.2 rfl⟩
  have hcore : (normSegs false p).foldl (normStep false) [] =
      (splitSlash p).foldl (normStep false) [] := by
    rw [foldl_normStep_plain false _ [] hplain]
    simp [normSegs]
  have hnil : normalizeString p false = [] ↔ normSegs false p = [] :=
    joinSlash_eq_nil _ fun s hs => (hS s hs).2.1
  simp only [normalize, if_neg hp, habs, Bool.not_true, if_true]
  by_cases hq : normalizeString p false = []
  · rw [if_pos hq, ← hcore, hnil.1 hq]
    rfl
  · rw [if_neg hq]
    have hne : normSegs false p ≠ [] := fun h => hq (hnil.2 h)
    have hsplit : splitSlash (normalizeString p false) = normSegs false p :=
      splitSlash_joinSlash _ hne fun s hs => (hS s hs).1
    rw [splitSlash_cons_slash, List.foldl_cons, normStep_skip false [] [] (Or.inl rfl)]
    split_ifs
    · rw [show normalizeString p false ++ ['/'] = normalizeString p false ++ '/' :: [] from rfl,
        splitSlash_append, hsplit, List.foldl_append, hcore]
      rfl
    · rw [hsplit, hcore]

theorem joinSlash_cons_cons_append (cwd a : Str) (l : List Str) (f : Str) :
    joinSlash (cwd :: a :: (l ++ [f])) = cwd ++ '/' :: (joinSlash (a :: l) ++ '/' :: f) := by
  rw [joinSlash_cons_cons, ← List.cons_append,
    joinSlash_append_singleton (a :: l) f (by simp)]

theorem locOf_relative (cwd p : Str) (hrel : isAbsolute p = false) :
    locOf cwd p =
      ((splitSlash p).foldl (normStep false)
        ((splitSlash cwd).foldl (normStep false) [])).reverse := by
  unfold locOf normSegs
  rw [hrel]
  simp only [Bool.false_eq_true, if_false]
  rw [splitSlash_append, List.foldl_append]

theorem locOf_absolute (cwd p : Str) (habs : isAbsolute p = true) :
    locOf cwd p = ((splitSlash p).foldl (normStep false) []).reverse := by
  unfold locOf normSegs
  rw [habs]
  simp

theorem isAbsolute_normalize (p : Str) : isAbsolute (normalize p) = isAbsolute p := by
  by_cases hp : p = []
  · subst hp
    rfl
  cases habs : isAbsolute p with
  | true =>
    simp only [normalize, if_neg hp, habs, if_true]
    split_ifs <;> rfl
  | false =>
    have hS := normSegs_plain true p
    have hnil : normalizeString p true = [] ↔ normSegs true p = [] :=
      joinSlash_eq_nil _ fun s hs => (hS s hs).2.1
    simp only [normalize, if_neg hp, habs, Bool.not_false, Bool.false_eq_true, if_false]
    by_cases hq : normalizeString p true = []
    · rw [if_pos hq]
      split_ifs <;> rfl
    · rw [if_neg hq]
      have hhead : isAbsolute (normalizeString p true) = false := by
        unfold normalizeString
        cases hs : normSegs true p with
        | nil => exact absurd (hnil.2 hs) hq
        | cons s rest =>
          have hs1 := hS s (hs ▸ List.mem_cons_self _ _)
          rw [isAbsolute_joinSlash s rest hs1.2.1]
          cases s with
          | nil => exact absurd rfl hs1.2.1
          | cons c cs =>
            rw [isAbsolute_cons]
            have : c ≠ '/' := fun hc => hs1.1 (hc ▸ List.mem_cons_self _ _)
            simp [this]
      split_ifs
      · rw [isAbsolute_append _ _ hq, hhead]
      · exact hhead

/-- Normalizing a path does not change the location it resolves to. -/
theorem locOf_normalize (cwd p : Str) : locOf cwd (normalize p) = locOf cwd p := by
  cases habs : isAbsolute p with
  | true =>
    rw [locOf_absolute cwd _ ((isAbsolute_normalize p).trans habs), locOf_absolute cwd p habs,
      foldl_normalize_absolute p habs]
  | false =>
    rw [locOf_relative cwd _ ((isAbsolute_normalize p).trans habs), locOf_relative cwd p habs,
      foldl_normalize_relative p _ habs]

/-- Normalizing the directory part of a path does not change the location the
path resolves to. -/
theorem locOf_normalize_append (cwd a f : Str) (ha : a ≠ []) :
    locOf cwd (normalize a ++ '/' :: f) = locOf cwd (a ++ '/' :: f) := by
  have hn : normalize a ≠ [] := normalize_ne_nil a
  cases habs : isAbsolute a with
  | true =>
    rw [locOf_absolute cwd _ ((isAbsolute_append _ _ hn).trans
        ((isAbsolute_normalize a).trans habs)),
      locOf_absolute cwd _ ((isAbsolute_append _ _ ha).trans habs),
      splitSlash_append, splitSlash_append, List.foldl_append, List.foldl_append,
      foldl_normalize_absolute a habs]
  | false =>
    rw [locOf_relative cwd _ ((isAbsolute_append _ _ hn).trans
        ((isAbsolute_normalize a).trans habs)),
      locOf_relative cwd _ ((isAbsolute_append _ _ ha).trans habs),
      splitSlash_append, splitSlash_append, List.foldl_append, List.foldl_append,
      foldl_normalize_relative a _ habs]

theorem join_of_nonempty (a : Str) (l : List Str) (ha : a ≠ []) :
    join (a :: l) = normalize (joinSlash (a :: l.filter fun s => s ≠ [])) := by
  unfold join
  rw [List.filter_cons]
  simp [ha]

theorem joinSlash_cons_ne_nil (a : Str) (l : List Str) (ha : a ≠ []) : joinSlash (a :: l) ≠ [] := by
  cases l with
  | nil => exact ha
  | cons t ts =>
    rw [joinSlash_cons_cons]
    simp [ha]

/-- A file written through a relative directory made by `path.join`, then
`path.join` with its name, lies where `path.join` of the working directory,
the parts of the directory and the name points. -/
theorem locOf_join_join (cwd a f : Str) (l : List Str) (hcwd : isAbsolute cwd = true)
    (ha : a ≠ []) (hrel : isAbsolute a = false) (hf : f ≠ []) :
    locOf cwd (join [join (a :: l), f]) = locOf cwd (join (cwd :: a :: (l ++ [f]))) := by
  have hcwdne : cwd ≠ [] := by
    rintro rfl
    simp [isAbsolute] at hcwd
  have hj : join (a :: l) ≠ [] := join_ne_nil _
  have hA : joinSlash (a :: l.filter fun s => s ≠ []) ≠ [] := joinSlash_cons_ne_nil a _ ha
  have hArel : isAbsolute (joinSlash (a :: l.filter fun s => s ≠ [])) = false :=
    (isAbsolute_joinSlash a _ ha).trans hrel
  have hleft : join [join (a :: l), f] =
      normalize (join (a :: l) ++ '/' :: f) := by
    rw [join_of_nonempty _ _ hj]
    simp [hf, joinSlash]
  have hright : join (cwd :: a :: (l ++ [f])) =
      normalize (cwd ++ '/' :: (joinSlash (a :: l.filter fun s => s ≠ []) ++ '/' :: f)) := by
    rw [join_of_nonempty _ _ hcwdne]
    have : (a :: (l ++ [f])).filter (fun s => decide (s ≠ [])) =
        a :: ((l.filter fun s => s ≠ []) ++ [f]) := by
      simp [List.filter_cons, ha, hf]
    rw [this, joinSlash_cons_cons_append]
  rw [hleft, hright, locOf_normalize, locOf_normalize, join_of_nonempty a l ha,
    locOf_normalize_append cwd _ f hA,
    locOf_relative cwd _ ((isAbsolute_append _ _ hA).trans hArel),
    locOf_absolute cwd _ ((isAbsolute_append _ _ hcwdne).trans hcwd),
    splitSlash_append cwd, List.foldl_append]

theorem endsDir_backslashToSlash (y : Str) (h : EndsDir y) : EndsDir (backslashToSlash y) := by
  rcases h with rfl | h
  · exact Or.inl rfl
  · right
    unfold backslashToSlash
    rw [List.getLast?_map, h]
    rfl

theorem endsDir_drop_one (y : Str) (h : EndsDir y) : EndsDir (y.drop 1) := by
  rcases h with rfl | h
  · exact Or.inl rfl
  · by_cases hl : y.length ≤ 1
    · left
      exact List.drop_eq_nil_of_le hl
    · right
      rw [List.getLast?_drop, if_neg hl, h]

/-- The base name of a directory part followed by a name is the name. -/
theorem basename_append (y f : Str) (hy : EndsDir y) (hf : f ≠ []) (hslash : '/' ∉ f) :
    basename (y ++ f) = f := by
  unfold basename
  rw [List.reverse_append]
  have hall : ∀ c ∈ f.reverse, (fun c => decide (c ≠ '/')) c = true := by
    intro c hc
    have : c ≠ '/' := fun h => hslash (h ▸ List.mem_reverse.1 hc)
    simp [this]
  have hdrop : (f.reverse ++ y.reverse).dropWhile (fun c => decide (c = '/'))
      = f.reverse ++ y.reverse := by
    cases hr : f.reverse with
    | nil => exact absurd (List.reverse_eq_nil_iff.1 hr) hf
    | cons c cs =>
      have hc : c ≠ '/' := by
        have := hall c (hr ▸ List.mem_cons_self _ _)
        simpa using this
      rw [List.cons_append, List.dropWhile_cons_of_neg (by simp [hc])]
  rw [hdrop, List.takeWhile_append_of_pos hall]
  have htake : y.reverse.takeWhile (fun c => decide (c ≠ '/')) = [] := by
    rcases hy with rfl | hy
    · rfl
    · cases hr : y.reverse with
      | nil => rfl
      | cons c cs =>
        have hc : c = '/' := by
          have h1 : y.reverse.head? = some '/' := by rw [List.head?_reverse, hy]
          rw [hr] at h1
          simpa using h1
        rw [List.takeWhile_cons_of_neg (by simp [hc])]
  rw [htake, List.append_nil, List.reverse_reverse]

theorem joinSlash_append_name (k : List Str) (f : Str) :
    ∃ y, EndsDir y ∧ joinSlash (k ++ [f]) = y ++ f := by
  by_cases hk : k = []
  · subst hk
    exact ⟨[], Or.inl rfl, rfl⟩
  · refine ⟨joinSlash k ++ ['/'], Or.inr (by simp), ?_⟩
    rw [joinSlash_append_singleton k f hk]
    simp

/-- `path.join` of parts and a last part that is a plain name is a directory
part followed by that name. -/
theorem join_append_name (a : Str) (l : List Str) (f : Str) (ha : a ≠ []) (hf : f ≠ [])
    (hslash : '/' ∉ f) (hdot : f ≠ ['.']) (hdots : f ≠ ['.', '.']) :
    ∃ y, EndsDir y ∧ join (a :: (l ++ [f])) = y ++ f := by
  have hfilter : (l ++ [f]).filter (fun s => decide (s ≠ [])) =
      (l.filter fun s => s ≠ []) ++ [f] := by
    simp [hf]
  have hx : joinSlash (a :: ((l.filter fun s => s ≠ []) ++ [f])) =
      joinSlash (a :: l.filter fun s => s ≠ []) ++ '/' :: f := by
    rw [← List.cons_append, joinSlash_append_singleton _ f (by simp)]
  have hlast : (joinSlash (a :: l.filter fun s => s ≠ []) ++ '/' :: f).getLast? ≠ some '/' := by
    intro h
    rw [List.getLast?_append] at h
    cases hfl : f.getLast? with
    | none =>
      cases f with
      | nil => exact hf rfl
      | cons c cs => simp [List.getLast?_cons] at hfl
    | some c =>
      have hmem : c ∈ f := List.mem_of_getLast?_eq_some hfl
      have : ('/' :: f).getLast? = some c := by
        cases f with
        | nil => exact absurd rfl hf
        | cons d ds =>
          rw [List.getLast?_cons_cons]
          exact hfl
      rw [this] at h
      have h' : c = '/' := by simpa [Option.or] using h
      exact hslash (h' ▸ hmem)
  have hsegs : ∀ allow, normSegs allow
      (joinSlash (a :: l.filter fun s => s ≠ []) ++ '/' :: f) =
      normSegs allow (joinSlash (a :: l.filter fun s => s ≠ [])) ++ [f] := by
    intro allow
    unfold normSegs
    rw [splitSlash_append, List.foldl_append, splitSlash_of_not_mem f hslash, List.foldl_cons,
      List.foldl_nil, normStep_plain allow _ f hf hdot hdots, List.reverse_cons]
  rw [join_of_nonempty a _ ha, hfilter, hx]
  have hne : joinSlash (a :: l.filter fun s => s ≠ []) ++ '/' :: f ≠ [] := by simp
  simp only [normalize, if_neg hne, normalizeString, hsegs]
  obtain ⟨y, hy, hjoin⟩ := joinSlash_append_name
    (normSegs (!isAbsolute (joinSlash (a :: l.filter fun s => s ≠ []) ++ '/' :: f))
      (joinSlash (a :: l.filter fun s => s ≠ []))) f
  rw [hjoin]
  have hq : y ++ f ≠ [] := by simp [hf]
  rw [if_neg hq, if_neg hlast]
  split_ifs
  · refine ⟨'/' :: y, ?_, rfl⟩
    rcases hy with rfl | hy
    · exact Or.inr rfl
    · right
      cases y with
      | nil => simp at hy
      | cons c cs =>
        rw [List.getLast?_cons_cons]
        exact hy
  · exact ⟨y, hy, rfl⟩

theorem sanitize_mem (s : Str) : ∀ c ∈ sanitize s, c ≠ '/' ∧ c ≠ '\\' := by
  intro c hc
  unfold sanitize at hc
  rw [List.mem_map] at hc
  obtain ⟨d, _, rfl⟩ := hc
  by_cases hd : isAlnum d = true
  · rw [if_pos hd]
    constructor
    · rintro rfl
      exact absurd hd (by decide)
    · rintro rfl
      exact absurd hd (by decide)
  · rw [if_neg hd]
    exact ⟨by decide, by decide⟩

theorem digitsRev_mem (fuel n : Nat) : ∀ c ∈ digitsRev fuel n, c ≠ '/' ∧ c ≠ '\\' := by
  induction fuel generalizing n with
  | zero => simp [digitsRev]
  | succ k ih =>
    intro c hc
    unfold digitsRev at hc
    rcases List.mem_cons.1 hc with rfl | hc
    · have hlt : n % 10 < 10 := Nat.mod_lt _ (by decide)
      generalize n % 10 = d at hlt
      interval_cases d <;> exact ⟨by decide, by decide⟩
    · split_ifs at hc
      · simp at hc
      · exact ih _ c hc

theorem natToString_mem (n : Nat) : ∀ c ∈ natToString n, c ≠ '/' ∧ c ≠ '\\' := by
  intro c hc
  unfold natToString at hc
  exact digitsRev_mem _ _ c (List.mem_reverse.1 hc)

theorem basename_not_mem_slash (p : Str) : '/' ∉ basename p := by
  unfold basename
  intro h
  have := List.mem_takeWhile_imp (List.mem_reverse.1 h)
  simp at this

theorem extname_not_mem_slash (p : Str) : '/' ∉ extname p := by
  have hb := basename_not_mem_slash p
  unfold extname
  dsimp only
  have htail : '/' ∉ '.' :: (((basename p).reverse.takeWhile (fun c => c ≠ '.')).reverse) := by
    intro h
    rcases List.mem_cons.1 h with h | h
    · exact absurd h (by decide)
    · exact hb (List.mem_reverse.1 (List.takeWhile_subset _ (List.mem_reverse.1 h)))
  split_ifs
  all_goals first
    | exact List.not_mem_nil _
    | exact htail

/-- The name the storage gives an uploaded question paper is a plain file
name: not empty, without separator, neither `.` nor `..`; and it has no
backslash when the extension of the original name has none. -/
theorem paperFilename_plain (subject examType : Str) (now : Nat) (originalname : Str) :
    paperFilename subject examType now originalname ≠ [] ∧
    '/' ∉ paperFilename subject examType now originalname ∧
    paperFilename subject examType now originalname ≠ ['.'] ∧
    paperFilename subject examType now originalname ≠ ['.', '.'] ∧
    ('\\' ∉ extname originalname → '\\' ∉ paperFilename subject examType now originalname) := by
  have hunder : '_' ∈ paperFilename subject examType now originalname := by
    unfold paperFilename
    simp
  have hchars : ∀ c ∈ paperFilename subject examType now originalname,
      (c ≠ '/' ∧ c ≠ '\\') ∨ c ∈ extname originalname := by
    intro c hc
    unfold paperFilename at hc
    simp only [List.mem_append, List.mem_cons] at hc
    rcases hc with ((hc | hc | hc) | hc | hc) | hc
    · exact Or.inl (sanitize_mem _ c hc)
    · exact Or.inl (hc ▸ ⟨by decide, by decide⟩)
    · exact Or.inl (sanitize_mem _ c hc)
    · exact Or.inl (hc ▸ ⟨by decide, by decide⟩)
    · exact Or.inl (natToString_mem _ c hc)
    · exact Or.inr hc
  refine ⟨?_, ?_, ?_, ?_, ?_⟩
  · intro h
    rw [h] at hunder
    simp at hunder
  · intro h
    rcases hchars _ h with h1 | h1
    · exact h1.1 rfl
    · exact extname_not_mem_slash _ h1
  · intro h
    rw [h] at hunder
    simp at hunder
  · intro h
    rw [h] at hunder
    simp at hunder
  · intro hext h
    rcases hchars _ h with h1 | h1
    · exact h1.2 rfl
    · exact hext h1

theorem backslashToSlash_of_not_mem (f : Str) (h : '\\' ∉ f) : backslashToSlash f = f := by
  unfold backslashToSlash
  conv_rhs => rw [← List.map_id f]
  apply List.map_congr_left
  intro c hc
  have : c ≠ '\\' := fun hx => h (hx ▸ hc)
  simp [this]

/-- The base name of the path the upload handler stores, after the download
handler removed its leading separator if it has one, is the name of the stored
file. -/
theorem basename_sanitizedPath (paper : QuestionPaper) (year semester filename : Str)
    (hpath : paper.filePath = paperRelativePath year semester filename)
    (hf : filename ≠ []) (hslash : '/' ∉ filename) (hdot : filename ≠ ['.'])
    (hdots : filename ≠ ['.', '.']) (hback : '\\' ∉ filename) :
    basename (sanitizedPath paper) = filename := by
  obtain ⟨y, hy, hjoin⟩ := join_append_name "uploads".toList
    ["question-papers".toList, year, "semester".toList ++ semester] filename (by decide) hf
    hslash hdot hdots
  have hrel : paper.filePath = backslashToSlash y ++ filename := by
    rw [hpath]
    unfold paperRelativePath
    have : join ["uploads".toList, "question-papers".toList, year, "semester".toList ++ semester,
        filename] = y ++ filename := hjoin
    rw [this]
    unfold backslashToSlash
    rw [List.map_append]
    congr 1
    exact backslashToSlash_of_not_mem filename hback
  have hy' := endsDir_backslashToSlash y hy
  unfold sanitizedPath
  rw [hrel]
  split_ifs with hstart
  · have hne : backslashToSlash y ≠ [] := by
      intro hnil
      rw [hnil] at hstart
      cases filename with
      | nil => exact hf rfl
      | cons c cs =>
        have hc : c ≠ '/' := fun hx => hslash (hx ▸ List.mem_cons_self _ _)
        have hx : '/' = c := by simpa [startsWith] using hstart
        exact hc hx.symm
    have hdrop : substring (backslashToSlash y ++ filename) 1 =
        (backslashToSlash y).drop 1 ++ filename := by
      unfold substring
      cases hby : backslashToSlash y with
      | nil => exact absurd hby hne
      | cons c cs => rfl
    rw [hdrop]
    exact basename_append _ filename (endsDir_drop_one _ hy') hf hslash
  · exact basename_append _ filename hy' hf hslash

/-- What the upload middleware of the question papers did when it stored a
file: the fields it read, the name it gave the file and the write it ended
with. -/
theorem storePaper_some (proc : Proc) (w : World) (req : PaperUpload) (filename : Str)
    (stored : List Effect) (h : storePaper proc w req = (some (some filename), stored)) :
    ∃ part year semester subject examType made,
      req.file = some part ∧ req.year = some year ∧ req.semester = some semester ∧
      req.subject = some subject ∧ req.examType = some examType ∧
      filename = paperFilename subject examType req.now part.originalname ∧
      stored = made ++
        [Effect.writeFile (locOf proc.cwd (join [paperDestination year semester, filename]))
          part.data req.slot] := by
  unfold storePaper at h
  cases hfile : req.file with
  | none =>
    rw [hfile] at h
    simp at h
  | some part =>
    rw [hfile] at h
    dsimp only at h
    by_cases hmime : part.mimetype ≠ "application/pdf".toList
    · rw [if_pos hmime] at h
      simp at h
    · rw [if_neg hmime] at h
      cases hyear : req.year with
      | none =>
        rw [hyear] at h
        simp at h
      | some year =>
        cases hsem : req.semester with
        | none =>
          rw [hyear, hsem] at h
          simp at h
        | some semester =>
          rw [hyear, hsem] at h
          dsimp only at h
          split_ifs at h with hmk
          · simp at h
          · cases hsubject : req.subject with
            | none =>
              rw [hsubject] at h
              simp at h
            | some subject =>
              cases hexam : req.examType with
              | none =>
                rw [hsubject, hexam] at h
                simp at h
              | some examType =>
                rw [hsubject, hexam] at h
                dsimp only at h
                rcases storeAt_cases
                  (w.run (ensureDir (existsSync w.fs proc.cwd (paperDestination year semester))
                    (locOf proc.cwd (paperDestination year semester)) req.slot)).fs
                  (ensureDir (existsSync w.fs proc.cwd (paperDestination year semester))
                    (locOf proc.cwd (paperDestination year semester)) req.slot)
                  (locOf proc.cwd (join [paperDestination year semester,
                    paperFilename subject examType req.now part.originalname]))
                  (paperFilename subject examType req.now part.originalname) part req.slot
                  with hst | hst
                · rw [hst] at h
                  simp only [Prod.mk.injEq, Option.some.injEq] at h
                  obtain ⟨hname, hstored⟩ := h
                  subst hname
                  exact ⟨part, year, semester, subject, examType, _, rfl, rfl, rfl, rfl, rfl, rfl,
                    hstored.symm⟩
                · rw [h] at hst
                  simp at hst

/-- What an upload that answers with a record did: it stored the file part
under the name of the storage, and saved the record last. -/
theorem uploadPaper_paper (lib : Lib) (proc : Proc) (w : World) (req : PaperUpload)
    (paper : QuestionPaper) (h : (uploadPaper lib proc w req).response.paper = some paper) :
    ∃ part year semester subject examType stored,
      req.file = some part ∧ req.year = some year ∧ req.semester = some semester ∧
      req.subject = some subject ∧ req.examType = some examType ∧
      storePaper proc w req =
        (some (some (paperFilename subject examType req.now part.originalname)), stored) ∧
      (uploadPaper lib proc w req).effects = stored ++ [Effect.savePaper paper] ∧
      paper.filePath = paperRelativePath year semester
        (paperFilename subject examType req.now part.originalname) ∧
      paper.fileName = part.originalname ∧ paper.year = year ∧
      (lib.castNumber semester = NumCast.int paper.semester ∨
        parseInt semester = some paper.semester) := by
  unfold uploadPaper at h ⊢
  cases hstore : storePaper proc w req with
  | mk file stored =>
    rw [hstore] at h
    cases file with
    | none => simp [UploadResponse.paper] at h
    | some file =>
      dsimp only at h ⊢
      cases file with
      | none =>
        unfold paperHandler at h
        simp [UploadResponse.paper] at h
      | some filename =>
        obtain ⟨part, year, semester, subject, examType, made, hfile, hyear, hsem, hsubject,
          hexam, hname, _⟩ := storePaper_some proc w req filename stored hstore
        subst hname
        unfold paperHandler at h ⊢
        rw [hfile, hyear, hsem, hsubject, hexam] at h ⊢
        dsimp only at h ⊢
        rcases savePaperRecord_cases lib w req stored year semester subject examType
          (paperFilename subject examType req.now part.originalname) part with
          ⟨hnone, _⟩ | ⟨existing, doc, hfind, hdoc, heq⟩ | ⟨n, doc, hfind, hparse, hdoc, heq⟩
        · rw [hnone] at h
          cases h
        · rw [heq] at h ⊢
          simp only [UploadResponse.paper, Option.some.injEq] at h
          subst h
          obtain ⟨hy, hn, _, _⟩ := matchesFilter_found hfind
          refine ⟨part, year, semester, subject, examType, stored, rfl, rfl, rfl, rfl, rfl, rfl,
            rfl, ?_, ?_, ?_, ?_⟩
          · rw [hdoc]
          · rw [hdoc]
          · rw [hdoc]
            exact hy
          · left
            rw [hdoc]
            exact hn
        · rw [heq] at h ⊢
          simp only [UploadResponse.paper, Option.some.injEq] at h
          subst h
          refine ⟨part, year, semester, subject, examType, stored, rfl, rfl, rfl, rfl, rfl, rfl,
            rfl, ?_, ?_, ?_, ?_⟩
          · rw [hdoc]
          · rw [hdoc]
          · rw [hdoc]
          · right
            rw [hdoc]
            exact hparse

/-- A saved record is the one its id finds. -/
theorem find_upsert (doc : QuestionPaper) (ps : List QuestionPaper) :
    (upsert QuestionPaper.id doc ps).find? (fun p => p.id = doc.id) = some doc := by
  unfold upsert
  split_ifs with hany
  · induction ps with
    | nil => simp at hany
    | cons p rest ih =>
      by_cases hp : p.id = doc.id
      · simp [List.find?, hp]
      · have hrest : (rest.any fun d => decide (d.id = doc.id)) = true := by
          simpa [hp] using hany
        rw [List.map_cons, if_neg hp, List.find?_cons_of_neg _ (by simpa using hp)]
        exact ih hrest
  · have hnone : ps.find? (fun p => decide (p.id = doc.id)) = none := by
      rw [List.find?_eq_none]
      intro x hx hid
      apply hany
      rw [List.any_eq_true]
      exact ⟨x, hx, hid⟩
    rw [List.find?_append, hnone]
    simp

/-- The decimal numerals of the semesters read back as their numbers. -/
theorem parseInt_numToString (n : Int) (hlo : 1 ≤ n) (hhi : n ≤ 8) :
    parseInt (numToString n) = some n := by
  interval_cases n <;> decide

/-- An upload whose semester field is the decimal numeral of a semester can be
downloaded: the request for the id of the record it answers with is served the
canonical path, which holds the bytes of the uploaded file, under the original
name of the file. -/
theorem upload_then_download (lib : Lib) (proc : Proc) (w : World) (req : PaperUpload)
    (n : Int) (paper : QuestionPaper) (id : Str)
    (hcwd : isAbsolute proc.cwd = true)
    (hsem : req.semester = some (numToString n)) (hlo : 1 ≤ n) (hhi : n ≤ 8)
    (hcast : lib.castNumber (numToString n) = NumCast.int n)
    (hext : ∀ part, req.file = some part → '\\' ∉ extname part.originalname)
    (hpaper : (uploadPaper lib proc w req).response.paper = some paper)
    (hid : lib.castObjectId (JVal.str id) = some paper.id) :
    ∃ part, req.file = some part ∧
      (download lib proc (w.run (uploadPaper lib proc w req).effects) id).response =
        DownloadResponse.download (correctPath proc paper) part.originalname ∧
      (w.run (uploadPaper lib proc w req).effects).fs.node
        (locOf proc.cwd (correctPath proc paper)) = some (Node.file part.data) := by
  obtain ⟨part, year, semester, subject, examType, stored, hfile, hyear, hsem2, hsubject, hexam,
    hstore, heff, hpath, hname, hy, hnum⟩ := uploadPaper_paper lib proc w req paper hpaper
  rw [hsem] at hsem2
  simp only [Option.some.injEq] at hsem2
  subst hsem2
  have hsemester : paper.semester = n := by
    rcases hnum with h | h
    · rw [hcast] at h
      simp only [NumCast.int.injEq] at h
      exact h.symm
    · rw [parseInt_numToString n hlo hhi] at h
      simp only [Option.some.injEq] at h
      exact h.symm
  obtain ⟨hne, hslash, hdot, hdots, hback⟩ :=
    paperFilename_plain subject examType req.now part.originalname
  have hbase := basename_sanitizedPath paper year (numToString n)
    (paperFilename subject examType req.now part.originalname) hpath hne hslash hdot hdots
    (hback (hext part hfile))
  obtain ⟨part2, year2, semester2, subject2, examType2, made, hfile2, hyear2, hsem3, hsubject2,
    hexam2, _, hstored⟩ := storePaper_some proc w req _ stored hstore
  rw [hfile] at hfile2
  rw [hyear] at hyear2
  rw [hsem] at hsem3
  simp only [Option.some.injEq] at hfile2 hyear2 hsem3
  subst hfile2 hyear2 hsem3
  have hloc : locOf proc.cwd (join [paperDestination year (numToString n),
      paperFilename subject examType req.now part.originalname]) =
      locOf proc.cwd (correctPath proc paper) := by
    unfold paperDestination correctPath
    rw [locOf_join_join proc.cwd "uploads".toList _ _ hcwd (by decide) (by decide) hne, hbase, hy,
      hsemester]
    rfl
  have hfs : (w.run (uploadPaper lib proc w req).effects).fs.node
      (locOf proc.cwd (correctPath proc paper)) = some (Node.file part.data) := by
    rw [heff, hstored, run_append, run_append, ← hloc]
    show ((w.run made).fs.put req.slot _ (Node.file part.data)).node _ = _
    rw [put_node, if_pos rfl]
  have hpapers : (w.run (uploadPaper lib proc w req).effects).papers =
      upsert QuestionPaper.id paper w.papers := by
    rw [heff]
    apply run_papers_save
    have := storePaper_onPapers proc w req
    rw [hstore] at this
    exact this
  have hfind : findById lib (w.run (uploadPaper lib proc w req).effects).papers (JVal.str id) =
      some (some paper) := by
    rw [findById_str]
    exact ⟨paper.id, hid, by rw [hpapers]; exact find_upsert paper w.papers⟩
  refine ⟨part, hfile, ?_, hfs⟩
  rw [download_of_found lib proc _ id paper hfind]
  show resolvePaper proc _ paper = _
  unfold resolvePaper
  have hex : existsSync (w.run (uploadPaper lib proc w req).effects).fs proc.cwd
      (correctPath proc paper) = true := by
    unfold existsSync
    rw [hfs]
    have : correctPath proc paper ≠ [] := join_ne_nil _
    simp [this]
  dsimp only
  rw [if_pos hex, hname]

/-- The upload with the semester field `3` into the empty catalog can be
downloaded: an instance of `upload_then_download`. -/
theorem upload_then_download_plain :
    ∃ part, uploadPlain.file = some part ∧
      (download hexLib appProc
          (worldEmpty.run (uploadPaper hexLib appProc worldEmpty uploadPlain).effects)
          (objectIdString uploadPlain.newId)).response =
        DownloadResponse.download
          (correctPath appProc
            ⟨uploadPlain.newId, "2023".toList, 3, "Maths".toList, "Midterm".toList,
              "uploads/question-papers/2023/semester3/Maths_Midterm_1700000000000.pdf".toList,
              "maths-midterm.pdf".toList, "21CS001".toList, 1700000000001⟩)
          part.originalname ∧
      (worldEmpty.run (uploadPaper hexLib appProc worldEmpty uploadPlain).effects).fs.node
        (locOf appProc.cwd
          (correctPath appProc
            ⟨uploadPlain.newId, "2023".toList, 3, "Maths".toList, "Midterm".toList,
              "uploads/question-papers/2023/semester3/Maths_Midterm_1700000000000.pdf".toList,
              "maths-midterm.pdf".toList, "21CS001".toList, 1700000000001⟩)) =
        some (Node.file part.data) :=
  upload_then_download hexLib appProc worldEmpty uploadPlain 3 _ (objectIdString uploadPlain.newId)
    (by decide) (by decide) (by decide) (by decide) (by decide)
    (fun part h => by
      have hpart : part = ⟨"maths-midterm.pdf".toList, "application/pdf".toList,
          [37, 80, 68, 70]⟩ := (Option.some.inj h).symm
      rw [hpart]
      decide)
    (by decide) (by decide)

/-! ## Bulk normalize -/

/-- The loop of the bulk normalize pass when every save is accepted: one
entry per record, one save per record whose path starts with a slash. -/
theorem normalizeLoop_ok (ps : List QuestionPaper)
    (hvalid : ∀ p ∈ ps, startsWith p.filePath ['/'] = true → (strippedPaper p).valid = true) :
    normalizeLoop ps =
      (some (ps.map fun p =>
          if startsWith p.filePath ['/'] then
            NormalizeEntry.fixed p.id p.filePath (substring p.filePath 1)
          else NormalizeEntry.unchanged p.id p.filePath),
        (ps.filter fun p => startsWith p.filePath ['/']).map fun p =>
          Effect.savePaper (strippedPaper p)) := by
  induction ps with
  | nil => rfl
  | cons p rest ih =>
    have hrest := ih fun q hq => hvalid q (List.mem_cons_of_mem _ hq)
    have hp := hvalid p (List.mem_cons_self _ _)
    unfold normalizeLoop normalizePaper
    rw [hrest]
    cases hstart : startsWith p.filePath ['/'] with
    | true =>
      rw [hstart] at hp
      simp [hp rfl, hstart, List.filter_cons]
    | false =>
      simp [hstart, List.filter_cons]

/-- The loop of the bulk normalize pass stops at the first record whose save
is rejected. -/
theorem normalizeLoop_none_iff (ps : List QuestionPaper) :
    (normalizeLoop ps).1 = none ↔
      ∃ p ∈ ps, startsWith p.filePath ['/'] = true ∧ (strippedPaper p).valid = false := by
  induction ps with
  | nil => simp [normalizeLoop]
  | cons p rest ih =>
    unfold normalizeLoop normalizePaper
    cases hstart : startsWith p.filePath ['/'] with
    | true =>
      cases hv : (strippedPaper p).valid with
      | true =>
        simp only [if_true, Bool.true_eq_false, if_false, Option.map_eq_none', ih,
          List.mem_cons, exists_eq_or_imp, hstart, hv, and_false, false_or, true_and]
      | false => simp [hstart, hv]
    | false =>
      simp only [Bool.false_eq_true, if_false, Option.map_eq_none', ih, List.mem_cons,
        exists_eq_or_imp, hstart, false_and, false_or]

/-- The entries of a report are either fixed or unchanged. -/
theorem filter_isFixed_partition (results : List NormalizeEntry) :
    (results.filter fun r => r.isFixed).length + (results.filter fun r => !r.isFixed).length
      = results.length := by
  induction results with
  | nil => rfl
  | cons d ds ih =>
    cases hd : d.isFixed <;> simp [List.filter_cons, hd] <;> omega

/-- Saving a record over the one that has its id, in a catalog with unique
ids, replaces that record in place. -/
theorem save_in_place (w : World) (a b : List QuestionPaper) (p doc : QuestionPaper)
    (hw : w.papers = a ++ p :: b) (hids : (w.papers.map QuestionPaper.id).Nodup)
    (hid : doc.id = p.id) :
    (w.step (Effect.savePaper doc)).papers = a ++ doc :: b ∧
    (w.step (Effect.savePaper doc)).fs = w.fs ∧
    (w.step (Effect.savePaper doc)).resources = w.resources ∧
    (w.step (Effect.savePaper doc)).subjects = w.subjects := by
  refine ⟨?_, rfl, rfl, rfl⟩
  show upsert QuestionPaper.id doc w.papers = _
  rw [upsert_paper_existing doc p w.papers (by rw [hw]; simp) hid, hw]
  rw [hw] at hids
  simp only [List.map_append, List.map_cons] at hids ⊢
  have hnd := List.nodup_append.1 hids
  have hcons := List.nodup_cons.1 hnd.2.1
  have ha : ∀ q ∈ a, q.id ≠ doc.id := by
    intro q hq heq
    have hq2 : q.id ∈ p.id :: b.map QuestionPaper.id := by
      rw [heq.trans hid]
      exact List.mem_cons_self _ _
    exact hnd.2.2 (List.mem_map.2 ⟨q, hq, rfl⟩) hq2
  have hb : ∀ q ∈ b, q.id ≠ doc.id := by
    intro q hq heq
    exact hcons.1 (List.mem_map.2 ⟨q, hq, heq.trans hid⟩)
  have hmapa : a.map (fun d => if d.id = doc.id then doc else d) = a := by
    conv_rhs => rw [← List.map_id a]
    exact List.map_congr_left fun q hq => by simp [ha q hq]
  have hmapb : b.map (fun d => if d.id = doc.id then doc else d) = b := by
    conv_rhs => rw [← List.map_id b]
    exact List.map_congr_left fun q hq => by simp [hb q hq]
  rw [hmapa, hmapb, if_pos hid.symm]

/-- The state after the saves of the bulk normalize pass: the records done so
far are `done`, the records still to visit are `rest`. -/
theorem run_normalize (rest done : List QuestionPaper) (w : World)
    (hw : w.papers = done ++ rest) (hids : (w.papers.map QuestionPaper.id).Nodup) :
    (w.run ((rest.filter fun p => startsWith p.filePath ['/']).map fun p =>
        Effect.savePaper (strippedPaper p))).papers =
      done ++ rest.map (fun p => if startsWith p.filePath ['/'] then strippedPaper p else p) ∧
    (w.run ((rest.filter fun p => startsWith p.filePath ['/']).map fun p =>
        Effect.savePaper (strippedPaper p))).fs = w.fs ∧
    (w.run ((rest.filter fun p => startsWith p.filePath ['/']).map fun p =>
        Effect.savePaper (strippedPaper p))).resources = w.resources ∧
    (w.run ((rest.filter fun p => startsWith p.filePath ['/']).map fun p =>
        Effect.savePaper (strippedPaper p))).subjects = w.subjects := by
  induction rest generalizing done w with
  | nil => exact ⟨by simpa using hw, rfl, rfl, rfl⟩
  | cons p rest ih =>
    cases hstart : startsWith p.filePath ['/'] with
    | true =>
      obtain ⟨h1, h2, h3, h4⟩ := save_in_place w done rest p (strippedPaper p) hw hids rfl
      have hids2 : ((w.step (Effect.savePaper (strippedPaper p))).papers.map
          QuestionPaper.id).Nodup := by
        rw [h1]
        rw [hw] at hids
        simpa [strippedPaper] using hids
      have := ih (done ++ [strippedPaper p]) (w.step (Effect.savePaper (strippedPaper p)))
        (by rw [h1]; simp) hids2
      simp only [List.filter_cons, hstart, if_true, List.map_cons]
      show ((w.step (Effect.savePaper (strippedPaper p))).run _).papers = _ ∧
        ((w.step (Effect.savePaper (strippedPaper p))).run _).fs = _ ∧
        ((w.step (Effect.savePaper (strippedPaper p))).run _).resources = _ ∧
        ((w.step (Effect.savePaper (strippedPaper p))).run _).subjects = _
      rw [this.1, this.2.1, this.2.2.1, this.2.2.2, h2, h3, h4]
      simp
    | false =>
      have := ih (done ++ [p]) w (by rw [hw]; simp) hids
      simp only [List.filter_cons, hstart, Bool.false_eq_true, if_false, List.map_cons]
      rw [this.1]
      exact ⟨by simp, this.2⟩

/-- The loop of the bulk normalize pass pushes one entry per record. -/
theorem normalizeLoop_length (ps : List QuestionPaper) (results : List NormalizeEntry)
    (h : (normalizeLoop ps).1 = some results) : results.length = ps.length := by
  induction ps generalizing results with
  | nil =>
    simp only [normalizeLoop, Option.some.injEq] at h
    subst h
    rfl
  | cons p rest ih =>
    unfold normalizeLoop at h
    cases hp : normalizePaper p with
    | none =>
      rw [hp] at h
      cases h
    | some r =>
      rw [hp] at h
      dsimp only at h
      cases hrest : (normalizeLoop rest).1 with
      | none =>
        rw [hrest] at h
        cases h
      | some later =>
        rw [hrest] at h
        simp only [Option.map_some', Option.some.injEq] at h
        rw [← h, List.length_cons, List.length_cons, ih later hrest]

/-- The loop of apply-fixes pushes one entry per element when no element is
`null`. -/
theorem fixLoop_total (lib : Lib) (elements : List FixElement) (w : World)
    (hshape : ∀ e ∈ elements, e ≠ FixElement.null) :
    ∃ details, (fixLoop lib w elements).1 = some details ∧
      details.length = elements.length := by
  induction elements generalizing w with
  | nil => exact ⟨[], rfl, rfl⟩
  | cons e rest ih =>
    cases e with
    | null => exact absurd rfl (hshape _ (List.mem_cons_self _ _))
    | fields id newPath =>
      obtain ⟨ds, hds, hlen⟩ := ih (w.run (applyFix lib w.papers id newPath).2)
        fun x hx => hshape x (List.mem_cons_of_mem _ hx)
      refine ⟨(applyFix lib w.papers id newPath).1 :: ds, ?_, by simp [hlen]⟩
      rw [fixLoop_cons]
      dsimp only
      rw [hds]
      rfl

/-- C11 (counterexample): apply-fixes answers the array of a fix, `null` and
another fix with the aggregate failure (500) after saving the first fix, and
the bulk normalize pass answers the catalog whose second record has the path
`/` with the aggregate failure after saving the first record. -/
theorem c11_one_bad_item_fails_the_batch :
    (fixPaths hexLib worldTwo
        (some [Fix.toElement fixFirst, FixElement.null, Fix.toElement fixThird])).response =
      FixResponse.failed ∧
    (fixPaths hexLib worldTwo
        (some [Fix.toElement fixFirst, FixElement.null, Fix.toElement fixThird])).effects.length
      = 1 ∧
    (normalizePaths worldRoot).response = NormalizeResponse.failed ∧
    (normalizePaths worldRoot).effects = [Effect.savePaper (strippedPaper paperSlash)] := by
  decide

/-- C11 (amended): for every array of fixes without a `null` element,
apply-fixes answers with the report, one entry per element, and
`totalFixesAttempted = successful + failed` is the length of the array. The
bulk normalize pass answers with the aggregate failure exactly when the save of
a record is rejected, and otherwise with a report of one entry per record in
which `fixed + unchanged = total`. -/
theorem c11_repair_reports_per_item (lib : Lib) (w : World) (elements : List FixElement)
    (hshape : ∀ e ∈ elements, e ≠ FixElement.null) :
    (∃ successful failed details,
      (fixPaths lib w (some elements)).response =
        FixResponse.report elements.length successful failed details ∧
      successful + failed = elements.length ∧ details.length = elements.length) ∧
    ((normalizePaths w).response = NormalizeResponse.failed ↔
      ∃ p ∈ w.papers, startsWith p.filePath ['/'] = true ∧ (strippedPaper p).valid = false) ∧
    ((normalizePaths w).response ≠ NormalizeResponse.failed →
      ∃ fixed unchanged results,
        (normalizePaths w).response =
          NormalizeResponse.complete w.papers.length fixed unchanged results ∧
        fixed + unchanged = w.papers.length ∧ results.length = w.papers.length) := by
  refine ⟨?_, ?_, ?_⟩
  · obtain ⟨details, hd, hlen⟩ := fixLoop_total lib elements w hshape
    have hpair : fixLoop lib w elements = (some details, (fixLoop lib w elements).2) := by
      rw [← hd]
    have hresp : (fixPaths lib w (some elements)).response =
        FixResponse.report elements.length (details.filter fun r => r.success).length
          (details.filter fun r => !r.success).length details := by
      unfold fixPaths
      dsimp only
      rw [hpair]
    exact ⟨_, _, details, hresp, by rw [filter_success_partition, hlen], hlen⟩
  · rw [← normalizeLoop_none_iff]
    unfold normalizePaths
    cases h : normalizeLoop w.papers with
    | mk results effects =>
      cases results <;> simp
  · intro hne
    unfold normalizePaths at hne ⊢
    cases h : normalizeLoop w.papers with
    | mk results effects =>
      rw [h] at hne
      cases results with
      | none => exact absurd rfl hne
      | some results =>
        have hlen := normalizeLoop_length w.papers results (by rw [h])
        refine ⟨_, _, results, rfl, ?_, hlen⟩
        rw [filter_isFixed_partition, hlen]

/-- C11 (witness): the array of three fixes for the catalog of two
records. -/
theorem c11_repair_reports_per_item_witness :
    (∀ e ∈ [Fix.toElement fixFirst, Fix.toElement fixUnknown, Fix.toElement fixThird],
      e ≠ FixElement.null) ∧
    (∃ successful failed details,
      (fixPaths hexLib worldTwo
          (some [Fix.toElement fixFirst, Fix.toElement fixUnknown,
            Fix.toElement fixThird])).response =
        FixResponse.report 3 successful failed details ∧
      successful + failed = 3 ∧ details.length = 3) :=
  ⟨by decide,
    (c11_repair_reports_per_item hexLib worldTwo
      [Fix.toElement fixFirst, Fix.toElement fixUnknown, Fix.toElement fixThird]
      (by decide)).1⟩

/-- C15 (counterexample): in the catalog whose second record has the path
`/`, the bulk normalize pass answers 500 without a report; the first record was
saved without its slash, the second keeps its path. -/
theorem c15_root_path_stops_the_pass :
    (normalizePaths worldRoot).response = NormalizeResponse.failed ∧
    (worldRoot.run (normalizePaths worldRoot).effects).papers =
      [strippedPaper paperSlash, paperRoot] ∧
    startsWith paperRoot.filePath ['/'] = true := by
  decide

/-- C15 (amended): in a catalog with unique ids in which every record whose
path starts with a slash passes the validation of the schema without it, the
bulk normalize pass answers with the report: `total` is the number of records,
`fixed` the number of records whose path started with a slash, `fixed +
unchanged = total`, and the entries are those of the records, in order; after
the pass each record whose path started with a slash has lost that one
character of its path and nothing else, every other record is as it was, and
the file system and the other collections are unchanged. -/
theorem c15_bulk_normalize (w : World) (hids : (w.papers.map QuestionPaper.id).Nodup)
    (hvalid : ∀ p ∈ w.papers, startsWith p.filePath ['/'] = true →
      (strippedPaper p).valid = true) :
    (normalizePaths w).response =
      NormalizeResponse.complete w.papers.length
        (w.papers.filter fun p => startsWith p.filePath ['/']).length
        (w.papers.filter fun p => !startsWith p.filePath ['/']).length
        (w.papers.map fun p =>
          if startsWith p.filePath ['/'] then
            NormalizeEntry.fixed p.id p.filePath (p.filePath.drop 1)
          else NormalizeEntry.unchanged p.id p.filePath) ∧
    (w.papers.filter fun p => startsWith p.filePath ['/']).length +
      (w.papers.filter fun p => !startsWith p.filePath ['/']).length = w.papers.length ∧
    (w.run (normalizePaths w).effects).papers =
      w.papers.map (fun p =>
        if startsWith p.filePath ['/'] then { p with filePath := p.filePath.drop 1 } else p) ∧
    (w.run (normalizePaths w).effects).fs = w.fs ∧
    (w.run (normalizePaths w).effects).resources = w.resources ∧
    (w.run (normalizePaths w).effects).subjects = w.subjects := by
  have hloop := normalizeLoop_ok w.papers hvalid
  have hrun := run_normalize w.papers [] w rfl hids
  have hresp : normalizePaths w =
      ⟨NormalizeResponse.complete w.papers.length
        ((w.papers.map fun p =>
          if startsWith p.filePath ['/'] then
            NormalizeEntry.fixed p.id p.filePath (substring p.filePath 1)
          else NormalizeEntry.unchanged p.id p.filePath).filter fun r => r.isFixed).length
        ((w.papers.map fun p =>
          if startsWith p.filePath ['/'] then
            NormalizeEntry.fixed p.id p.filePath (substring p.filePath 1)
          else NormalizeEntry.unchanged p.id p.filePath).filter fun r => !r.isFixed).length
        (w.papers.map fun p =>
          if startsWith p.filePath ['/'] then
            NormalizeEntry.fixed p.id p.filePath (substring p.filePath 1)
          else NormalizeEntry.unchanged p.id p.filePath),
        (w.papers.filter fun p => startsWith p.filePath ['/']).map fun p =>
          Effect.savePaper (strippedPaper p)⟩ := by
    unfold normalizePaths
    rw [hloop]
  have hcount : ∀ ps : List QuestionPaper,
      ((ps.map fun p =>
          if startsWith p.filePath ['/'] then
            NormalizeEntry.fixed p.id p.filePath (substring p.filePath 1)
          else NormalizeEntry.unchanged p.id p.filePath).filter fun r => r.isFixed).length =
        (ps.filter fun p => startsWith p.filePath ['/']).length ∧
      ((ps.map fun p =>
          if startsWith p.filePath ['/'] then
            NormalizeEntry.fixed p.id p.filePath (substring p.filePath 1)
          else NormalizeEntry.unchanged p.id p.filePath).filter fun r => !r.isFixed).length =
        (ps.filter fun p => !startsWith p.filePath ['/']).length := by
    intro ps
    induction ps with
    | nil => exact ⟨rfl, rfl⟩
    | cons p rest ih =>
      have hu : ∀ a b, (NormalizeEntry.unchanged a b).isFixed = false := fun _ _ => rfl
      have hf : ∀ a b c, (NormalizeEntry.fixed a b c).isFixed = true := fun _ _ _ => rfl
      cases hstart : startsWith p.filePath ['/']
      · simp only [List.map_cons, List.filter_cons, hstart, hu, Bool.false_eq_true, if_false,
          Bool.not_false, if_true, List.length_cons]
        exact ⟨ih.1, congrArg (· + 1) ih.2⟩
      · simp only [List.map_cons, List.filter_cons, hstart, hf, Bool.false_eq_true, if_false,
          Bool.not_true, if_true, List.length_cons]
        exact ⟨congrArg (· + 1) ih.1, ih.2⟩
  have hpart : (w.papers.filter fun p => startsWith p.filePath ['/']).length +
      (w.papers.filter fun p => !startsWith p.filePath ['/']).length = w.papers.length := by
    have := filter_isFixed_partition (w.papers.map fun p =>
      if startsWith p.filePath ['/'] then
        NormalizeEntry.fixed p.id p.filePath (substring p.filePath 1)
      else NormalizeEntry.unchanged p.id p.filePath)
    rw [(hcount w.papers).1, (hcount w.papers).2, List.length_map] at this
    exact this
  rw [hresp]
  refine ⟨?_, hpart, ?_, hrun.2.1, hrun.2.2.1, hrun.2.2.2⟩
  · dsimp only
    rw [(hcount w.papers).1, (hcount w.papers).2]
    rfl
  · dsimp only
    rw [hrun.1]
    rfl

/-- C15 (witness): the catalog of two records, one with a leading slash in
its path. -/
theorem c15_bulk_normalize_witness :
    (worldTwo.papers.map QuestionPaper.id).Nodup ∧
    (worldTwo.run (normalizePaths worldTwo).effects).papers =
      worldTwo.papers.map (fun p =>
        if startsWith p.filePath ['/'] then { p with filePath := p.filePath.drop 1 } else p) :=
  ⟨by decide, (c15_bulk_normalize worldTwo (by decide) (by decide)).2.2.1⟩

/-! ## Sanitization and the generated file names -/

/-- The sanitizer keeps the letters and digits and writes `_` for every other
character. -/
theorem sanitize_mem_class (s : Str) : ∀ c ∈ sanitize s, isAlnum c = true ∨ c = '_' := by
  intro c hc
  unfold sanitize at hc
  rw [List.mem_map] at hc
  obtain ⟨d, _, rfl⟩ := hc
  by_cases hd : isAlnum d = true
  · rw [if_pos hd]
    exact Or.inl hd
  · rw [if_neg hd]
    exact Or.inr rfl

/-- The character of a decimal digit. -/
theorem digit_char (k : Nat) (hk : k < 10) :
    (Char.ofNat ('0'.toNat + k)).toNat = 48 + k ∧ isAlnum (Char.ofNat ('0'.toNat + k)) = true := by
  interval_cases k <;> exact ⟨by decide, by decide⟩

/-- The decimal numeral of a natural number consists of digits. -/
theorem digitsRev_digit (fuel n : Nat) :
    ∀ c ∈ digitsRev fuel n, 48 ≤ c.toNat ∧ c.toNat ≤ 57 ∧ isAlnum c = true := by
  induction fuel generalizing n with
  | zero => simp [digitsRev]
  | succ k ih =>
    intro c hc
    unfold digitsRev at hc
    rcases List.mem_cons.1 hc with rfl | hc
    · have hlt : n % 10 < 10 := Nat.mod_lt _ (by decide)
      obtain ⟨h1, h2⟩ := digit_char (n % 10) hlt
      rw [h1]
      exact ⟨by omega, by omega, h2⟩
    · split_ifs at hc
      · simp at hc
      · exact ih _ c hc

theorem natToString_digit (n : Nat) :
    ∀ c ∈ natToString n, 48 ≤ c.toNat ∧ c.toNat ≤ 57 ∧ isAlnum c = true := by
  intro c hc
  unfold natToString at hc
  exact digitsRev_digit _ _ c (List.mem_reverse.1 hc)

/-- A numeral holds none of the characters `-`, `_` and `.`. -/
theorem natToString_not_mem (n : Nat) :
    '-' ∉ natToString n ∧ '_' ∉ natToString n ∧ '.' ∉ natToString n := by
  refine ⟨fun h => ?_, fun h => ?_, fun h => ?_⟩
  · have := (natToString_digit n _ h).1
    simp at this
  · have := (natToString_digit n _ h).2.1
    simp at this
  · have := (natToString_digit n _ h).1
    simp at this

/-- The value of a list of digits, least significant first. -/
theorem digitsRev_value (fuel n : Nat) (h : n < fuel) :
    (digitsRev fuel n).foldr (fun c acc => (c.toNat - 48) + 10 * acc) 0 = n := by
  induction fuel generalizing n with
  | zero => omega
  | succ k ih =>
    unfold digitsRev
    have hlt : n % 10 < 10 := Nat.mod_lt _ (by decide)
    rw [List.foldr_cons, (digit_char (n % 10) hlt).1]
    split_ifs with hz
    · simp only [List.foldr_nil]
      omega
    · rw [ih (n / 10) (by omega)]
      omega

/-- Different numbers have different decimal numerals. -/
theorem natToString_injective (n m : Nat) (h : natToString n = natToString m) : n = m := by
  unfold natToString at h
  have h2 := List.reverse_injective h
  have hn := digitsRev_value (n + 1) n (by omega)
  have hm := digitsRev_value (m + 1) m (by omega)
  rw [h2] at hn
  exact hn.symm.trans hm

/-- Two strings cut at the first occurrence of a character agree piece by
piece. -/
theorem append_cons_inj (c : Char) (a b x y : Str) (ha : c ∉ a) (hb : c ∉ b)
    (h : a ++ c :: x = b ++ c :: y) : a = b ∧ x = y := by
  induction a generalizing b with
  | nil =>
    cases b with
    | nil => simpa using h
    | cons d ds =>
      simp only [List.nil_append, List.cons_append, List.cons.injEq] at h
      exact absurd (h.1 ▸ List.mem_cons_self _ _) hb
  | cons e es ih =>
    cases b with
    | nil =>
      simp only [List.nil_append, List.cons_append, List.cons.injEq] at h
      exact absurd (h.1 ▸ List.mem_cons_self _ _) ha
    | cons d ds =>
      simp only [List.cons_append, List.cons.injEq] at h
      obtain ⟨hed, hrest⟩ := h
      obtain ⟨h1, h2⟩ := ih ds (fun hm => ha (List.mem_cons_of_mem _ hm))
        (fun hm => hb (List.mem_cons_of_mem _ hm)) hrest
      exact ⟨by rw [hed, h1], h2⟩

/-- Two strings cut at the last occurrence of a character agree piece by
piece. -/
theorem append_cons_inj_right (c : Char) (a b x y : Str) (hx : c ∉ x) (hy : c ∉ y)
    (h : a ++ c :: x = b ++ c :: y) : a = b ∧ x = y := by
  have hrev : x.reverse ++ c :: a.reverse = y.reverse ++ c :: b.reverse := by
    have := congrArg List.reverse h
    simpa using this
  obtain ⟨h1, h2⟩ := append_cons_inj c _ _ _ _ (by simpa using hx) (by simpa using hy) hrev
  exact ⟨List.reverse_injective h2, List.reverse_injective h1⟩

/-- An extension is empty or starts with a dot. -/
theorem extname_shape (p : Str) : extname p = [] ∨ ∃ t, extname p = '.' :: t := by
  unfold extname
  dsimp only
  split_ifs
  all_goals first
    | exact Or.inl rfl
    | exact Or.inr ⟨_, rfl⟩

/-- A numeral followed by an extension determines both. -/
theorem numeral_extension_inj (r1 r2 : Nat) (o1 o2 : Str)
    (h : natToString r1 ++ extname o1 = natToString r2 ++ extname o2) :
    r1 = r2 ∧ extname o1 = extname o2 := by
  have hd1 := (natToString_not_mem r1).2.2
  have hd2 := (natToString_not_mem r2).2.2
  rcases extname_shape o1 with h1 | ⟨t1, h1⟩ <;> rcases extname_shape o2 with h2 | ⟨t2, h2⟩
  · rw [h1, h2] at h ⊢
    simp only [List.append_nil] at h
    exact ⟨natToString_injective _ _ h, rfl⟩
  · rw [h1, h2] at h
    simp only [List.append_nil] at h
    exact absurd (h ▸ List.mem_append_right _ (List.mem_cons_self _ _)) hd1
  · rw [h1, h2] at h
    simp only [List.append_nil] at h
    exact absurd (h ▸ List.mem_append_right _ (List.mem_cons_self _ _)) hd2
  · rw [h1, h2] at h ⊢
    obtain ⟨ha, hb⟩ := append_cons_inj '.' _ _ _ _ hd1 hd2 h
    exact ⟨natToString_injective _ _ ha, by rw [hb]⟩

/-- A unique suffix followed by an extension determines the time, the random
number and the extension. -/
theorem uniqueSuffix_extension_inj (n1 r1 n2 r2 : Nat) (o1 o2 : Str)
    (h : uniqueSuffix n1 r1 ++ extname o1 = uniqueSuffix n2 r2 ++ extname o2) :
    n1 = n2 ∧ r1 = r2 ∧ extname o1 = extname o2 := by
  unfold uniqueSuffix at h
  simp only [List.append_assoc, List.cons_append] at h
  obtain ⟨ha, hb⟩ := append_cons_inj '-' _ _ _ _ (natToString_not_mem n1).1
    (natToString_not_mem n2).1 h
  obtain ⟨hr, he⟩ := numeral_extension_inj r1 r2 o1 o2 hb
  exact ⟨natToString_injective _ _ ha, hr, he⟩

/-- C16: the sanitizer keeps the length of its input, keeps every character of
`[a-zA-Z0-9]` where it is and writes `_` at every other position, so that its
output consists of characters of `[a-zA-Z0-9_]`; the part of a generated
question-paper name before the extension consists of such characters, and
the part of a generated resource name before the extension of such characters
and `-`. -/
theorem c16_sanitize_replaces_non_alphanumerics (s : Str) :
    (sanitize s).length = s.length ∧
    (∀ i : Nat, (sanitize s)[i]? = (s[i]?).map fun c => if isAlnum c then c else '_') ∧
    (∀ c ∈ sanitize s, isAlnum c = true ∨ c = '_') ∧
    (∀ (examType : Str) (now : Nat) (originalname : Str),
      paperFilename s examType now originalname =
        (sanitize s ++ '_' :: sanitize examType ++ '_' :: natToString now) ++
          extname originalname ∧
      ∀ c ∈ sanitize s ++ '_' :: sanitize examType ++ '_' :: natToString now,
        isAlnum c = true ∨ c = '_') ∧
    (∀ (now random : Nat) (originalname : Str),
      resourceFilename s now random originalname =
        (sanitize s ++ '_' :: uniqueSuffix now random) ++ extname originalname ∧
      ∀ c ∈ sanitize s ++ '_' :: uniqueSuffix now random,
        isAlnum c = true ∨ c = '_' ∨ c = '-') := by
  refine ⟨?_, ?_, sanitize_mem_class s, ?_, ?_⟩
  · simp [sanitize]
  · intro i
    simp [sanitize]
  · intro examType now originalname
    refine ⟨by simp [paperFilename], ?_⟩
    intro c hc
    simp only [List.mem_append, List.mem_cons] at hc
    rcases hc with (hc | hc | hc) | hc | hc
    · exact sanitize_mem_class _ c hc
    · exact Or.inr hc
    · exact sanitize_mem_class _ c hc
    · exact Or.inr hc
    · exact Or.inl (natToString_digit _ c hc).2.2
  · intro now random originalname
    refine ⟨by simp [resourceFilename], ?_⟩
    intro c hc
    simp only [uniqueSuffix, List.mem_append, List.mem_cons] at hc
    rcases hc with hc | hc | hc | hc | hc
    · rcases sanitize_mem_class _ c hc with h | h
      · exact Or.inl h
      · exact Or.inr (Or.inl h)
    · exact Or.inr (Or.inl hc)
    · exact Or.inl (natToString_digit _ c hc).2.2
    · exact Or.inr (Or.inr hc)
    · exact Or.inl (natToString_digit _ c hc).2.2

/-- C19: two generated resource names are equal exactly when they have the
same sanitized subject, the same time, the same random number and the same
extension, so that two different pairs of time and random number never give the
same name for a subject and an extension; the same holds for the names
`file-<uniqueSuffix><ext>` of `routes/resources.js`, which carry no subject. -/
theorem c19_unique_suffix_separates (subject1 subject2 : Str) (now1 random1 now2 random2 : Nat)
    (original1 original2 : Str) :
    (resourceFilename subject1 now1 random1 original1 =
        resourceFilename subject2 now2 random2 original2 ↔
      sanitize subject1 = sanitize subject2 ∧ now1 = now2 ∧ random1 = random2 ∧
        extname original1 = extname original2) ∧
    (fileRouteFilename now1 random1 original1 = fileRouteFilename now2 random2 original2 ↔
      now1 = now2 ∧ random1 = random2 ∧ extname original1 = extname original2) := by
  constructor
  · constructor
    · intro h
      unfold resourceFilename uniqueSuffix at h
      have hA : ∀ (s : Str) (n : Nat), '-' ∉ sanitize s ++ '_' :: natToString n := by
        intro s n hm
        simp only [List.mem_append, List.mem_cons] at hm
        rcases hm with hm | hm | hm
        · rcases sanitize_mem_class _ _ hm with h1 | h1
          · exact absurd h1 (by decide)
          · exact absurd h1 (by decide)
        · exact absurd hm (by decide)
        · exact (natToString_not_mem n).1 hm
      have h2 : (sanitize subject1 ++ '_' :: natToString now1) ++
            '-' :: (natToString random1 ++ extname original1) =
          (sanitize subject2 ++ '_' :: natToString now2) ++
            '-' :: (natToString random2 ++ extname original2) := by
        simpa using h
      obtain ⟨ha, hb⟩ := append_cons_inj '-' _ _ _ _ (hA _ _) (hA _ _) h2
      obtain ⟨hs, hn⟩ := append_cons_inj_right '_' _ _ _ _ (natToString_not_mem now1).2.1
        (natToString_not_mem now2).2.1 ha
      obtain ⟨hr, he⟩ := numeral_extension_inj _ _ _ _ hb
      exact ⟨hs, natToString_injective _ _ hn, hr, he⟩
    · rintro ⟨hs, hn, hr, he⟩
      unfold resourceFilename
      rw [hs, hn, hr, he]
  · constructor
    · intro h
      unfold fileRouteFilename at h
      simp only [List.append_assoc, List.cons_append] at h
      have h2 := List.append_cancel_left h
      simp only [List.cons.injEq, true_and] at h2
      exact uniqueSuffix_extension_inj _ _ _ _ _ _ (by simpa using h2)
    · rintro ⟨hn, hr, he⟩
      unfold fileRouteFilename
      rw [hn, hr, he]

/-! ## Where the storage callbacks write -/

/-- Resolving joined pieces visits the segments of each piece in turn. -/
theorem foldl_splitSlash_joinSlash (allow : Bool) (l : List Str) (hne : l ≠ []) (st : List Str) :
    (splitSlash (joinSlash l)).foldl (normStep allow) st =
      l.foldl (fun acc x => (splitSlash x).foldl (normStep allow) acc) st := by
  induction l generalizing st with
  | nil => exact absurd rfl hne
  | cons s t ih =>
    cases t with
    | nil => rfl
    | cons u us =>
      rw [joinSlash_cons_cons, splitSlash_append, List.foldl_append, ih (by simp)]
      rfl

/-- Empty pieces do not count when joined pieces are resolved. -/
theorem foldl_pieces_filter (allow : Bool) (l : List Str) (st : List Str) :
    (l.filter fun s => s ≠ []).foldl (fun acc x => (splitSlash x).foldl (normStep allow) acc) st =
      l.foldl (fun acc x => (splitSlash x).foldl (normStep allow) acc) st := by
  induction l generalizing st with
  | nil => rfl
  | cons s t ih =>
    by_cases hs : s = []
    · subst hs
      rw [List.filter_cons_of_neg (by simp), List.foldl_cons, ih]
      rfl
    · rw [List.filter_cons_of_pos (by simpa using hs), List.foldl_cons, List.foldl_cons, ih]

/-- The location of pieces joined by separators does not depend on the empty
pieces behind the first. -/
theorem locOf_joinSlash_filter (cwd a : Str) (l : List Str) (ha : a ≠ []) :
    locOf cwd (joinSlash (a :: l.filter fun s => s ≠ [])) = locOf cwd (joinSlash (a :: l)) := by
  have key : ∀ st : List Str,
      (splitSlash (joinSlash (a :: l.filter fun s => s ≠ []))).foldl (normStep false) st =
        (splitSlash (joinSlash (a :: l))).foldl (normStep false) st := by
    intro st
    rw [foldl_splitSlash_joinSlash false _ (by simp), foldl_splitSlash_joinSlash false _ (by simp),
      List.foldl_cons, List.foldl_cons, foldl_pieces_filter]
  have habs : isAbsolute (joinSlash (a :: l.filter fun s => s ≠ [])) =
      isAbsolute (joinSlash (a :: l)) := by
    rw [isAbsolute_joinSlash a _ ha, isAbsolute_joinSlash a _ ha]
  cases h : isAbsolute (joinSlash (a :: l)) with
  | true =>
    rw [locOf_absolute cwd _ (habs.trans h), locOf_absolute cwd _ h, key]
  | false =>
    rw [locOf_relative cwd _ (habs.trans h), locOf_relative cwd _ h, key]

/-- `path.join` of pieces whose first is not empty names the location of the
pieces written with separators between them. -/
theorem locOf_join (cwd a : Str) (l : List Str) (ha : a ≠ []) :
    locOf cwd (join (a :: l)) = locOf cwd (joinSlash (a :: l)) := by
  rw [join_of_nonempty a l ha, locOf_normalize, locOf_joinSlash_filter cwd a l ha]

/-- A file name joined to a joined directory names the location of all the
pieces written with separators between them. -/
theorem locOf_join_name (cwd a f : Str) (l : List Str) (ha : a ≠ []) (hf : f ≠ []) :
    locOf cwd (join [join (a :: l), f]) = locOf cwd (joinSlash (a :: (l ++ [f]))) := by
  have hj : join (a :: l) ≠ [] := join_ne_nil _
  have hA : joinSlash (a :: l.filter fun s => s ≠ []) ≠ [] := joinSlash_cons_ne_nil a _ ha
  have hleft : join [join (a :: l), f] = normalize (join (a :: l) ++ '/' :: f) := by
    rw [join_of_nonempty _ _ hj]
    simp [hf, joinSlash]
  have hfilter : (l ++ [f]).filter (fun s => decide (s ≠ [])) =
      (l.filter fun s => s ≠ []) ++ [f] := by
    simp [hf]
  rw [hleft, locOf_normalize, join_of_nonempty a l ha, locOf_normalize_append cwd _ f hA,
    ← locOf_joinSlash_filter cwd a (l ++ [f]) ha, hfilter, ← List.cons_append,
    joinSlash_append_singleton _ f (by simp)]

/-- C17: a question-paper upload that stores its file read the fields year,
semester, subject and examType, named the file
`<sanitize(subject)>_<sanitize(examType)>_<t><ext>` with `t` the time of the
upload and `ext` the extension of the original name, and wrote it, last of its
effects, at `uploads/question-papers/<year>/<semester>/<name>` under the
working directory: name and location are given by these inputs alone. -/
theorem c17_question_paper_stored_by_convention (proc : Proc) (w : World) (req : PaperUpload)
    (filename : Str) (stored : List Effect)
    (h : storePaper proc w req = (some (some filename), stored)) :
    ∃ part year semester subject examType made,
      req.file = some part ∧ req.year = some year ∧ req.semester = some semester ∧
      req.subject = some subject ∧ req.examType = some examType ∧
      filename = sanitize subject ++ '_' :: sanitize examType ++ '_' :: natToString req.now ++
        extname part.originalname ∧
      stored = made ++
        [Effect.writeFile
          (locOf proc.cwd ("uploads/question-papers/".toList ++ year ++ '/' :: semester ++
            '/' :: filename))
          part.data req.slot] ∧
      (w.run stored).fs.node
          (locOf proc.cwd ("uploads/question-papers/".toList ++ year ++ '/' :: semester ++
            '/' :: filename)) = some (Node.file part.data) := by
  obtain ⟨part, year, semester, subject, examType, made, hfile, hyear, hsem, hsubject, hexam,
    hname, hstored⟩ := storePaper_some proc w req filename stored h
  have hne : filename ≠ [] := by
    rw [hname]
    exact (paperFilename_plain subject examType req.now part.originalname).1
  have hloc : locOf proc.cwd (join [paperDestination year semester, filename]) =
      locOf proc.cwd ("uploads/question-papers/".toList ++ year ++ '/' :: semester ++
        '/' :: filename) := by
    unfold paperDestination
    rw [locOf_join_name proc.cwd "uploads".toList filename _ (by decide) hne]
    simp [joinSlash]
  rw [hloc] at hstored
  refine ⟨part, year, semester, subject, examType, made, hfile, hyear, hsem, hsubject, hexam,
    hname, hstored, ?_⟩
  rw [hstored, run_append]
  show ((w.run made).fs.put req.slot _ (Node.file part.data)).node _ = _
  rw [put_node, if_pos rfl]

/-- C17 (witness): the upload with the semester field `3` into the empty
catalog. -/
theorem c17_question_paper_stored_by_convention_witness :
    ∃ part year semester subject examType made,
      uploadPlain.file = some part ∧ uploadPlain.year = some year ∧
      uploadPlain.semester = some semester ∧
      uploadPlain.subject = some subject ∧ uploadPlain.examType = some examType ∧
      "Maths_Midterm_1700000000000.pdf".toList =
        sanitize subject ++ '_' :: sanitize examType ++ '_' :: natToString uploadPlain.now ++
          extname part.originalname ∧
      (storePaper appProc worldEmpty uploadPlain).2 = made ++
        [Effect.writeFile
          (locOf appProc.cwd ("uploads/question-papers/".toList ++ year ++ '/' :: semester ++
            '/' :: "Maths_Midterm_1700000000000.pdf".toList))
          part.data uploadPlain.slot] ∧
      (worldEmpty.run (storePaper appProc worldEmpty uploadPlain).2).fs.node
          (locOf appProc.cwd ("uploads/question-papers/".toList ++ year ++ '/' :: semester ++
            '/' :: "Maths_Midterm_1700000000000.pdf".toList)) =
        some (Node.file part.data) :=
  c17_question_paper_stored_by_convention appProc worldEmpty uploadPlain
    "Maths_Midterm_1700000000000.pdf".toList (storePaper appProc worldEmpty uploadPlain).2
    (by decide)

/-- C18 (counterexample): the upload of notes for semester 3 and the subject
Data Structures writes, through `index.js`, to
`uploads/semester3/notes/Data_Structures_<suffix>.pdf` and, through
`routes/resources.js`, to `uploads/resources/sem3/file-<suffix>.pdf`; neither is
`uploads/resources/sem3/notes/Data_Structures_<suffix>.pdf`. -/
theorem c18_resource_paths_differ_from_convention :
    (uploadResource appProc worldBare notesFirst).effects.filterMap
        (fun e => match e with
          | Effect.writeFile loc _ _ => some loc
          | _ => none)
      = [["app".toList, "uploads".toList, "semester3".toList, "notes".toList,
          "Data_Structures_1700000000000-123456789.pdf".toList]] ∧
    (uploadResourceFile appProc worldSubject notesFirst).effects.filterMap
        (fun e => match e with
          | Effect.writeFile loc _ _ => some loc
          | _ => none)
      = [["app".toList, "uploads".toList, "resources".toList, "sem3".toList,
          "file-1700000000000-123456789.pdf".toList]] ∧
    locOf appProc.cwd
        "uploads/resources/sem3/notes/Data_Structures_1700000000000-123456789.pdf".toList
      = ["app".toList, "uploads".toList, "resources".toList, "sem3".toList, "notes".toList,
          "Data_Structures_1700000000000-123456789.pdf".toList] := by
  decide

/-- C18 (amended): an upload through `index.js` that stores its file names it
`<sanitize(subject)>_<uniqueSuffix><ext>` and writes it at
`<__dirname>/uploads/semester<semester>/<resourceType>/<name>`; an upload
through `routes/resources.js` that stores its file names it
`file-<uniqueSuffix><ext>` and writes it at
`./uploads/resources/sem<semester>/<name>`. -/
theorem c18_resource_stored_by_route (proc : Proc) (w : World) (req : ResourceUpload)
    (hdir : proc.dirname ≠ []) :
    (∀ name effects, storeResource proc w req = (some (some name), effects) →
      ∃ part resourceType subject, req.file = some part ∧
        req.resourceType = some resourceType ∧ req.subject = some subject ∧
        name = sanitize subject ++ '_' :: uniqueSuffix req.now req.random ++
          extname part.originalname ∧
        effects.getLast? = some (Effect.writeFile
          (locOf proc.cwd (proc.dirname ++ "/uploads/semester".toList ++ template req.semester ++
            '/' :: resourceType ++ '/' :: name))
          part.data req.slot)) ∧
    (∀ name effects, storeFileRoute proc w req = (some (some name), effects) →
      ∃ part, req.file = some part ∧
        name = "file-".toList ++ uniqueSuffix req.now req.random ++ extname part.originalname ∧
        effects.getLast? = some (Effect.writeFile
          (locOf proc.cwd ("./uploads/resources/sem".toList ++ template req.semester ++
            '/' :: name))
          part.data req.slot)) := by
  constructor
  · intro name effects h
    rcases storeResource_some proc w req (some name) effects h with ⟨_, hnone, _⟩ |
      ⟨part, resourceType, subject, hfile, htype, hsubject, hname, heff⟩
    · cases hnone
    · simp only [Option.some.injEq] at hname
      have hne : name ≠ [] := by
        rw [hname]
        simp [resourceFilename]
      have hup : join [proc.dirname, "uploads".toList] ≠ [] := join_ne_nil _
      have hloc : locOf proc.cwd (join [resourceDir proc req.semester resourceType, name]) =
          locOf proc.cwd (proc.dirname ++ "/uploads/semester".toList ++ template req.semester ++
            '/' :: resourceType ++ '/' :: name) := by
        unfold resourceDir
        rw [locOf_join_name proc.cwd _ name _ hup hne]
        have hj : join [proc.dirname, "uploads".toList] =
            normalize (proc.dirname ++ '/' :: "uploads".toList) := by
          rw [join_of_nonempty _ _ hdir]
          rfl
        have hrest : joinSlash (join [proc.dirname, "uploads".toList] ::
              (["semester".toList ++ template req.semester, resourceType] ++ [name])) =
            normalize (proc.dirname ++ '/' :: "uploads".toList) ++
              '/' :: ("semester".toList ++ template req.semester ++ '/' :: resourceType ++
                '/' :: name) := by
          rw [hj]
          simp [joinSlash]
        rw [hrest, locOf_normalize_append proc.cwd _ _ (by simp)]
        simp
      refine ⟨part, resourceType, subject, hfile, htype, hsubject, ?_, ?_⟩
      · rw [hname]
        rfl
      · rw [heff, ← hname, hloc]
        rfl
  · intro name effects h
    cases hfile : req.file with
    | none =>
      unfold storeFileRoute at h
      rw [hfile] at h
      simp at h
    | some part =>
      obtain ⟨hname, heff⟩ := storeFileRoute_some proc w req (some name) effects part hfile h
      simp only [Option.some.injEq] at hname
      have hne : name ≠ [] := by
        rw [hname]
        simp [fileRouteFilename]
      have hd : fileRouteDir req.semester ≠ [] := by
        simp [fileRouteDir]
      have hloc : locOf proc.cwd (join [fileRouteDir req.semester, name]) =
          locOf proc.cwd ("./uploads/resources/sem".toList ++ template req.semester ++
            '/' :: name) := by
        have hj : join [fileRouteDir req.semester, name] =
            normalize (fileRouteDir req.semester ++ '/' :: name) := by
          rw [join_of_nonempty _ _ hd]
          simp [hne, joinSlash]
        rw [hj, locOf_normalize]
        rfl
      refine ⟨part, rfl, ?_, ?_⟩
      · rw [hname]
        simp [fileRouteFilename]
      · rw [heff, ← hname, hloc]
        rfl

/-- C18 (witness): the upload of notes for semester 3 and the subject Data
Structures. -/
theorem c18_resource_stored_by_route_witness :
    appProc.dirname ≠ [] ∧
    (∃ part resourceType subject, notesFirst.file = some part ∧
      notesFirst.resourceType = some resourceType ∧ notesFirst.subject = some subject ∧
      "Data_Structures_1700000000000-123456789.pdf".toList =
        sanitize subject ++ '_' :: uniqueSuffix notesFirst.now notesFirst.random ++
          extname part.originalname ∧
      (storeResource appProc worldBare notesFirst).2.getLast? = some (Effect.writeFile
        (locOf appProc.cwd (appProc.dirname ++ "/uploads/semester".toList ++
          template notesFirst.semester ++ '/' :: resourceType ++
          '/' :: "Data_Structures_1700000000000-123456789.pdf".toList))
        part.data notesFirst.slot)) ∧
    (∃ part, notesFirst.file = some part ∧
      "file-1700000000000-123456789.pdf".toList =
        "file-".toList ++ uniqueSuffix notesFirst.now notesFirst.random ++
          extname part.originalname ∧
      (storeFileRoute appProc worldBare notesFirst).2.getLast? = some (Effect.writeFile
        (locOf appProc.cwd ("./uploads/resources/sem".toList ++ template notesFirst.semester ++
          '/' :: "file-1700000000000-123456789.pdf".toList))
        part.data notesFirst.slot)) :=
  ⟨by decide,
    (c18_resource_stored_by_route appProc worldBare notesFirst (by decide)).1
      "Data_Structures_1700000000000-123456789.pdf".toList
      (storeResource appProc worldBare notesFirst).2 (by decide),
    (c18_resource_stored_by_route appProc worldBare notesFirst (by decide)).2
      "file-1700000000000-123456789.pdf".toList
      (storeFileRoute appProc worldBare notesFirst).2 (by decide)⟩

/-! ## Diagnose -/

/-- C12: the diagnosis performs no effect, so that every record and the file
system are as before; its report depends on the catalog of question papers and
the file system only, and a second run right after the first gives the same
report. -/
theorem c12_diagnose_never_mutates (proc : Proc) (depth : Nat) (w : World) :
    (diagnosePaths proc depth w).effects = [] ∧
    w.run (diagnosePaths proc depth w).effects = w ∧
    (diagnosePaths proc depth w).response =
      (diagnosePaths proc depth ⟨w.papers, [], [], w.fs⟩).response ∧
    (diagnosePaths proc depth (w.run (diagnosePaths proc depth w).effects)).response =
      (diagnosePaths proc depth w).response :=
  ⟨rfl, rfl, rfl, rfl⟩

/-- C14 (failing input): with a matching file in the directory of 2023 and
another in the directory of 2024, listed in this order, the possible fix of the
diagnosis is the file of 2024, while the first matching file of the
depth-first walk is the file of 2023. -/
theorem c14_walk_keeps_later_match :
    (diagnosePaths appProc 64 worldTwoYears).response.details.map Diagnosis.possibleFix =
      ["/uploads/question-papers/2024/3/Maths_Midterm_1710000000000.pdf".toList] ∧
    firstMatchSpec fsTwoYears appProc.cwd paperStale 64 "/app/uploads/question-papers".toList =
      some "/app/uploads/question-papers/2023/3/Maths_Midterm_1700000000000.pdf".toList ∧
    fsTwoYears.listing ["app".toList, "uploads".toList, "question-papers".toList] =
      ["2023".toList, "2024".toList] := by
  decide

/-- C13 (counterexample): after the upload with the semester field `3`, the
download serves the file by its canonical path, and the diagnosis reports the
record as not existing, with an empty resolved path. -/
theorem c13_diagnose_misses_served_record :
    (download hexLib appProc worldPlain (objectIdString uploadPlain.newId)).response.served =
      some "/app/uploads/question-papers/2023/3/Maths_Midterm_1700000000000.pdf".toList ∧
    (diagnosePaths appProc 64 worldPlain).response.details.map
        (fun d => (d.«exists», d.resolvedPath)) = [(false, [])] := by
  decide

/-- A trailing separator does not change the segments of a path. -/
theorem normSegs_append_slash (allow : Bool) (p : Str) :
    normSegs allow (p ++ ['/']) = normSegs allow p := by
  unfold normSegs
  rw [splitSlash_append, List.foldl_append]
  simp [splitSlash, normStep]

/-- The location of a slash followed by a normalized string is given by the
segments of the string. -/
theorem locOf_slash_normalizeString (cwd p : Str) :
    locOf cwd ('/' :: normalizeString p false) = normSegs false p := by
  rw [locOf_absolute cwd _ (by simp [isAbsolute]), splitSlash_cons_slash, List.foldl_cons,
    normStep_skip false [] [] (Or.inl rfl)]
  unfold normalizeString
  have hplain := normSegs_plain false p
  by_cases hnil : normSegs false p = []
  · rw [hnil]
    simp [joinSlash, splitSlash, normStep]
  · rw [splitSlash_joinSlash _ hnil fun s hs => (hplain s hs).1,
      foldl_normStep_plain false _ [] fun s hs =>
        ⟨(hplain s hs).2.1, (hplain s hs).2.2.1, (hplain s hs).2.2.2 rfl⟩]
    simp

/-- `path.resolve(cwd, p)` for a path that is not empty. -/
theorem resolve_cwd (cwd p : Str) (hcwd : isAbsolute cwd = true) (hp : p ≠ []) :
    resolve cwd [cwd, p] =
      '/' :: normalizeString
        (if isAbsolute p then p ++ ['/'] else cwd ++ '/' :: (p ++ ['/'])) false := by
  have hcwdne : cwd ≠ [] := by
    rintro rfl
    simp [isAbsolute] at hcwd
  cases habs : isAbsolute p with
  | true => simp [resolve, resolveStep, hp, habs]
  | false => simp [resolve, resolveStep, hp, habs, hcwd, hcwdne]

/-- `path.resolve(cwd, p)` names the location of `p`. -/
theorem locOf_resolve (cwd p : Str) (hcwd : isAbsolute cwd = true) (hp : p ≠ []) :
    locOf cwd (resolve cwd [cwd, p]) = locOf cwd p := by
  rw [resolve_cwd cwd p hcwd hp, locOf_slash_normalizeString]
  cases habs : isAbsolute p with
  | true =>
    simp only [if_true]
    rw [normSegs_append_slash]
    unfold locOf
    rw [habs]
    rfl
  | false =>
    simp only [Bool.false_eq_true, if_false]
    have : cwd ++ '/' :: (p ++ ['/']) = (cwd ++ '/' :: p) ++ ['/'] := by simp
    rw [this, normSegs_append_slash]
    unfold locOf
    rw [habs]
    rfl

/-- What exists at a path exists at the path resolved from the working
directory. -/
theorem existsSync_resolve (fs : FS) (cwd p : Str) (hcwd : isAbsolute cwd = true)
    (h : existsSync fs cwd p = true) : existsSync fs cwd (resolve cwd [cwd, p]) = true := by
  unfold existsSync at h ⊢
  simp only [Bool.and_eq_true, decide_eq_true_eq] at h ⊢
  refine ⟨?_, ?_⟩
  · rw [resolve_cwd cwd p hcwd h.1]
    simp
  · rw [locOf_resolve cwd p hcwd h.1]
    exact h.2

/-- The diagnosis reports a record as existing exactly when one of its
candidates exists, and then with a candidate that exists. -/
theorem diagnose_exists_iff (proc : Proc) (depth : Nat) (fs : FS) (paper : QuestionPaper) :
    ((diagnose proc depth fs paper).«exists» = true ↔
      ∃ c ∈ pathCandidates proc paper, existsSync fs proc.cwd c = true) ∧
    ((diagnose proc depth fs paper).«exists» = true →
      (diagnose proc depth fs paper).resolvedPath ∈ pathCandidates proc paper ∧
      (diagnose proc depth fs paper).resolvedPath ≠ [] ∧
      existsSync fs proc.cwd (diagnose proc depth fs paper).resolvedPath = true) := by
  unfold diagnose
  cases hfind : (pathCandidates proc paper).find? (existsSync fs proc.cwd) with
  | none =>
    rw [List.find?_eq_none] at hfind
    simp only [Bool.false_eq_true, false_iff, not_exists, not_and, false_implies, and_true]
    intro c hc
    exact hfind c hc
  | some candidate =>
    have hmem := List.mem_of_find?_eq_some hfind
    have hex := List.find?_some hfind
    have hne : candidate ≠ [] := by
      unfold pathCandidates at hmem
      simpa using (List.mem_filter.1 hmem).2
    exact ⟨⟨fun _ => ⟨candidate, hmem, hex⟩, fun _ => rfl⟩, fun _ => ⟨hmem, hne, hex⟩⟩

/-- C13 (amended): when something exists at the stored path of a record, taken
from the working directory as it is or, if it starts with a slash, without that
slash, the diagnosis reports the record as existing, with a resolved path that
is not empty and exists. -/
theorem c13_diagnose_tests_stored_path (proc : Proc) (depth : Nat) (fs : FS)
    (paper : QuestionPaper) (hcwd : isAbsolute proc.cwd = true)
    (h : existsSync fs proc.cwd paper.filePath = true ∨
      (startsWith paper.filePath ['/'] = true ∧
        existsSync fs proc.cwd (substring paper.filePath 1) = true)) :
    (diagnose proc depth fs paper).«exists» = true ∧
    (diagnose proc depth fs paper).resolvedPath ≠ [] ∧
    existsSync fs proc.cwd (diagnose proc depth fs paper).resolvedPath = true := by
  obtain ⟨hiff, himp⟩ := diagnose_exists_iff proc depth fs paper
  have hex : (diagnose proc depth fs paper).«exists» = true := by
    rw [hiff]
    rcases h with h | ⟨hstart, h⟩
    · refine ⟨resolve proc.cwd [proc.cwd, paper.filePath], ?_,
        existsSync_resolve fs proc.cwd _ hcwd h⟩
      unfold pathCandidates
      rw [List.mem_filter]
      refine ⟨by simp, ?_⟩
      have hp : paper.filePath ≠ [] := by
        unfold existsSync at h
        simp only [Bool.and_eq_true, decide_eq_true_eq] at h
        exact h.1
      rw [resolve_cwd _ _ hcwd hp]
      simp
    · have hp : substring paper.filePath 1 ≠ [] := by
        unfold existsSync at h
        simp only [Bool.and_eq_true, decide_eq_true_eq] at h
        exact h.1
      refine ⟨resolve proc.cwd [proc.cwd, substring paper.filePath 1], ?_,
        existsSync_resolve fs proc.cwd _ hcwd h⟩
      unfold pathCandidates
      rw [List.mem_filter]
      refine ⟨by simp [hstart], ?_⟩
      rw [resolve_cwd _ _ hcwd hp]
      simp
  exact ⟨hex, (himp hex).2⟩

/-- C13 (witness): the record with a leading slash in its path and its file
where the path without the slash points. -/
theorem c13_diagnose_tests_stored_path_witness :
    isAbsolute appProc.cwd = true ∧
    (startsWith paperSlash.filePath ['/'] = true ∧
      existsSync fsSemesterName appProc.cwd (substring paperSlash.filePath 1) = true) ∧
    (diagnose appProc 64 fsSemesterName paperSlash).«exists» = true ∧
    (diagnose appProc 64 fsSemesterName paperSlash).resolvedPath ≠ [] :=
  ⟨by decide, by decide,
    (c13_diagnose_tests_stored_path appProc 64 fsSemesterName paperSlash (by decide)
      (Or.inr (by decide))).1,
    (c13_diagnose_tests_stored_path appProc 64 fsSemesterName paperSlash (by decide)
      (Or.inr (by decide))).2.1⟩

/-! ## Who may upload, delete and fix -/

/-- C20 (counterexample): the question-paper routes serve every caller: the
upload of a student is answered 201 and adds a record and a file, apply-fixes
without a caller rewrites the path of a record, and the bulk normalize pass of
a student saves the record it fixes. -/
theorem c20_question_paper_routes_open :
    (questionPapersUpload hexLib appProc worldEmpty (some "student".toList)
      uploadPlain).response.status = 201 ∧
    (worldEmpty.run (questionPapersUpload hexLib appProc worldEmpty (some "student".toList)
      uploadPlain).effects).papers.length = 1 ∧
    (worldEmpty.run (questionPapersUpload hexLib appProc worldEmpty (some "student".toList)
      uploadPlain).effects).fs.node
        ["app".toList, "uploads".toList, "question-papers".toList, "2023".toList, "3".toList,
          "Maths_Midterm_1700000000000.pdf".toList] = some (Node.file [37, 80, 68, 70]) ∧
    (worldTwo.run (questionPapersFixPaths hexLib worldTwo none
      (fixesOf [fixFirst])).effects).papers.map QuestionPaper.filePath =
      ["uploads/question-papers/2023/3/Maths_Midterm_1700000000000.pdf".toList,
        paperOther.filePath] ∧
    (questionPapersNormalize worldTwo (some "student".toList)).effects.length = 2 := by
  decide

/-- C20 (amended): the resource uploads (`/api/resources/upload`,
`/api/resources/file`, `/api/resources/video`) and the deletions of subjects,
resources and video channels answer a caller who is not an admin with 401 or
403 and perform no effect: the catalog and the file system stay as they
were. -/
theorem c20_resource_operations_admin_only (proc : Proc) (w : World) (upload : ResourceUpload)
    (video : VideoUpload) (del : ResourceDelete)
    (hupload : upload.user ≠ some "admin".toList) (hvideo : video.user ≠ some "admin".toList)
    (hdel : del.user ≠ some "admin".toList) :
    (((uploadResource proc w upload).response = ResourceResponse.unauthorized ∨
        (uploadResource proc w upload).response = ResourceResponse.forbidden) ∧
      w.run (uploadResource proc w upload).effects = w) ∧
    (((uploadResourceFile proc w upload).response = ResourceResponse.unauthorized ∨
        (uploadResourceFile proc w upload).response = ResourceResponse.forbidden) ∧
      w.run (uploadResourceFile proc w upload).effects = w) ∧
    (((addVideo w video).response = ResourceResponse.unauthorized ∨
        (addVideo w video).response = ResourceResponse.forbidden) ∧
      w.run (addVideo w video).effects = w) ∧
    (((deleteSubject w del).response = DeleteResponse.unauthorized ∨
        (deleteSubject w del).response = DeleteResponse.forbidden) ∧
      w.run (deleteSubject w del).effects = w) ∧
    (((deleteSubjectRoute w del).response = DeleteResponse.unauthorized ∨
        (deleteSubjectRoute w del).response = DeleteResponse.forbidden) ∧
      w.run (deleteSubjectRoute w del).effects = w) ∧
    (((deleteResource proc w del).response = DeleteResponse.unauthorized ∨
        (deleteResource proc w del).response = DeleteResponse.forbidden) ∧
      w.run (deleteResource proc w del).effects = w) ∧
    (((deleteFileRoute proc w del).response = DeleteResponse.unauthorized ∨
        (deleteFileRoute proc w del).response = DeleteResponse.forbidden) ∧
      w.run (deleteFileRoute proc w del).effects = w) ∧
    (((deleteVideoRoute w del).response = DeleteResponse.unauthorized ∨
        (deleteVideoRoute w del).response = DeleteResponse.forbidden) ∧
      w.run (deleteVideoRoute w del).effects = w) := by
  refine ⟨?_, ?_, ?_, ?_, ?_, ?_, ?_, ?_⟩
  · unfold uploadResource
    cases hu : upload.user with
    | none => exact ⟨Or.inl rfl, rfl⟩
    | some role =>
      have hr : role ≠ "admin".toList := fun h => hupload (by rw [hu, h])
      dsimp only
      rw [if_pos hr]
      exact ⟨Or.inr rfl, rfl⟩
  · unfold uploadResourceFile
    cases hu : upload.user with
    | none => exact ⟨Or.inl rfl, rfl⟩
    | some role =>
      have hr : role ≠ "admin".toList := fun h => hupload (by rw [hu, h])
      dsimp only
      rw [if_pos hr]
      exact ⟨Or.inr rfl, rfl⟩
  · unfold addVideo
    cases hu : video.user with
    | none => exact ⟨Or.inl rfl, rfl⟩
    | some role =>
      have hr : role ≠ "admin".toList := fun h => hvideo (by rw [hu, h])
      dsimp only
      rw [if_pos hr]
      exact ⟨Or.inr rfl, rfl⟩
  · unfold deleteSubject
    cases hu : del.user with
    | none => exact ⟨Or.inl rfl, rfl⟩
    | some role =>
      have hr : role ≠ "admin".toList := fun h => hdel (by rw [hu, h])
      dsimp only
      rw [if_pos hr]
      exact ⟨Or.inr rfl, rfl⟩
  · unfold deleteSubjectRoute
    cases hu : del.user with
    | none => exact ⟨Or.inl rfl, rfl⟩
    | some role =>
      have hr : role ≠ "admin".toList := fun h => hdel (by rw [hu, h])
      dsimp only
      rw [if_neg hr]
      exact ⟨Or.inr rfl, rfl⟩
  · unfold deleteResource
    cases hu : del.user with
    | none => exact ⟨Or.inl rfl, rfl⟩
    | some role =>
      have hr : role ≠ "admin".toList := fun h => hdel (by rw [hu, h])
      dsimp only
      rw [if_pos hr]
      exact ⟨Or.inr rfl, rfl⟩
  · unfold deleteFileRoute
    cases hu : del.user with
    | none => exact ⟨Or.inl rfl, rfl⟩
    | some role =>
      have hr : role ≠ "admin".toList := fun h => hdel (by rw [hu, h])
      dsimp only
      rw [if_neg hr]
      exact ⟨Or.inr rfl, rfl⟩
  · unfold deleteVideoRoute
    cases hu : del.user with
    | none => exact ⟨Or.inl rfl, rfl⟩
    | some role =>
      have hr : role ≠ "admin".toList := fun h => hdel (by rw [hu, h])
      dsimp only
      rw [if_neg hr]
      exact ⟨Or.inr rfl, rfl⟩

/-- C20 (witness): an upload, a video channel and a deletion sent by a
student, after the notes of the subject were uploaded. -/
theorem c20_resource_operations_admin_only_witness :
    notesStudent.user ≠ some "admin".toList ∧ videoStudent.user ≠ some "admin".toList ∧
    deleteStudent.user ≠ some "admin".toList ∧
    (((uploadResource appProc worldNotesFirst notesStudent).response =
          ResourceResponse.unauthorized ∨
        (uploadResource appProc worldNotesFirst notesStudent).response =
          ResourceResponse.forbidden) ∧
      worldNotesFirst.run (uploadResource appProc worldNotesFirst notesStudent).effects =
        worldNotesFirst) ∧
    (((deleteResource appProc worldNotesFirst deleteStudent).response =
          DeleteResponse.unauthorized ∨
        (deleteResource appProc worldNotesFirst deleteStudent).response =
          DeleteResponse.forbidden) ∧
      worldNotesFirst.run (deleteResource appProc worldNotesFirst deleteStudent).effects =
        worldNotesFirst) :=
  ⟨by decide, by decide, by decide,
    (c20_resource_operations_admin_only appProc worldNotesFirst notesStudent videoStudent
      deleteStudent (by decide) (by decide) (by decide)).1,
    (c20_resource_operations_admin_only appProc worldNotesFirst notesStudent videoStudent
      deleteStudent (by decide) (by decide) (by decide)).2.2.2.2.2.1⟩

/-- The deletion that a student is refused is carried out for an admin: the
file of the notes is unlinked and the record deleted, by both routes (in the
opposite order by `routes/resources.js`, whose records name files under
`/uploads/resources`). -/
theorem delete_by_admin :
    (deleteResource appProc worldNotesFirst deleteAdmin).response = DeleteResponse.deleted ∧
    (deleteResource appProc worldNotesFirst deleteAdmin).effects =
      [Effect.unlink ["app".toList, "uploads".toList, "semester3".toList, "notes".toList,
          "Data_Structures_1700000000000-123456789.pdf".toList],
        Effect.removeResource notesFirst.newId] ∧
    (worldNotesFirst.run (deleteResource appProc worldNotesFirst deleteAdmin).effects).resources
      = [] ∧
    (deleteFileRoute appProc worldFileFirst deleteAdmin).effects =
      [Effect.removeResource notesFirst.newId,
        Effect.unlink ["app".toList, "uploads".toList, "resources".toList, "sem3".toList,
          "file-1700000000000-123456789.pdf".toList]] ∧
    (deleteSubject worldNotesFirst deleteAdmin).effects =
      [Effect.removeSubject notesFirst.newSubjectId, Effect.removeResource notesFirst.newId] ∧
    (addVideo worldNotesFirst { videoStudent with user := some "admin".toList }).response.resource.map
        Resource.topics = some ["lists".toList, "trees".toList] := by
  decide

/-! ## The reports of the repair tool -/

/-- The entries of a diagnosis are either existing or not. -/
theorem filter_exists_partition (details : List Diagnosis) :
    (details.filter fun r => r.«exists»).length + (details.filter fun r => !r.«exists»).length
      = details.length := by
  induction details with
  | nil => rfl
  | cons d ds ih =>
    cases hd : d.«exists» <;> simp [List.filter_cons, hd] <;> omega

/-- C28: the report of the diagnosis has one entry per record, in the order of
the catalog, and `workingPaths + brokenPaths = totalPapers`; the entry of a
record says that it exists exactly when one of its candidates exists; its
resolved path is then the first candidate that exists, in the order of the
candidates, and its possible fix is empty; otherwise its resolved path is
empty. -/
theorem c28_diagnose_report_consistent (proc : Proc) (depth : Nat) (w : World)
    (paper : QuestionPaper) :
    (diagnosePaths proc depth w).response.details = w.papers.map (diagnose proc depth w.fs) ∧
    (diagnosePaths proc depth w).response.details.length = w.papers.length ∧
    (diagnosePaths proc depth w).response.totalPapers = w.papers.length ∧
    (diagnosePaths proc depth w).response.workingPaths +
      (diagnosePaths proc depth w).response.brokenPaths =
        (diagnosePaths proc depth w).response.totalPapers ∧
    ((diagnose proc depth w.fs paper).«exists» = true ↔
      ∃ c ∈ pathCandidates proc paper, existsSync w.fs proc.cwd c = true) ∧
    (diagnose proc depth w.fs paper).resolvedPath =
      ((pathCandidates proc paper).find? (existsSync w.fs proc.cwd)).getD [] ∧
    (((diagnose proc depth w.fs paper).«exists» = true ∧
        (pathCandidates proc paper).find? (existsSync w.fs proc.cwd) =
          some (diagnose proc depth w.fs paper).resolvedPath ∧
        (diagnose proc depth w.fs paper).possibleFix = []) ∨
      ((diagnose proc depth w.fs paper).«exists» = false ∧
        (diagnose proc depth w.fs paper).resolvedPath = [])) := by
  refine ⟨rfl, by simp [diagnosePaths], rfl, ?_, (diagnose_exists_iff proc depth w.fs paper).1,
    ?_, ?_⟩
  · show ((w.papers.map (diagnose proc depth w.fs)).filter fun r => r.«exists»).length +
      ((w.papers.map (diagnose proc depth w.fs)).filter fun r => !r.«exists»).length =
        w.papers.length
    rw [filter_exists_partition, List.length_map]
  · unfold diagnose
    cases (pathCandidates proc paper).find? (existsSync w.fs proc.cwd) <;> rfl
  · unfold diagnose
    cases (pathCandidates proc paper).find? (existsSync w.fs proc.cwd) with
    | none => exact Or.inr ⟨rfl, rfl⟩
    | some c => exact Or.inl ⟨rfl, rfl, rfl⟩

/-- C27 (counterexample): the record whose path starts with two slashes still
starts with a slash after one pass, and a second pass reports it as fixed and
saves it again. -/
theorem c27_double_slash_needs_two_passes :
    (worldDouble.run (normalizePaths worldDouble).effects).papers.map QuestionPaper.filePath =
      [paperSlash.filePath] ∧
    startsWith paperSlash.filePath ['/'] = true ∧
    (normalizePaths (worldDouble.run (normalizePaths worldDouble).effects)).response =
      NormalizeResponse.complete 1 1 0
        [NormalizeEntry.fixed paperSlash.id paperSlash.filePath (paperSlash.filePath.drop 1)] ∧
    (normalizePaths (worldDouble.run (normalizePaths worldDouble).effects)).effects.length = 1 := by
  decide

/-- The bulk normalize pass over a catalog in which no path starts with a slash
reports every record as unchanged and performs no effect. -/
theorem normalizePaths_clean (w : World)
    (hnone : ∀ q ∈ w.papers, startsWith q.filePath ['/'] = false) :
    normalizePaths w =
      ⟨NormalizeResponse.complete w.papers.length 0 w.papers.length
        (w.papers.map fun p => NormalizeEntry.unchanged p.id p.filePath), []⟩ := by
  have hloop := normalizeLoop_ok w.papers
    (fun q hq hs => by rw [hnone q hq] at hs; cases hs)
  have hfilter : w.papers.filter (fun p => startsWith p.filePath ['/']) = [] := by
    rw [List.filter_eq_nil_iff]
    intro q hq
    rw [hnone q hq]
    simp
  have hmap : w.papers.map
      (fun p => if startsWith p.filePath ['/'] = true then
          NormalizeEntry.fixed p.id p.filePath (substring p.filePath 1)
        else NormalizeEntry.unchanged p.id p.filePath) =
      w.papers.map fun p => NormalizeEntry.unchanged p.id p.filePath := by
    apply List.map_congr_left
    intro q hq
    rw [hnone q hq]
    rfl
  have hrest : ∀ l : List QuestionPaper,
      ((l.map fun p => NormalizeEntry.unchanged p.id p.filePath).filter
        fun r => r.isFixed).length = 0 ∧
      ((l.map fun p => NormalizeEntry.unchanged p.id p.filePath).filter
        fun r => !r.isFixed).length = l.length := by
    intro l
    induction l with
    | nil => exact ⟨rfl, rfl⟩
    | cons p rest ih =>
      have hu : (NormalizeEntry.unchanged p.id p.filePath).isFixed = false := rfl
      simp only [List.map_cons, List.filter_cons, hu, Bool.false_eq_true, if_false,
        Bool.not_false, if_true, List.length_cons]
      exact ⟨ih.1, congrArg (· + 1) ih.2⟩
  unfold normalizePaths
  rw [hloop, hfilter, hmap]
  dsimp only
  rw [(hrest _).1, (hrest _).2]
  rfl

/-- C27 (amended): in a catalog with unique ids in which no path starts with
two slashes and every record whose path starts with a slash passes the
validation of the schema without it, no path starts with a slash after one
pass, and a second pass reports every record as unchanged and performs no
effect. -/
theorem c27_second_pass_changes_nothing (w : World)
    (hids : (w.papers.map QuestionPaper.id).Nodup)
    (hvalid : ∀ p ∈ w.papers, startsWith p.filePath ['/'] = true →
      (strippedPaper p).valid = true)
    (hsingle : ∀ p ∈ w.papers, startsWith p.filePath ['/', '/'] = false) :
    (∀ p ∈ (w.run (normalizePaths w).effects).papers, startsWith p.filePath ['/'] = false) ∧
    (normalizePaths (w.run (normalizePaths w).effects)).response =
      NormalizeResponse.complete w.papers.length 0 w.papers.length
        ((w.run (normalizePaths w).effects).papers.map fun p =>
          NormalizeEntry.unchanged p.id p.filePath) ∧
    (normalizePaths (w.run (normalizePaths w).effects)).effects = [] := by
  have hloop := normalizeLoop_ok w.papers hvalid
  have hrun := (run_normalize w.papers [] w rfl hids).1
  have heff : (normalizePaths w).effects =
      (w.papers.filter fun p => startsWith p.filePath ['/']).map fun p =>
        Effect.savePaper (strippedPaper p) := by
    unfold normalizePaths
    rw [hloop]
  rw [← heff, List.nil_append] at hrun
  have hnone : ∀ q ∈ (w.run (normalizePaths w).effects).papers,
      startsWith q.filePath ['/'] = false := by
    intro q hq
    rw [hrun] at hq
    obtain ⟨p, hp, rfl⟩ := List.mem_map.1 hq
    have h2 := hsingle p hp
    cases hstart : startsWith p.filePath ['/'] with
    | false =>
      simp only [Bool.false_eq_true, if_false]
      exact hstart
    | true =>
      simp only [if_true]
      cases hpath : p.filePath with
      | nil =>
        rw [hpath] at hstart
        simp [startsWith] at hstart
      | cons c rest =>
        rw [hpath] at hstart h2
        cases rest with
        | nil => simp [strippedPaper, substring, startsWith, hpath]
        | cons d rest2 =>
          have hc : '/' = c := by simpa [startsWith] using hstart
          subst hc
          have hd : ¬ '/' = d := by
            intro hd
            subst hd
            simp [startsWith] at h2
          simp [strippedPaper, substring, startsWith, hpath, List.isPrefixOf, hd]
  have hlen : (w.run (normalizePaths w).effects).papers.length = w.papers.length := by
    rw [hrun, List.length_map]
  rw [normalizePaths_clean _ hnone, hlen]
  exact ⟨hnone, rfl, rfl⟩

/-- C27 (witness): the catalog of two records, one with a leading slash in
its path. -/
theorem c27_second_pass_changes_nothing_witness :
    (worldTwo.papers.map QuestionPaper.id).Nodup ∧
    (normalizePaths (worldTwo.run (normalizePaths worldTwo).effects)).effects = [] :=
  ⟨by decide, (c27_second_pass_changes_nothing worldTwo (by decide) (by decide) (by decide)).2.2⟩

/-! ## Validation of uploads and the cascade of deletions -/

/-- C22 (failing input): after the notes of Data Structures were uploaded, the
deletion of the subject by an admin deletes the subject and the record of the
notes and unlinks nothing: the file of the notes is still on disk; the same
through `routes/resources.js`. -/
theorem c22_subject_delete_keeps_files :
    (deleteSubject worldNotesFirst deleteAdmin).response = DeleteResponse.deleted ∧
    (deleteSubject worldNotesFirst deleteAdmin).effects =
      [Effect.removeSubject notesFirst.newSubjectId, Effect.removeResource notesFirst.newId] ∧
    worldNotesFirst.resources.map Resource.fileUrl =
      [some "/uploads/semester3/notes/Data_Structures_1700000000000-123456789.pdf".toList] ∧
    (worldNotesFirst.run (deleteSubject worldNotesFirst deleteAdmin).effects).resources = [] ∧
    (worldNotesFirst.run (deleteSubject worldNotesFirst deleteAdmin).effects).fs.node
        ["app".toList, "uploads".toList, "semester3".toList, "notes".toList,
          "Data_Structures_1700000000000-123456789.pdf".toList] =
      some (Node.file [37, 80, 68, 70, 1]) ∧
    (worldFileFirst.run (deleteSubjectRoute worldFileFirst deleteAdmin).effects).resources = [] ∧
    (worldFileFirst.run (deleteSubjectRoute worldFileFirst deleteAdmin).effects).fs.node
        ["app".toList, "uploads".toList, "resources".toList, "sem3".toList,
          "file-1700000000000-123456789.pdf".toList] =
      some (Node.file [37, 80, 68, 70, 1]) := by
  decide

/-- C23 (failing input): the upload of a video channel through `index.js`,
sent twice, is answered 201 both times and leaves two records of video
materials with the same semester, subject and channel. -/
theorem c23_upload_duplicates_channel :
    (uploadResource appProc worldBare videoFirst).response.resource.map Resource.channelKey =
      some ("3".toList, "Data Structures".toList, some "Lectures".toList) ∧
    (uploadResource appProc worldVideoFirst videoSecond).response.resource.map
        Resource.channelKey =
      some ("3".toList, "Data Structures".toList, some "Lectures".toList) ∧
    (worldVideoFirst.run (uploadResource appProc worldVideoFirst videoSecond).effects).resources.map
        Resource.id = [videoFirst.newId, videoSecond.newId] ∧
    (worldVideoFirst.run (uploadResource appProc worldVideoFirst videoSecond).effects).resources.map
        Resource.resourceType = ["videoMaterials".toList, "videoMaterials".toList] ∧
    (worldVideoFirst.run (uploadResource appProc worldVideoFirst videoSecond).effects).resources.map
        Resource.channelKey =
      [("3".toList, "Data Structures".toList, some "Lectures".toList),
        ("3".toList, "Data Structures".toList, some "Lectures".toList)] := by
  decide

/-- C25 (failing input): the upload of notes without a file, and the upload
of a video channel without `channel`, are answered 400 after the subject was
created: the catalog holds a new subject. -/
theorem c25_validation_error_after_subject_created :
    worldBare.subjects = [] ∧
    (uploadResource appProc worldBare notesNoFile).response = ResourceResponse.badRequest ∧
    (worldBare.run (uploadResource appProc worldBare notesNoFile).effects).subjects =
      [⟨notesFirst.newSubjectId, "3".toList, "Data Structures".toList⟩] ∧
    (uploadResource appProc worldBare videoNoChannel).response = ResourceResponse.badRequest ∧
    (worldBare.run (uploadResource appProc worldBare videoNoChannel).effects).subjects =
      [⟨notesFirst.newSubjectId, "3".toList, "Data Structures".toList⟩] := by
  decide

/-- C24 (counterexample): the upload of notes with a Word document through
`routes/resources.js` is answered 201 and writes the document. -/
theorem c24_file_route_accepts_word_document :
    (uploadResourceFile appProc worldSubject notesDocx).response.resource.map Resource.fileName =
      some (some "ds-notes.docx".toList) ∧
    (worldSubject.run (uploadResourceFile appProc worldSubject notesDocx).effects).fs.node
        ["app".toList, "uploads".toList, "resources".toList, "sem3".toList,
          "file-1700000000000-123456789.docx".toList] = some (Node.file [80, 75, 3, 4]) ∧
    (uploadResource appProc worldBare notesDocx).response = ResourceResponse.rejected := by
  decide

/-- C24 (amended): the upload middleware of the question papers, and that of
`index.js` for notes and books, reject a file whose MIME type is not
`application/pdf` and write nothing; the upload middleware of
`routes/resources.js` rejects a file unless its extension, in lower case, and
its MIME type each contain one of `pdf`, `doc`, `docx`, `ppt`, `pptx`, and
writes nothing then. -/
theorem c24_file_filters (proc : Proc) (w : World) (paper : PaperUpload) (req : ResourceUpload)
    (part : UploadedFile) :
    (paper.file = some part → part.mimetype ≠ "application/pdf".toList →
      storePaper proc w paper = (none, [])) ∧
    (paper.file = some part → (storePaper proc w paper).1 ≠ none →
      part.mimetype = "application/pdf".toList) ∧
    (req.file = some part →
      req.resourceType = some "notes".toList ∨ req.resourceType = some "books".toList →
      part.mimetype ≠ "application/pdf".toList → storeResource proc w req = (none, [])) ∧
    (req.file = some part →
      req.resourceType = some "notes".toList ∨ req.resourceType = some "books".toList →
      (storeResource proc w req).1 ≠ none → part.mimetype = "application/pdf".toList) ∧
    (req.file = some part →
      ¬ (isOfficeType (toLowerCase (extname part.originalname)) = true ∧
        isOfficeType part.mimetype = true) →
      storeFileRoute proc w req = (none, [])) ∧
    (req.file = some part → (storeFileRoute proc w req).1 ≠ none →
      isOfficeType (toLowerCase (extname part.originalname)) = true ∧
        isOfficeType part.mimetype = true) := by
  have h1 : paper.file = some part → part.mimetype ≠ "application/pdf".toList →
      storePaper proc w paper = (none, []) := by
    intro hfile hmime
    unfold storePaper
    rw [hfile]
    dsimp only
    rw [if_pos hmime]
  have h3 : req.file = some part →
      req.resourceType = some "notes".toList ∨ req.resourceType = some "books".toList →
      part.mimetype ≠ "application/pdf".toList → storeResource proc w req = (none, []) := by
    intro hfile htype hmime
    unfold storeResource
    rw [hfile]
    dsimp only
    rw [if_pos ⟨htype, hmime⟩]
  have h5 : req.file = some part →
      ¬ (isOfficeType (toLowerCase (extname part.originalname)) = true ∧
        isOfficeType part.mimetype = true) →
      storeFileRoute proc w req = (none, []) := by
    intro hfile hno
    unfold storeFileRoute
    rw [hfile]
    dsimp only
    rw [if_pos]
    simp only [Bool.not_eq_true', Bool.and_eq_false_imp]
    intro ha
    by_contra hb
    exact hno ⟨ha, by simpa using hb⟩
  refine ⟨h1, ?_, h3, ?_, h5, ?_⟩
  · intro hfile hstored
    by_contra hmime
    rw [h1 hfile hmime] at hstored
    exact hstored rfl
  · intro hfile htype hstored
    by_contra hmime
    rw [h3 hfile htype hmime] at hstored
    exact hstored rfl
  · intro hfile hstored
    by_contra hno
    rw [h5 hfile hno] at hstored
    exact hstored rfl

/-- C24 (witness): the Word document of `notesDocx`, sent as notes and as a
question paper. -/
theorem c24_file_filters_witness :
    storePaper appProc worldEmpty { uploadPlain with file := notesDocx.file } = (none, []) ∧
    storeResource appProc worldBare notesDocx = (none, []) ∧
    (isOfficeType (toLowerCase (extname "ds-notes.docx".toList)) = true ∧
      isOfficeType
        "application/vnd.openxmlformats-officedocument.wordprocessingml.document".toList =
          true) :=
  ⟨(c24_file_filters appProc worldEmpty { uploadPlain with file := notesDocx.file } notesDocx
      ⟨"ds-notes.docx".toList,
        "application/vnd.openxmlformats-officedocument.wordprocessingml.document".toList,
        [80, 75, 3, 4]⟩).1 rfl (by decide),
    (c24_file_filters appProc worldBare uploadPlain notesDocx
      ⟨"ds-notes.docx".toList,
        "application/vnd.openxmlformats-officedocument.wordprocessingml.document".toList,
        [80, 75, 3, 4]⟩).2.2.1 rfl (Or.inl rfl) (by decide),
    (c24_file_filters appProc worldBare uploadPlain notesDocx
      ⟨"ds-notes.docx".toList,
        "application/vnd.openxmlformats-officedocument.wordprocessingml.document".toList,
        [80, 75, 3, 4]⟩).2.2.2.2.2 rfl (by decide)⟩

/-- The ways `POST /video` ends: without an effect and without a resource in
its answer, or with the save of a new record whose channel the subject did not
have. -/
theorem addVideo_cases (w : World) (req : VideoUpload) :
    ((addVideo w req).effects = [] ∧ (addVideo w req).response.resource = none) ∨
    (∃ semester subject channel topics,
      req.semester = some semester ∧ req.subject = some subject ∧ req.channel = some channel ∧
      req.topics = some topics ∧
      w.resources.any (matchesChannel semester subject channel) = false ∧
      (addVideo w req).response = ResourceResponse.created
        ⟨req.newId, semester, "videoMaterials".toList, trim subject, none, none,
          some (trim channel), topics.items, req.date⟩ ∧
      (addVideo w req).effects = [Effect.saveResource
        ⟨req.newId, semester, "videoMaterials".toList, trim subject, none, none,
          some (trim channel), topics.items, req.date⟩]) := by
  unfold addVideo
  cases req.user with
  | none => exact Or.inl ⟨rfl, rfl⟩
  | some role =>
    dsimp only
    split_ifs with hrole
    · exact Or.inl ⟨rfl, rfl⟩
    · cases hsem : req.semester with
      | none => exact Or.inl ⟨rfl, rfl⟩
      | some semester =>
        cases hsub : req.subject with
        | none => exact Or.inl ⟨rfl, rfl⟩
        | some subject =>
          cases hch : req.channel with
          | none => exact Or.inl ⟨rfl, rfl⟩
          | some channel =>
            cases htop : req.topics with
            | none => exact Or.inl ⟨rfl, rfl⟩
            | some topics =>
              dsimp only
              split_ifs with h1 h2 h3 h4
              · exact Or.inl ⟨rfl, rfl⟩
              · exact Or.inl ⟨rfl, rfl⟩
              · exact Or.inl ⟨rfl, rfl⟩
              · exact Or.inr ⟨semester, subject, channel, topics, rfl, rfl, rfl, rfl,
                  by simpa using h3, rfl, rfl⟩
              · exact Or.inl ⟨rfl, rfl⟩

/-- Through `POST /video` of `routes/resources.js` the channels of a subject
stay distinct: a request for a channel the subject has is answered with an
error and performs no effect, and a new record has a channel the subject did
not have; the store gives new records fresh ids. -/
theorem addVideo_keeps_channels_distinct (w : World) (req : VideoUpload)
    (hok : ChannelsDistinct w.resources) (hfresh : req.newId ∉ w.resources.map Resource.id) :
    ChannelsDistinct (w.run (addVideo w req).effects).resources ∧
    (∀ semester subject channel, req.semester = some semester → req.subject = some subject →
      req.channel = some channel →
      w.resources.any (matchesChannel semester subject channel) = true →
      (addVideo w req).response.resource = none ∧ (addVideo w req).effects = []) := by
  rcases addVideo_cases w req with ⟨heff, hres⟩ |
    ⟨semester, subject, channel, topics, hsem, hsub, hch, htop, hnone, hresp, heff⟩
  · exact ⟨by rw [heff]; exact hok, fun _ _ _ _ _ _ _ => ⟨hres, heff⟩⟩
  · constructor
    · rw [heff]
      show ChannelsDistinct (upsert Resource.id _ w.resources)
      rw [upsert_new _ _ hfresh]
      unfold ChannelsDistinct at hok ⊢
      rw [List.filter_append, List.map_append]
      have hnew : [(⟨req.newId, semester, "videoMaterials".toList, trim subject, none, none,
            some (trim channel), topics.items, req.date⟩ : Resource)].filter
          (fun r => decide (r.resourceType = "videoMaterials".toList)) =
          [⟨req.newId, semester, "videoMaterials".toList, trim subject, none, none,
            some (trim channel), topics.items, req.date⟩] := by
        simp
      rw [hnew, List.map_singleton]
      rw [List.nodup_append]
      refine ⟨hok, List.nodup_singleton _, ?_⟩
      intro key hkey hkey2
      rw [List.mem_singleton] at hkey2
      obtain ⟨r, hr, hrkey⟩ := List.mem_map.1 hkey
      obtain ⟨hmem, htype⟩ := List.mem_filter.1 hr
      have hany : w.resources.any (matchesChannel semester subject channel) = true := by
        rw [List.any_eq_true]
        refine ⟨r, hmem, ?_⟩
        rw [hkey2] at hrkey
        simp only [Resource.channelKey, Prod.mk.injEq] at hrkey
        simp only [matchesChannel, Bool.and_eq_true, decide_eq_true_eq]
        exact ⟨⟨⟨hrkey.1, by simpa using htype⟩, hrkey.2.1⟩, hrkey.2.2⟩
      rw [hnone] at hany
      cases hany
    · intro s2 sub2 ch2 hs2 hsub2 hch2 hany
      rw [hsem] at hs2
      rw [hsub] at hsub2
      rw [hch] at hch2
      simp only [Option.some.injEq] at hs2 hsub2 hch2
      subst hs2 hsub2 hch2
      rw [hnone] at hany
      cases hany

/-! ## The URL a resource upload stores -/

/-- A string that neither starts nor ends with white space is its own trim. -/
theorem trim_eq_self (s : Str) (hhead : ∀ c, s.head? = some c → isJsSpace c = false)
    (hlast : ∀ c, s.getLast? = some c → isJsSpace c = false) : trim s = s := by
  cases s with
  | nil => rfl
  | cons c cs =>
    unfold trim
    have h1 : (c :: cs).dropWhile isJsSpace = c :: cs := by
      rw [List.dropWhile_cons_of_neg]
      rw [hhead c rfl]
      simp
    rw [h1]
    cases hrev : (c :: cs).reverse with
    | nil => simp at hrev
    | cons d ds =>
      have hd : (c :: cs).getLast? = some d := by
        rw [List.getLast?_eq_head?_reverse, hrev]
        rfl
      rw [List.dropWhile_cons_of_neg (by rw [hlast d hd]; simp), ← hrev, List.reverse_reverse]

/-- A digit is no white space. -/
theorem digit_not_space (c : Char) (h : 48 ≤ c.toNat ∧ c.toNat ≤ 57) : isJsSpace c = false := by
  unfold isJsSpace
  simp only [Bool.or_eq_false_iff, Bool.and_eq_false_imp, decide_eq_false_iff_not,
    decide_eq_true_eq]
  omega

/-- A numeral is not empty. -/
theorem natToString_ne_nil (n : Nat) : natToString n ≠ [] := by
  unfold natToString
  intro h
  have h2 := List.reverse_eq_nil_iff.1 h
  unfold digitsRev at h2
  cases h2

/-- The last character of a generated resource name is the last character of
the extension, or else a digit. -/
theorem getLast_suffix_extension (pre : Str) (n : Nat) (ext : Str)
    (hext : ∀ c, ext.getLast? = some c → isJsSpace c = false) :
    ∀ c, (pre ++ natToString n ++ ext).getLast? = some c → isJsSpace c = false := by
  intro c hc
  rw [List.getLast?_append] at hc
  cases hlast : ext.getLast? with
  | some d =>
    rw [hlast] at hc
    simp only [Option.or_some, Option.some.injEq] at hc
    subst hc
    exact hext d hlast
  | none =>
    rw [hlast, Option.none_or, List.getLast?_append] at hc
    cases hnum : (natToString n).getLast? with
    | none =>
      rw [List.getLast?_eq_none_iff] at hnum
      exact absurd hnum (natToString_ne_nil n)
    | some d =>
      rw [hnum] at hc
      simp only [Option.or_some, Option.some.injEq] at hc
      subst hc
      have hmem := List.mem_of_getLast?_eq_some hnum
      have := natToString_digit n d hmem
      exact digit_not_space d ⟨this.1, this.2.1⟩

/-- An empty segment does not change the location of a path. -/
theorem locOf_skip_empty (cwd a u : Str) (ha : a ≠ []) :
    locOf cwd (a ++ '/' :: '/' :: u) = locOf cwd (a ++ '/' :: u) := by
  have key : ∀ st : List Str,
      (splitSlash (a ++ '/' :: '/' :: u)).foldl (normStep false) st =
        (splitSlash (a ++ '/' :: u)).foldl (normStep false) st := by
    intro st
    rw [splitSlash_append, splitSlash_append, splitSlash_cons_slash, List.foldl_append,
      List.foldl_append, List.foldl_cons, normStep_skip false _ [] (Or.inl rfl)]
  have habs : isAbsolute (a ++ '/' :: '/' :: u) = isAbsolute (a ++ '/' :: u) := by
    rw [isAbsolute_append _ _ ha, isAbsolute_append _ _ ha]
  cases h : isAbsolute (a ++ '/' :: u) with
  | true => rw [locOf_absolute cwd _ (habs.trans h), locOf_absolute cwd _ h, key]
  | false => rw [locOf_relative cwd _ (habs.trans h), locOf_relative cwd _ h, key]

/-- A URL that starts with a slash, joined to a root, names the location of
the root followed by the URL. -/
theorem locOf_join_url (cwd root u : Str) (hroot : root ≠ []) :
    locOf cwd (join [root, '/' :: u]) = locOf cwd (root ++ '/' :: u) := by
  rw [locOf_join cwd root _ hroot]
  show locOf cwd (root ++ '/' :: '/' :: u) = _
  exact locOf_skip_empty cwd root u hroot

/-- A path that starts with `./` is taken from the working directory. -/
theorem locOf_dot_slash (cwd u : Str) (hcwd : isAbsolute cwd = true) :
    locOf cwd ('.' :: '/' :: u) = locOf cwd (cwd ++ '/' :: u) := by
  have hne : cwd ≠ [] := by
    rintro rfl
    simp [isAbsolute] at hcwd
  rw [locOf_relative cwd _ (by simp [isAbsolute]),
    locOf_absolute cwd _ ((isAbsolute_append _ _ hne).trans hcwd), splitSlash_append,
    List.foldl_append]
  have : splitSlash ('.' :: '/' :: u) = ['.'] :: splitSlash u := by
    have h2 := splitSlash_append ['.'] u
    rw [show splitSlash ['.'] = [['.']] from by decide] at h2
    exact h2
  rw [this, List.foldl_cons, normStep_skip false _ ['.'] (Or.inr rfl)]

/-- Where `index.js` writes an uploaded file. -/
theorem locOf_resourceDir (proc : Proc) (semester : Option Str) (resourceType name : Str)
    (hdir : proc.dirname ≠ []) (hne : name ≠ []) :
    locOf proc.cwd (join [resourceDir proc semester resourceType, name]) =
      locOf proc.cwd (proc.dirname ++ "/uploads/semester".toList ++ template semester ++
        '/' :: resourceType ++ '/' :: name) := by
  have hup : join [proc.dirname, "uploads".toList] ≠ [] := join_ne_nil _
  unfold resourceDir
  rw [locOf_join_name proc.cwd _ name _ hup hne]
  have hj : join [proc.dirname, "uploads".toList] =
      normalize (proc.dirname ++ '/' :: "uploads".toList) := by
    rw [join_of_nonempty _ _ hdir]
    rfl
  have hrest : joinSlash (join [proc.dirname, "uploads".toList] ::
        (["semester".toList ++ template semester, resourceType] ++ [name])) =
      normalize (proc.dirname ++ '/' :: "uploads".toList) ++
        '/' :: ("semester".toList ++ template semester ++ '/' :: resourceType ++
          '/' :: name) := by
    rw [hj]
    simp [joinSlash]
  rw [hrest, locOf_normalize_append proc.cwd _ _ (by simp)]
  simp

/-- The effects performed before the branch for notes and books are among the
effects of the branch. -/
theorem fileBranch_keeps (proc : Proc) (w : World) (req : ResourceUpload) (done : List Effect)
    (semester subject resourceType filename : Str) (part : UploadedFile) :
    ∀ e ∈ done,
      e ∈ (fileBranch proc w req done semester subject resourceType filename part).effects := by
  intro e he
  unfold fileBranch
  dsimp only
  split
  · split_ifs
    · simp [he]
    · simp [he]
  · split_ifs
    · simp [he]
    · exact he

/-- An upload of notes or books through `index.js` that answers with a record
wrote the file part under the name of the storage. -/
theorem uploadResource_wrote (proc : Proc) (w : World) (req : ResourceUpload) (doc : Resource)
    (semester subject resourceType : Str) (part : UploadedFile)
    (hsemester : req.semester = some semester) (hsubject : req.subject = some subject)
    (htype : req.resourceType = some resourceType)
    (hnotes : resourceType = "notes".toList ∨ resourceType = "books".toList)
    (hpart : req.file = some part)
    (h : (uploadResource proc w req).response.resource = some doc) :
    Effect.writeFile
        (locOf proc.cwd (join [resourceDir proc req.semester resourceType,
          resourceFilename subject req.now req.random part.originalname]))
        part.data req.slot ∈ (uploadResource proc w req).effects := by
  have hvideo : resourceType ≠ "videoMaterials".toList := by
    rcases hnotes with rfl | rfl <;> decide
  unfold uploadResource at h ⊢
  cases huser : req.user with
  | none =>
    rw [huser] at h
    simp [ResourceResponse.resource] at h
  | some role =>
    rw [huser] at h
    dsimp only at h ⊢
    by_cases hrole : role ≠ "admin".toList
    · rw [if_pos hrole] at h
      simp [ResourceResponse.resource] at h
    · rw [if_neg hrole] at h ⊢
      cases hst : storeResource proc w req with
      | mk file stored =>
        rw [hst] at h
        cases file with
        | none => simp [ResourceResponse.resource] at h
        | some file =>
          dsimp only at h ⊢
          rcases storeResource_some proc w req file stored hst with ⟨hnone, _, _⟩ | hsome
          · rw [hpart] at hnone
            cases hnone
          · obtain ⟨part2, t2, x2, hp2, ht2, hx2, hfile, heff⟩ := hsome
            rw [hpart] at hp2
            rw [htype] at ht2
            rw [hsubject] at hx2
            cases hp2
            cases ht2
            cases hx2
            subst hfile
            unfold resourceHandler at h ⊢
            rw [hsemester, hsubject, htype, hpart] at h ⊢
            dsimp only at h ⊢
            split_ifs at h ⊢
            · simp [ResourceResponse.resource] at h
            · simp [ResourceResponse.resource] at h
            · apply fileBranch_keeps
              rw [heff, hsemester]
              simp

/-- C26 (counterexample): the upload of notes whose file name ends with a
space writes a file whose name ends with that space; the record holds the URL
without the space, at which nothing exists, and the file name without the
space. -/
theorem c26_trailing_space_is_trimmed :
    (uploadResource appProc worldBare notesSpace).effects.filterMap
        (fun e => match e with
          | Effect.writeFile loc _ _ => some loc
          | _ => none)
      = [["app".toList, "uploads".toList, "semester3".toList, "notes".toList,
          "Data_Structures_1700000000000-123456789.pdf ".toList]] ∧
    (uploadResource appProc worldBare notesSpace).response.resource.map Resource.fileUrl =
      some (some "/uploads/semester3/notes/Data_Structures_1700000000000-123456789.pdf".toList) ∧
    (worldBare.run (uploadResource appProc worldBare notesSpace).effects).fs.node
        (locOf appProc.cwd (join [appProc.dirname,
          "/uploads/semester3/notes/Data_Structures_1700000000000-123456789.pdf".toList])) =
      none ∧
    (uploadResource appProc worldBare notesSpace).response.resource.map Resource.fileName =
      some (some "ds-notes.pdf".toList) ∧
    notesSpace.file.map UploadedFile.originalname = some "ds-notes.pdf ".toList := by
  decide

/-- C26 (amended): a successful upload of notes or books stores the original
name of the file without the white space around it; when the extension of the
original name does not end with white space, the URL it stores, joined to
`__dirname` for `index.js` and to the working directory for
`routes/resources.js`, names the location at which it wrote the file. -/
theorem c26_resource_url_names_file (proc : Proc) (w : World) (req : ResourceUpload)
    (doc : Resource) (semester subject resourceType : Str) (part : UploadedFile)
    (hdir : proc.dirname ≠ []) (hcwd : isAbsolute proc.cwd = true)
    (hsemester : req.semester = some semester) (hsubject : req.subject = some subject)
    (htype : req.resourceType = some resourceType)
    (hnotes : resourceType = "notes".toList ∨ resourceType = "books".toList)
    (hpart : req.file = some part)
    (hext : ∀ c, (extname part.originalname).getLast? = some c → isJsSpace c = false) :
    ((uploadResource proc w req).response.resource = some doc →
      doc.fileName = some (trim part.originalname) ∧
      ∃ url, doc.fileUrl = some url ∧
        Effect.writeFile (locOf proc.cwd (join [proc.dirname, url])) part.data req.slot ∈
          (uploadResource proc w req).effects) ∧
    ((uploadResourceFile proc w req).response.resource = some doc →
      doc.fileName = some (trim part.originalname) ∧
      ∃ url, doc.fileUrl = some url ∧
        Effect.writeFile (locOf proc.cwd (join [proc.cwd, url])) part.data req.slot ∈
          (uploadResourceFile proc w req).effects) := by
  have hcwdne : proc.cwd ≠ [] := by
    intro h0
    rw [h0] at hcwd
    simp [isAbsolute] at hcwd
  constructor
  · intro h
    obtain ⟨_, _, _, hurl, hname⟩ := uploadResource_doc proc w req doc semester subject
      resourceType part hsemester hsubject htype hnotes hpart h
    have hwrote := uploadResource_wrote proc w req doc semester subject resourceType part
      hsemester hsubject htype hnotes hpart h
    have hne : resourceFilename subject req.now req.random part.originalname ≠ [] := by
      simp [resourceFilename]
    have htrim : trim (resourceFileUrl semester resourceType
        (resourceFilename subject req.now req.random part.originalname)) =
        resourceFileUrl semester resourceType
          (resourceFilename subject req.now req.random part.originalname) := by
      apply trim_eq_self
      · intro c hc
        simp only [resourceFileUrl] at hc
        have : c = '/' := by
          simpa using hc.symm
        rw [this]
        decide
      · intro c hc
        have hshape : resourceFileUrl semester resourceType
            (resourceFilename subject req.now req.random part.originalname) =
            ("/uploads/semester".toList ++ semester ++ '/' :: resourceType ++ '/' ::
              sanitize subject ++ '_' :: natToString req.now ++ ['-']) ++
              natToString req.random ++ extname part.originalname := by
          simp [resourceFileUrl, resourceFilename, uniqueSuffix]
        rw [hshape] at hc
        exact getLast_suffix_extension _ _ _ hext c hc
    refine ⟨hname, _, hurl, ?_⟩
    rw [htrim]
    have hloc : locOf proc.cwd (join [proc.dirname, resourceFileUrl semester resourceType
          (resourceFilename subject req.now req.random part.originalname)]) =
        locOf proc.cwd (join [resourceDir proc req.semester resourceType,
          resourceFilename subject req.now req.random part.originalname]) := by
      rw [locOf_resourceDir proc req.semester resourceType _ hdir hne, hsemester]
      have hu : resourceFileUrl semester resourceType
          (resourceFilename subject req.now req.random part.originalname) =
          '/' :: ("uploads/semester".toList ++ semester ++ '/' :: resourceType ++ '/' ::
            resourceFilename subject req.now req.random part.originalname) := by
        simp [resourceFileUrl]
      rw [hu, locOf_join_url proc.cwd proc.dirname _ hdir]
      simp [template]
    rw [hloc]
    exact hwrote
  · intro h
    obtain ⟨_, _, _, hurl, hname, heff⟩ := uploadResourceFile_doc proc w req doc semester subject
      resourceType part hsemester hsubject htype hpart h
    have hne : fileRouteFilename req.now req.random part.originalname ≠ [] := by
      simp [fileRouteFilename]
    have hd : fileRouteDir req.semester ≠ [] := by
      simp [fileRouteDir]
    have htrim : trim (fileRouteUrl semester
        (fileRouteFilename req.now req.random part.originalname)) =
        fileRouteUrl semester (fileRouteFilename req.now req.random part.originalname) := by
      apply trim_eq_self
      · intro c hc
        simp only [fileRouteUrl] at hc
        have : c = '/' := by
          simpa using hc.symm
        rw [this]
        decide
      · intro c hc
        have hshape : fileRouteUrl semester
            (fileRouteFilename req.now req.random part.originalname) =
            ("/uploads/resources/sem".toList ++ semester ++ '/' :: "file-".toList ++
              natToString req.now ++ ['-']) ++
              natToString req.random ++ extname part.originalname := by
          simp [fileRouteUrl, fileRouteFilename, uniqueSuffix]
        rw [hshape] at hc
        exact getLast_suffix_extension _ _ _ hext c hc
    refine ⟨hname, _, hurl, ?_⟩
    rw [htrim, heff]
    have hloc : locOf proc.cwd (join [proc.cwd, fileRouteUrl semester
          (fileRouteFilename req.now req.random part.originalname)]) =
        locOf proc.cwd (join [fileRouteDir req.semester,
          fileRouteFilename req.now req.random part.originalname]) := by
      have hj : join [fileRouteDir req.semester,
            fileRouteFilename req.now req.random part.originalname] =
          normalize (fileRouteDir req.semester ++
            '/' :: fileRouteFilename req.now req.random part.originalname) := by
        rw [join_of_nonempty _ _ hd]
        simp [hne, joinSlash]
      have hu : fileRouteUrl semester (fileRouteFilename req.now req.random part.originalname) =
          '/' :: ("uploads/resources/sem".toList ++ semester ++ '/' ::
            fileRouteFilename req.now req.random part.originalname) := by
        simp [fileRouteUrl]
      have hdot : fileRouteDir req.semester ++
            '/' :: fileRouteFilename req.now req.random part.originalname =
          '.' :: '/' :: ("uploads/resources/sem".toList ++ semester ++ '/' ::
            fileRouteFilename req.now req.random part.originalname) := by
        simp [fileRouteDir, hsemester, template]
      rw [hj, locOf_normalize, hdot, locOf_dot_slash proc.cwd _ hcwd, hu,
        locOf_join_url proc.cwd proc.cwd _ hcwdne]
    rw [hloc]
    simp

/-- C26 (witness): the upload of notes for semester 3 and the subject Data
Structures, through `index.js`. -/
theorem c26_resource_url_names_file_witness :
    (uploadResource appProc worldBare notesFirst).response.resource = some notesFirstRecord ∧
    notesFirstRecord.fileName = some (trim "ds-notes.pdf".toList) ∧
    (∃ url, notesFirstRecord.fileUrl = some url ∧
      Effect.writeFile (locOf appProc.cwd (join [appProc.dirname, url])) [37, 80, 68, 70, 1]
          notesFirst.slot ∈ (uploadResource appProc worldBare notesFirst).effects) :=
  ⟨by decide,
    ((c26_resource_url_names_file appProc worldBare notesFirst notesFirstRecord "3".toList
      "Data Structures".toList "notes".toList
      ⟨"ds-notes.pdf".toList, "application/pdf".toList, [37, 80, 68, 70, 1]⟩
      (by decide) (by decide) rfl rfl rfl (Or.inl rfl) rfl
      (fun c hc => by
        have hd : (extname "ds-notes.pdf".toList).getLast? = some 'f' := by decide
        have hcf : c = 'f' := by
          have h2 : some 'f' = some c := hd.symm.trans hc
          exact (Option.some.inj h2).symm
        rw [hcf]
        decide)).1 (by decide)).1,
    ((c26_resource_url_names_file appProc worldBare notesFirst notesFirstRecord "3".toList
      "Data Structures".toList "notes".toList
      ⟨"ds-notes.pdf".toList, "application/pdf".toList, [37, 80, 68, 70, 1]⟩
      (by decide) (by decide) rfl rfl rfl (Or.inl rfl) rfl
      (fun c hc => by
        have hd : (extname "ds-notes.pdf".toList).getLast? = some 'f' := by decide
        have hcf : c = 'f' := by
          have h2 : some 'f' = some c := hd.symm.trans hc
          exact (Option.some.inj h2).symm
        rw [hcf]
        decide)).1 (by decide)).2⟩

/-! ## The cascade of a subject delete -/

/-- Removing records by id leaves the records whose id is not removed. -/
theorem run_removeResources (ids : List ObjId) (w : World) :
    (w.run (ids.map Effect.removeResource)).resources =
        w.resources.filter (fun r => r.id ∉ ids) ∧
      (w.run (ids.map Effect.removeResource)).subjects = w.subjects ∧
      (w.run (ids.map Effect.removeResource)).papers = w.papers ∧
      (w.run (ids.map Effect.removeResource)).fs = w.fs := by
  induction ids generalizing w with
  | nil => simp [World.run]
  | cons i rest ih =>
    have hstep : w.run ((i :: rest).map Effect.removeResource) =
        (w.step (Effect.removeResource i)).run (rest.map Effect.removeResource) := rfl
    rw [hstep]
    obtain ⟨h1, h2, h3, h4⟩ := ih (w.step (Effect.removeResource i))
    refine ⟨?_, ?_, ?_, ?_⟩
    · rw [h1]
      simp only [World.step, List.filter_filter]
      apply List.filter_congr
      intro r _
      simp only [List.mem_cons, not_or, ne_eq, decide_not, Bool.and_eq_true, Bool.not_eq_true',
        decide_eq_false_iff_not, Bool.decide_and, decide_eq_true_eq]
      exact Bool.and_comm _ _
    · rw [h2]
      rfl
    · rw [h3]
      rfl
    · rw [h4]
      rfl

/-- What the cascade of a subject delete leaves: the subjects and the
resources outside the filter, in their order; the question papers and the
files as they were. -/
theorem run_cascade (w : World) (semester name : Option Str)
    (hsubjects : (w.subjects.map Subject.id).Nodup)
    (hresources : (w.resources.map Resource.id).Nodup)
    (hindex : (w.subjects.map fun x => (x.semester, x.name)).Nodup) :
    (w.run (cascade w semester name)).subjects =
        w.subjects.filter (fun x => !subjectIs semester name x) ∧
      (w.run (cascade w semester name)).resources =
        w.resources.filter (fun r => !resourceOfSubject semester name r) ∧
      (w.run (cascade w semester name)).papers = w.papers ∧
      (w.run (cascade w semester name)).fs = w.fs := by
  unfold cascade
  rw [run_append]
  have hfirst : ∀ first : List Effect,
      first = (match w.subjects.find? (subjectIs semester name) with
        | some s => [Effect.removeSubject s.id]
        | none => []) →
      (w.run first).subjects = w.subjects.filter (fun x => !subjectIs semester name x) ∧
      (w.run first).resources = w.resources ∧ (w.run first).papers = w.papers ∧
      (w.run first).fs = w.fs := by
    intro first hf
    cases hfind : w.subjects.find? (subjectIs semester name) with
    | none =>
      rw [hfind] at hf
      subst hf
      refine ⟨?_, rfl, rfl, rfl⟩
      rw [run_nil]
      symm
      rw [List.filter_eq_self]
      intro x hx
      have := List.find?_eq_none.1 hfind x hx
      simpa using this
    | some s =>
      rw [hfind] at hf
      subst hf
      refine ⟨?_, rfl, rfl, rfl⟩
      have hs := List.find?_some hfind
      have hmem := List.mem_of_find?_eq_some hfind
      show w.subjects.filter (fun r => r.id ≠ s.id) = _
      apply List.filter_congr
      intro x hx
      by_cases hid : x.id = s.id
      · have hxs : x = s := List.inj_on_of_nodup_map hsubjects hx hmem hid
        subst hxs
        simp [hs]
      · have hnot : subjectIs semester name x = false := by
          by_contra hyes
          have hyes2 : subjectIs semester name x = true := by
            simpa using hyes
          unfold subjectIs fieldIs at hyes2 hs
          simp only [Bool.and_eq_true, decide_eq_true_eq] at hyes2 hs
          have hkey : (x.semester, x.name) = (s.semester, s.name) := by
            have h1 : some x.semester = some s.semester := hyes2.1.symm.trans hs.1
            have h2 : some x.name = some s.name := hyes2.2.symm.trans hs.2
            rw [Option.some.inj h1, Option.some.inj h2]
          exact hid (congrArg Subject.id
            (List.inj_on_of_nodup_map hindex hx hmem hkey))
        simp [hid, hnot]
  obtain ⟨f1, f2, f3, f4⟩ := hfirst _ rfl
  have hmap : List.map (fun r => Effect.removeResource r.id)
      (w.resources.filter (resourceOfSubject semester name)) =
      ((w.resources.filter (resourceOfSubject semester name)).map Resource.id).map
        Effect.removeResource := by
    rw [List.map_map]
    rfl
  rw [hmap]
  obtain ⟨r1, r2, r3, r4⟩ := run_removeResources
    ((w.resources.filter (resourceOfSubject semester name)).map Resource.id)
    (w.run (match w.subjects.find? (subjectIs semester name) with
      | some s => [Effect.removeSubject s.id]
      | none => []))
  refine ⟨r2.trans f1, r1.trans ?_, r3.trans f3, r4.trans f4⟩
  rw [f2]
  apply List.filter_congr
  intro r hr
  by_cases hof : resourceOfSubject semester name r = true
  · have hin : r.id ∈ (w.resources.filter (resourceOfSubject semester name)).map Resource.id :=
      List.mem_map.2 ⟨r, List.mem_filter.2 ⟨hr, hof⟩, rfl⟩
    simp only [hof, Bool.not_true, decide_eq_false_iff_not, not_not]
    exact hin
  · have hof2 : resourceOfSubject semester name r = false := by
      simpa using hof
    simp only [hof2, Bool.not_false, decide_eq_true_eq]
    intro hin
    obtain ⟨r2, hr2, hid⟩ := List.mem_map.1 hin
    obtain ⟨hr2mem, hr2of⟩ := List.mem_filter.1 hr2
    have heq : r2 = r := List.inj_on_of_nodup_map hresources hr2mem hr hid
    rw [heq] at hr2of
    exact hof hr2of

/-- The names of an object after an assignment. -/
theorem assign_keys {α : Type} (k : Str) (v : α) (o : List (Str × α)) (j : Str) :
    j ∈ (assign k v o).map Prod.fst ↔ j = k ∨ j ∈ o.map Prod.fst := by
  unfold assign
  split_ifs with hany
  · rw [List.any_eq_true] at hany
    obtain ⟨e, he, hek⟩ := hany
    have hek2 : e.1 = k := by
      simpa using hek
    simp only [List.map_map, List.mem_map, Function.comp]
    constructor
    · rintro ⟨a, ha, haj⟩
      by_cases hak : a.1 = k
      · left
        rw [if_pos hak] at haj
        exact haj.symm
      · right
        rw [if_neg hak] at haj
        exact ⟨a, ha, haj⟩
    · rintro (hj | ⟨a, ha, haj⟩)
      · exact ⟨e, he, by rw [if_pos hek2]; exact hj.symm⟩
      · by_cases hak : a.1 = k
        · exact ⟨a, ha, by rw [if_pos hak]; exact hak.symm.trans haj |>.symm ▸ rfl⟩
        · exact ⟨a, ha, by rw [if_neg hak]; exact haj⟩
  · simp only [List.map_append, List.map_cons, List.map_nil, List.mem_append, List.mem_singleton]
    tauto

/-- The names in a sorted list are the names given. -/
theorem mem_insertByName (x j : Str) (l : List Str) :
    j ∈ insertByName x l ↔ j = x ∨ j ∈ l := by
  induction l with
  | nil => simp [insertByName]
  | cons y rest ih =>
    unfold insertByName
    split_ifs
    · simp
    · simp only [List.mem_cons, ih]
      tauto

/-- Sorting keeps the names. -/
theorem mem_sortNames (j : Str) (l : List Str) : j ∈ sortNames l ↔ j ∈ l := by
  induction l with
  | nil => simp [sortNames]
  | cons y rest ih =>
    have hstep : sortNames (y :: rest) = insertByName y (sortNames rest) := rfl
    rw [hstep, mem_insertByName, ih]
    simp

/-- The own properties after `subjects.forEach` bear the names of the
subjects. -/
theorem initSubjects_keys (names : List Str) (j : Str) :
    (j ∈ (initSubjects names).videoMaterials.map Prod.fst → j ∈ names) ∧
      (j ∈ (initSubjects names).notes.map Prod.fst → j ∈ names) ∧
      (j ∈ (initSubjects names).books.map Prod.fst → j ∈ names) := by
  have hgen : ∀ (l : List Str) (start : ResourceListing),
      (j ∈ (l.foldl initSubject start).videoMaterials.map Prod.fst →
        j ∈ l ∨ j ∈ start.videoMaterials.map Prod.fst) ∧
      (j ∈ (l.foldl initSubject start).notes.map Prod.fst →
        j ∈ l ∨ j ∈ start.notes.map Prod.fst) ∧
      (j ∈ (l.foldl initSubject start).books.map Prod.fst →
        j ∈ l ∨ j ∈ start.books.map Prod.fst) := by
    intro l
    induction l with
    | nil =>
      intro start
      exact ⟨Or.inr, Or.inr, Or.inr⟩
    | cons y rest ih =>
      intro start
      obtain ⟨h1, h2, h3⟩ := ih (initSubject start y)
      simp only [List.foldl_cons, List.mem_cons]
      refine ⟨fun h => ?_, fun h => ?_, fun h => ?_⟩
      · rcases h1 h with h | h
        · exact Or.inl (Or.inr h)
        · rcases (assign_keys y _ _ j).1 h with h | h
          · exact Or.inl (Or.inl h)
          · exact Or.inr h
      · rcases h2 h with h | h
        · exact Or.inl (Or.inr h)
        · rcases (assign_keys y _ _ j).1 h with h | h
          · exact Or.inl (Or.inl h)
          · exact Or.inr h
      · rcases h3 h with h | h
        · exact Or.inl (Or.inr h)
        · rcases (assign_keys y _ _ j).1 h with h | h
          · exact Or.inl (Or.inl h)
          · exact Or.inr h
  obtain ⟨h1, h2, h3⟩ := hgen names ⟨names, [], [], []⟩
  refine ⟨fun h => ?_, fun h => ?_, fun h => ?_⟩
  · rcases h1 h with h | h
    · exact h
    · simp at h
  · rcases h2 h with h | h
    · exact h
    · simp at h
  · rcases h3 h with h | h
    · exact h
    · simp at h

/-- The own properties after the video materials bear the names before them
or the subjects of the video materials. -/
theorem pushVideos_keys (videos : List Resource) (vm out : List (Str × List VideoItem))
    (h : pushVideos vm videos = some out) (j : Str) (hj : j ∈ out.map Prod.fst) :
    j ∈ vm.map Prod.fst ∨ ∃ r ∈ videos, r.subject = j := by
  induction videos generalizing vm with
  | nil =>
    simp only [pushVideos, Option.some.injEq] at h
    subst h
    exact Or.inl hj
  | cons v rest ih =>
    unfold pushVideos at h
    cases hp : pushVideo vm v with
    | none =>
      rw [hp] at h
      cases h
    | some next =>
      rw [hp] at h
      dsimp only at h
      rcases ih next h with hn | ⟨r, hr, hrj⟩
      · have hkey : j = v.subject ∨ j ∈ vm.map Prod.fst := by
          unfold pushVideo at hp
          split at hp
          · simp only [Option.some.injEq] at hp
            subst hp
            exact (assign_keys _ _ _ j).1 hn
          · split_ifs at hp
            simp only [Option.some.injEq] at hp
            subst hp
            exact (assign_keys _ _ _ j).1 hn
        rcases hkey with hk | hk
        · exact Or.inr ⟨v, List.mem_cons_self _ _, hk.symm⟩
        · exact Or.inl hk
      · exact Or.inr ⟨r, List.mem_cons_of_mem _ hr, hrj⟩

/-- The own properties after the notes or the books bear the names before
them or the subjects of the records. -/
theorem setFile_keys (rs : List Resource) (o : List (Str × Option Str)) (j : Str)
    (hj : j ∈ (rs.foldl setFile o).map Prod.fst) :
    j ∈ o.map Prod.fst ∨ ∃ r ∈ rs, r.subject = j := by
  induction rs generalizing o with
  | nil => exact Or.inl hj
  | cons v rest ih =>
    rw [List.foldl_cons] at hj
    rcases ih (setFile o v) hj with hn | ⟨r, hr, hrj⟩
    · unfold setFile at hn
      split_ifs at hn
      · exact Or.inl hn
      · rcases (assign_keys _ _ _ j).1 hn with hk | hk
        · exact Or.inr ⟨v, List.mem_cons_self _ _, hk.symm⟩
        · exact Or.inl hk
    · exact Or.inr ⟨r, List.mem_cons_of_mem _ hr, hrj⟩

/-- Where the names of a listing come from: the subjects listed are the names
of the subjects of the semester, and every own property of `videoMaterials`,
`notes` and `books` bears the name of a subject of the semester or the subject
of a resource of the semester. -/
theorem fetchResources_keys (w : World) (semester : Str) (l : ResourceListing)
    (h : fetchResources w semester = some (FetchResponse.listing l)) (j : Str) :
    (j ∈ l.subjects ↔ ∃ x ∈ w.subjects, x.semester = semester ∧ x.name = j) ∧
      (j ∈ l.videoMaterials.map Prod.fst ∨ j ∈ l.notes.map Prod.fst ∨
          j ∈ l.books.map Prod.fst →
        (∃ x ∈ w.subjects, x.semester = semester ∧ x.name = j) ∨
          ∃ r ∈ w.resources, r.semester = semester ∧ r.subject = j) := by
  have hnames : ∀ k, k ∈ sortNames ((w.subjects.filter fun s => s.semester = semester).map
      Subject.name) ↔ ∃ x ∈ w.subjects, x.semester = semester ∧ x.name = k := by
    intro k
    rw [mem_sortNames]
    simp only [List.mem_map, List.mem_filter, decide_eq_true_eq]
    constructor
    · rintro ⟨x, ⟨hx, hs⟩, hn⟩
      exact ⟨x, hx, hs, hn⟩
    · rintro ⟨x, hx, hs, hn⟩
      exact ⟨x, ⟨hx, hs⟩, hn⟩
  have hres : ∀ (p : Resource → Bool),
      (∃ r ∈ (w.resources.filter fun r => r.semester = semester).filter p, r.subject = j) →
      ∃ r ∈ w.resources, r.semester = semester ∧ r.subject = j := by
    rintro p ⟨r, hr, hrj⟩
    have hr2 := (List.mem_filter.1 hr).1
    obtain ⟨hr3, hs⟩ := List.mem_filter.1 hr2
    exact ⟨r, hr3, by simpa using hs, hrj⟩
  unfold fetchResources at h
  dsimp only at h
  split_ifs at h with hproto
  split at h
  · cases h
  · rename_i vm hvm
    simp only [Option.some.injEq, FetchResponse.listing.injEq] at h
    subst h
    dsimp only
    obtain ⟨k1, k2, k3⟩ := initSubjects_keys (sortNames
      ((w.subjects.filter fun s => s.semester = semester).map Subject.name)) j
    refine ⟨hnames j, ?_⟩
    rintro (hv | hn | hb)
    · rcases pushVideos_keys _ _ _ hvm j hv with hk | hk
      · exact Or.inl ((hnames j).1 (k1 hk))
      · exact Or.inr (hres _ hk)
    · rcases setFile_keys _ _ j hn with hk | hk
      · exact Or.inl ((hnames j).1 (k2 hk))
      · exact Or.inr (hres _ hk)
    · rcases setFile_keys _ _ j hb with hk | hk
      · exact Or.inl ((hnames j).1 (k3 hk))
      · exact Or.inr (hres _ hk)

/-- C21 (counterexample): the delete of the subject named
` Data Structures`, with a space before the name, removes the subject
`Data Structures` of semester 3 and its notes, records of another name. -/
theorem c21_spaced_name_deletes_trimmed_subject :
    deleteSpaced.subject = some " Data Structures".toList ∧
    worldNotesFirst.subjects.map (fun x => (x.semester, x.name)) =
      [("3".toList, "Data Structures".toList)] ∧
    worldNotesFirst.resources.map (fun r => (r.semester, r.subject)) =
      [("3".toList, "Data Structures".toList)] ∧
    (deleteSubject worldNotesFirst deleteSpaced).response = DeleteResponse.deleted ∧
    (worldNotesFirst.run (deleteSubject worldNotesFirst deleteSpaced).effects).subjects = [] ∧
    (worldNotesFirst.run (deleteSubject worldNotesFirst deleteSpaced).effects).resources = [] ∧
    (deleteSubjectRoute worldNotesFirst deleteSpaced).response = DeleteResponse.deleted ∧
    (worldNotesFirst.run (deleteSubjectRoute worldNotesFirst deleteSpaced).effects).subjects =
      [] ∧
    (worldNotesFirst.run (deleteSubjectRoute worldNotesFirst deleteSpaced).effects).resources =
      [] := by
  decide

/-- C21 (amended): in a catalog with unique ids and one subject per semester
and name, the delete of the subject `n` of semester `s` by an admin, through
either route, compares the names with `n` taken without the white space around
it: the subjects and the resources of semester `s` with that name are removed,
every other subject and resource stays as it was, in its place, and a listing
of the resources of semester `s` fetched afterwards has the name neither among
its subjects nor as a property of `videoMaterials`, `notes` or `books`. -/
theorem c21_subject_delete_cascades (w : World) (req : ResourceDelete) (s n : Str)
    (hadmin : req.user = some "admin".toList) (hs : req.semester = some s)
    (hn : req.subject = some n)
    (hsubjects : (w.subjects.map Subject.id).Nodup)
    (hresources : (w.resources.map Resource.id).Nodup)
    (hindex : (w.subjects.map fun x => (x.semester, x.name)).Nodup) :
    deleteSubjectRoute w req = deleteSubject w req ∧
    (deleteSubject w req).response = DeleteResponse.deleted ∧
    (w.run (deleteSubject w req).effects).subjects =
      w.subjects.filter (fun x => ¬ (x.semester = s ∧ x.name = trim n)) ∧
    (w.run (deleteSubject w req).effects).resources =
      w.resources.filter (fun r => ¬ (r.semester = s ∧ r.subject = trim n)) ∧
    ∀ l, fetchResources (w.run (deleteSubject w req).effects) s =
        some (FetchResponse.listing l) →
      trim n ∉ l.subjects ∧ trim n ∉ l.videoMaterials.map Prod.fst ∧
        trim n ∉ l.notes.map Prod.fst ∧ trim n ∉ l.books.map Prod.fst := by
  have hroute : deleteSubjectRoute w req = deleteSubject w req := by
    unfold deleteSubjectRoute deleteSubject
    rw [hadmin]
    simp
  have hout : deleteSubject w req = ⟨DeleteResponse.deleted, cascade w (some s) (some n)⟩ := by
    unfold deleteSubject
    rw [hadmin, hs, hn]
    simp
  obtain ⟨c1, c2, _, _⟩ := run_cascade w (some s) (some n) hsubjects hresources hindex
  have hsub : (w.run (deleteSubject w req).effects).subjects =
      w.subjects.filter (fun x => ¬ (x.semester = s ∧ x.name = trim n)) := by
    rw [hout]
    dsimp only
    rw [c1]
    apply List.filter_congr
    intro x _
    simp only [subjectIs, fieldIs, Option.map_some', Option.some.injEq, Bool.decide_and,
      decide_not]
    congr 2
    · exact decide_eq_decide.2 eq_comm
    · exact decide_eq_decide.2 eq_comm
  have hres : (w.run (deleteSubject w req).effects).resources =
      w.resources.filter (fun r => ¬ (r.semester = s ∧ r.subject = trim n)) := by
    rw [hout]
    dsimp only
    rw [c2]
    apply List.filter_congr
    intro x _
    simp only [resourceOfSubject, fieldIs, Option.map_some', Option.some.injEq, Bool.decide_and,
      decide_not]
    congr 2
    · exact decide_eq_decide.2 eq_comm
    · exact decide_eq_decide.2 eq_comm
  refine ⟨hroute, by rw [hout], hsub, hres, ?_⟩
  intro l hl
  obtain ⟨k1, k2⟩ := fetchResources_keys _ s l hl (trim n)
  have hnosub : ¬ ∃ x ∈ (w.run (deleteSubject w req).effects).subjects,
      x.semester = s ∧ x.name = trim n := by
    rintro ⟨x, hx, hxs⟩
    rw [hsub] at hx
    have := (List.mem_filter.1 hx).2
    simp only [decide_not, Bool.not_eq_true', decide_eq_false_iff_not] at this
    exact this hxs
  have hnores : ¬ ∃ r ∈ (w.run (deleteSubject w req).effects).resources,
      r.semester = s ∧ r.subject = trim n := by
    rintro ⟨x, hx, hxs⟩
    rw [hres] at hx
    have := (List.mem_filter.1 hx).2
    simp only [decide_not, Bool.not_eq_true', decide_eq_false_iff_not] at this
    exact this hxs
  refine ⟨fun h => hnosub (k1.1 h), fun h => ?_, fun h => ?_, fun h => ?_⟩
  · rcases k2 (Or.inl h) with h2 | h2
    · exact hnosub h2
    · exact hnores h2
  · rcases k2 (Or.inr (Or.inl h)) with h2 | h2
    · exact hnosub h2
    · exact hnores h2
  · rcases k2 (Or.inr (Or.inr h)) with h2 | h2
    · exact hnosub h2
    · exact hnores h2

/-- C21 (witness): the delete of the subject Data Structures of semester 3
after the upload of its notes; before the delete the listing of semester 3 has
the subject and its notes, after it the listing is empty. -/
theorem c21_subject_delete_cascades_witness :
    fetchResources worldNotesFirst "3".toList =
      some (FetchResponse.listing
        ⟨["Data Structures".toList], [("Data Structures".toList, [])],
          [("Data Structures".toList,
            some "/uploads/semester3/notes/Data_Structures_1700000000000-123456789.pdf".toList)],
          [("Data Structures".toList, some [])]⟩) ∧
    fetchResources (worldNotesFirst.run (deleteSubject worldNotesFirst deleteAdmin).effects)
        "3".toList = some (FetchResponse.listing ⟨[], [], [], []⟩) ∧
    (deleteSubjectRoute worldNotesFirst deleteAdmin = deleteSubject worldNotesFirst deleteAdmin ∧
    (deleteSubject worldNotesFirst deleteAdmin).response = DeleteResponse.deleted ∧
    (worldNotesFirst.run (deleteSubject worldNotesFirst deleteAdmin).effects).subjects =
      worldNotesFirst.subjects.filter
        (fun x => ¬ (x.semester = "3".toList ∧ x.name = trim "Data Structures".toList)) ∧
    (worldNotesFirst.run (deleteSubject worldNotesFirst deleteAdmin).effects).resources =
      worldNotesFirst.resources.filter
        (fun r => ¬ (r.semester = "3".toList ∧ r.subject = trim "Data Structures".toList)) ∧
    ∀ l, fetchResources (worldNotesFirst.run (deleteSubject worldNotesFirst deleteAdmin).effects)
        "3".toList = some (FetchResponse.listing l) →
      trim "Data Structures".toList ∉ l.subjects ∧
        trim "Data Structures".toList ∉ l.videoMaterials.map Prod.fst ∧
        trim "Data Structures".toList ∉ l.notes.map Prod.fst ∧
        trim "Data Structures".toList ∉ l.books.map Prod.fst) :=
  ⟨by decide, by decide,
    c21_subject_delete_cascades worldNotesFirst deleteAdmin "3".toList "Data Structures".toList
      rfl rfl rfl (by decide) (by decide) (by decide)⟩

/-! ## The listing of the question papers -/

/-- C30: the record of the subject named `constructor` is not in the listing:
the listing of the catalog with `paperSlash` and this record has the entry of
`paperSlash` and, for the year and the semester of the record, an object
without properties. -/
theorem c30_inherited_subject_not_listed :
    worldConstructor.papers = [paperSlash, paperConstructor] ∧
    paperConstructor.year = "2023".toList ∧ paperConstructor.semester = 4 ∧
    paperConstructor.subject = "constructor".toList ∧
    paperConstructor.examType = "Final".toList ∧
    listPapers worldConstructor =
      some [("2023".toList,
        [("3".toList, [("Maths".toList, [("Midterm".toList, paperSlash.info)])]),
          ("4".toList, [])])] ∧
    (listPapers worldConstructor).map
        (fun t => t.entry "2023".toList 4 "constructor".toList "Final".toList) = some none ∧
    (listPapers worldTwo).map
        (fun t => t.entry "2023".toList 4 "Physics".toList "Final".toList) =
      some (some paperOther.info) :=
  ⟨rfl, rfl, rfl, rfl, rfl, by decide, by decide, by decide⟩

/-! ## The fix a diagnosis suggests -/

/-- Removing a pattern from a string that starts with it leaves the rest. -/
theorem removeFirst_prefix (pattern x : Str) : removeFirst pattern (pattern ++ x) = x := by
  cases h : pattern ++ x with
  | nil =>
    have := List.append_eq_nil.1 h
    rw [this.2]
    rfl
  | cons c cs =>
    unfold removeFirst
    rw [← h]
    have hpre : pattern.isPrefixOf (pattern ++ x) = true := by
      rw [List.isPrefixOf_iff_prefix]
      exact List.prefix_append _ _
    rw [if_pos hpre, List.drop_left]

/-- A string without a backslash is its own rewrite. -/
theorem backslashToSlash_id (s : Str) (h : '\\' ∉ s) : backslashToSlash s = s := by
  unfold backslashToSlash
  induction s with
  | nil => rfl
  | cons c cs ih =>
    have hc : c ≠ '\\' := fun hc => h (by rw [hc]; exact List.mem_cons_self _ _)
    have hcs : '\\' ∉ cs := fun hm => h (List.mem_cons_of_mem _ hm)
    rw [List.map_cons, if_neg hc, ih hcs]

/-- A character other than the separator that is in no segment is not in
their join. -/
theorem not_mem_joinSlash (c : Char) (hc : c ≠ '/') (l : List Str) (h : ∀ s ∈ l, c ∉ s) :
    c ∉ joinSlash l := by
  induction l with
  | nil => simp [joinSlash]
  | cons s t ih =>
    cases t with
    | nil =>
      simp only [joinSlash]
      exact h s (List.mem_cons_self _ _)
    | cons u us =>
      simp only [joinSlash, List.mem_append, List.mem_cons, not_or]
      refine ⟨h s (List.mem_cons_self _ _), hc, ?_⟩
      exact ih (fun x hx => h x (List.mem_cons_of_mem _ hx))

/-- The join of names does not end with a separator. -/
theorem getLast_joinSlash (l : List Str) (hne : l ≠ [])
    (h : ∀ s ∈ l, s ≠ [] ∧ '/' ∉ s) : (joinSlash l).getLast? ≠ some '/' := by
  induction l with
  | nil => exact absurd rfl hne
  | cons s t ih =>
    cases t with
    | nil =>
      simp only [joinSlash]
      intro hlast
      exact (h s (List.mem_cons_self _ _)).2 (List.mem_of_getLast?_eq_some hlast)
    | cons u us =>
      have hrest := ih (by simp) (fun x hx => h x (List.mem_cons_of_mem _ hx))
      have hjoin : joinSlash (s :: u :: us) = (s ++ ['/']) ++ joinSlash (u :: us) := by
        simp [joinSlash]
      rw [hjoin, List.getLast?_append]
      cases hl : (joinSlash (u :: us)).getLast? with
      | none =>
        rw [List.getLast?_eq_none_iff] at hl
        exact absurd hl (joinSlash_cons_ne_nil u us (h u (by simp)).1)
      | some d =>
        rw [hl] at hrest
        simpa using hrest

/-- The segments of an absolute path of names are the names. -/
theorem normSegs_names (l : List Str)
    (h : ∀ s ∈ l, s ≠ [] ∧ '/' ∉ s ∧ s ≠ ['.'] ∧ s ≠ ['.', '.']) :
    normSegs false ('/' :: joinSlash l) = l := by
  unfold normSegs
  rw [splitSlash_cons_slash, List.foldl_cons, normStep_skip false [] [] (Or.inl rfl)]
  cases l with
  | nil => decide
  | cons a t =>
    rw [splitSlash_joinSlash (a :: t) (by simp) (fun s hs => (h s hs).2.1),
      foldl_normStep_plain false (a :: t) [] (fun s hs => ⟨(h s hs).1, (h s hs).2.2⟩)]
    simp

/-- An absolute path of names is normalized. -/
theorem normalize_names (l : List Str) (hne : l ≠ [])
    (h : ∀ s ∈ l, s ≠ [] ∧ '/' ∉ s ∧ s ≠ ['.'] ∧ s ≠ ['.', '.']) :
    normalize ('/' :: joinSlash l) = '/' :: joinSlash l := by
  have hq : joinSlash l ≠ [] := by
    cases l with
    | nil => exact absurd rfl hne
    | cons a t => exact joinSlash_cons_ne_nil a t (h a (List.mem_cons_self _ _)).1
  have hlast : ('/' :: joinSlash l).getLast? ≠ some '/' := by
    have hcons : ('/' :: joinSlash l) = ['/'] ++ joinSlash l := rfl
    rw [hcons, List.getLast?_append]
    have h2 := getLast_joinSlash l hne (fun s hs => ⟨(h s hs).1, (h s hs).2.1⟩)
    cases hl : (joinSlash l).getLast? with
    | none =>
      rw [List.getLast?_eq_none_iff] at hl
      exact absurd hl hq
    | some d =>
      rw [hl] at h2
      simpa using h2
  have habs : isAbsolute ('/' :: joinSlash l) = true := rfl
  unfold normalize
  rw [if_neg (List.cons_ne_nil _ _)]
  simp only [habs, Bool.not_true, if_true]
  unfold normalizeString
  rw [normSegs_names l h, if_neg hq]
  simp only [hlast, if_false]

/-- The path of a name in a directory given by names. -/
theorem join_names (l : List Str) (f : Str) (hne : l ≠ [])
    (h : ∀ s ∈ l, s ≠ [] ∧ '/' ∉ s ∧ s ≠ ['.'] ∧ s ≠ ['.', '.'])
    (hf : f ≠ [] ∧ '/' ∉ f ∧ f ≠ ['.'] ∧ f ≠ ['.', '.']) :
    join ['/' :: joinSlash l, f] = '/' :: joinSlash (l ++ [f]) := by
  rw [join_of_nonempty _ _ (List.cons_ne_nil _ _)]
  have hfilter : ([f].filter fun s => s ≠ []) = [f] := by
    simp [hf.1]
  rw [hfilter]
  have hshape : joinSlash [('/' :: joinSlash l), f] = '/' :: joinSlash (l ++ [f]) := by
    rw [joinSlash_append_singleton l f hne]
    simp [joinSlash]
  rw [hshape]
  apply normalize_names
  · simp
  · intro s hs
    rcases List.mem_append.1 hs with hs | hs
    · exact h s hs
    · rw [List.mem_singleton.1 hs]
      exact hf

/-- The directory of the question papers under a working directory that is
absolute and normalized. -/
theorem resolve_questionPapers (cwd : Str) (hcwd : cwd = '/' :: normalizeString cwd false) :
    resolve cwd [cwd, "uploads".toList, "question-papers".toList] =
      '/' :: joinSlash (normSegs false cwd ++ ["uploads".toList, "question-papers".toList]) := by
  have habs : isAbsolute cwd = true := by
    rw [hcwd]
    rfl
  have hne : cwd ≠ [] := by
    rw [hcwd]
    exact List.cons_ne_nil _ _
  have hr : ([cwd, "uploads".toList, "question-papers".toList].reverse ++ [cwd]).foldl resolveStep
      ([], false) = (cwd ++ '/' :: "uploads/question-papers/".toList, true) := by
    have hhead : cwd.head? = some '/' := by
      simpa [isAbsolute] using habs
    simp [resolveStep, hhead, hne, isAbsolute]
  unfold resolve
  simp only [hr, Bool.not_true, if_true]
  congr 1
  unfold normalizeString
  congr 1
  unfold normSegs
  rw [splitSlash_append, List.foldl_append]
  have hsplit : splitSlash "uploads/question-papers/".toList =
      ["uploads".toList, "question-papers".toList, []] := by decide
  rw [hsplit]
  simp only [List.foldl_cons, List.foldl_nil]
  have h1 : ∀ kept, normStep false kept "uploads".toList = "uploads".toList :: kept := by
    intro kept
    simp [normStep]
  have h2 : ∀ kept, normStep false kept "question-papers".toList =
      "question-papers".toList :: kept := by
    intro kept
    simp [normStep]
  rw [h1, h2, normStep_skip false _ [] (Or.inl rfl)]
  simp

/-- What `plainName` tests. -/
theorem plainName_spec (s : Str) (h : plainName s = true) :
    (s ≠ [] ∧ '/' ∉ s ∧ s ≠ ['.'] ∧ s ≠ ['.', '.']) ∧ '\\' ∉ s := by
  unfold plainName at h
  have h2 := of_decide_eq_true h
  exact ⟨⟨h2.1, h2.2.1, h2.2.2.1, h2.2.2.2.1⟩, h2.2.2.2.2⟩

/-- The loop of `walkDir` over plain names leaves in `foundPath` the empty
string or the path of a location that is not empty, given by plain names under
the directory the walk started from, when the nested call does. -/
theorem walkFiles_found (fs : FS) (cwd : Str) (paper : QuestionPaper) (base : List Str)
    (walk : Str → Str → Str × Bool) (hbase : base ≠ [])
    (hplain : ∀ s ∈ base, s ≠ [] ∧ '/' ∉ s ∧ s ≠ ['.'] ∧ s ≠ ['.', '.'])
    (hwalk : ∀ ks found, (∀ k ∈ ks, plainName k = true) →
      (found = [] ∨ ∃ js, (∀ j ∈ js, plainName j = true) ∧
        found = '/' :: joinSlash (base ++ js) ∧ (fs.node (locOf cwd found)).isSome = true) →
      ((walk ('/' :: joinSlash (base ++ ks)) found).1 = [] ∨
        ∃ js, (∀ j ∈ js, plainName j = true) ∧
          (walk ('/' :: joinSlash (base ++ ks)) found).1 = '/' :: joinSlash (base ++ js) ∧
          (fs.node (locOf cwd (walk ('/' :: joinSlash (base ++ ks)) found).1)).isSome = true))
    (ks : List Str) (hks : ∀ k ∈ ks, plainName k = true) (files : List Str)
    (hfiles : ∀ f ∈ files, plainName f = true) (found : Str)
    (hfound : found = [] ∨ ∃ js, (∀ j ∈ js, plainName j = true) ∧
      found = '/' :: joinSlash (base ++ js) ∧ (fs.node (locOf cwd found)).isSome = true) :
    (walkFiles fs cwd paper walk ('/' :: joinSlash (base ++ ks)) files found).1 = [] ∨
      ∃ js, (∀ j ∈ js, plainName j = true) ∧
        (walkFiles fs cwd paper walk ('/' :: joinSlash (base ++ ks)) files found).1 =
          '/' :: joinSlash (base ++ js) ∧
        (fs.node (locOf cwd
          (walkFiles fs cwd paper walk ('/' :: joinSlash (base ++ ks)) files found).1)).isSome =
          true := by
  induction files generalizing found with
  | nil => exact hfound
  | cons file rest ih =>
    have hfile := hfiles file (List.mem_cons_self _ _)
    have hrest : ∀ f ∈ rest, plainName f = true := fun f hf => hfiles f (List.mem_cons_of_mem _ hf)
    have hdirplain : ∀ s ∈ base ++ ks, s ≠ [] ∧ '/' ∉ s ∧ s ≠ ['.'] ∧ s ≠ ['.', '.'] := by
      intro s hs
      rcases List.mem_append.1 hs with hs | hs
      · exact hplain s hs
      · exact (plainName_spec s (hks s hs)).1
    have hjoin : join ['/' :: joinSlash (base ++ ks), file] =
        '/' :: joinSlash (base ++ (ks ++ [file])) := by
      rw [join_names (base ++ ks) file (by simp [hbase]) hdirplain (plainName_spec file hfile).1,
        List.append_assoc]
    have hnext : ∀ k ∈ ks ++ [file], plainName k = true := by
      intro k hk
      rcases List.mem_append.1 hk with hk | hk
      · exact hks k hk
      · rw [List.mem_singleton.1 hk]
        exact hfile
    unfold walkFiles
    rw [hjoin]
    cases hnode : fs.node (locOf cwd ('/' :: joinSlash (base ++ (ks ++ [file])))) with
    | none => exact hfound
    | some node =>
      cases node with
      | dir =>
        dsimp only
        split_ifs with hthrown
        · exact hwalk (ks ++ [file]) found hnext hfound
        · exact ih hrest _ (hwalk (ks ++ [file]) found hnext hfound)
      | file data =>
        dsimp only
        split_ifs with hmatch
        · right
          refine ⟨ks ++ [file], hnext, rfl, ?_⟩
          dsimp only
          rw [hnode]
          rfl
        · exact ih hrest found hfound

/-- The walk of a directory whose listings have plain names leaves in
`foundPath` the empty string or the path of a location that is not empty,
given by plain names under the directory the walk started from. -/
theorem walkDir_found (fs : FS) (cwd : Str) (paper : QuestionPaper) (base : List Str)
    (hbase : base ≠ [])
    (hplain : ∀ s ∈ base, s ≠ [] ∧ '/' ∉ s ∧ s ≠ ['.'] ∧ s ≠ ['.', '.'])
    (hnames : ∀ loc, ∀ name ∈ fs.listing loc, plainName name = true) (depth : Nat) :
    ∀ ks found, (∀ k ∈ ks, plainName k = true) →
      (found = [] ∨ ∃ js, (∀ j ∈ js, plainName j = true) ∧
        found = '/' :: joinSlash (base ++ js) ∧ (fs.node (locOf cwd found)).isSome = true) →
      ((walkDir fs cwd paper depth ('/' :: joinSlash (base ++ ks)) found).1 = [] ∨
        ∃ js, (∀ j ∈ js, plainName j = true) ∧
          (walkDir fs cwd paper depth ('/' :: joinSlash (base ++ ks)) found).1 =
            '/' :: joinSlash (base ++ js) ∧
          (fs.node (locOf cwd
            (walkDir fs cwd paper depth ('/' :: joinSlash (base ++ ks)) found).1)).isSome =
            true) := by
  induction depth with
  | zero =>
    intro ks found _ hfound
    exact hfound
  | succ depth ih =>
    intro ks found hks hfound
    unfold walkDir
    cases hread : readdirSync fs cwd ('/' :: joinSlash (base ++ ks)) with
    | none => exact hfound
    | some files =>
      dsimp only
      have hfiles : ∀ f ∈ files, plainName f = true := by
        unfold readdirSync at hread
        split at hread
        · simp only [Option.some.injEq] at hread
          subst hread
          exact hnames _
        · cases hread
      exact walkFiles_found fs cwd paper base (walkDir fs cwd paper depth) hbase hplain ih ks hks
        files hfiles found hfound

/-- The join of two lists of segments. -/
theorem joinSlash_append (a b : List Str) (ha : a ≠ []) (hb : b ≠ []) :
    joinSlash (a ++ b) = joinSlash a ++ '/' :: joinSlash b := by
  induction a with
  | nil => exact absurd rfl ha
  | cons s t ih =>
    cases t with
    | nil =>
      cases b with
      | nil => exact absurd rfl hb
      | cons u us => simp [joinSlash]
    | cons u us =>
      have h := ih (by simp)
      have hstep : joinSlash (s :: u :: us ++ b) = s ++ '/' :: joinSlash (u :: us ++ b) := rfl
      rw [hstep, h]
      simp [joinSlash]

/-- A fix that is not empty names, without its leading separator, a location
that is not empty: under a working directory that is absolute and normalized,
in a file system whose listings have plain names, some candidate of a record
with the fix as its path exists. -/
theorem possibleFix_candidate (proc : Proc) (depth : Nat) (fs : FS) (paper fixed : QuestionPaper)
    (hcwd : proc.cwd = '/' :: normalizeString proc.cwd false)
    (hnames : ∀ loc, ∀ name ∈ fs.listing loc, plainName name = true)
    (hfix : possibleFix proc depth fs paper ≠ [])
    (hfixed : fixed.filePath = possibleFix proc depth fs paper) :
    ∃ c ∈ pathCandidates proc fixed, existsSync fs proc.cwd c = true := by
  have habs : isAbsolute proc.cwd = true := by
    rw [hcwd]
    rfl
  have hsegs := normSegs_plain false proc.cwd
  have hbaseplain : ∀ s ∈ normSegs false proc.cwd ++ ["uploads".toList, "question-papers".toList],
      s ≠ [] ∧ '/' ∉ s ∧ s ≠ ['.'] ∧ s ≠ ['.', '.'] := by
    intro s hs
    rcases List.mem_append.1 hs with hs | hs
    · have := hsegs s hs
      exact ⟨this.2.1, this.1, this.2.2.1, this.2.2.2 rfl⟩
    · simp only [List.mem_cons, List.mem_singleton, List.not_mem_nil, or_false] at hs
      rcases hs with rfl | rfl <;> decide
  have hwalk := walkDir_found fs proc.cwd paper
    (normSegs false proc.cwd ++ ["uploads".toList, "question-papers".toList]) (by simp)
    hbaseplain hnames depth [] [] (by simp) (Or.inl rfl)
  rw [List.append_nil, ← resolve_questionPapers proc.cwd hcwd] at hwalk
  unfold possibleFix at hfix hfixed
  dsimp only at hfix hfixed
  split_ifs at hfix hfixed with hdir hfound
  swap
  · exact absurd rfl hfix
  swap
  · exact absurd rfl hfix
  rcases hwalk with hnil | ⟨js, hjs, hshape, hnode⟩
  · exact absurd hnil hfound
  · rw [hshape] at hfixed
    rw [hshape] at hnode
    have htailne : ["uploads".toList, "question-papers".toList] ++ js ≠ [] := by simp
    have hR : joinSlash (["uploads".toList, "question-papers".toList] ++ js) =
        "uploads".toList ++ '/' :: joinSlash ("question-papers".toList :: js) := rfl
    have hRne : joinSlash (["uploads".toList, "question-papers".toList] ++ js) ≠ [] := by
      exact joinSlash_cons_ne_nil _ _ (by decide)
    have hRrel : isAbsolute (joinSlash (["uploads".toList, "question-papers".toList] ++ js)) =
        false := by
      rw [hR]
      rfl
    have hRback : '\\' ∉ joinSlash (["uploads".toList, "question-papers".toList] ++ js) := by
      apply not_mem_joinSlash _ (by decide)
      intro s hs
      rcases List.mem_append.1 hs with hs | hs
      · simp only [List.mem_cons, List.mem_singleton, List.not_mem_nil, or_false] at hs
        rcases hs with rfl | rfl <;> decide
      · exact (plainName_spec s (hjs s hs)).2
    have hlocfound : locOf proc.cwd ('/' :: joinSlash
        ((normSegs false proc.cwd ++ ["uploads".toList, "question-papers".toList]) ++ js)) =
        (normSegs false proc.cwd ++ ["uploads".toList, "question-papers".toList]) ++ js := by
      unfold locOf
      rw [show isAbsolute ('/' :: joinSlash ((normSegs false proc.cwd ++
        ["uploads".toList, "question-papers".toList]) ++ js)) = true from rfl, if_pos rfl]
      apply normSegs_names
      intro s hs
      rcases List.mem_append.1 hs with hs | hs
      · exact hbaseplain s hs
      · exact (plainName_spec s (hjs s hs)).1
    have hlocR : locOf proc.cwd (joinSlash (["uploads".toList, "question-papers".toList] ++ js)) =
        (normSegs false proc.cwd ++ ["uploads".toList, "question-papers".toList]) ++ js := by
      unfold locOf
      rw [hRrel]
      simp only [Bool.false_eq_true, if_false]
      unfold normSegs
      rw [splitSlash_append, List.foldl_append]
      have hstart : (splitSlash proc.cwd).foldl (normStep false) [] =
          (normSegs false proc.cwd).reverse := by
        unfold normSegs
        rw [List.reverse_reverse]
      rw [hstart, splitSlash_joinSlash _ htailne, foldl_normStep_plain]
      · simp
      · intro s hs
        rcases List.mem_append.1 hs with hs | hs
        · simp only [List.mem_cons, List.mem_singleton, List.not_mem_nil, or_false] at hs
          rcases hs with rfl | rfl <;> decide
        · have := (plainName_spec s (hjs s hs)).1
          exact ⟨this.1, this.2.2⟩
      · intro s hs
        rcases List.mem_append.1 hs with hs | hs
        · simp only [List.mem_cons, List.mem_singleton, List.not_mem_nil, or_false] at hs
          rcases hs with rfl | rfl <;> decide
        · exact (plainName_spec s (hjs s hs)).1.2.1
    have hexists : existsSync fs proc.cwd
        (joinSlash (["uploads".toList, "question-papers".toList] ++ js)) = true := by
      unfold existsSync
      rw [hlocR, ← hlocfound, hnode]
      simp only [Bool.and_true, decide_eq_true_eq]
      exact hRne
    have hcand := existsSync_resolve fs proc.cwd _ habs hexists
    have hcandne : resolve proc.cwd [proc.cwd,
        joinSlash (["uploads".toList, "question-papers".toList] ++ js)] ≠ [] := by
      rw [resolve_cwd proc.cwd _ habs hRne]
      exact List.cons_ne_nil _ _
    refine ⟨_, ?_, hcand⟩
    cases hs : normSegs false proc.cwd with
    | nil =>
      have hroot : proc.cwd = ['/'] := by
        rw [hcwd]
        unfold normalizeString
        rw [hs]
        rfl
      have hfp : fixed.filePath =
          joinSlash (["uploads".toList, "question-papers".toList] ++ js) := by
        rw [hfixed, hs, hroot]
        have hb : backslashToSlash ('/' :: joinSlash
            (([] ++ ["uploads".toList, "question-papers".toList]) ++ js)) =
            backslashToSlash ['/'] ++
              joinSlash (["uploads".toList, "question-papers".toList] ++ js) := by
          rw [List.nil_append]
          show backslashToSlash (['/'] ++ _) = _
          unfold backslashToSlash
          rw [List.map_append]
          congr 1
          exact backslashToSlash_id _ hRback
        rw [hb, removeFirst_prefix]
      unfold pathCandidates
      rw [hfp]
      simp only [List.filterMap_cons, id, List.mem_filter, List.mem_cons]
      exact ⟨Or.inl trivial, by simpa using hcandne⟩
    | cons a t =>
      have hcwdshape : proc.cwd = '/' :: joinSlash (a :: t) := by
        rw [hcwd]
        unfold normalizeString
        rw [hs]
      have hfp : fixed.filePath =
          '/' :: joinSlash (["uploads".toList, "question-papers".toList] ++ js) := by
        rw [hfixed, hs]
        have hb : backslashToSlash ('/' :: joinSlash
            ((a :: t ++ ["uploads".toList, "question-papers".toList]) ++ js)) =
            backslashToSlash proc.cwd ++
              '/' :: joinSlash (["uploads".toList, "question-papers".toList] ++ js) := by
          rw [List.append_assoc, joinSlash_append (a :: t) _ (List.cons_ne_nil _ _) htailne]
          have hsplit : '/' :: (joinSlash (a :: t) ++ '/' ::
              joinSlash (["uploads".toList, "question-papers".toList] ++ js)) =
              proc.cwd ++ '/' ::
                joinSlash (["uploads".toList, "question-papers".toList] ++ js) := by
            rw [hcwdshape]
            rfl
          rw [hsplit]
          unfold backslashToSlash
          rw [List.map_append]
          congr 1
          have hslash : '\\' ∉ '/' ::
              joinSlash (["uploads".toList, "question-papers".toList] ++ js) := by
            intro hm
            rcases List.mem_cons.1 hm with hm | hm
            · exact absurd hm (by decide)
            · exact hRback hm
          exact backslashToSlash_id _ hslash
        rw [hb, removeFirst_prefix]
      unfold pathCandidates
      rw [hfp]
      have hstarts : startsWith ('/' :: joinSlash
          (["uploads".toList, "question-papers".toList] ++ js)) ['/'] = true := by
        simp [startsWith, List.isPrefixOf]
      rw [if_pos hstarts]
      simp only [List.filterMap_cons, id, List.mem_filter, List.mem_cons, substring,
        List.drop_succ_cons, List.drop_zero]
      exact ⟨Or.inr (Or.inr (Or.inr (Or.inl trivial))), by simpa using hcandne⟩

/-- The record an id finds in a collection without two records of one id. -/
theorem find_of_mem (papers : List QuestionPaper) (paper : QuestionPaper)
    (hmem : paper ∈ papers) (hids : (papers.map QuestionPaper.id).Nodup) :
    papers.find? (fun p => p.id = paper.id) = some paper := by
  induction papers with
  | nil => cases hmem
  | cons q rest ih =>
    rw [List.map_cons, List.nodup_cons] at hids
    rcases List.mem_cons.1 hmem with rfl | hrest
    · simp
    · have hne : q.id ≠ paper.id := by
        intro heq
        apply hids.1
        rw [heq]
        exact List.mem_map_of_mem _ hrest
      rw [List.find?_cons_of_neg _ (by simpa using hne)]
      exact ih hrest hids.2

/-- C29 (counterexample): the file of the paper lies in the directory of the
year `2023\24`, a name with a backslash; the diagnosis suggests the path with
a slash in its place, the fix is applied, and the next diagnosis still reports
that the file does not exist. -/
theorem c29_backslash_fix_stays_broken :
    fsBackslash.listing ["app".toList, "uploads".toList, "question-papers".toList] =
      ["2023".toList, "2023\\24".toList] ∧
    fsBackslash.node ["app".toList, "uploads".toList, "question-papers".toList,
        "2023\\24".toList, "3".toList, "Maths_Midterm_1700000000000.pdf".toList] =
      some (Node.file [37, 80, 68, 70]) ∧
    (diagnosePaths appProc 64 worldBackslash).response.details.map Diagnosis.«exists» =
      [false] ∧
    (diagnosePaths appProc 64 worldBackslash).response.details.map Diagnosis.possibleFix =
      ["/uploads/question-papers/2023/24/3/Maths_Midterm_1700000000000.pdf".toList] ∧
    (fixPaths hexLib worldBackslash
        (some [suggestedFix appProc 64 worldBackslash.fs (JVal.str paperStaleId)
          paperBackslash])).response =
      FixResponse.report 1 1 0 [⟨JVal.str paperStaleId, true, FixMessage.updated⟩] ∧
    (worldBackslash.run (fixPaths hexLib worldBackslash
        (some [suggestedFix appProc 64 worldBackslash.fs (JVal.str paperStaleId)
          paperBackslash])).effects).papers.map QuestionPaper.filePath =
      ["/uploads/question-papers/2023/24/3/Maths_Midterm_1700000000000.pdf".toList] ∧
    (diagnosePaths appProc 64 (worldBackslash.run (fixPaths hexLib worldBackslash
        (some [suggestedFix appProc 64 worldBackslash.fs (JVal.str paperStaleId)
          paperBackslash])).effects)).response.details.map Diagnosis.«exists» = [false] :=
  ⟨by decide, by decide, by decide, by decide, by decide, by decide, by decide⟩

/-- C29 (amended): under a working directory that is absolute and normalized,
in a file system whose directories list plain names without a backslash, for a
valid record of a catalog without two records of one id that the diagnosis
gives a `possibleFix` that is not empty (which it gives to broken records
only): the fix `{ id, newPath: possibleFix }`, sent with an id the store casts
to the id of the record, is applied, the files stay as they were, and the next
diagnosis has an entry for the record and reports `exists = true` in it. -/
theorem c29_suggested_fix_repairs (lib : Lib) (proc : Proc) (depth again : Nat) (w : World)
    (paper : QuestionPaper) (id : JVal)
    (hcwd : proc.cwd = '/' :: normalizeString proc.cwd false)
    (hnames : ∀ loc, ∀ name ∈ w.fs.listing loc, plainName name = true)
    (hpaper : paper ∈ w.papers) (hids : (w.papers.map QuestionPaper.id).Nodup)
    (hvalid : paper.valid = true)
    (hid : id.truthy = true) (hcast : lib.castObjectId id = some paper.id)
    (hfix : (diagnose proc depth w.fs paper).possibleFix ≠ []) :
    (diagnose proc depth w.fs paper).«exists» = false ∧
    (fixPaths lib w (some [suggestedFix proc depth w.fs id paper])).response =
      FixResponse.report 1 1 0 [⟨id, true, FixMessage.updated⟩] ∧
    (w.run (fixPaths lib w (some [suggestedFix proc depth w.fs id paper])).effects).fs = w.fs ∧
    (∃ r ∈ (diagnosePaths proc again
        (w.run (fixPaths lib w (some [suggestedFix proc depth w.fs id paper])).effects)
          ).response.details, r.id = paper.id) ∧
    ∀ r ∈ (diagnosePaths proc again
        (w.run (fixPaths lib w (some [suggestedFix proc depth w.fs id paper])).effects)
          ).response.details, r.id = paper.id → r.«exists» = true := by
  have hdiag : (diagnose proc depth w.fs paper).«exists» = false ∧
      (diagnose proc depth w.fs paper).possibleFix = possibleFix proc depth w.fs paper := by
    unfold diagnose at hfix ⊢
    split
    · rename_i c hc
      rw [hc] at hfix
      exact absurd rfl hfix
    · exact ⟨rfl, rfl⟩
  have hfix2 : possibleFix proc depth w.fs paper ≠ [] := by
    rw [← hdiag.2]
    exact hfix
  have hfind : findById lib w.papers id = some (some paper) := by
    unfold findById
    rw [hcast]
    dsimp only
    rw [find_of_mem w.papers paper hpaper hids]
  have hvalid2 : ({ paper with filePath := possibleFix proc depth w.fs paper } :
      QuestionPaper).valid = true := by
    unfold QuestionPaper.valid at hvalid ⊢
    simp only [Bool.and_eq_true, decide_eq_true_eq] at hvalid ⊢
    exact ⟨⟨⟨⟨⟨⟨⟨hvalid.1.1.1.1.1.1.1, hvalid.1.1.1.1.1.1.2⟩, hvalid.1.1.1.1.1.2⟩,
      hvalid.1.1.1.1.2⟩, hvalid.1.1.1.2⟩, hfix2⟩, hvalid.1.2⟩, hvalid.2⟩
  have hround : applyFix lib w.papers id (JVal.str (possibleFix proc depth w.fs paper)) =
      (⟨id, true, FixMessage.updated⟩,
        [Effect.savePaper { paper with filePath := possibleFix proc depth w.fs paper }]) := by
    unfold applyFix
    have htruthy : (JVal.str (possibleFix proc depth w.fs paper)).truthy = true := by
      simpa [JVal.truthy] using hfix2
    rw [hid, htruthy, hfind]
    simp only [Bool.not_true, Bool.or_self, Bool.false_eq_true, if_false, castToString]
    rw [if_pos hvalid2]
  have hout : fixPaths lib w (some [suggestedFix proc depth w.fs id paper]) =
      ⟨FixResponse.report 1 1 0 [⟨id, true, FixMessage.updated⟩],
        [Effect.savePaper { paper with filePath := possibleFix proc depth w.fs paper }]⟩ := by
    unfold fixPaths suggestedFix
    rw [hdiag.2]
    simp [fixLoop, hround]
  rw [hout]
  dsimp only
  have hrun : w.run [Effect.savePaper
      { paper with filePath := possibleFix proc depth w.fs paper }] =
      ⟨upsert QuestionPaper.id ({ paper with filePath := possibleFix proc depth w.fs paper })
        w.papers, w.resources, w.subjects, w.fs⟩ := rfl
  rw [hrun]
  have hany : (w.papers.any fun d => d.id =
      ({ paper with filePath := possibleFix proc depth w.fs paper } : QuestionPaper).id) =
      true := by
    rw [List.any_eq_true]
    exact ⟨paper, hpaper, by simp⟩
  have hpapers : upsert QuestionPaper.id
      ({ paper with filePath := possibleFix proc depth w.fs paper }) w.papers =
      w.papers.map (fun d => if d.id = paper.id then
        { paper with filePath := possibleFix proc depth w.fs paper } else d) := by
    unfold upsert
    rw [if_pos hany]
  rw [hpapers]
  have hcand := possibleFix_candidate proc depth w.fs paper
    { paper with filePath := possibleFix proc depth w.fs paper } hcwd hnames hfix2 rfl
  refine ⟨hdiag.1, rfl, rfl, ?_, ?_⟩
  · refine ⟨diagnose proc again w.fs
      { paper with filePath := possibleFix proc depth w.fs paper }, ?_, ?_⟩
    · unfold diagnosePaths
      dsimp only
      rw [List.mem_map]
      refine ⟨{ paper with filePath := possibleFix proc depth w.fs paper }, ?_, rfl⟩
      rw [List.mem_map]
      exact ⟨paper, hpaper, by simp⟩
    · unfold diagnose
      split <;> rfl
  · intro r hr hrid
    unfold diagnosePaths at hr
    dsimp only at hr
    rw [List.mem_map] at hr
    obtain ⟨q, hq, hqr⟩ := hr
    rw [List.mem_map] at hq
    obtain ⟨q0, hq0, hq0q⟩ := hq
    have hqid : q.id = paper.id := by
      rw [← hrid, ← hqr]
      unfold diagnose
      split <;> rfl
    have hq2 : q = { paper with filePath := possibleFix proc depth w.fs paper } := by
      by_cases h0 : q0.id = paper.id
      · rw [if_pos h0] at hq0q
        exact hq0q.symm
      · rw [if_neg h0] at hq0q
        rw [← hq0q] at hqid
        exact absurd hqid h0
    rw [← hqr, hq2]
    exact (diagnose_exists_iff proc again w.fs _).1.2 hcand

/-- The names a file system given by its entries lists are the names of its
entries. -/
theorem ofList_listing (entries : List (Loc × Node)) (loc : Loc) (name : Str)
    (h : name ∈ (FS.ofList entries).listing loc) :
    name ∈ entries.map (fun e => nameOf e.1) := by
  unfold FS.ofList at h
  dsimp only at h
  rw [List.mem_map] at h ⊢
  obtain ⟨e, he, hname⟩ := h
  exact ⟨e, (List.mem_filter.1 he).1, hname⟩

/-- C29 (witness): the record `paperStale` over the file system with the
papers of two years; the fix the diagnosis suggests is applied and the next
diagnosis reports that the file exists. -/
theorem c29_suggested_fix_repairs_witness :
    (diagnose appProc 64 worldTwoYears.fs paperStale).possibleFix =
      "/uploads/question-papers/2024/3/Maths_Midterm_1710000000000.pdf".toList ∧
    ((diagnose appProc 64 worldTwoYears.fs paperStale).«exists» = false ∧
    (fixPaths hexLib worldTwoYears
        (some [suggestedFix appProc 64 worldTwoYears.fs (JVal.str paperStaleId)
          paperStale])).response =
      FixResponse.report 1 1 0 [⟨JVal.str paperStaleId, true, FixMessage.updated⟩] ∧
    (worldTwoYears.run (fixPaths hexLib worldTwoYears
        (some [suggestedFix appProc 64 worldTwoYears.fs (JVal.str paperStaleId)
          paperStale])).effects).fs = worldTwoYears.fs ∧
    (∃ r ∈ (diagnosePaths appProc 64
        (worldTwoYears.run (fixPaths hexLib worldTwoYears
          (some [suggestedFix appProc 64 worldTwoYears.fs (JVal.str paperStaleId)
            paperStale])).effects)).response.details, r.id = paperStale.id) ∧
    ∀ r ∈ (diagnosePaths appProc 64
        (worldTwoYears.run (fixPaths hexLib worldTwoYears
          (some [suggestedFix appProc 64 worldTwoYears.fs (JVal.str paperStaleId)
            paperStale])).effects)).response.details,
      r.id = paperStale.id → r.«exists» = true) :=
  ⟨by decide,
    c29_suggested_fix_repairs hexLib appProc 64 64 worldTwoYears paperStale
      (JVal.str paperStaleId) (by decide)
      (fun loc name h =>
        (by decide : ∀ name ∈ (baseEntries ++
          [(["app".toList, "uploads".toList, "question-papers".toList, "2023".toList,
              "3".toList], Node.dir),
           (["app".toList, "uploads".toList, "question-papers".toList, "2023".toList,
              "3".toList, "Maths_Midterm_1700000000000.pdf".toList], Node.file [37, 80, 68, 70]),
           (["app".toList, "uploads".toList, "question-papers".toList, "2024".toList],
              Node.dir),
           (["app".toList, "uploads".toList, "question-papers".toList, "2024".toList,
              "3".toList], Node.dir),
           (["app".toList, "uploads".toList, "question-papers".toList, "2024".toList,
              "3".toList, "Maths_Midterm_1710000000000.pdf".toList],
              Node.file [37, 80, 68, 70, 2])]).map (fun e => nameOf e.1),
            plainName name = true) name (ofList_listing _ loc name h))
      (by decide) (by decide) (by decide) (by decide) (by decide) (by decide)⟩

/-- The own property under a name after an assignment. -/
theorem own_assign {α : Type} (k : Str) (v : α) (o : List (Str × α)) (j : Str) :
    own (assign k v o) j = if j = k then some v else own o j := by
  unfold assign own
  split_ifs with hany hjk hjk
  · subst hjk
    rw [List.any_eq_true] at hany
    obtain ⟨e, he, hek⟩ := hany
    have hgen : ∀ l : List (Str × α), (∃ e ∈ l, e.1 = j) →
        Option.map Prod.snd (List.find? (fun e => decide (e.1 = j))
          (l.map fun e => if e.1 = j then (j, v) else e)) = some v := by
      intro l
      induction l with
      | nil =>
        rintro ⟨e, he, _⟩
        cases he
      | cons a t ih =>
        rintro ⟨e, he, hej⟩
        by_cases ha : a.1 = j
        · simp [ha]
        · have hin : ∃ e ∈ t, e.1 = j := by
            rcases List.mem_cons.1 he with rfl | ht
            · exact absurd hej ha
            · exact ⟨e, ht, hej⟩
          rw [List.map_cons, if_neg ha, List.find?_cons_of_neg _ (by simpa using ha)]
          exact ih hin
    exact hgen o ⟨e, he, by simpa using hek⟩
  · congr 1
    clear hany
    induction o with
    | nil => rfl
    | cons a t ih =>
      by_cases ha : a.1 = k
      · have haj : ¬ a.1 = j := fun h => hjk (h.symm.trans ha)
        have hkj : ¬ k = j := fun h => hjk h.symm
        rw [List.map_cons, if_pos ha, List.find?_cons_of_neg _ (by simpa using hkj),
          List.find?_cons_of_neg _ (by simpa using haj)]
        exact ih
      · rw [List.map_cons, if_neg ha]
        by_cases haj : a.1 = j
        · simp [haj]
        · rw [List.find?_cons_of_neg _ (by simpa using haj),
            List.find?_cons_of_neg _ (by simpa using haj)]
          exact ih
  · subst hjk
    have hnone : o.find? (fun e => decide (e.1 = j)) = none := by
      rw [List.find?_eq_none]
      intro x hx hxj
      apply hany
      rw [List.any_eq_true]
      exact ⟨x, hx, hxj⟩
    rw [List.find?_append, hnone]
    simp
  · have hkj : ¬ k = j := fun h => hjk h.symm
    rw [List.find?_append]
    simp [hkj]

/-- The decimal numerals of two integers differ. -/
theorem numToString_injective (a b : Int) (h : numToString a = numToString b) : a = b := by
  have hminus : ∀ n (rest : Str), natToString n ≠ '-' :: rest := by
    intro n rest heq
    have hmem : '-' ∈ natToString n := by
      rw [heq]
      exact List.mem_cons_self _ _
    have := natToString_digit n '-' hmem
    exact absurd this.1 (by decide)
  cases a with
  | ofNat n =>
    cases b with
    | ofNat m =>
      have : n = m := natToString_injective n m h
      rw [this]
    | negSucc m => exact absurd h (hminus n _)
  | negSucc n =>
    cases b with
    | ofNat m => exact absurd h.symm (hminus m _)
    | negSucc m =>
      have h2 : natToString (n + 1) = natToString (m + 1) := List.tail_eq_of_cons_eq h
      have : n + 1 = m + 1 := natToString_injective _ _ h2
      have h3 : n = m := Nat.succ.inj this
      rw [h3]

/-- The entry of a listing, read through the objects on the way, an absent
object being read as an object without properties. -/
theorem entry_getD (t : PaperListing) (y : Str) (s : Int) (b e : Str) :
    t.entry y s b e =
      own ((own ((own ((own t y).getD []) (numToString s)).getD []) b).getD []) e := by
  unfold PaperListing.entry
  have hnil : ∀ (α : Type) (k : Str), own ([] : List (Str × α)) k = none := fun _ _ => rfl
  cases h1 : own t y with
  | none => simp [hnil]
  | some years =>
    cases h2 : own years (numToString s) with
    | none => simp [h2, hnil]
    | some subjects =>
      cases h3 : own subjects b with
      | none => simp [h2, h3, hnil]
      | some entries => simp [h2, h3]

/-- The step of the listing for a record whose year and subject are not
inherited names and whose exam type is not `__proto__`: the entry at the key
of the record is the entry of the record, every other entry stays. -/
theorem addPaper_entry (t : PaperListing) (p : QuestionPaper)
    (hyear : p.year ∉ inheritedNames) (hsubject : p.subject ∉ inheritedNames)
    (hexam : p.examType ≠ protoName) :
    ∃ t2, addPaper t p = some t2 ∧ ∀ y s b e,
      t2.entry y s b e =
        if y = p.year ∧ s = p.semester ∧ b = p.subject ∧ e = p.examType then some p.info
        else t.entry y s b e := by
  have hproto : p.subject ≠ protoName := by
    intro h
    apply hsubject
    rw [h]
    decide
  have hadd : addPaper t p = some (assign p.year (assign (numToString p.semester)
      (assign p.subject (assign p.examType p.info
        ((own ((own ((own t p.year).getD []) (numToString p.semester)).getD [])
          p.subject).getD []))
        ((own ((own t p.year).getD []) (numToString p.semester)).getD []))
      ((own t p.year).getD [])) t) := by
    unfold addPaper
    dsimp only
    rw [if_neg (fun h => hyear h.2)]
    cases hown : own ((own ((own t p.year).getD []) (numToString p.semester)).getD [])
        p.subject with
    | none =>
      dsimp only
      rw [if_neg hproto, if_neg hsubject]
      simp [setInfo, hexam]
    | some entries =>
      dsimp only
      simp [setInfo, hexam]
  refine ⟨_, hadd, ?_⟩
  intro y s b e
  rw [entry_getD, entry_getD]
  simp only [own_assign]
  by_cases hy : y = p.year
  · subst hy
    by_cases hs : s = p.semester
    · subst hs
      by_cases hb : b = p.subject
      · subst hb
        by_cases he : e = p.examType
        · subst he
          simp [own_assign]
        · simp [own_assign, he]
      · simp [own_assign, hb]
    · have hnum : numToString s ≠ numToString p.semester :=
        fun h => hs (numToString_injective _ _ h)
      simp [own_assign, hs, hnum]
  · simp [own_assign, hy]

/-- The loop of the listing over records whose years and subjects are not
inherited names and whose exam types are not `__proto__`: an entry is the
entry of the last record of its key. -/
theorem addPapers_entry (ps : List QuestionPaper)
    (h : ∀ p ∈ ps, p.year ∉ inheritedNames ∧ p.subject ∉ inheritedNames ∧
      p.examType ≠ protoName) (t : PaperListing) :
    ∃ t2, addPapers t ps = some t2 ∧ ∀ y s b e,
      t2.entry y s b e =
        ps.foldl (fun acc p =>
          if y = p.year ∧ s = p.semester ∧ b = p.subject ∧ e = p.examType then some p.info
          else acc) (t.entry y s b e) := by
  induction ps generalizing t with
  | nil => exact ⟨t, rfl, fun _ _ _ _ => rfl⟩
  | cons p rest ih =>
    obtain ⟨hy, hb, he⟩ := h p (List.mem_cons_self _ _)
    obtain ⟨t1, h1, e1⟩ := addPaper_entry t p hy hb he
    obtain ⟨t2, h2, e2⟩ := ih (fun q hq => h q (List.mem_cons_of_mem _ hq)) t1
    refine ⟨t2, ?_, ?_⟩
    · unfold addPapers
      rw [h1]
      exact h2
    · intro y s b e
      rw [e2, e1, List.foldl_cons]

/-- What the last record of a key leaves: the start when no record has the
key, or else the entry of a record of the key. -/
theorem foldl_entry (ps : List QuestionPaper) (y : Str) (s : Int) (b e : Str)
    (start : Option PaperInfo) :
    (ps.foldl (fun acc p =>
        if y = p.year ∧ s = p.semester ∧ b = p.subject ∧ e = p.examType then some p.info
        else acc) start = start ∧
      ∀ q ∈ ps, ¬ (y = q.year ∧ s = q.semester ∧ b = q.subject ∧ e = q.examType)) ∨
    ∃ q ∈ ps, (y = q.year ∧ s = q.semester ∧ b = q.subject ∧ e = q.examType) ∧
      ps.foldl (fun acc p =>
        if y = p.year ∧ s = p.semester ∧ b = p.subject ∧ e = p.examType then some p.info
        else acc) start = some q.info := by
  induction ps generalizing start with
  | nil => exact Or.inl ⟨rfl, fun _ hq => by cases hq⟩
  | cons p rest ih =>
    rw [List.foldl_cons]
    by_cases hp : y = p.year ∧ s = p.semester ∧ b = p.subject ∧ e = p.examType
    · rw [if_pos hp]
      rcases ih (some p.info) with ⟨hkeep, _⟩ | ⟨q, hq, hqk, hqv⟩
      · exact Or.inr ⟨p, List.mem_cons_self _ _, hp, hkeep⟩
      · exact Or.inr ⟨q, List.mem_cons_of_mem _ hq, hqk, hqv⟩
    · rw [if_neg hp]
      rcases ih start with ⟨hkeep, hnone⟩ | ⟨q, hq, hqk, hqv⟩
      · refine Or.inl ⟨hkeep, ?_⟩
        intro q hq
        rcases List.mem_cons.1 hq with rfl | hq
        · exact hp
        · exact hnone q hq
      · exact Or.inr ⟨q, List.mem_cons_of_mem _ hq, hqk, hqv⟩

/-- Placing a record in a sorted list adds the record. -/
theorem insertPaper_perm (x : QuestionPaper) (l : List QuestionPaper) :
    (insertPaper x l).Perm (x :: l) := by
  induction l with
  | nil => exact List.Perm.refl _
  | cons y rest ih =>
    unfold insertPaper
    split_ifs
    · exact List.Perm.refl _
    · exact (List.Perm.cons y ih).trans (List.Perm.swap x y rest)

/-- The sort rearranges the records. -/
theorem sortPapers_perm (l : List QuestionPaper) : (sortPapers l).Perm l := by
  induction l with
  | nil => exact List.Perm.refl _
  | cons x rest ih =>
    have hstep : sortPapers (x :: rest) = insertPaper x (sortPapers rest) := rfl
    rw [hstep]
    exact (insertPaper_perm x _).trans (List.Perm.cons x ih)

/-- The listing of the question papers is a lossless view of a catalog in
which no year and no subject is an inherited name and no exam type is
`__proto__`: every record has an entry at its key, every entry is the entry
of a record of its key, and in a catalog with one record per key the entry at
the key of a record is the entry of the record. -/
theorem listPapers_lossless (w : World)
    (h : ∀ p ∈ w.papers, p.year ∉ inheritedNames ∧ p.subject ∉ inheritedNames ∧
      p.examType ≠ protoName) :
    ∃ t, listPapers w = some t ∧
      (∀ p ∈ w.papers, (t.entry p.year p.semester p.subject p.examType).isSome = true) ∧
      (∀ y s b e info, t.entry y s b e = some info →
        ∃ p ∈ w.papers, p.key = (y, s, b, e) ∧ info = p.info) ∧
      ((w.papers.map QuestionPaper.key).Nodup →
        ∀ p ∈ w.papers, t.entry p.year p.semester p.subject p.examType = some p.info) := by
  have hperm := sortPapers_perm w.papers
  have hsorted : ∀ p ∈ sortPapers w.papers, p.year ∉ inheritedNames ∧
      p.subject ∉ inheritedNames ∧ p.examType ≠ protoName :=
    fun p hp => h p (hperm.mem_iff.1 hp)
  obtain ⟨t, ht, hentry⟩ := addPapers_entry (sortPapers w.papers) hsorted []
  refine ⟨t, ht, ?_, ?_, ?_⟩
  · intro p hp
    rw [hentry]
    rcases foldl_entry (sortPapers w.papers) p.year p.semester p.subject p.examType
      (PaperListing.entry [] p.year p.semester p.subject p.examType) with
      ⟨_, hnone⟩ | ⟨q, _, _, hqv⟩
    · exact absurd ⟨rfl, rfl, rfl, rfl⟩ (hnone p (hperm.mem_iff.2 hp))
    · rw [hqv]
      rfl
  · intro y s b e info hinfo
    rw [hentry] at hinfo
    rcases foldl_entry (sortPapers w.papers) y s b e (PaperListing.entry [] y s b e) with
      ⟨hkeep, _⟩ | ⟨q, hq, hqk, hqv⟩
    · rw [hkeep] at hinfo
      cases hinfo
    · rw [hqv] at hinfo
      refine ⟨q, hperm.mem_iff.1 hq, ?_, (Option.some.inj hinfo).symm⟩
      unfold QuestionPaper.key
      rw [hqk.1, hqk.2.1, hqk.2.2.1, hqk.2.2.2]
  · intro hnodup p hp
    rw [hentry]
    rcases foldl_entry (sortPapers w.papers) p.year p.semester p.subject p.examType
      (PaperListing.entry [] p.year p.semester p.subject p.examType) with
      ⟨_, hnone⟩ | ⟨q, hq, hqk, hqv⟩
    · exact absurd ⟨rfl, rfl, rfl, rfl⟩ (hnone p (hperm.mem_iff.2 hp))
    · have hkey : q.key = p.key := by
        unfold QuestionPaper.key
        rw [← hqk.1, ← hqk.2.1, ← hqk.2.2.1, ← hqk.2.2.2]
      have hqp : q = p :=
        List.inj_on_of_nodup_map hnodup (hperm.mem_iff.1 hq) hp hkey
      rw [hqv, hqp]

/-! ## The download resolver and its reference -/

/-- C3 (amended): when the canonical path exists, or the year/semester path
does not hold a regular file and the first entry of its listing whose name
contains both fragments, if there is one, is a regular file, the resolver
serves exactly the path the reference returns and answers not-found exactly
when the reference does; when the canonical path is missing and the
year/semester path holds a regular file, the resolver answers 500. -/
theorem c3_resolver_matches_reference (proc : Proc) (fs : FS) (paper : QuestionPaper) :
    ((existsSync fs proc.cwd (correctPath proc paper) = true ∨
        ((∀ data, fs.node (locOf proc.cwd (semesterDir proc paper)) ≠ some (Node.file data)) ∧
          ∀ name, (fs.listing (locOf proc.cwd (semesterDir proc paper))).find?
              (isSimilar paper) = some name →
            isFile fs proc.cwd (join [semesterDir proc paper, name]) = true)) →
      (resolvePaper proc fs paper).served = resolveSpec proc fs paper ∧
      (resolveSpec proc fs paper = none →
        resolvePaper proc fs paper =
          DownloadResponse.fileNotFound
            ⟨paper.year, paper.semester, paper.subject, paper.examType⟩ paper.filePath
            (correctPath proc paper))) ∧
    (existsSync fs proc.cwd (correctPath proc paper) = false →
      (∃ data, fs.node (locOf proc.cwd (semesterDir proc paper)) = some (Node.file data)) →
      resolvePaper proc fs paper = DownloadResponse.failed) := by
  have hne : semesterDir proc paper ≠ [] := join_ne_nil _
  rw [resolveSpec_eq]
  unfold resolvePaper
  generalize correctPath proc paper = cp
  generalize semesterDir proc paper = sd at hne ⊢
  constructor
  · intro hcase
    by_cases hc : existsSync fs proc.cwd cp = true
    · simp [hc, DownloadResponse.served]
    · obtain ⟨hnofile, hfirst⟩ : (∀ data, fs.node (locOf proc.cwd sd) ≠ some (Node.file data)) ∧
          ∀ name, (fs.listing (locOf proc.cwd sd)).find? (isSimilar paper) = some name →
            isFile fs proc.cwd (join [sd, name]) = true := by
        rcases hcase with h | h
        · exact absurd h hc
        · exact h
      cases hnode : fs.node (locOf proc.cwd sd) with
      | none =>
        have hsd : existsSync fs proc.cwd sd = false := by simp [existsSync, hnode]
        simp [hc, hsd, DownloadResponse.served]
      | some n =>
        cases n with
        | file data => exact absurd hnode (hnofile data)
        | dir =>
          have hex : existsSync fs proc.cwd sd = true := by
            simp [existsSync, hnode, hne]
          have hfind := find_and_of_first (fs.listing (locOf proc.cwd sd)) (isSimilar paper)
            (fun name => isFile fs proc.cwd (join [sd, name])) hfirst
          rw [hfind]
          cases hf : (fs.listing (locOf proc.cwd sd)).find? (isSimilar paper) with
          | none => simp [hc, hex, readdirSync, hnode, hf, DownloadResponse.served]
          | some name =>
            have hname : name ≠ [] := by
              intro hempty
              have hfile := hfirst name hf
              rw [hempty] at hfile
              have hloc : locOf proc.cwd (join [sd, []]) = locOf proc.cwd sd := by
                have hjoin : join [sd, []] = normalize sd := by
                  simp [join, hne, joinSlash]
                rw [hjoin, locOf_normalize]
              unfold isFile at hfile
              rw [hloc, hnode] at hfile
              cases hfile
            simp [hc, hex, readdirSync, hnode, hf, hname, DownloadResponse.served]
  · intro hc hfile
    obtain ⟨data, hnode⟩ := hfile
    have hex : existsSync fs proc.cwd sd = true := by
      simp [existsSync, hnode, hne]
    simp [hc, hex, readdirSync, hnode]

/-- C3 (amended), at a concrete state: the stored path of `paperStale` is
stale, the directory of its semester lists a similarly named file, and the
resolver serves the path the reference returns. -/
theorem c3_resolver_matches_reference_witness :
    resolveSpec appProc fsSemesterNumber paperStale =
        some "/app/uploads/question-papers/2023/3/Maths_Midterm_1700000000000.pdf".toList ∧
      ((resolvePaper appProc fsSemesterNumber paperStale).served =
        resolveSpec appProc fsSemesterNumber paperStale ∧
      (resolveSpec appProc fsSemesterNumber paperStale = none →
        resolvePaper appProc fsSemesterNumber paperStale =
          DownloadResponse.fileNotFound
            ⟨paperStale.year, paperStale.semester, paperStale.subject, paperStale.examType⟩
            paperStale.filePath (correctPath appProc paperStale))) :=
  ⟨by decide,
    (c3_resolver_matches_reference appProc fsSemesterNumber paperStale).1
      (Or.inr ⟨(fun data h => by
        have hd : fsSemesterNumber.node (locOf appProc.cwd (semesterDir appProc paperStale)) =
            some Node.dir := by decide
        rw [hd] at h
        cases h),
      (fun name h => by
        have hf : (fsSemesterNumber.listing
            (locOf appProc.cwd (semesterDir appProc paperStale))).find? (isSimilar paperStale) =
            some "Maths_Midterm_1700000000000.pdf".toList := by decide
        rw [hf] at h
        have hname : "Maths_Midterm_1700000000000.pdf".toList = name := Option.some.inj h
        rw [← hname]
        decide)⟩)⟩

end StudentPortal
